import Mathlib

/-!
# Nvy renderer: grid store, highlight table and redraw handlers

A shallow embedding of `src/src/renderer/renderer.cpp`.  The renderer is one
mutable `Renderer` record that every handler receives by pointer; here every
handler is a function from the record to the record.  The older renderer of
`src/Nvy/src/renderer/renderer.cpp` is embedded in the namespace `Legacy`, and
the fixed-size array of `src/src/common/array.h` in the namespace `Common`.

Conventions of the embedding.

* A heap buffer is a list, and a pointer to one is `Option (List _)` with
  `none` the null pointer.  Every indexed access is checked; an access
  through a null pointer or outside the buffer (undefined behaviour in C++)
  stops the handler with `Fault.invalidAccess`.  A failing `assert` stops it with `Fault.assertion`.
* The integers the editor sends for rows, columns, ids and repeat counts are
  naturals, the values that the handlers hold in `int` (negative ones are not
  embedded); the signed parameters of `grid_scroll` are integers.  Arithmetic
  on `int` and `int64_t` is exact, the theorems keeping it in range, and
  `grid_resize` checks the range of its sizes and of their product;
  conversions to a narrower type are modular (`toInt32`, `% 2 ^ 16`,
  `% 2 ^ 32`).
* Text is held as the UTF-16 code units it decodes to (one `wchar_t` each).
* `float` values live in a type `F` about which nothing is assumed beyond
  having `+`, `-`, `*` and a conversion from the naturals, so every pixel
  coordinate below is the very expression the source computes.  The handlers
  that divide, round or compare floats take `F` to be an ordered field with a
  floor function (section Float arithmetic).  The queries that convert a
  quotient or a product of floats to `int` are stated over the rationals with
  the rounding of the binary32 format (section The binary32 format).
* A string of an event that the handlers read as a C string is given with the
  bytes that follow it in the message, since it is not null-terminated.
* Results of library calls that the record does not determine are the fields
  of `Env`; `RendererRedraw` is given one `Env` per event.
* Direct2D and DirectWrite calls are appended to `Renderer.calls`.
* The header `renderer.h` is not among the sources: its numeric constants are
  the fields of `Constants`.
-/

namespace Nvy

/-- Reasons a handler stops without producing a state. -/
inductive Fault where
  | assertion
  | invalidAccess
deriving DecidableEq, Repr

deriving instance DecidableEq for Except

/-- Numeric constants that `renderer.h` declares and the handlers use. -/
structure Constants where
  DEFAULT_COLOR : Nat
  MAX_HIGHLIGHT_ATTRIBS : Nat
  MAX_CURSOR_MODE_INFOS : Nat
  MAX_FONT_LENGTH : Nat
deriving DecidableEq, Repr

/-! ## Checked buffer access -/

/-- The buffer a pointer designates; dereferencing the null pointer is a fault. -/
def deref {α : Type} (buf : Option (List α)) : Except Fault (List α) :=
  match buf with
  | some xs => .ok xs
  | none => .error .invalidAccess

/-- The element `xs[i]`. -/
def readAt {α : Type} (xs : List α) (i : Nat) : Except Fault α :=
  match xs[i]? with
  | some x => .ok x
  | none => .error .invalidAccess

/-- The buffer after `f` has been applied to `xs[i]` in place. -/
def modifyAt {α : Type} (xs : List α) (i : Nat) (f : α → α) : Except Fault (List α) :=
  match xs[i]? with
  | some x => .ok (xs.set i (f x))
  | none => .error .invalidAccess

/-- The buffer after `xs[i] = v`. -/
def writeAt {α : Type} (xs : List α) (i : Nat) (v : α) : Except Fault (List α) :=
  modifyAt xs i (fun _ => v)

/-- The `n` elements `xs[i], ..., xs[i + n - 1]`. -/
def readSlice {α : Type} (xs : List α) (i n : Nat) : Except Fault (List α) :=
  if i + n ≤ xs.length then .ok ((xs.drop i).take n) else .error .invalidAccess

/-- The buffer after the elements of `vs` have been stored at `xs[i], xs[i + 1], ...`. -/
def writeSlice {α : Type} (xs : List α) (i : Nat) (vs : List α) : Except Fault (List α) :=
  if i + vs.length ≤ xs.length then .ok (xs.take i ++ vs ++ xs.drop (i + vs.length))
  else .error .invalidAccess

/-- Library call `memcpy(&xs[dst], &xs[src], n * sizeof *xs)` inside one buffer: the
source elements are read, then stored at the destination, so a range copied onto itself
(`ScrollRegion` with `rows = 0`) stays as it is.  A negative offset or count is an
invalid access. -/
def memcpy {α : Type} (xs : List α) (dst src n : Int) : Except Fault (List α) :=
  if dst < 0 ∨ src < 0 ∨ n < 0 then .error .invalidAccess
  else do
    let vs ← readSlice xs src.toNat n.toNat
    writeSlice xs dst.toNat vs

/-! ## Highlight table -/

/-- One entry of the highlight table: `uint32_t` colours and a flag word. -/
structure HighlightAttributes where
  foreground : Nat
  background : Nat
  special : Nat
  flags : Nat
deriving DecidableEq, Repr

/-- Modelled from the spec: the enumeration `HighlightAttributeFlags` is declared in
`renderer.h`, which is not among the sources.  The spec gives the flags as a bit-set
`{reverse, italic, bold, strikethrough, underline, undercurl}`; each flag is one bit,
numbered in that order. -/
def HL_ATTRIB_REVERSE : Nat := 1

/-- Modelled from the spec: second bit of the flag set (see `HL_ATTRIB_REVERSE`). -/
def HL_ATTRIB_ITALIC : Nat := 2

/-- Modelled from the spec: third bit of the flag set (see `HL_ATTRIB_REVERSE`). -/
def HL_ATTRIB_BOLD : Nat := 4

/-- Modelled from the spec: fourth bit of the flag set (see `HL_ATTRIB_REVERSE`). -/
def HL_ATTRIB_STRIKETHROUGH : Nat := 8

/-- Modelled from the spec: fifth bit of the flag set (see `HL_ATTRIB_REVERSE`). -/
def HL_ATTRIB_UNDERLINE : Nat := 16

/-- Modelled from the spec: sixth bit of the flag set (see `HL_ATTRIB_REVERSE`). -/
def HL_ATTRIB_UNDERCURL : Nat := 32

/-- The test `flags & flag` of the source, as a boolean. -/
def hasFlag (flags flag : Nat) : Bool := flags &&& flag != 0

/-- The attribute map of one `hl_attr_define` entry: every key is optional
(`mpack_node_map_cstr_optional`). -/
structure AttribMap where
  foreground : Option Nat
  background : Option Nat
  special : Option Nat
  reverse : Option Bool
  italic : Option Bool
  bold : Option Bool
  strikethrough : Option Bool
  underline : Option Bool
  undercurl : Option Bool
deriving DecidableEq, Repr

/-- The lambda `SetColor` of `UpdateHighlightAttributes`: the value the colour field
receives (`static_cast<uint32_t>` of the map value, or `DEFAULT_COLOR`). -/
def SetColor (K : Constants) (color_node : Option Nat) : Nat :=
  match color_node with
  | some u => u % 2 ^ 32
  | none => K.DEFAULT_COLOR

/-- The lambda `SetFlag` of `UpdateHighlightAttributes`: the flag word after the key
has been looked up (`flags |= flag`, `flags &= ~flag`, or untouched). -/
def SetFlag (flags : Nat) (flag_node : Option Bool) (flag : Nat) : Nat :=
  match flag_node with
  | some true => flags ||| flag
  | some false => Nat.ldiff flags flag
  | none => flags

/-! ## Renderer state -/

/-- Per-cell properties kept next to the character buffer: the highlight id (a
`uint16_t`, as `DrawGridLine` reads it back) and the double-width mark. -/
structure CellProperty where
  hl_attrib_id : Nat
  is_wide_char : Bool
deriving DecidableEq, Repr

/-- Cursor shapes of `mode_info_set`. -/
inductive CursorShape where
  | None
  | Block
  | Vertical
  | Horizontal
deriving DecidableEq, Repr

/-- One entry of the cursor mode table. -/
structure CursorModeInfo where
  shape : CursorShape
  hl_attrib_id : Nat
deriving DecidableEq, Repr

/-- Cursor state; `mode_info` is the index of the table entry the pointer designates. -/
structure Cursor where
  mode_info : Option Nat
  row : Nat
  col : Nat
deriving DecidableEq, Repr

/-- Rectangle in pixels, edges as the source computes them. -/
structure D2D1_RECT_F (F : Type) where
  left : F
  top : F
  right : F
  bottom : F
deriving DecidableEq, Repr

/-- Range of text positions. -/
structure DWRITE_TEXT_RANGE where
  startPosition : Nat
  length : Nat
deriving DecidableEq, Repr

/-- A pointer to a device object (a COM interface or the glyph renderer): null, an
object that exists, or a pointer left behind after the object was released or deleted.
Objects are told apart by the order of their creation. -/
inductive Handle where
  | null
  | live (object : Nat)
  | released (object : Nat)
deriving DecidableEq, Repr

/-- Calls into Direct2D, DirectWrite, DXGI and the window system, with the arguments
that vary. -/
inductive DrawCall (F : Type) where
  | CreateTextLayout (text : List Nat) (maxWidth maxHeight : F)
  | SetCharacterSpacing (minimumAdvanceWidth : F) (range : DWRITE_TEXT_RANGE)
  | FillRectangle (rect : D2D1_RECT_F F) (color : Nat)
  | SetFontStyleItalic (range : DWRITE_TEXT_RANGE)
  | SetFontWeightBold (range : DWRITE_TEXT_RANGE)
  | SetStrikethrough (range : DWRITE_TEXT_RANGE)
  | SetUnderline (range : DWRITE_TEXT_RANGE)
  | SetDrawingEffect (foreground special : Nat) (range : DWRITE_TEXT_RANGE)
  | PushAxisAlignedClip (rect : D2D1_RECT_F F)
  | SetTypography (range : DWRITE_TEXT_RANGE)
  | Draw (originX originY : F)
  | PopAxisAlignedClip
  | WaitForSingleObjectEx
  | SetTarget (target : Handle)
  | BeginDraw
  | SetTransform
  | EndDraw
  | Present
  | CopyResource
  | OMSetRenderTargets
  | Flush
  | ResizeBuffers (width height : Nat)
  | ImmSetCompositionWindow (x y : Int)
  | ImmSetCompositionFontW (lfHeight : Int) (lfFaceName : List Nat)
  | SetWindowText (text : List Nat)
  | PostMessage
deriving DecidableEq, Repr

/-- Size of the client area in pixels. -/
structure PixelSize where
  width : Nat
  height : Nat
deriving DecidableEq, Repr

/-- The pointers to device objects that the renderer record holds, under the names they
have there, and the number of objects created so far. -/
structure Resources where
  d2d_factory : Handle
  d3d_device : Handle
  d3d_context : Handle
  dxgi_swapchain : Handle
  d2d_device : Handle
  d2d_context : Handle
  d2d_target_bitmap : Handle
  d2d_background_rect_brush : Handle
  dwrite_factory : Handle
  dwrite_text_format : Handle
  dwrite_typography : Handle
  font_face : Handle
  glyph_renderer : Handle
  objects : Nat
deriving DecidableEq, Repr

/-- The renderer record, restricted to the fields the handlers below read or write; the
device objects are grouped in `res`. -/
structure Renderer (F : Type) where
  grid_rows : Nat
  grid_cols : Nat
  grid_chars : Option (List Nat)
  grid_cell_properties : Option (List CellProperty)
  hl_attribs : List HighlightAttributes
  cursor : Cursor
  cursor_mode_infos : List CursorModeInfo
  font_width : F
  font_height : F
  disable_ligatures : Bool
  ui_busy : Bool
  draw_active : Bool
  calls : List (DrawCall F)
  pixel_size : PixelSize
  font : List Nat
  font_size : F
  font_ascent : F
  font_descent : F
  last_requested_font_size : F
  dpi_scale : F
  linespace_factor : F
  res : Resources
deriving DecidableEq, Repr

/-- The record after one more library call has been issued. -/
def Renderer.emit {F : Type} (r : Renderer F) (c : DrawCall F) : Renderer F :=
  { r with calls := r.calls ++ [c] }

section Handlers

variable {F : Type} [NatCast F] [Add F] [Sub F] [Mul F]

/-! ## Highlight handlers -/

/-- One parameter tuple of `default_colors_set`: `[foreground, background, special, ...]`. -/
structure DefaultColors where
  foreground : Nat
  background : Nat
  special : Nat
deriving DecidableEq, Repr

/-- Handler of `default_colors_set`; `default_colors` are the tuples after the event name. -/
def UpdateDefaultColors (r : Renderer F) (default_colors : List DefaultColors) :
    Except Fault (Renderer F) :=
  default_colors.foldlM (fun r color_arr => do
    let hl ← modifyAt r.hl_attribs 0 (fun _ =>
      { foreground := color_arr.foreground % 2 ^ 32
        background := color_arr.background % 2 ^ 32
        special := color_arr.special % 2 ^ 32
        flags := 0 })
    pure { r with hl_attribs := hl }) r

/-- One parameter tuple of `hl_attr_define`: `[id, attr_map, ...]`. -/
structure HighlightDefine where
  attrib_index : Nat
  attrib_map : AttribMap
deriving DecidableEq, Repr

/-- The table entry `a` after the three `SetColor` calls and the six `SetFlag` calls of
`UpdateHighlightAttributes` for the attribute map `m`. -/
def applyAttribMap (K : Constants) (a : HighlightAttributes) (m : AttribMap) :
    HighlightAttributes :=
  { foreground := SetColor K m.foreground
    background := SetColor K m.background
    special := SetColor K m.special
    flags :=
      SetFlag (SetFlag (SetFlag (SetFlag (SetFlag (SetFlag a.flags
        m.reverse HL_ATTRIB_REVERSE)
        m.italic HL_ATTRIB_ITALIC)
        m.bold HL_ATTRIB_BOLD)
        m.strikethrough HL_ATTRIB_STRIKETHROUGH)
        m.underline HL_ATTRIB_UNDERLINE)
        m.undercurl HL_ATTRIB_UNDERCURL }

/-- The attribute map without any key. -/
def AttribMap.empty : AttribMap :=
  { foreground := none, background := none, special := none, reverse := none, italic := none,
    bold := none, strikethrough := none, underline := none, undercurl := none }

/-- Body of the loop of `UpdateHighlightAttributes` for one tuple: the assertion on the
id, then the stores into `hl_attribs[attrib_index]`. -/
def UpdateHighlightAttribute (K : Constants) (r : Renderer F) (d : HighlightDefine) :
    Except Fault (Renderer F) :=
  if d.attrib_index ≤ K.MAX_HIGHLIGHT_ATTRIBS then do
    let hl ← modifyAt r.hl_attribs d.attrib_index (fun a => applyAttribMap K a d.attrib_map)
    pure { r with hl_attribs := hl }
  else .error .assertion

/-- Handler of `hl_attr_define`; `highlight_attribs` are the tuples after the event name. -/
def UpdateHighlightAttributes (K : Constants) (r : Renderer F)
    (highlight_attribs : List HighlightDefine) : Except Fault (Renderer F) :=
  highlight_attribs.foldlM (UpdateHighlightAttribute K) r

/-- Colour text with the attributes `hl_attribs` is drawn in: with the reverse flag the
background, otherwise the foreground, and the colour of entry 0 in place of the sentinel
`DEFAULT_COLOR`. -/
def CreateForegroundColor (K : Constants) (r : Renderer F) (hl_attribs : HighlightAttributes) :
    Except Fault Nat :=
  if hasFlag hl_attribs.flags HL_ATTRIB_REVERSE then
    if hl_attribs.background = K.DEFAULT_COLOR then do
      let d ← readAt r.hl_attribs 0
      pure d.background
    else pure hl_attribs.background
  else
    if hl_attribs.foreground = K.DEFAULT_COLOR then do
      let d ← readAt r.hl_attribs 0
      pure d.foreground
    else pure hl_attribs.foreground

/-- Colour a background rectangle for the attributes `hl_attribs` is filled with: with
the reverse flag the foreground, otherwise the background, and the colour of entry 0 in
place of the sentinel `DEFAULT_COLOR`. -/
def CreateBackgroundColor (K : Constants) (r : Renderer F) (hl_attribs : HighlightAttributes) :
    Except Fault Nat :=
  if hasFlag hl_attribs.flags HL_ATTRIB_REVERSE then
    if hl_attribs.foreground = K.DEFAULT_COLOR then do
      let d ← readAt r.hl_attribs 0
      pure d.foreground
    else pure hl_attribs.foreground
  else
    if hl_attribs.background = K.DEFAULT_COLOR then do
      let d ← readAt r.hl_attribs 0
      pure d.background
    else pure hl_attribs.background

/-- Colour of underline decorations: the special colour, that of entry 0 in place of the
sentinel `DEFAULT_COLOR`. -/
def CreateSpecialColor (K : Constants) (r : Renderer F) (hl_attribs : HighlightAttributes) :
    Except Fault Nat :=
  if hl_attribs.special = K.DEFAULT_COLOR then do
    let d ← readAt r.hl_attribs 0
    pure d.special
  else pure hl_attribs.special

/-- Styles positions `start .. end_ - 1` of the current text layout. -/
def ApplyHighlightAttributes (K : Constants) (r : Renderer F) (hl_attribs : HighlightAttributes)
    (start end_ : Nat) : Except Fault (Renderer F) := do
  let fg ← CreateForegroundColor K r hl_attribs
  let sp ← CreateSpecialColor K r hl_attribs
  let range : DWRITE_TEXT_RANGE := { startPosition := start, length := end_ - start }
  let r := if hasFlag hl_attribs.flags HL_ATTRIB_ITALIC then r.emit (.SetFontStyleItalic range) else r
  let r := if hasFlag hl_attribs.flags HL_ATTRIB_BOLD then r.emit (.SetFontWeightBold range) else r
  let r := if hasFlag hl_attribs.flags HL_ATTRIB_STRIKETHROUGH then r.emit (.SetStrikethrough range)
    else r
  let r := if hasFlag hl_attribs.flags HL_ATTRIB_UNDERLINE then r.emit (.SetUnderline range) else r
  let r := if hasFlag hl_attribs.flags HL_ATTRIB_UNDERCURL then r.emit (.SetUnderline range) else r
  pure (r.emit (.SetDrawingEffect fg sp range))

/-- Fills `rect` with the background colour of `hl_attribs`. -/
def DrawBackgroundRect (K : Constants) (r : Renderer F) (rect : D2D1_RECT_F F)
    (hl_attribs : HighlightAttributes) : Except Fault (Renderer F) := do
  let color ← CreateBackgroundColor K r hl_attribs
  pure (r.emit (.FillRectangle rect color))

/-! ## Drawing one grid row -/

/-- Loop of `DrawGridLine` over the columns `i, i + 1, ...` (`n` of them are left);
the state is the id of the current run, the column it started at and the record. -/
def DrawGridLine.loop (K : Constants) (row base : Nat) (props : List CellProperty) :
    Nat → Nat → Nat → Nat → Renderer F → Except Fault (Nat × Nat × Renderer F)
  | 0, _, hl_attrib_id, col_offset, r => pure (hl_attrib_id, col_offset, r)
  | n + 1, i, hl_attrib_id, col_offset, r => do
    let cell ← readAt props (base + i)
    let width := if cell.is_wide_char then r.font_width * ((2 : Nat) : F) else r.font_width
    let r := r.emit (.SetCharacterSpacing width { startPosition := i, length := 1 })
    if cell.hl_attrib_id ≠ hl_attrib_id then do
      let bg_rect : D2D1_RECT_F F :=
        { left := (col_offset : F) * r.font_width
          top := (row : F) * r.font_height
          right := (col_offset : F) * r.font_width + r.font_width * ((i - col_offset : Nat) : F)
          bottom := (row : F) * r.font_height + r.font_height }
      let attribs ← readAt r.hl_attribs hl_attrib_id
      let r ← DrawBackgroundRect K r bg_rect attribs
      let r ← ApplyHighlightAttributes K r attribs col_offset i
      DrawGridLine.loop K row base props n (i + 1) cell.hl_attrib_id i r
    else
      DrawGridLine.loop K row base props n (i + 1) hl_attrib_id col_offset r

/-- Redraws row `row` from the grid store: one background fill and one styling call per
run of equal highlight ids, then the text of the whole row. -/
def DrawGridLine (K : Constants) (r : Renderer F) (row : Nat) : Except Fault (Renderer F) := do
  let base := row * r.grid_cols
  let rect : D2D1_RECT_F F :=
    { left := ((0 : Nat) : F)
      top := (row : F) * r.font_height
      right := (r.grid_cols : F) * r.font_width
      bottom := (row : F) * r.font_height + r.font_height }
  let chars ← deref r.grid_chars
  let text ← readSlice chars base r.grid_cols
  let r := r.emit (.CreateTextLayout text (rect.right - rect.left) (rect.bottom - rect.top))
  let props ← deref r.grid_cell_properties
  let first ← readAt props base
  let (hl_attrib_id, col_offset, r) ←
    DrawGridLine.loop K row base props r.grid_cols 0 first.hl_attrib_id 0 r
  let last_rect : D2D1_RECT_F F := { rect with left := (col_offset : F) * r.font_width }
  let attribs ← readAt r.hl_attribs hl_attrib_id
  let r ← DrawBackgroundRect K r last_rect attribs
  let r ← ApplyHighlightAttributes K r attribs col_offset r.grid_cols
  let r := r.emit (.PushAxisAlignedClip rect)
  let r := if r.disable_ligatures then
    r.emit (.SetTypography { startPosition := 0, length := r.grid_cols }) else r
  let r := r.emit (.Draw ((0 : Nat) : F) rect.top)
  pure (r.emit .PopAxisAlignedClip)

/-! ## grid_line -/

/-- One element of the cell array of a `grid_line` entry: `[text, hl_id?, repeat?]`.
`text` is the UTF-16 form of the UTF-8 string (the empty string has no code unit and
every other string has at least one); `ints` are the integers that follow the text. -/
structure GridLineCell where
  text : List Nat
  ints : List Nat
deriving DecidableEq, Repr

/-- One parameter tuple of `grid_line`: `[grid, row, col_start, cells]`.  `row` and
`col_start` are the values the handler holds in `int`, not negative here. -/
structure GridLine where
  row : Nat
  col_start : Nat
  cells : List GridLineCell
deriving DecidableEq, Repr

/-- Library call `MultiByteToWideChar(CP_UTF8, 0, str, strlen, &chars[idx], cchWideChar)`
for a string whose UTF-16 form is `text`, following the Win32 documentation: an empty
input or a negative buffer size is an error (returns 0); a buffer size of 0 returns the
required length and stores nothing; a buffer too small is an error (returns 0; the
buffer is left as it was here, its contents being unspecified); otherwise the code units
are stored and their number returned. -/
def MultiByteToWideChar (text : List Nat) (chars : List Nat) (idx : Nat) (cchWideChar : Int) :
    Except Fault (Nat × List Nat) :=
  if text = [] ∨ cchWideChar < 0 then pure (0, chars)
  else if cchWideChar = 0 then pure (text.length, chars)
  else if cchWideChar < text.length then pure (0, chars)
  else do
    let chars ← writeSlice chars idx text
    pure (text.length, chars)

/-- The loop `for (k = 0; k < repeat; ++k)` of `DrawGridLines` with `n` rounds left:
each round converts the text at `offset + k * wstrlen`, `wstrlen` being the result of
the round before. -/
def DrawGridLines.repeatLoop (text : List Nat) (grid_size offset : Nat) :
    Nat → Nat → Nat → List Nat → Except Fault (Nat × List Nat)
  | 0, _, wstrlen, chars => pure (wstrlen, chars)
  | n + 1, k, wstrlen, chars => do
    let idx := offset + k * wstrlen
    let (wstrlen, chars) ← MultiByteToWideChar text chars idx ((grid_size : Int) - (idx : Int))
    DrawGridLines.repeatLoop text grid_size offset n (k + 1) wstrlen chars

/-- The loop `for (k = 0; k < wstrlen_with_repetitions; ++k)` of `DrawGridLines` with
`n` rounds left. -/
def DrawGridLines.propLoop (hl_attrib_id offset : Nat) :
    Nat → Nat → List CellProperty → Except Fault (List CellProperty)
  | 0, _, props => pure props
  | n + 1, k, props => do
    let props ← modifyAt props (offset + k) (fun _ =>
      { hl_attrib_id := hl_attrib_id % 2 ^ 16, is_wide_char := false })
    DrawGridLines.propLoop hl_attrib_id offset n (k + 1) props

/-- The loop over the cell array of one `grid_line` entry; the list is the part of the
array from index `j` on, the state is `col_offset`, `hl_attrib_id` and both buffers. -/
def DrawGridLines.cellLoop (grid_cols grid_size row : Nat) :
    List GridLineCell → Nat → Nat → List Nat → List CellProperty →
    Except Fault (List Nat × List CellProperty)
  | [], _, _, chars, props => pure (chars, props)
  | cells :: rest, col_offset, hl_attrib_id, chars, props => do
    let hl_attrib_id := match cells.ints with
      | id :: _ => id
      | [] => hl_attrib_id
    let next_is_empty := match rest with
      | next :: _ => decide (next.text = [])
      | [] => false
    if next_is_empty then do
      let offset := row * grid_cols + col_offset
      let props ← modifyAt props offset (fun p => { p with is_wide_char := true })
      let props ← modifyAt props offset (fun p => { p with hl_attrib_id := hl_attrib_id % 2 ^ 16 })
      let props ← modifyAt props (offset + 1)
        (fun p => { p with hl_attrib_id := hl_attrib_id % 2 ^ 16 })
      let (wstrlen, chars) ←
        MultiByteToWideChar cells.text chars offset ((grid_size : Int) - (offset : Int))
      if wstrlen = 1 ∨ wstrlen = 2 then do
        let chars ← if wstrlen = 1 then writeAt chars (offset + 1) 0 else pure chars
        DrawGridLines.cellLoop grid_cols grid_size row rest (col_offset + 2) hl_attrib_id
          chars props
      else .error .assertion
    else if cells.text = [] then
      DrawGridLines.cellLoop grid_cols grid_size row rest col_offset hl_attrib_id chars props
    else do
      let repeat_ := match cells.ints with
        | _ :: n :: _ => n
        | _ => 1
      let offset := row * grid_cols + col_offset
      let (wstrlen, chars) ←
        DrawGridLines.repeatLoop cells.text grid_size offset repeat_ 0 0 chars
      let wstrlen_with_repetitions := wstrlen * repeat_
      let props ← DrawGridLines.propLoop hl_attrib_id offset wstrlen_with_repetitions 0 props
      DrawGridLines.cellLoop grid_cols grid_size row rest
        (col_offset + wstrlen_with_repetitions) hl_attrib_id chars props

/-- Body of the outer loop of `DrawGridLines`: stores one entry, then redraws its row. -/
def DrawGridLines.line (K : Constants) (r : Renderer F) (grid_line : GridLine) :
    Except Fault (Renderer F) := do
  let grid_size := r.grid_cols * r.grid_rows
  let chars ← deref r.grid_chars
  let props ← deref r.grid_cell_properties
  let (chars, props) ← DrawGridLines.cellLoop r.grid_cols grid_size grid_line.row
    grid_line.cells grid_line.col_start 0 chars props
  DrawGridLine K { r with grid_chars := some chars, grid_cell_properties := some props }
    grid_line.row

/-- Handler of `grid_line`; `grid_lines` are the tuples after the event name. -/
def DrawGridLines (K : Constants) (r : Renderer F) (grid_lines : List GridLine) :
    Except Fault (Renderer F) :=
  if r.grid_chars = none ∨ r.grid_cell_properties = none then .error .assertion
  else grid_lines.foldlM (DrawGridLines.line K) r

/-! ## grid_resize, grid_scroll, grid_clear -/

/-- Handler of `grid_resize` with the parameters `cols`, `rows` of the event, which the
handler holds in `int` (sizes that are not negative here): unless both buffers exist and
the size is the one requested, fresh buffers are allocated, the characters set to a space
and the cell properties zeroed (`calloc`).  The loop that stores the spaces is bounded by
the product `grid_cols * grid_rows` computed in `int`; a size or a product that is not in
the range of `int` is a fault (the overflow is undefined).  Allocation is taken to
succeed. -/
def UpdateGridSize (r : Renderer F) (grid_cols grid_rows : Nat) : Except Fault (Renderer F) :=
  if r.grid_chars = none ∨ r.grid_cell_properties = none ∨
      r.grid_cols ≠ grid_cols ∨ r.grid_rows ≠ grid_rows then
    if grid_cols < 2 ^ 31 ∧ grid_rows < 2 ^ 31 ∧ grid_cols * grid_rows < 2 ^ 31 then
      pure { r with
        grid_cols := grid_cols
        grid_rows := grid_rows
        grid_chars := some (List.replicate (grid_cols * grid_rows) 32)
        grid_cell_properties :=
          some (List.replicate (grid_cols * grid_rows)
            { hl_attrib_id := 0, is_wide_char := false }) }
    else .error .invalidAccess
  else pure r

/-- Stores `v` in the first `n` elements of a buffer (a loop of stores, or `memset`);
nothing is accessed when `n = 0`. -/
def fill {α : Type} (buf : Option (List α)) (n : Nat) (v : α) :
    Except Fault (Option (List α)) :=
  if n = 0 then pure buf
  else do
    let xs ← deref buf
    if n ≤ xs.length then pure (some (List.replicate n v ++ xs.drop n))
    else .error .invalidAccess

/-- Conversion of a 64-bit integer to `int`: the value modulo `2 ^ 32` in the range of
`int`. -/
def toInt32 (x : Int) : Int := (x + 2 ^ 31) % 2 ^ 32 - 2 ^ 31

/-- Call `DrawGridLine(renderer, row)` with an `int64_t` row: the row is converted to
`int`, and a negative row reads in front of the buffers. -/
def DrawGridLineInt (K : Constants) (r : Renderer F) (row : Int) : Except Fault (Renderer F) :=
  if toInt32 row < 0 then .error .invalidAccess else DrawGridLine K r (toInt32 row).toNat

/-- Body of the loop of `ScrollRegion` for the source row `i`. -/
def ScrollRegion.row (K : Constants) (top bottom left right rows : Int) (r : Renderer F)
    (i : Int) : Except Fault (Renderer F) :=
  let target_row := i - rows
  if target_row < top ∨ target_row ≥ bottom then pure r
  else do
    let chars ← deref r.grid_chars
    let chars ← memcpy chars (target_row * r.grid_cols + left) (i * r.grid_cols + left)
      (right - left)
    let r := { r with grid_chars := some chars }
    let props ← deref r.grid_cell_properties
    let props ← memcpy props (target_row * r.grid_cols + left) (i * r.grid_cols + left)
      (right - left)
    let r := { r with grid_cell_properties := some props }
    DrawGridLineInt K r target_row

/-- The loop `for (i = start_row; scrolling_down ? i <= end_row : i >= end_row;
i += increment)` of `ScrollRegion`, run for at most `fuel` rounds. -/
def ScrollRegion.loop (K : Constants) (top bottom left right rows : Int)
    (scrolling_down : Bool) (end_row increment : Int) :
    Nat → Int → Renderer F → Except Fault (Renderer F)
  | 0, _, r => pure r
  | fuel + 1, i, r =>
    if (if scrolling_down then i ≤ end_row else i ≥ end_row) then do
      let r ← ScrollRegion.row K top bottom left right rows r i
      ScrollRegion.loop K top bottom left right rows scrolling_down end_row increment
        fuel (i + increment) r
    else pure r

/-- Handler of `grid_scroll` with the parameters `top, bottom, left, right, rows, cols`
of the event.  The loop visits the rows from `start_row` to `end_row`, which are
`bottom - top` rows when that is positive and none otherwise, so that is the fuel
(`ScrollRegion_loop_fuel`: more fuel gives the same result). -/
def ScrollRegion (K : Constants) (r : Renderer F) (top bottom left right rows cols : Int) :
    Except Fault (Renderer F) :=
  if cols ≠ 0 then .error .assertion
  else do
    let scrolling_down := decide (rows > 0)
    let start_row := if scrolling_down then top else bottom - 1
    let end_row := if scrolling_down then bottom - 1 else top
    let increment : Int := if scrolling_down then 1 else -1
    let r ← ScrollRegion.loop K top bottom left right rows scrolling_down end_row increment
      (bottom - top).toNat start_row r
    let cursor_row : Int := toInt32 ((r.cursor.row : Int) - rows)
    if cursor_row ≥ 0 ∧ cursor_row < r.grid_rows then DrawGridLine K r cursor_row.toNat
    else pure r

/-- Handler of `grid_clear`. -/
def ClearGrid (K : Constants) (r : Renderer F) : Except Fault (Renderer F) := do
  let chars ← fill r.grid_chars (r.grid_cols * r.grid_rows) 32
  let r := { r with grid_chars := chars }
  let props ← fill r.grid_cell_properties (r.grid_cols * r.grid_rows)
    { hl_attrib_id := 0, is_wide_char := false }
  let r := { r with grid_cell_properties := props }
  let rect : D2D1_RECT_F F :=
    { left := ((0 : Nat) : F)
      top := ((0 : Nat) : F)
      right := (r.grid_cols : F) * r.font_width
      bottom := (r.grid_rows : F) * r.font_height }
  let attribs ← readAt r.hl_attribs 0
  DrawBackgroundRect K r rect attribs

/-! ## Reading the grid store -/

/-- One grid position as the properties below read it: the character kept in
`grid_chars` and the highlight id and wide mark kept in `grid_cell_properties`. -/
structure Cell where
  character : Nat
  hl_attrib_id : Nat
  is_wide : Bool
deriving DecidableEq, Repr

/-- The cell at `(row, col)`: element `row * grid_cols + col` of both buffers. -/
def Renderer.cell (r : Renderer F) (row col : Nat) : Option Cell :=
  match r.grid_chars, r.grid_cell_properties with
  | some chars, some props =>
    match chars[row * r.grid_cols + col]?, props[row * r.grid_cols + col]? with
    | some ch, some p =>
      some { character := ch, hl_attrib_id := p.hl_attrib_id, is_wide := p.is_wide_char }
    | _, _ => none
  | _, _ => none

/-- The state is one the handlers maintain: there is at least one column, the number of
cells is in the range of `int`, both buffers hold `grid_rows * grid_cols` elements, and
every cell's highlight id is an index of the highlight table. -/
def Renderer.WF (r : Renderer F) : Prop :=
  0 < r.grid_cols ∧ r.grid_rows * r.grid_cols < 2 ^ 31 ∧
  (∃ chars, r.grid_chars = some chars ∧ chars.length = r.grid_rows * r.grid_cols) ∧
  (∃ props, r.grid_cell_properties = some props ∧ props.length = r.grid_rows * r.grid_cols ∧
    ∀ p ∈ props, p.hl_attrib_id < r.hl_attribs.length)

end Handlers

/-! ## The older renderer

`src/Nvy/src/renderer/renderer.cpp` is an earlier version of the renderer: it keeps the
highlight ids in a buffer of their own, `grid_hl_attrib_ids`, has no wide mark, its
`ScrollRegion` copies rows without redrawing them, and it keeps one brush per colour. -/

namespace Legacy

/-- The record of the older renderer, restricted to the grid store, the highlight table
and the brushes.  `brushes` maps a colour to the brush created for it, the pairs in the
order of their insertion; `objects` is the number of brushes created so far, which tells
the brushes apart. -/
structure Renderer where
  grid_rows : Nat
  grid_cols : Nat
  grid_chars : Option (List Nat)
  grid_hl_attrib_ids : Option (List Nat)
  hl_attribs : List HighlightAttributes := []
  brushes : List (Nat × Handle) := []
  objects : Nat := 0
deriving DecidableEq, Repr

/-- Body of the loop of the older `ScrollRegion` for the source row `i`. -/
def ScrollRegion.row (top bot left right rows : Int) (r : Renderer) (i : Int) :
    Except Fault Renderer :=
  let target_row := i - rows
  if target_row < top ∨ target_row ≥ bot then pure r
  else do
    let chars ← deref r.grid_chars
    let chars ← memcpy chars (target_row * r.grid_cols + left) (i * r.grid_cols + left)
      (right - left)
    let r := { r with grid_chars := some chars }
    let ids ← deref r.grid_hl_attrib_ids
    let ids ← memcpy ids (target_row * r.grid_cols + left) (i * r.grid_cols + left)
      (right - left)
    pure { r with grid_hl_attrib_ids := some ids }

/-- The loop `for (i = start_row; rows > 0 ? i <= end_row : i >= end_row; i += increment)`
of the older `ScrollRegion`, run for at most `fuel` rounds. -/
def ScrollRegion.loop (top bot left right rows : Int) (end_row increment : Int) :
    Nat → Int → Renderer → Except Fault Renderer
  | 0, _, r => pure r
  | fuel + 1, i, r =>
    if (if rows > 0 then i ≤ end_row else i ≥ end_row) then do
      let r ← ScrollRegion.row top bot left right rows r i
      ScrollRegion.loop top bot left right rows end_row increment fuel (i + increment) r
    else pure r

/-- Handler of `grid_scroll` in the older renderer; the loop visits `bot - top` rows when
that is positive and none otherwise. -/
def ScrollRegion (r : Renderer) (top bot left right rows cols : Int) : Except Fault Renderer :=
  if cols ≠ 0 then .error .assertion
  else
    let start_row := if rows > 0 then top else bot - 1
    let end_row := if rows > 0 then bot - 1 else top
    let increment : Int := if rows > 0 then 1 else -1
    ScrollRegion.loop top bot left right rows end_row increment (bot - top).toNat start_row r

/-- The character and the highlight id at `(row, col)`. -/
def Renderer.cell (r : Renderer) (row col : Nat) : Option (Nat × Nat) :=
  match r.grid_chars, r.grid_hl_attrib_ids with
  | some chars, some ids =>
    match chars[row * r.grid_cols + col]?, ids[row * r.grid_cols + col]? with
    | some ch, some id => some (ch, id)
    | _, _ => none
  | _, _ => none

/-- Both buffers hold `grid_rows * grid_cols` elements. -/
def Renderer.WF (r : Renderer) : Prop :=
  (∃ chars, r.grid_chars = some chars ∧ chars.length = r.grid_rows * r.grid_cols) ∧
  (∃ ids, r.grid_hl_attrib_ids = some ids ∧ ids.length = r.grid_rows * r.grid_cols)

/-- Sample grid of the older renderer: 3 rows and 4 columns holding `a` to `l`, row `k`
in highlight id `k + 1`. -/
def sampleRenderer : Renderer :=
  { grid_rows := 3
    grid_cols := 4
    grid_chars := some [97, 98, 99, 100, 101, 102, 103, 104, 105, 106, 107, 108]
    grid_hl_attrib_ids := some [1, 1, 1, 1, 2, 2, 2, 2, 3, 3, 3, 3] }

end Legacy

/-! ## Relations between states -/

/-- The records `r` and `t` differ at most in the calls issued. -/
def Renderer.sameStore {F : Type} (r t : Renderer F) : Prop := t = { r with calls := t.calls }

/-- The records `r` and `t` differ at most in the contents of the two grid buffers and
in the calls issued. -/
def Renderer.sameFrame {F : Type} (r t : Renderer F) : Prop :=
  t = { r with
    grid_chars := t.grid_chars
    grid_cell_properties := t.grid_cell_properties
    calls := t.calls }

/-! ## What a `grid_line` entry is meant to write -/

/-- The repeat count of a cell entry: its third element, 1 when it has none. -/
def GridLineCell.repeatCount (c : GridLineCell) : Nat :=
  match c.ints with
  | _ :: n :: _ => n
  | _ => 1

/-- Number of columns the entries occupy when each one occupies one column per code
unit of its text, `repeat` times over. -/
def totalWidth (cells : List GridLineCell) : Nat :=
  (cells.map (fun c => c.text.length * c.repeatCount)).sum

/-- What column `col` is to hold once the entries `cells` have been written from column
`start` on, when each entry writes its text `repeat` times contiguously, one column per
code unit, under its own highlight id, or, when it carries none, under the id `hl` of
the entry before: the pair of the character and the id, or `none` when no entry reaches
`col`. -/
def writtenAt : List GridLineCell → Nat → Nat → Nat → Option (Nat × Nat)
  | [], _, _, _ => none
  | c :: rest, start, hl, col =>
    if start ≤ col ∧ col < start + c.text.length * c.repeatCount then
      some (c.text.getD ((col - start) % c.text.length) 0, c.ints.head?.getD hl)
    else writtenAt rest (start + c.text.length * c.repeatCount) (c.ints.head?.getD hl) col

/-! ## Sample values -/

/-- Sample constants: the sentinel colour and table sizes of a build. -/
def sampleConstants : Constants :=
  { DEFAULT_COLOR := 0x46464646, MAX_HIGHLIGHT_ATTRIBS := 8, MAX_CURSOR_MODE_INFOS := 4,
    MAX_FONT_LENGTH := 128 }

/-- Sample device objects: every pointer of the record designates an object of its own. -/
def sampleResources : Resources :=
  { d2d_factory := .live 0
    d3d_device := .live 1
    d3d_context := .live 2
    dxgi_swapchain := .live 3
    d2d_device := .live 4
    d2d_context := .live 5
    d2d_target_bitmap := .live 6
    d2d_background_rect_brush := .live 7
    dwrite_factory := .live 8
    dwrite_text_format := .live 9
    dwrite_typography := .null
    font_face := .live 10
    glyph_renderer := .live 11
    objects := 12 }

/-- Sample highlight table of eight entries: entry 0 is white on black, entry 1 is
reversed with default colours, the others are blank. -/
def sampleTable : List HighlightAttributes :=
  [⟨0xffffff, 0x000000, 0xff0000, 0⟩, ⟨0x46464646, 0x46464646, 0x46464646, 1⟩] ++
    List.replicate 6 ⟨0x46464646, 0x46464646, 0x46464646, 0⟩

/-- Sample renderer: a grid of 3 rows and 4 columns holding `a` to `l`, row `k` in
highlight id `k + 1`, cells of 8 by 16 pixels in a client area of 32 by 48, font
`Consolas`, the cursor at the origin. -/
def sampleRenderer : Renderer Int :=
  { grid_rows := 3
    grid_cols := 4
    grid_chars := some [97, 98, 99, 100, 101, 102, 103, 104, 105, 106, 107, 108]
    grid_cell_properties := some
      ((List.replicate 4 ⟨1, false⟩ ++ List.replicate 4 ⟨2, false⟩) ++ List.replicate 4 ⟨3, false⟩)
    hl_attribs := sampleTable
    cursor := { mode_info := none, row := 0, col := 0 }
    cursor_mode_infos := []
    font_width := 8
    font_height := 16
    disable_ligatures := false
    ui_busy := false
    draw_active := true
    calls := []
    pixel_size := { width := 32, height := 48 }
    font := [67, 111, 110, 115, 111, 108, 97, 115]
    font_size := 14
    font_ascent := 12
    font_descent := 4
    last_requested_font_size := 14
    dpi_scale := 1
    linespace_factor := 1
    res := sampleResources }

section CursorDrawing

variable {F : Type} [NatCast F] [Add F] [Sub F] [Mul F]

/-! ## Drawing the cursor -/

/-- The part of the cell rectangle the cursor shape covers: all of it for `None` and
`Block` and when no mode is active, a strip 2 wide at the left edge for `Vertical`, a
strip 2 high at the bottom edge for `Horizontal`. -/
def GetCursorForegroundRect (r : Renderer F) (cursor_bg_rect : D2D1_RECT_F F) :
    Except Fault (D2D1_RECT_F F) :=
  match r.cursor.mode_info with
  | some mode => do
    let mode_info ← readAt r.cursor_mode_infos mode
    match mode_info.shape with
    | .None => pure cursor_bg_rect
    | .Block => pure cursor_bg_rect
    | .Vertical =>
      pure { cursor_bg_rect with right := cursor_bg_rect.left + ((2 : Nat) : F) }
    | .Horizontal =>
      pure { cursor_bg_rect with top := cursor_bg_rect.bottom - ((2 : Nat) : F) }
  | none => pure cursor_bg_rect

/-- Draws the `wide_char_factor` code units at `chars[offset]` into `rect` with the
attributes `hl_attribs`. -/
def DrawHighlightedCharacter (K : Constants) (r : Renderer F) (rect : D2D1_RECT_F F)
    (chars : List Nat) (offset wide_char_factor : Nat) (hl_attribs : HighlightAttributes) :
    Except Fault (Renderer F) := do
  let character ← readSlice chars offset wide_char_factor
  let r := r.emit (.CreateTextLayout character (rect.right - rect.left) (rect.bottom - rect.top))
  let r ← ApplyHighlightAttributes K r hl_attribs 0 1
  let width := r.font_width * (wide_char_factor : F)
  let r := r.emit (.SetCharacterSpacing width { startPosition := 0, length := 1 })
  let r := r.emit (.PushAxisAlignedClip rect)
  let r := r.emit (.Draw rect.left rect.top)
  pure (r.emit .PopAxisAlignedClip)

/-- The local `cursor_hl_attribs` of `DrawCursor` once it is complete: a copy of the
table entry of the mode, its flags replaced by those of the entry of the cell under the
cursor, and the reverse flag toggled when the mode has attribute id 0. -/
def DrawCursor.attribs (r : Renderer F) (mode_info : CursorModeInfo) (props : List CellProperty)
    (cursor_grid_offset : Nat) : Except Fault HighlightAttributes := do
  let cursor_hl_attribs ← readAt r.hl_attribs mode_info.hl_attrib_id
  let under ← readAt props cursor_grid_offset
  let hl_attrib_id_under_cursor := under.hl_attrib_id
  let under_cursor_hl_attribs ← readAt r.hl_attribs hl_attrib_id_under_cursor
  let cursor_hl_attribs := { cursor_hl_attribs with flags := under_cursor_hl_attribs.flags }
  if mode_info.hl_attrib_id = 0 then
    pure { cursor_hl_attribs with flags := cursor_hl_attribs.flags ^^^ HL_ATTRIB_REVERSE }
  else pure cursor_hl_attribs

/-- The cell rectangle of the cursor, two cells wide over a double-width character. -/
def DrawCursor.rect (r : Renderer F) (double_width_char_factor : Nat) : D2D1_RECT_F F :=
  { left := (r.cursor.col : F) * r.font_width
    top := (r.cursor.row : F) * r.font_height
    right := (r.cursor.col : F) * r.font_width + r.font_width * (double_width_char_factor : F)
    bottom := (r.cursor.row : F) * r.font_height + r.font_height }

/-- Draws the cursor: nothing without an active mode; otherwise the shape rectangle in
the background colour of `cursor_hl_attribs` and, for a block, the character on it. -/
def DrawCursor (K : Constants) (r : Renderer F) : Except Fault (Renderer F) :=
  match r.cursor.mode_info with
  | none => pure r
  | some mode => do
    let cursor_grid_offset := r.cursor.row * r.grid_cols + r.cursor.col
    let props ← deref r.grid_cell_properties
    let double_width_char_factor ←
      (if cursor_grid_offset < r.grid_rows * r.grid_cols then
        (readAt props cursor_grid_offset).map (fun cell => if cell.is_wide_char then 2 else 1)
      else pure 1)
    let mode_info ← readAt r.cursor_mode_infos mode
    let cursor_hl_attribs ← DrawCursor.attribs r mode_info props cursor_grid_offset
    let cursor_rect := DrawCursor.rect r double_width_char_factor
    let cursor_fg_rect ← GetCursorForegroundRect r cursor_rect
    let r ← DrawBackgroundRect K r cursor_fg_rect cursor_hl_attribs
    if mode_info.shape = .Block then do
      let chars ← deref r.grid_chars
      DrawHighlightedCharacter K r cursor_fg_rect chars cursor_grid_offset
        double_width_char_factor cursor_hl_attribs
    else pure r

/-- The background fills among the calls, in the order they were issued: rectangle and
colour of each. -/
def fillsOf (calls : List (DrawCall F)) : List (D2D1_RECT_F F × Nat) :=
  calls.filterMap (fun c =>
    match c with
    | .FillRectangle rect color => some (rect, color)
    | _ => none)

end CursorDrawing

/-! ## Runs of one highlight id -/

/-- Whether `segs`, a list of `(start, end, id)`, splits the columns from `start` up to
`cols` into consecutive non-empty ranges, every column of a range having highlight id
`id` under `id_at`, and neighbouring ranges having different ids. -/
def coversRuns (id_at : Nat → Option Nat) (cols : Nat) : Nat → List (Nat × Nat × Nat) → Bool
  | start, [] => decide (start = cols)
  | start, (s, e, i) :: rest =>
    decide (s = start) && decide (s < e) && decide (e ≤ cols) &&
    (List.range' s (e - s)).all (fun c => decide (id_at c = some i)) &&
    (match rest with
      | (_, _, j) :: _ => decide (j ≠ i)
      | [] => true) &&
    coversRuns id_at cols e rest

section FloatArithmetic

variable {F : Type} [LinearOrderedField F] [FloorRing F]

/-! ## Float arithmetic

The handlers from here on divide, round and compare `float` values.  The handlers that
draw are stated over an ordered field with a floor function, each operation being exact
there.  The queries that convert a quotient or a product of floats to `int` are stated
over the rationals with the rounding of the binary32 format (`Binary32` below), because
the integer they return depends on it. -/

/-- Library call `ceilf`. -/
def ceilf (x : F) : F := ((⌈x⌉ : Int) : F)

/-- Library call `roundf`: the nearest integer, halfway cases away from zero. -/
def roundf (x : F) : F :=
  if 0 ≤ x then ((⌊x + 1 / 2⌋ : Int) : F) else ((⌈x - 1 / 2⌉ : Int) : F)

/-- The integer a `float` is converted to: the fractional part is discarded
(truncation toward zero). -/
def truncate (x : F) : Int := if 0 ≤ x then ⌊x⌋ else ⌈x⌉

/-- The conversion `static_cast<int>(x)` (also to `LONG`) of a `float`: truncation toward
zero; the behaviour is undefined when the result is not in the range of `int`. -/
def floatToInt (x : F) : Except Fault Int :=
  if -2 ^ 31 ≤ truncate x ∧ truncate x < 2 ^ 31 then .ok (truncate x) else .error .invalidAccess

/-! ## Grid size and pixel size -/

/-- Rectangle with integer edges. -/
structure RECT where
  left : Int
  top : Int
  right : Int
  bottom : Int
deriving DecidableEq, Repr

/-- What the window frame adds around a client area (borders and title bar of an
overlapped window without a menu), in pixels on each side. -/
structure WindowFrame where
  left : Nat
  top : Nat
  right : Nat
  bottom : Nat
deriving DecidableEq, Repr

/-- Library call `AdjustWindowRect(&rect, WS_OVERLAPPEDWINDOW, false)`: the window
rectangle whose client area is `rect`. -/
def AdjustWindowRect (frame : WindowFrame) (rect : RECT) : RECT :=
  { left := rect.left - frame.left
    top := rect.top - frame.top
    right := rect.right + frame.right
    bottom := rect.bottom + frame.bottom }

/-- Width and height in pixels, as `int`. -/
structure PixelSizeInt where
  width : Int
  height : Int
deriving DecidableEq, Repr

/-- Number of rows and columns. -/
structure GridSize where
  rows : Int
  cols : Int
deriving DecidableEq, Repr

/-- Row and column of a grid position. -/
structure GridPoint where
  row : Int
  col : Int
deriving DecidableEq, Repr

end FloatArithmetic

/-! ## The binary32 format -/

/-- Rounding to the nearest integer, a halfway case to the even one. -/
def roundHalfEven (m : ℚ) : Int :=
  if m - ⌊m⌋ < 1 / 2 then ⌊m⌋
  else if 1 / 2 < m - ⌊m⌋ then ⌊m⌋ + 1
  else if ⌊m⌋ % 2 = 0 then ⌊m⌋ else ⌊m⌋ + 1

namespace Binary32

/-- The largest `e` from `-126` to `n - 126` with `2 ^ e ≤ x`, and `-126` when there is
none. -/
def exponentUpTo (x : ℚ) : Nat → Int
  | 0 => -126
  | n + 1 => if (2 : ℚ) ^ ((n : Int) - 125) ≤ x then (n : Int) - 125 else exponentUpTo x n

/-- Exponent of the values of the format around `q`: the `e` with `2 ^ e ≤ |q| < 2 ^ (e + 1)`
kept within `-126 .. 127`, the exponents of the format (below `2 ^ (-126)` lie the
subnormal values). -/
def exponent (q : ℚ) : Int := exponentUpTo |q| 253

/-- Distance between the values of the format around `q`: 24 significant bits. -/
def ulp (q : ℚ) : ℚ := (2 : ℚ) ^ (exponent q - 23)

/-- The value of the format that an operation with the exact result `q` returns: the
nearest one, a halfway case going to the value with an even last bit.  A result of
magnitude `2 ^ 128` or more stands for the infinity that the format returns then. -/
def round (q : ℚ) : ℚ := (roundHalfEven (q / ulp q) : ℚ) * ulp q

/-- The conversion `static_cast<float>(n)` of an `int`, implicit where an `int` meets a
`float` in an operation. -/
def ofInt (n : Int) : ℚ := round n

/-- The product `a * b` of floats. -/
def mul (a b : ℚ) : ℚ := round (a * b)

/-- The quotient `a / b` of floats, for a divisor that is not zero. -/
def div (a b : ℚ) : ℚ := round (a / b)

/-- The conversion `static_cast<int>(a / b)` of a quotient of floats: the quotient is
rounded to the format and its fraction discarded.  The quotient by zero is an infinity
or not-a-number, whose conversion is undefined like that of a value outside the range of
`int`. -/
def divToInt (a b : ℚ) : Except Fault Int :=
  if b = 0 then .error .invalidAccess else floatToInt (div a b)

end Binary32

/-- Size of the window whose client area holds `rows` rows and `cols` columns. -/
def RendererGridToPixelSize (frame : WindowFrame) (r : Renderer ℚ) (rows cols : Int) :
    Except Fault PixelSizeInt := do
  let requested_width ←
    floatToInt (Binary32.mul (ceilf r.font_width) (Binary32.ofInt cols))
  let requested_height ←
    floatToInt (Binary32.mul (ceilf r.font_height) (Binary32.ofInt rows))
  let adjusted_rect := AdjustWindowRect frame
    { left := 0, top := 0, right := requested_width, bottom := requested_height }
  pure { width := adjusted_rect.right - adjusted_rect.left
         height := adjusted_rect.bottom - adjusted_rect.top }

/-- Number of whole rows and columns in `width` by `height` pixels. -/
def RendererPixelsToGridSize (r : Renderer ℚ) (width height : Int) : Except Fault GridSize := do
  let rows ← Binary32.divToInt (Binary32.ofInt height) r.font_height
  let cols ← Binary32.divToInt (Binary32.ofInt width) r.font_width
  pure { rows := rows, cols := cols }

/-- Grid position of the pixel `(x, y)`. -/
def RendererCursorToGridPoint (r : Renderer ℚ) (x y : Int) : Except Fault GridPoint := do
  let row ← Binary32.divToInt (Binary32.ofInt y) r.font_height
  let col ← Binary32.divToInt (Binary32.ofInt x) r.font_width
  pure { row := row, col := col }

/-- Position query of the older renderer, `RendererTranslateMousePosToGrid`, for the
mouse position `(x, y)` and the cell metrics of its record. -/
def Legacy.RendererTranslateMousePosToGrid (font_width font_height : ℚ) (x y : Int) :
    Except Fault GridPoint := do
  let row ← Binary32.divToInt (Binary32.ofInt y) font_height
  let col ← Binary32.divToInt (Binary32.ofInt x) font_width
  pure { row := row, col := col }

/-- Sample renderer over the rationals: the sample grid with cells of 8 by 16 pixels. -/
def sampleRendererQ : Renderer ℚ :=
  { grid_rows := 3
    grid_cols := 4
    grid_chars := some [97, 98, 99, 100, 101, 102, 103, 104, 105, 106, 107, 108]
    grid_cell_properties := some
      ((List.replicate 4 ⟨1, false⟩ ++ List.replicate 4 ⟨2, false⟩) ++ List.replicate 4 ⟨3, false⟩)
    hl_attribs := sampleTable
    cursor := { mode_info := none, row := 0, col := 0 }
    cursor_mode_infos := []
    font_width := 8
    font_height := 16
    disable_ligatures := false
    ui_busy := false
    draw_active := false
    calls := []
    pixel_size := { width := 32, height := 48 }
    font := [67, 111, 110, 115, 111, 108, 97, 115]
    font_size := 14
    font_ascent := 12
    font_descent := 4
    last_requested_font_size := 14
    dpi_scale := 1
    linespace_factor := 1
    res := sampleResources }

/-! ## Device objects

The header that declares `SafeRelease` is not among the sources; it is taken to be the
usual helper, which releases the object when the pointer is not null and sets the
pointer to null.  Whether an object is still usable when a handler calls into it is not
tracked: the handles record only which pointers designate which objects. -/

/-- Modelled from the spec: `SafeRelease(&p)`, declared in a header that is not among
the sources.  The spec has recovery tear resources down before recreating them; the
helper releases the object, if there is one, and leaves the pointer null. -/
def SafeRelease (_p : Handle) : Handle := .null

/-- The pointer after `p->Release()` or `delete p`: it still designates the object, which
is gone. -/
def Handle.release (p : Handle) : Handle :=
  match p with
  | .live object => .released object
  | p => p

/-- A pointer to a newly created object, and the record that counts it. -/
def Resources.create (res : Resources) : Handle × Resources :=
  (.live res.objects, { res with objects := res.objects + 1 })

/-- Results of the library calls that one redraw event (or one call from the window
procedure) makes and that the renderer record does not determine: whether `Present` and
`ResizeBuffers` return `DXGI_ERROR_DEVICE_REMOVED`; the size of the client area that
`GetClientRect` reports; whether `ImmSetCompositionWindow` succeeds; whether the system
font collection has a family of a given name (`FindFamilyName`); and, for the first
matching font of a family, its design units per em, ascent, descent and line gap and the
advance of its glyph of `A`, all in design units. -/
structure Env where
  present_device_removed : Bool
  resize_device_removed : Bool
  client_width : Nat
  client_height : Nat
  composition_window_set : Bool
  family_exists : List Nat → Bool
  designUnitsPerEm : List Nat → Nat
  ascent : List Nat → Nat
  descent : List Nat → Nat
  lineGap : List Nat → Int
  glyph_advance_in_em : List Nat → Int

section Device

variable {F : Type}

/-- Creates the Direct2D factory. -/
def InitializeD2D (r : Renderer F) : Renderer F :=
  let (d2d_factory, res) := r.res.create
  { r with res := { res with d2d_factory := d2d_factory } }

/-- Creates the Direct3D device and context, the Direct2D device and context and the
brush of background rectangles. -/
def InitializeD3D (r : Renderer F) : Renderer F :=
  let (d3d_device, res) := r.res.create
  let (d3d_context, res) := res.create
  let (d2d_device, res) := res.create
  let (d2d_context, res) := res.create
  let (d2d_background_rect_brush, res) := res.create
  { r with res := { res with
      d3d_device := d3d_device
      d3d_context := d3d_context
      d2d_device := d2d_device
      d2d_context := d2d_context
      d2d_background_rect_brush := d2d_background_rect_brush } }

/-- Creates the DirectWrite factory and, when ligatures are disabled, the typography. -/
def InitializeDWrite (r : Renderer F) : Renderer F :=
  let (dwrite_factory, res) := r.res.create
  let r := { r with res := { res with dwrite_factory := dwrite_factory } }
  if r.disable_ligatures then
    let (dwrite_typography, res) := r.res.create
    { r with res := { res with dwrite_typography := dwrite_typography } }
  else r

/-- The part of `InitializeWindowDependentResources` that runs when the record has no
swap chain: records the size, detaches the targets, creates the swap chain and the
target bitmap. -/
def InitializeWindowDependentResources.create (r : Renderer F) (width height : Nat) :
    Renderer F :=
  let r := { r with pixel_size := { width := width, height := height } }
  let r := r.emit .OMSetRenderTargets
  let r := r.emit (.SetTarget .null)
  let r := r.emit .Flush
  let (dxgi_swapchain, res) := r.res.create
  let (d2d_target_bitmap, res) := res.create
  { r with res := { res with
      dxgi_swapchain := dxgi_swapchain
      d2d_target_bitmap := d2d_target_bitmap } }

/-- Recovery from a removed device: every device object of the record is released and
its pointer set to null, the glyph renderer is deleted, then the factories, the devices
and the window dependent resources are created again.  The swap chain pointer is null
when `InitializeWindowDependentResources` is reached, so that call takes its creating
branch. -/
def HandleDeviceLost (env : Env) (r : Renderer F) : Renderer F :=
  let r := { r with res := { r.res with
      d3d_device := SafeRelease r.res.d3d_device
      d3d_context := SafeRelease r.res.d3d_context
      dxgi_swapchain := SafeRelease r.res.dxgi_swapchain
      d2d_factory := SafeRelease r.res.d2d_factory
      d2d_device := SafeRelease r.res.d2d_device
      d2d_context := SafeRelease r.res.d2d_context
      d2d_target_bitmap := SafeRelease r.res.d2d_target_bitmap
      d2d_background_rect_brush := SafeRelease r.res.d2d_background_rect_brush
      dwrite_factory := SafeRelease r.res.dwrite_factory
      dwrite_text_format := SafeRelease r.res.dwrite_text_format
      glyph_renderer := r.res.glyph_renderer.release } }
  let r := InitializeD2D r
  let r := InitializeD3D r
  let r := InitializeDWrite r
  InitializeWindowDependentResources.create r env.client_width env.client_height

/-- Records the size of the client area and creates the swap chain, or resizes the one
there is, and creates the target bitmap. -/
def InitializeWindowDependentResources (env : Env) (r : Renderer F) (width height : Nat) :
    Renderer F :=
  if r.res.dxgi_swapchain = .null then InitializeWindowDependentResources.create r width height
  else
    let r := { r with pixel_size := { width := width, height := height } }
    let r := r.emit .OMSetRenderTargets
    let r := r.emit (.SetTarget .null)
    let r := r.emit .Flush
    let r := { r with res := { r.res with d2d_target_bitmap := r.res.d2d_target_bitmap.release } }
    let r := r.emit (.ResizeBuffers width height)
    let r := if env.resize_device_removed then HandleDeviceLost env r else r
    let (d2d_target_bitmap, res) := r.res.create
    { r with res := { res with d2d_target_bitmap := d2d_target_bitmap } }

/-- Begins a frame unless one is being drawn: waits for the swap chain, sets the target
and calls `BeginDraw`. -/
def StartDraw (r : Renderer F) : Renderer F :=
  if !r.draw_active then
    let r := r.emit .WaitForSingleObjectEx
    let r := r.emit (.SetTarget r.res.d2d_target_bitmap)
    let r := r.emit .BeginDraw
    let r := r.emit .SetTransform
    { r with draw_active := true }
  else r

/-- Copies the front buffer of the swap chain to the back buffer. -/
def CopyFrontToBack (r : Renderer F) : Renderer F := r.emit .CopyResource

/-- Ends the frame and presents it; a removed device is recovered from. -/
def FinishDraw (env : Env) (r : Renderer F) : Renderer F :=
  let r := r.emit .EndDraw
  let r := r.emit .Present
  let r := { r with draw_active := false }
  let r := CopyFrontToBack r
  if env.present_device_removed then HandleDeviceLost env r else r

end Device

/-! ## Strings

The strings of an event (font specification, window title, cursor shape) are held like
the text of a cell, as the list of their code units; the strings the handlers test are
ASCII, one byte and one code unit per character. -/

/-- The code units of an ASCII string literal. -/
def ascii (s : String) : List Nat := s.toList.map Char.toNat

/-- Library call `strstr(s, pat)` for a pattern without null character: the offset of
the first occurrence of `pat` in the string at `s`.  `s` holds the bytes of the memory
from the pointer on; the string ends before the first null character, and the end of the
list takes the place of one. -/
def strstr : List Nat → List Nat → Option Nat
  | [], pat => if pat = [] then some 0 else none
  | c :: s, pat =>
    if pat.isPrefixOf (c :: s) then some 0
    else if c = 0 then none
    else (strstr s pat).map (fun i => i + 1)

/-- Library call `strncmp(s, lit, n) == 0`: whether `s` and `lit` agree on their first
`n` characters or up to the end of both; a string ends at its first null character or
where its list ends. -/
def strncmpEq : List Nat → List Nat → Nat → Bool
  | _, _, 0 => true
  | [], [], _ + 1 => true
  | [], d :: _, _ + 1 => d == 0
  | c :: _, [], _ + 1 => c == 0
  | c :: s, d :: lit, n + 1 => c == d && (c == 0 || strncmpEq s lit n)

/-- A value of type `float` or `double`: a number, an infinity or not-a-number. -/
inductive FloatValue (F : Type) where
  | finite (x : F)
  | infinite (negative : Bool)
  | nan
deriving DecidableEq, Repr

/-- The value `10 ^ e` for an integer exponent, in `F`. -/
def pow10 {F : Type} [LinearOrderedField F] (e : Int) : F :=
  if 0 ≤ e then (10 : F) ^ e.toNat else 1 / (10 : F) ^ (-e).toNat

/-- The value `2 ^ e` for an integer exponent, in `F`. -/
def pow2 {F : Type} [LinearOrderedField F] (e : Int) : F :=
  if 0 ≤ e then (2 : F) ^ e.toNat else 1 / (2 : F) ^ (-e).toNat

/-- The digits at the head of `s`, as a number and count, and the rest of `s`. -/
def takeDigits : List Nat → Nat → Nat → Nat × Nat × List Nat
  | [], value, count => (value, count, [])
  | c :: s, value, count =>
    if 48 ≤ c ∧ c ≤ 57 then takeDigits s (value * 10 + (c - 48)) (count + 1)
    else (value, count, c :: s)

/-- The value of a hexadecimal digit. -/
def hexDigit (c : Nat) : Option Nat :=
  if 48 ≤ c ∧ c ≤ 57 then some (c - 48)
  else if 97 ≤ c ∧ c ≤ 102 then some (c - 87)
  else if 65 ≤ c ∧ c ≤ 70 then some (c - 55)
  else none

/-- The hexadecimal digits at the head of `s`, as a number and count, and the rest of
`s`. -/
def takeHexDigits : List Nat → Nat → Nat → Nat × Nat × List Nat
  | [], value, count => (value, count, [])
  | c :: s, value, count =>
    match hexDigit c with
    | some d => takeHexDigits s (value * 16 + d) (count + 1)
    | none => (value, count, c :: s)

/-- The exponent part of a number: the letter `letter` in either case, an optional sign
and digits; 0 when there is no such part. -/
def takeExponent (letter : Nat) (s : List Nat) : Int :=
  match s with
  | c :: s =>
    if c = letter ∨ c + 32 = letter then
      let (exp_negative, s) := match s with
        | 45 :: s => (true, s)
        | 43 :: s => (false, s)
        | s => (false, s)
      let (e, e_count, _) := takeDigits s 0 0
      if e_count = 0 then 0 else if exp_negative then -(e : Int) else (e : Int)
    else 0
  | [] => 0

/-- The number written in decimal at the head of `s`: digits with an optional point, and
an optional exponent of ten; 0 when no digit is found. -/
def atofDecimal {F : Type} [LinearOrderedField F] (s : List Nat) : F :=
  let (whole, whole_count, s) := takeDigits s 0 0
  let (fraction, fraction_count, s) := match s with
    | 46 :: s => takeDigits s 0 0
    | s => (0, 0, s)
  if whole_count + fraction_count = 0 then 0
  else ((whole : F) + (fraction : F) / (10 : F) ^ fraction_count) * pow10 (takeExponent 101 s)

/-- The number written in hexadecimal after a prefix `0x`: hexadecimal digits with an
optional point, and an optional exponent of two after the letter `p`; nothing when no
digit is found. -/
def atofHex {F : Type} [LinearOrderedField F] (s : List Nat) : Option F :=
  let (whole, whole_count, s) := takeHexDigits s 0 0
  let (fraction, fraction_count, s) := match s with
    | 46 :: s => takeHexDigits s 0 0
    | s => (0, 0, s)
  if whole_count + fraction_count = 0 then none
  else some (((whole : F) + (fraction : F) / (16 : F) ^ fraction_count) *
    pow2 (takeExponent 112 s))

/-- The lower-case form of an ASCII letter. -/
def toLower (c : Nat) : Nat := if 65 ≤ c ∧ c ≤ 90 then c + 32 else c

/-- Library call `atof` (that is `strtod`): white space and an optional sign, then the
word `inf` or `infinity` or the word `nan` in either case, or a hexadecimal number after
`0x`, or a decimal number; the value is 0 when none of these is found.  The string ends
at its first null character or where the list ends.  The value of a number is exact (its
rounding to the nearest `double`, and to the nearest `float` by the conversion that
follows, is left out). -/
def atof {F : Type} [LinearOrderedField F] (s : List Nat) : FloatValue F :=
  let s := s.dropWhile (fun c => c == 32 || (9 ≤ c && c ≤ 13))
  let (negative, s) := match s with
    | 45 :: s => (true, s)
    | 43 :: s => (false, s)
    | s => (false, s)
  if (ascii "inf").isPrefixOf (s.map toLower) then .infinite negative
  else if (ascii "nan").isPrefixOf (s.map toLower) then .nan
  else
    let hex : Option F := match s with
      | 48 :: c :: s => if c = 120 ∨ c = 88 then atofHex s else none
      | _ => none
    let value : F := match hex with
      | some value => value
      | none => atofDecimal s
    .finite (if negative then -value else value)

/-! ## Events -/

/-- One entry of the list of a `mode_info_set` event: the optional keys `cursor_shape`
and `attr_id` of the map. -/
structure ModeInfoMap where
  cursor_shape : Option (List Nat)
  attr_id : Option Nat
deriving DecidableEq, Repr

/-- One parameter tuple of `option_set`: `[name, value]`; `value` is the text of a value
that is a string, and `after` are the bytes that follow it in the buffer of the message
(the string of a node is not null-terminated). -/
structure OptionSet where
  name : String
  value : List Nat
  after : List Nat
deriving DecidableEq, Repr

/-- The parameters of a redraw event, decoded. -/
inductive RedrawParams where
  | none
  | option_set (options : List OptionSet)
  | grid_resize (cols rows : Nat)
  | default_colors_set (default_colors : List DefaultColors)
  | hl_attr_define (highlight_attribs : List HighlightDefine)
  | grid_line (grid_lines : List GridLine)
  | grid_cursor_goto (row col : Nat)
  | mode_info_set (mode_infos : List ModeInfoMap)
  | mode_change (mode : Nat)
  | set_title (title : List Nat)
  | grid_scroll (top bottom left right rows cols : Int)
deriving DecidableEq, Repr

/-- One redraw event: `[name, params...]`. -/
structure RedrawCommand where
  name : String
  params : RedrawParams
deriving DecidableEq, Repr

/-- Modelled from the spec: `MPackMatchString`, declared in a header that is not among the
sources.  The spec has every event dispatched on its name, and names that are not
recognized ignored; the helper is taken to test whether the string node is the name. -/
def MPackMatchString (node : String) (str : String) : Bool := node == str

/-- Float constants that `renderer.h` declares and the handlers use. -/
structure FloatConstants (F : Type) where
  DEFAULT_FONT_SIZE : F
  DEFAULT_DPI : F
  POINTS_PER_INCH : F

section Redraw

variable {F : Type} [LinearOrderedField F] [FloorRing F]

/-! ## Font -/

/-- The clamp `max(5.0f, min(font_size, 150.0f))` of `UpdateFontMetrics`.  `max` and `min`
are taken to be the macros of `windows.h`, `a > b ? a : b` and `a < b ? a : b` (the header
that would say is not among the sources): a comparison with not-a-number is false, so
not-a-number gives 150. -/
def clampFontSize : FloatValue F → F
  | .finite x => max 5 (min x 150)
  | .infinite negative => if negative then 5 else 150
  | .nan => 150

/-- Takes the family `font_string` in the size `font_size`, clamped to 5 .. 150: the
name is kept when it converts to fewer than `MAX_FONT_LENGTH` code units, the family
falls back to `Consolas` when the name in the record is not installed, and the cell
metrics are computed from the metrics of the font. -/
def UpdateFontMetrics (K : Constants) (KF : FloatConstants F) (env : Env) (r : Renderer F)
    (font_size : FloatValue F) (font_string : List Nat) : Renderer F :=
  let font_size := clampFontSize font_size
  let r := { r with last_requested_font_size := font_size }
  let wstrlen := font_string.length
  let r := if wstrlen ≠ 0 ∧ wstrlen < K.MAX_FONT_LENGTH then { r with font := font_string } else r
  let fallback_font := ascii "Consolas"
  let r := if !env.family_exists r.font then { r with font := fallback_font } else r
  let (font_face, res) := r.res.create
  let r := { r with res := { res with font_face := font_face } }
  let designUnitsPerEm : F := (env.designUnitsPerEm r.font : F)
  let desired_height := font_size * r.dpi_scale * (KF.DEFAULT_DPI / KF.POINTS_PER_INCH)
  let width_advance : F := ((env.glyph_advance_in_em r.font : Int) : F) / designUnitsPerEm
  let desired_width := desired_height * width_advance
  let r := { r with font_width := roundf desired_width }
  let r := { r with font_size := r.font_width / width_advance }
  let frac_font_ascent := (r.font_size * (env.ascent r.font : F)) / designUnitsPerEm
  let frac_font_descent := (r.font_size * (env.descent r.font : F)) / designUnitsPerEm
  let linegap := (r.font_size * ((env.lineGap r.font : Int) : F)) / designUnitsPerEm
  let half_linegap := linegap / 2
  let r := { r with font_ascent := ceilf (frac_font_ascent + half_linegap) }
  let r := { r with font_descent := ceilf (frac_font_descent + half_linegap) }
  let r := { r with font_height := r.font_ascent + r.font_descent }
  let r := { r with font_height := r.font_height * r.linespace_factor }
  let (dwrite_text_format, res) := r.res.create
  { r with res := { res with dwrite_text_format := dwrite_text_format } }

/-- Releases the text format, if there is one, and takes the new font. -/
def RendererUpdateFont (K : Constants) (KF : FloatConstants F) (env : Env) (r : Renderer F)
    (font_size : FloatValue F) (font_string : List Nat) : Renderer F :=
  let r := if r.res.dwrite_text_format ≠ .null then
      { r with res := { r.res with dwrite_text_format := r.res.dwrite_text_format.release } }
    else r
  UpdateFontMetrics K KF env r font_size font_string

/-- Handles a `guifont` value `name:hSIZE`; `guifont` holds the bytes of the memory from
the pointer on, of which the first `strlen` are the value.  Nothing is done for an empty
value, or when `strstr` finds no `:h`; otherwise the font is updated to the bytes before
the first `:h`, in the size `atof` reads from the rest of the value, or in the default
size when the length of that rest, computed in `size_t` (64 bits), is 256 or more. -/
def RendererUpdateGuiFont (K : Constants) (KF : FloatConstants F) (env : Env) (r : Renderer F)
    (guifont : List Nat) (strlen : Nat) : Renderer F :=
  if strlen = 0 then r
  else
    match strstr guifont (ascii ":h") with
    | none => r
    | some font_str_len =>
      let size_str_len : Int := ((strlen : Int) - ((font_str_len : Int) + 2)) % 2 ^ 64
      let size_str := guifont.drop (font_str_len + 2)
      let font_size : FloatValue F :=
        if size_str_len < 256 then atof (size_str.take size_str_len.toNat)
        else .finite KF.DEFAULT_FONT_SIZE
      RendererUpdateFont K KF env r font_size (guifont.take font_str_len)

/-- Handler of `option_set`: every `guifont` option updates the font and posts the
message that makes the window recompute the grid size. -/
def SetGuiOptions (K : Constants) (KF : FloatConstants F) (env : Env) (r : Renderer F)
    (option_set : List OptionSet) : Renderer F :=
  option_set.foldl (fun r option =>
    if MPackMatchString option.name "guifont" then
      (RendererUpdateGuiFont K KF env r (option.value ++ option.after)
        option.value.length).emit .PostMessage
    else r) r

/-! ## Cursor and title -/

/-- Handler of the position of `grid_cursor_goto`. -/
def UpdateCursorPos (r : Renderer F) (row col : Nat) : Renderer F :=
  { r with cursor := { r.cursor with row := row, col := col } }

/-- Moves the composition window of the input method to the cursor and, when that
succeeds, gives it the height and the face name of the font. -/
def UpdateImePos (env : Env) (r : Renderer F) : Except Fault (Renderer F) := do
  let x ← floatToInt ((r.cursor.col : F) * r.font_width)
  let y ← floatToInt ((r.cursor.row : F) * r.font_height)
  let r := r.emit (.ImmSetCompositionWindow x y)
  if env.composition_window_set then do
    let lfHeight ← floatToInt r.font_height
    pure (r.emit (.ImmSetCompositionFontW lfHeight r.font))
  else pure r

/-- Handler of `set_title`: the window text is the title followed by ` - Nvy`, or `Nvy`
alone for an empty title. -/
def UpdateWindowTitle (r : Renderer F) (new_title : List Nat) : Renderer F :=
  let append := if new_title.length = 0 then ascii "Nvy" else ascii " - Nvy"
  r.emit (.SetWindowText (new_title ++ append))

/-- Handler of `mode_change`: the cursor mode is the table entry `mode`. -/
def UpdateCursorMode (r : Renderer F) (mode : Nat) : Renderer F :=
  { r with cursor := { r.cursor with mode_info := some mode } }

/-- The table entry that `UpdateCursorModeInfos` stores for one map: the shape whose name
`strncmp` matches over the length of the given string, `None` without one; the
attribute id converted to `int` (kept as its residue modulo `2 ^ 32`), 0 without one. -/
def cursorModeInfoOf (mode_info_map : ModeInfoMap) : CursorModeInfo :=
  { shape :=
      match mode_info_map.cursor_shape with
      | some cursor_shape_str =>
        if strncmpEq cursor_shape_str (ascii "block") cursor_shape_str.length then .Block
        else if strncmpEq cursor_shape_str (ascii "vertical") cursor_shape_str.length then
          .Vertical
        else if strncmpEq cursor_shape_str (ascii "horizontal") cursor_shape_str.length then
          .Horizontal
        else .None
      | none => .None
    hl_attrib_id :=
      match mode_info_map.attr_id with
      | some hl_attrib_index => hl_attrib_index % 2 ^ 32
      | none => 0 }

/-- The loop of `UpdateCursorModeInfos`: entry `i` of the table is overwritten from the
`i`-th map. -/
def UpdateCursorModeInfos.loop :
    List ModeInfoMap → Nat → List CursorModeInfo → Except Fault (List CursorModeInfo)
  | [], _, infos => pure infos
  | mode_info_map :: rest, i, infos => do
    let infos ← writeAt infos i (cursorModeInfoOf mode_info_map)
    UpdateCursorModeInfos.loop rest (i + 1) infos

/-- Handler of `mode_info_set`. -/
def UpdateCursorModeInfos (K : Constants) (r : Renderer F) (mode_infos : List ModeInfoMap) :
    Except Fault (Renderer F) :=
  if mode_infos.length ≤ K.MAX_CURSOR_MODE_INFOS then do
    let infos ← UpdateCursorModeInfos.loop mode_infos 0 r.cursor_mode_infos
    pure { r with cursor_mode_infos := infos }
  else .error .assertion

/-! ## Flush -/

/-- Fills what the client area has beyond the grid, to the right and below, in the
background colour of entry 0. -/
def DrawBorderRectangles (K : Constants) (r : Renderer F) : Except Fault (Renderer F) := do
  let left_border := r.font_width * (r.grid_cols : F)
  let top_border := r.font_height * (r.grid_rows : F)
  let r ← (if left_border ≠ (r.pixel_size.width : F) then do
      let vertical_rect : D2D1_RECT_F F :=
        { left := left_border
          top := ((0 : Nat) : F)
          right := (r.pixel_size.width : F)
          bottom := (r.pixel_size.height : F) }
      let attribs ← readAt r.hl_attribs 0
      DrawBackgroundRect K r vertical_rect attribs
    else pure r)
  if top_border ≠ (r.pixel_size.height : F) then do
    let horizontal_rect : D2D1_RECT_F F :=
      { left := ((0 : Nat) : F)
        top := top_border
        right := (r.pixel_size.width : F)
        bottom := (r.pixel_size.height : F) }
    let attribs ← readAt r.hl_attribs 0
    DrawBackgroundRect K r horizontal_rect attribs
  else pure r

/-! ## Dispatch -/

/-- Redraws the row of the cursor when it is a row of the grid. -/
def redrawCursorRow (K : Constants) (r : Renderer F) : Except Fault (Renderer F) :=
  if r.cursor.row < r.grid_rows then DrawGridLine K r r.cursor.row else pure r

/-- Body of the loop of `RendererRedraw` for one event.  The name selects the handler; a
handler that is given parameters of another shape than it reads is a fault. -/
def RendererRedraw.command (K : Constants) (KF : FloatConstants F) (env : Env)
    (r : Renderer F) (redraw_command_arr : RedrawCommand) : Except Fault (Renderer F) := do
  let redraw_command_name := redraw_command_arr.name
  let r ← (if MPackMatchString redraw_command_name "option_set" then
      match redraw_command_arr.params with
      | .option_set options => pure (SetGuiOptions K KF env r options)
      | _ => .error .invalidAccess
    else pure r)
  let r ← (if MPackMatchString redraw_command_name "grid_resize" then
      match redraw_command_arr.params with
      | .grid_resize cols rows => UpdateGridSize r cols rows
      | _ => .error .invalidAccess
    else pure r)
  if MPackMatchString redraw_command_name "grid_clear" then ClearGrid K r
  else if MPackMatchString redraw_command_name "default_colors_set" then
    match redraw_command_arr.params with
    | .default_colors_set default_colors => UpdateDefaultColors r default_colors
    | _ => .error .invalidAccess
  else if MPackMatchString redraw_command_name "hl_attr_define" then
    match redraw_command_arr.params with
    | .hl_attr_define highlight_attribs => UpdateHighlightAttributes K r highlight_attribs
    | _ => .error .invalidAccess
  else if MPackMatchString redraw_command_name "grid_line" then
    match redraw_command_arr.params with
    | .grid_line grid_lines => DrawGridLines K r grid_lines
    | _ => .error .invalidAccess
  else if MPackMatchString redraw_command_name "grid_cursor_goto" then
    match redraw_command_arr.params with
    | .grid_cursor_goto row col => do
      let r ← redrawCursorRow K r
      let r := UpdateCursorPos r row col
      UpdateImePos env r
    | _ => .error .invalidAccess
  else if MPackMatchString redraw_command_name "mode_info_set" then
    match redraw_command_arr.params with
    | .mode_info_set mode_infos => UpdateCursorModeInfos K r mode_infos
    | _ => .error .invalidAccess
  else if MPackMatchString redraw_command_name "mode_change" then
    match redraw_command_arr.params with
    | .mode_change mode => do
      let r ← redrawCursorRow K r
      pure (UpdateCursorMode r mode)
    | _ => .error .invalidAccess
  else if MPackMatchString redraw_command_name "set_title" then
    match redraw_command_arr.params with
    | .set_title title => pure (UpdateWindowTitle r title)
    | _ => .error .invalidAccess
  else if MPackMatchString redraw_command_name "busy_start" then
    redrawCursorRow K { r with ui_busy := true }
  else if MPackMatchString redraw_command_name "busy_stop" then
    pure { r with ui_busy := false }
  else if MPackMatchString redraw_command_name "grid_scroll" then
    match redraw_command_arr.params with
    | .grid_scroll top bottom left right rows cols =>
      ScrollRegion K r top bottom left right rows cols
    | _ => .error .invalidAccess
  else if MPackMatchString redraw_command_name "flush" then do
    let r ← (if !r.ui_busy then DrawCursor K r else pure r)
    let r ← DrawBorderRectangles K r
    pure (FinishDraw env r)
  else pure r

/-- The loop of `RendererRedraw` over the events from index `i` on; `env i` are the
results of the library calls made for event `i`. -/
def RendererRedraw.loop (K : Constants) (KF : FloatConstants F) (env : Nat → Env) :
    List RedrawCommand → Nat → Renderer F → Except Fault (Renderer F)
  | [], _, r => pure r
  | redraw_command_arr :: rest, i, r => do
    let r ← RendererRedraw.command K KF (env i) r redraw_command_arr
    RendererRedraw.loop K KF env rest (i + 1) r

/-- Handles one redraw message: begins a frame unless one is open, then handles the
events in order. -/
def RendererRedraw (K : Constants) (KF : FloatConstants F) (env : Nat → Env) (r : Renderer F)
    (params : List RedrawCommand) : Except Fault (Renderer F) :=
  RendererRedraw.loop K KF env params 0 (StartDraw r)

end Redraw

/-! ## Reading the calls -/

/-- What a call belongs to: drawing into the frame (`draw`), opening, closing and
presenting the frame (`frame`), the device objects (`device`), the window and the input
method (`window`). -/
inductive CallKind where
  | draw
  | frame
  | device
  | window
deriving DecidableEq, Repr

/-- The kind of a call. -/
def DrawCall.kind {F : Type} : DrawCall F → CallKind
  | .CreateTextLayout _ _ _ => .draw
  | .SetCharacterSpacing _ _ => .draw
  | .FillRectangle _ _ => .draw
  | .SetFontStyleItalic _ => .draw
  | .SetFontWeightBold _ => .draw
  | .SetStrikethrough _ => .draw
  | .SetUnderline _ => .draw
  | .SetDrawingEffect _ _ _ => .draw
  | .PushAxisAlignedClip _ => .draw
  | .SetTypography _ => .draw
  | .Draw _ _ => .draw
  | .PopAxisAlignedClip => .draw
  | .WaitForSingleObjectEx => .frame
  | .SetTarget _ => .frame
  | .BeginDraw => .frame
  | .SetTransform => .frame
  | .EndDraw => .frame
  | .Present => .frame
  | .CopyResource => .frame
  | .OMSetRenderTargets => .device
  | .Flush => .device
  | .ResizeBuffers _ _ => .device
  | .ImmSetCompositionWindow _ _ => .window
  | .ImmSetCompositionFontW _ _ => .window
  | .SetWindowText _ => .window
  | .PostMessage => .window

/-- Whether the call styles the current text layout: character spacing, italic, bold,
strikethrough, underline, drawing effect. -/
def DrawCall.isStyling {F : Type} : DrawCall F → Bool
  | .SetCharacterSpacing _ _ => true
  | .SetFontStyleItalic _ => true
  | .SetFontWeightBold _ => true
  | .SetStrikethrough _ => true
  | .SetUnderline _ => true
  | .SetDrawingEffect _ _ _ => true
  | _ => false

/-- Whether the call is `Present`. -/
def DrawCall.isPresent {F : Type} : DrawCall F → Bool
  | .Present => true
  | _ => false

/-- Number of `Present` calls among the calls. -/
def presentCount {F : Type} (calls : List (DrawCall F)) : Nat :=
  calls.countP DrawCall.isPresent

/-- The origins of the text drawn, in order: one `Draw` call ends every redraw of a row
and every drawing of the character under a block cursor. -/
def drawsOf {F : Type} (calls : List (DrawCall F)) : List (F × F) :=
  calls.filterMap (fun c =>
    match c with
    | .Draw originX originY => some (originX, originY)
    | _ => none)

/-- The record `t` has the calls of `r` followed by calls that all satisfy `P`. -/
def Renderer.added {F : Type} (P : DrawCall F → Prop) (r t : Renderer F) : Prop :=
  ∃ new, t.calls = r.calls ++ new ∧ ∀ c ∈ new, P c

/-- The record `t` is reached from `r` by a handler that leaves the busy flag and the
frame flag alone and adds only calls that draw or that go to the window. -/
def Renderer.handled {F : Type} (r t : Renderer F) : Prop :=
  t.ui_busy = r.ui_busy ∧ t.draw_active = r.draw_active ∧
  r.added (fun c => c.kind = .draw ∨ c.kind = .window) t

/-- The event names that `RendererRedraw` tests for. -/
def handledNames : List String :=
  ["option_set", "grid_resize", "grid_clear", "default_colors_set", "hl_attr_define",
    "grid_line", "grid_cursor_goto", "mode_info_set", "mode_change", "set_title",
    "busy_start", "busy_stop", "grid_scroll", "flush"]

/-- Whether the renderer is busy after events of the names `names`, when it was `busy`
before: busy from a `busy_start` until the next `busy_stop`. -/
def busyAfter (busy : Bool) (names : List String) : Bool :=
  names.foldl (fun b name =>
    if name = "busy_start" then true else if name = "busy_stop" then false else b) busy

/-! ## Runs of one highlight id, as the row loop finds them -/

/-- The runs that the loop of `DrawGridLine` closes when it reads the ids `ids` from
column `i` on, the current run having id `hl` and starting at column `off`: the list of
`(start, end, id)` of the closed runs, and the id and start of the run still open. -/
def hlRuns : List Nat → Nat → Nat → Nat → List (Nat × Nat × Nat) × Nat × Nat
  | [], _, hl, off => ([], hl, off)
  | next :: rest, i, hl, off =>
    if next ≠ hl then
      (((off, i, hl) :: (hlRuns rest (i + 1) next i).1), (hlRuns rest (i + 1) next i).2)
    else hlRuns rest (i + 1) hl off

/-- The rectangle `bg_rect` that the loop of `DrawGridLine` fills for the run of the
columns `s` to `e - 1` of row `row`. -/
def DrawGridLine.bg_rect {F : Type} [NatCast F] [Add F] [Mul F] (font_width font_height : F)
    (row s e : Nat) : D2D1_RECT_F F :=
  { left := (s : F) * font_width
    top := (row : F) * font_height
    right := (s : F) * font_width + font_width * ((e - s : Nat) : F)
    bottom := (row : F) * font_height + font_height }

/-- The rectangle `last_rect` that `DrawGridLine` fills for the last run of row `row`,
from column `s` to the end of the row. -/
def DrawGridLine.last_rect {F : Type} [NatCast F] [Add F] [Mul F] (font_width font_height : F)
    (row s cols : Nat) : D2D1_RECT_F F :=
  { left := (s : F) * font_width
    top := (row : F) * font_height
    right := (cols : F) * font_width
    bottom := (row : F) * font_height + font_height }

/-- The runs of a row with the highlight ids `ids`: those the loop closes, starting from
the id of column 0, and the last one, which reaches the end of the row. -/
def rowRuns (ids : List Nat) : List (Nat × Nat × Nat) :=
  match ids with
  | [] => []
  | first :: _ =>
    (hlRuns ids 0 first 0).1 ++ [((hlRuns ids 0 first 0).2.2, ids.length, (hlRuns ids 0 first 0).2.1)]

/-! ## Sample values for the cursor and for redraw messages -/

/-- Sample highlight table in which entry 2 has colours of its own (red on blue) and is
bold. -/
def sampleCursorTable : List HighlightAttributes :=
  [⟨0xffffff, 0x000000, 0xff0000, 0⟩, ⟨0x46464646, 0x46464646, 0x46464646, 1⟩,
    ⟨0xff0000, 0x0000ff, 0x46464646, 4⟩] ++
    List.replicate 5 ⟨0x46464646, 0x46464646, 0x46464646, 0⟩

/-- Sample renderer with an active cursor: the sample grid, the table
`sampleCursorTable`, the cursor on `f` (row 1, column 1, highlight id 2), and a mode
table whose entry 0, the active one, is a block with attribute id 0. -/
def sampleCursorRenderer : Renderer Int :=
  { sampleRenderer with
    hl_attribs := sampleCursorTable
    cursor := { mode_info := some 0, row := 1, col := 1 }
    cursor_mode_infos := [⟨.Block, 0⟩, ⟨.Vertical, 0⟩, ⟨.Horizontal, 3⟩, ⟨.None, 0⟩] }

/-- Sample renderer whose row 0 has the highlight ids 1, 1, 3, 3, the second cell marked
wide; the rest is the sample grid. -/
def sampleRunsRenderer : Renderer Int :=
  { sampleRenderer with
    grid_cell_properties :=
      some ([⟨1, false⟩, ⟨1, true⟩, ⟨3, false⟩, ⟨3, false⟩] ++ List.replicate 8 ⟨2, false⟩) }

/-- Sample of a renderer before the first redraw message: a table of eight zeroed
entries, no grid, no cursor mode, no frame open, cells of 8 by 16 pixels in a client area
of 640 by 384 pixels. -/
def sampleFreshRenderer : Renderer ℚ :=
  { sampleRendererQ with
    grid_rows := 0
    grid_cols := 0
    grid_chars := none
    grid_cell_properties := none
    hl_attribs := List.replicate 8 ⟨0, 0, 0, 0⟩
    pixel_size := { width := 640, height := 384 } }

/-- Sample results of library calls: the device stays, the client area is 32 by 48
pixels, every font family is installed and has the metrics of Consolas. -/
def sampleEnv : Env :=
  { present_device_removed := false
    resize_device_removed := false
    client_width := 32
    client_height := 48
    composition_window_set := true
    family_exists := fun _ => true
    designUnitsPerEm := fun _ => 2048
    ascent := fun _ => 1884
    descent := fun _ => 514
    lineGap := fun _ => 0
    glyph_advance_in_em := fun _ => 1126 }

/-- Sample float constants: 14 points, 96 dots and 72 points per inch. -/
def sampleFloatConstants : FloatConstants ℚ :=
  { DEFAULT_FONT_SIZE := 14, DEFAULT_DPI := 96, POINTS_PER_INCH := 72 }

/-! ## Sample messages and the records they lead to -/

/-- Sample renderer with an active cursor and exact metrics: the sample grid, the table
`sampleCursorTable`, the cursor on `f` (row 1, column 1, highlight id 2), a mode table
whose entry 0, the active one, is a block with attribute id 0, no frame open. -/
def sampleCursorRendererQ : Renderer ℚ :=
  { sampleRendererQ with
    hl_attribs := sampleCursorTable
    cursor := { mode_info := some 0, row := 1, col := 1 }
    cursor_mode_infos := [⟨.Block, 0⟩, ⟨.Vertical, 0⟩, ⟨.Horizontal, 3⟩, ⟨.None, 0⟩] }

/-- The calls of `StartDraw` on the sample records. -/
def sampleStartCalls : List (DrawCall ℚ) :=
  [.WaitForSingleObjectEx, .SetTarget (.live 6), .BeginDraw, .SetTransform]

/-- The calls of `FinishDraw` when the device stays. -/
def sampleFinishCalls : List (DrawCall ℚ) := [.EndDraw, .Present, .CopyResource]

/-- The calls that redraw row 1 of `sampleCursorRendererQ`: `efgh`, bold, red on blue. -/
def sampleRowCalls : List (DrawCall ℚ) :=
  [.CreateTextLayout [101, 102, 103, 104] 32 16,
    .SetCharacterSpacing 8 { startPosition := 0, length := 1 },
    .SetCharacterSpacing 8 { startPosition := 1, length := 1 },
    .SetCharacterSpacing 8 { startPosition := 2, length := 1 },
    .SetCharacterSpacing 8 { startPosition := 3, length := 1 },
    .FillRectangle { left := 0, top := 16, right := 32, bottom := 32 } 0x0000ff,
    .SetFontWeightBold { startPosition := 0, length := 4 },
    .SetDrawingEffect 0xff0000 0xff0000 { startPosition := 0, length := 4 },
    .PushAxisAlignedClip { left := 0, top := 16, right := 32, bottom := 32 },
    .Draw 0 16,
    .PopAxisAlignedClip]

/-- The calls that draw the block cursor of `sampleCursorRendererQ` on `f`. -/
def sampleCursorCalls : List (DrawCall ℚ) :=
  [.FillRectangle { left := 8, top := 16, right := 16, bottom := 32 } 0xffffff,
    .CreateTextLayout [102] 8 16,
    .SetFontWeightBold { startPosition := 0, length := 1 },
    .SetDrawingEffect 0x000000 0xff0000 { startPosition := 0, length := 1 },
    .SetCharacterSpacing 8 { startPosition := 0, length := 1 },
    .PushAxisAlignedClip { left := 8, top := 16, right := 16, bottom := 32 },
    .Draw 8 16,
    .PopAxisAlignedClip]

/-- The record `sampleCursorRendererQ` after a message of one `busy_start`. -/
def sampleBusyStart : Renderer ℚ :=
  { sampleCursorRendererQ with
    ui_busy := true
    draw_active := true
    calls := sampleStartCalls ++ sampleRowCalls }

/-- The record `sampleCursorRendererQ` after the message `busy_start`, `flush`. -/
def sampleBusyFrame : Renderer ℚ :=
  { sampleCursorRendererQ with
    ui_busy := true
    draw_active := false
    calls := sampleStartCalls ++ sampleRowCalls ++ sampleFinishCalls }

/-- The record `sampleCursorRendererQ` after the message `busy_start`, `busy_stop`. -/
def sampleBusyStop : Renderer ℚ :=
  { sampleCursorRendererQ with
    ui_busy := false
    draw_active := true
    calls := sampleStartCalls ++ sampleRowCalls }

/-- The record `sampleCursorRendererQ` after the message `busy_start`, `busy_stop`,
`flush`. -/
def sampleCursorFrame : Renderer ℚ :=
  { sampleCursorRendererQ with
    ui_busy := false
    draw_active := false
    calls := sampleStartCalls ++ sampleRowCalls ++ sampleCursorCalls ++ sampleFinishCalls }

/-- Sample events of a first frame, before its `flush`: a grid of 1 row and 2 columns,
white on black as default colours, and `A` in cell (0, 0). -/
def sampleFirstEvents : List RedrawCommand :=
  [⟨"grid_resize", .grid_resize 2 1⟩,
    ⟨"default_colors_set", .default_colors_set [⟨0xffffff, 0x000000, 0x000000⟩]⟩,
    ⟨"grid_line", .grid_line [⟨0, 0, [⟨[65], [0, 1]⟩]⟩]⟩]

/-- The record `sampleFreshRenderer` after the message `sampleFirstEvents`, `flush`. -/
def sampleFirstFrame : Renderer ℚ :=
  { sampleFreshRenderer with
    grid_rows := 1
    grid_cols := 2
    grid_chars := some [65, 32]
    grid_cell_properties := some [⟨0, false⟩, ⟨0, false⟩]
    hl_attribs := ⟨0xffffff, 0x000000, 0x000000, 0⟩ :: List.replicate 7 ⟨0, 0, 0, 0⟩
    calls := sampleStartCalls ++
      [.CreateTextLayout [65, 32] 16 16,
        .SetCharacterSpacing 8 { startPosition := 0, length := 1 },
        .SetCharacterSpacing 8 { startPosition := 1, length := 1 },
        .FillRectangle { left := 0, top := 0, right := 16, bottom := 16 } 0x000000,
        .SetDrawingEffect 0xffffff 0x000000 { startPosition := 0, length := 2 },
        .PushAxisAlignedClip { left := 0, top := 0, right := 16, bottom := 16 },
        .Draw 0 0,
        .PopAxisAlignedClip,
        .FillRectangle { left := 16, top := 0, right := 640, bottom := 384 } 0x000000,
        .FillRectangle { left := 0, top := 16, right := 640, bottom := 384 } 0x000000] ++
      sampleFinishCalls }

/-! ## Initialization -/

/-- Modelled from the spec: `hl_attribs.resize(n)`.  The container type of `hl_attribs`
is declared in `renderer.h`, which is not among the sources; the spec has the highlight
table a fixed-capacity array indexed by id, so the call is taken to size the table to
`n` entries: the entries there are stay, and zeroed entries `v` are added. -/
def resize {α : Type} (xs : List α) (n : Nat) (v : α) : List α :=
  xs.take n ++ List.replicate (n - xs.length) v

/-- Whether the pointer designates an object that exists and was created when `n`
objects had been created already, so after every object of that time. -/
def Handle.createdAfter (p : Handle) (n : Nat) : Bool :=
  match p with
  | .live object => decide (n ≤ object)
  | _ => false

/-- Whether the pointer designates an object that exists. -/
def Handle.valid (p : Handle) : Bool :=
  match p with
  | .live _ => true
  | _ => false

/-- The texts laid out, in order: one `CreateTextLayout` call begins every redraw of a
row, with the characters of the row as they are in the store at that time. -/
def layoutsOf {F : Type} (calls : List (DrawCall F)) : List (List Nat) :=
  calls.filterMap (fun c =>
    match c with
    | .CreateTextLayout text _ _ => some text
    | _ => none)

/-- The characters of row `row` in the grid store. -/
def Renderer.rowText {F : Type} (r : Renderer F) (row : Nat) : Option (List Nat) :=
  r.grid_chars.map (fun chars => (chars.drop (row * r.grid_cols)).take r.grid_cols)

/-- The column behind the entries `cells` when the first one starts at column `col`,
counted as the loop of `DrawGridLines` advances: two columns for an entry followed by an
entry with an empty text, none for another entry with an empty text, and otherwise one
column per code unit of the text, `repeat` times over. -/
def cellsEnd : List GridLineCell → Nat → Nat
  | [], col => col
  | c :: rest, col =>
    let next_is_empty := match rest with
      | next :: _ => decide (next.text = [])
      | [] => false
    if next_is_empty then cellsEnd rest (col + 2)
    else if c.text = [] then cellsEnd rest col
    else cellsEnd rest (col + c.text.length * c.repeatCount)

/-- The entry lies inside a grid of `rows` rows and `cols` columns: its row is a row of
the grid and its cells end at or before the last column. -/
def GridLine.inside (g : GridLine) (rows cols : Nat) : Prop :=
  g.row < rows ∧ cellsEnd g.cells g.col_start ≤ cols

/-- The number that a string of decimal digits writes. -/
def decimal (digits : List Nat) : Nat :=
  digits.foldl (fun value c => value * 10 + (c - 48)) 0

section Initialization

variable {F : Type} [LinearOrderedField F] [FloorRing F]

/-- Sets the options of the record, sizes the highlight table to
`MAX_HIGHLIGHT_ATTRIBS` entries, creates the factories, the devices and the glyph
renderer, and takes the default font; `DEFAULT_FONT` is the constant of `renderer.h`. -/
def RendererInitialize (K : Constants) (KF : FloatConstants F) (env : Env) (r : Renderer F)
    (DEFAULT_FONT : List Nat) (disable_ligatures : Bool) (linespace_factor monitor_dpi : F) :
    Renderer F :=
  let r := { r with disable_ligatures := disable_ligatures }
  let r := { r with linespace_factor := linespace_factor }
  let r := { r with dpi_scale := monitor_dpi / 96 }
  let r := { r with hl_attribs := resize r.hl_attribs K.MAX_HIGHLIGHT_ATTRIBS ⟨0, 0, 0, 0⟩ }
  let r := InitializeD2D r
  let r := InitializeD3D r
  let r := InitializeDWrite r
  let (glyph_renderer, res) := r.res.create
  let r := { r with res := { res with glyph_renderer := glyph_renderer } }
  RendererUpdateFont K KF env r (.finite KF.DEFAULT_FONT_SIZE) DEFAULT_FONT

end Initialization

/-! ## Columns and ids of the entries of a `grid_line` tuple -/

/-- Whether the entries `rest` that follow an entry begin with an empty text, the test
`j < cells_array_length - 1 && strlen(next) == 0` of `DrawGridLines`. -/
def followedByEmpty (rest : List GridLineCell) : Bool :=
  match rest with
  | next :: _ => decide (next.text = [])
  | [] => false

/-- The number of columns by which the loop of `DrawGridLines` advances `col_offset` for
the entry `c` followed by the entries `rest`: 2 in the double-width branch, 0 for an
empty text that is passed over, and the code units of the text `repeat` times over
otherwise. -/
def cellAdvance (c : GridLineCell) (rest : List GridLineCell) : Nat :=
  if followedByEmpty rest then 2
  else if c.text = [] then 0
  else c.text.length * c.repeatCount

/-- The value of `col_offset` when the loop of `DrawGridLines` reaches entry `k` of
`cells`, the first entry being reached with `col`. -/
def cellStart : List GridLineCell → Nat → Nat → Nat
  | [], col, _ => col
  | _ :: _, col, 0 => col
  | c :: rest, col, k + 1 => cellStart rest (col + cellAdvance c rest) k

/-- The value of `hl_attrib_id` with which the loop of `DrawGridLines` handles entry `k`
of `cells`, the value before the first entry being `hl`: the id of entry `k` when it
carries one, otherwise the value of the entry before. -/
def carriedId : List GridLineCell → Nat → Nat → Nat
  | [], hl, _ => hl
  | c :: _, hl, 0 => c.ints.head?.getD hl
  | c :: rest, hl, k + 1 => carriedId rest (c.ints.head?.getD hl) k

/-- The character that the loop of `DrawGridLines` leaves in column `j` of the columns
of the entry `c` followed by `rest`: in the double-width branch the first code unit of
the text, and next to it the null character for a text of one code unit and the second
code unit otherwise; in a run the code units of the text, over and over. -/
def storedChar (c : GridLineCell) (rest : List GridLineCell) (j : Nat) : Nat :=
  if followedByEmpty rest then
    if j = 0 then c.text.getD 0 0
    else if c.text.length = 1 then 0
    else c.text.getD 1 0
  else c.text.getD (j % c.text.length) 0

/-- The wide mark that the loop of `DrawGridLines` leaves in column `j` of the columns of
an entry followed by `rest`, `old` being the mark before: in the double-width branch the
first column is marked and the second keeps its mark; a run clears the mark. -/
def storedWide (rest : List GridLineCell) (j : Nat) (old : Bool) : Bool :=
  if followedByEmpty rest then
    if j = 0 then true else old
  else false

/-! ## Drawing inside a frame -/

/-- Whether every drawing call among `calls` is issued inside a frame, that is after a
`BeginDraw` and before the next `EndDraw`; `active` tells whether a frame is open when
the first call is issued. -/
def drawsInFrame {F : Type} : Bool → List (DrawCall F) → Bool
  | _, [] => true
  | active, c :: rest =>
    match c with
    | .BeginDraw => drawsInFrame true rest
    | .EndDraw => drawsInFrame false rest
    | _ => (c.kind != .draw || active) && drawsInFrame active rest

/-! ## The older renderer: cursor modes, colours and brushes -/

namespace Legacy

/-- One entry of the list of a `mode_info_set` event as the older renderer reads it: the
optional keys `cursor_shape`, `cell_percentage` and `attr_id` of the map. -/
structure ModeInfoMap where
  cursor_shape : Option (List Nat)
  cell_percentage : Option Int
  attr_id : Option Nat
deriving DecidableEq, Repr

/-- One entry of the cursor mode table of the older renderer. -/
structure CursorModeInfo (F : Type) where
  shape : CursorShape
  cell_percentage : F
  hl_attrib_index : Nat
deriving DecidableEq, Repr

/-- The table entry that the older `UpdateCursorModeInfos` stores for one map: the shape
whose name `strncmp` matches over the length of the given string, `None` without one;
the percentage divided by 100, 0 without one; the attribute id converted to `int` (kept
as its residue modulo `2 ^ 32`), 0 without one. -/
def cursorModeInfoOf {F : Type} [LinearOrderedField F] (mode_info_map : ModeInfoMap) :
    CursorModeInfo F :=
  { shape :=
      match mode_info_map.cursor_shape with
      | some cursor_shape_str =>
        if strncmpEq cursor_shape_str (ascii "block") cursor_shape_str.length then .Block
        else if strncmpEq cursor_shape_str (ascii "vertical") cursor_shape_str.length then
          .Vertical
        else if strncmpEq cursor_shape_str (ascii "horizontal") cursor_shape_str.length then
          .Horizontal
        else .None
      | none => .None
    cell_percentage :=
      match mode_info_map.cell_percentage with
      | some cell_percentage => (cell_percentage : F) / 100
      | none => 0
    hl_attrib_index :=
      match mode_info_map.attr_id with
      | some hl_attrib_index => hl_attrib_index % 2 ^ 32
      | none => 0 }

/-- Creates a brush of the colour `color`, a new object, and puts it into `brushes`
unless the colour has a brush there already. -/
def CreateBrush (r : Renderer) (color : Nat) : Renderer :=
  let brush := Handle.live r.objects
  let r := { r with objects := r.objects + 1 }
  if (r.brushes.lookup color).isSome then r
  else { r with brushes := r.brushes ++ [(color, brush)] }

/-- Handler of `default_colors_set` in the older renderer: entry 0 takes the colours, and
a brush is created for each of them. -/
def UpdateDefaultColors (r : Renderer) (default_colors : List DefaultColors) :
    Except Fault Renderer :=
  default_colors.foldlM (fun r color_arr => do
    let hl ← modifyAt r.hl_attribs 0 (fun _ =>
      { foreground := color_arr.foreground % 2 ^ 32
        background := color_arr.background % 2 ^ 32
        special := color_arr.special % 2 ^ 32
        flags := 0 })
    let r := { r with hl_attribs := hl }
    let r := CreateBrush r (color_arr.foreground % 2 ^ 32)
    let r := CreateBrush r (color_arr.background % 2 ^ 32)
    pure (CreateBrush r (color_arr.special % 2 ^ 32))) r

/-- The brush that the lambda `SetColor` of the older `UpdateHighlightAttributes` creates
for a colour that the map gives; the value it stores is that of `Nvy.SetColor`. -/
def SetColor (r : Renderer) (color_node : Option Nat) : Renderer :=
  match color_node with
  | some u => CreateBrush r (u % 2 ^ 32)
  | none => r

/-- Body of the loop of the older `UpdateHighlightAttributes` for one tuple: the
assertion on the id, the stores into `hl_attribs[attrib_index]`, and the brushes of the
colours given. -/
def UpdateHighlightAttribute (K : Constants) (r : Renderer) (d : HighlightDefine) :
    Except Fault Renderer :=
  if d.attrib_index ≤ K.MAX_HIGHLIGHT_ATTRIBS then do
    let hl ← modifyAt r.hl_attribs d.attrib_index (fun a => applyAttribMap K a d.attrib_map)
    let r := { r with hl_attribs := hl }
    let r := SetColor r d.attrib_map.foreground
    let r := SetColor r d.attrib_map.background
    pure (SetColor r d.attrib_map.special)
  else .error .assertion

/-- Handler of `hl_attr_define` in the older renderer. -/
def UpdateHighlightAttributes (K : Constants) (r : Renderer)
    (highlight_attribs : List HighlightDefine) : Except Fault Renderer :=
  highlight_attribs.foldlM (UpdateHighlightAttribute K) r

/-- The brush with which the older `ApplyHighlightAttributes` draws text of the
attributes `hl_attribs`: that of the background with the reverse flag and of the
foreground otherwise, the colour of entry 0 in place of the sentinel `DEFAULT_COLOR`;
`none` when `brushes.at` finds no brush for the colour. -/
def ApplyHighlightAttributes (K : Constants) (r : Renderer) (hl_attribs : HighlightAttributes) :
    Option Handle :=
  if hasFlag hl_attribs.flags HL_ATTRIB_REVERSE then
    if hl_attribs.background = K.DEFAULT_COLOR then
      (r.hl_attribs[0]?).bind (fun d => r.brushes.lookup d.background)
    else r.brushes.lookup hl_attribs.background
  else
    if hl_attribs.foreground = K.DEFAULT_COLOR then
      (r.hl_attribs[0]?).bind (fun d => r.brushes.lookup d.foreground)
    else r.brushes.lookup hl_attribs.foreground

/-- The brush with which the older `DrawBackgroundRect` fills a rectangle for the
attributes `hl_attribs`: that of the foreground with the reverse flag and of the
background otherwise, the colour of entry 0 in place of the sentinel `DEFAULT_COLOR`;
`none` when `brushes.at` finds no brush for the colour. -/
def DrawBackgroundRect (K : Constants) (r : Renderer) (hl_attribs : HighlightAttributes) :
    Option Handle :=
  if hasFlag hl_attribs.flags HL_ATTRIB_REVERSE then
    if hl_attribs.foreground = K.DEFAULT_COLOR then
      (r.hl_attribs[0]?).bind (fun d => r.brushes.lookup d.foreground)
    else r.brushes.lookup hl_attribs.foreground
  else
    if hl_attribs.background = K.DEFAULT_COLOR then
      (r.hl_attribs[0]?).bind (fun d => r.brushes.lookup d.background)
    else r.brushes.lookup hl_attribs.background

/-- The colour `color` has a brush in `brushes`. -/
def Renderer.hasBrush (r : Renderer) (color : Nat) : Prop :=
  ∃ brush, r.brushes.lookup color = some brush

/-- Every colour that has a brush in `r` has the same brush in `t`. -/
def Renderer.keepsBrushes (r t : Renderer) : Prop :=
  ∀ color brush, r.brushes.lookup color = some brush → t.brushes.lookup color = some brush

/-- Every colour of the highlight table other than the sentinel has a brush. -/
def Renderer.tableCached (K : Constants) (r : Renderer) : Prop :=
  ∀ a ∈ r.hl_attribs,
    (a.foreground ≠ K.DEFAULT_COLOR → r.hasBrush a.foreground) ∧
    (a.background ≠ K.DEFAULT_COLOR → r.hasBrush a.background) ∧
    (a.special ≠ K.DEFAULT_COLOR → r.hasBrush a.special)

/-- The three colours of entry 0 of the highlight table have a brush each. -/
def Renderer.defaultsCached (r : Renderer) : Prop :=
  ∃ d, r.hl_attribs[0]? = some d ∧
    r.hasBrush d.foreground ∧ r.hasBrush d.background ∧ r.hasBrush d.special

/-- The events that write the highlight table, with their tuples. -/
inductive TableEvent where
  | default_colors_set (default_colors : List DefaultColors)
  | hl_attr_define (highlight_attribs : List HighlightDefine)
deriving DecidableEq, Repr

/-- The handler that the older `RendererRedraw` calls for the event. -/
def TableEvent.handle (K : Constants) (r : Renderer) : TableEvent → Except Fault Renderer
  | .default_colors_set default_colors => UpdateDefaultColors r default_colors
  | .hl_attr_define highlight_attribs => UpdateHighlightAttributes K r highlight_attribs

/-- The colours that the event stores in the highlight table: the three of every tuple
of `default_colors_set`, and those that the maps of `hl_attr_define` give. -/
def TableEvent.colors : TableEvent → List Nat
  | .default_colors_set default_colors =>
    default_colors.flatMap (fun c =>
      [c.foreground % 2 ^ 32, c.background % 2 ^ 32, c.special % 2 ^ 32])
  | .hl_attr_define highlight_attribs =>
    highlight_attribs.flatMap (fun d =>
      (d.attrib_map.foreground.toList ++ d.attrib_map.background.toList ++
        d.attrib_map.special.toList).map (fun u => u % 2 ^ 32))

/-- The events `events` handled in order. -/
def handleEvents (K : Constants) (r : Renderer) (events : List TableEvent) :
    Except Fault Renderer :=
  events.foldlM (fun r e => e.handle K r) r

/-- Sample of the older renderer for the colours: a table of four entries that hold the
sentinel, and no brush. -/
def sampleTableRenderer : Renderer :=
  { grid_rows := 0
    grid_cols := 0
    grid_chars := none
    grid_hl_attrib_ids := none
    hl_attribs := List.replicate 4 ⟨0x46464646, 0x46464646, 0x46464646, 0⟩ }

end Legacy

/-! ## The fixed-size array of `src/src/common/array.h` -/

namespace Common

/-- The template `Array<T, n>` for a type `T` of `size` bytes: the object representation
of the member `inner`, `n * size` bytes, element `i` at the bytes `i * size` to
`i * size + size - 1`.  A byte is `none` while its value is indeterminate. -/
structure Array (size n : Nat) where
  inner : List (Option Nat)
deriving DecidableEq, Repr

/-- Library call `memcpy(dst, src, count)` between two objects: the first `count` bytes
of `dst` become those of `src`. -/
def memcpy (dst src : List (Option Nat)) (count : Nat) : List (Option Nat) :=
  src.take count ++ dst.drop count

/-- The copy constructor `Array(Array<T, n> const &other)`: `inner` has no initializer,
so its bytes are indeterminate, and `memcpy(inner, other.inner, n)` copies `n` bytes. -/
def Array.copy {size n : Nat} (other : Array size n) : Array size n :=
  { inner := memcpy (List.replicate (n * size) none) other.inner n }

/-- The operator `operator[](i)`: the bytes of element `i`. -/
def Array.get {size n : Nat} (a : Array size n) (i : Nat) : List (Option Nat) :=
  (a.inner.drop (i * size)).take size

/-- The array whose elements are the little-endian forms of the numbers `values`. -/
def Array.ofValues (size : Nat) (values : List Nat) : Array size values.length :=
  { inner := values.flatMap (fun v => (List.range size).map (fun k => some (v / 256 ^ k % 256))) }

end Common

/-! # Properties -/

/-! ## Checked access -/

theorem readAt_eq {α : Type} {xs : List α} {i : Nat} {x : α} (h : xs[i]? = some x) :
    readAt xs i = .ok x := by
  simp [readAt, h]

theorem modifyAt_eq {α : Type} {xs : List α} {i : Nat} {x : α} (f : α → α)
    (h : xs[i]? = some x) : modifyAt xs i f = .ok (xs.set i (f x)) := by
  simp [modifyAt, h]

/-! ## Flag words -/

theorem hasFlag_two_pow (fl i : Nat) : hasFlag fl (2 ^ i) = fl.testBit i := by
  unfold hasFlag
  rw [Nat.and_two_pow]
  cases h : fl.testBit i <;> simp

theorem testBit_SetFlag (fl : Nat) (v : Option Bool) (i j : Nat) :
    (SetFlag fl v (2 ^ j)).testBit i = if j = i then v.getD (fl.testBit i) else fl.testBit i := by
  unfold SetFlag
  rcases v with _ | _ | _
  · simp
  · by_cases h : j = i
    · subst h; simp [Nat.testBit_ldiff, Nat.testBit_two_pow_self]
    · simp [Nat.testBit_ldiff, Nat.testBit_two_pow_of_ne h, h]
  · by_cases h : j = i
    · subst h; simp [Nat.testBit_or, Nat.testBit_two_pow_self]
    · simp [Nat.testBit_or, Nat.testBit_two_pow_of_ne h, h]

theorem HL_ATTRIB_pow :
    HL_ATTRIB_REVERSE = 2 ^ 0 ∧ HL_ATTRIB_ITALIC = 2 ^ 1 ∧ HL_ATTRIB_BOLD = 2 ^ 2 ∧
    HL_ATTRIB_STRIKETHROUGH = 2 ^ 3 ∧ HL_ATTRIB_UNDERLINE = 2 ^ 4 ∧
    HL_ATTRIB_UNDERCURL = 2 ^ 5 := by
  decide

/-- Flags of a table entry after the six `SetFlag` calls of one definition. -/
theorem hasFlag_applyAttribMap (K : Constants) (a : HighlightAttributes) (m : AttribMap) :
    hasFlag (applyAttribMap K a m).flags HL_ATTRIB_REVERSE =
      m.reverse.getD (hasFlag a.flags HL_ATTRIB_REVERSE) ∧
    hasFlag (applyAttribMap K a m).flags HL_ATTRIB_ITALIC =
      m.italic.getD (hasFlag a.flags HL_ATTRIB_ITALIC) ∧
    hasFlag (applyAttribMap K a m).flags HL_ATTRIB_BOLD =
      m.bold.getD (hasFlag a.flags HL_ATTRIB_BOLD) ∧
    hasFlag (applyAttribMap K a m).flags HL_ATTRIB_STRIKETHROUGH =
      m.strikethrough.getD (hasFlag a.flags HL_ATTRIB_STRIKETHROUGH) ∧
    hasFlag (applyAttribMap K a m).flags HL_ATTRIB_UNDERLINE =
      m.underline.getD (hasFlag a.flags HL_ATTRIB_UNDERLINE) ∧
    hasFlag (applyAttribMap K a m).flags HL_ATTRIB_UNDERCURL =
      m.undercurl.getD (hasFlag a.flags HL_ATTRIB_UNDERCURL) := by
  obtain ⟨h0, h1, h2, h3, h4, h5⟩ := HL_ATTRIB_pow
  simp only [applyAttribMap, h0, h1, h2, h3, h4, h5, hasFlag_two_pow, testBit_SetFlag]
  simp

/-- One `hl_attr_define` tuple whose id is an index of the table. -/
theorem UpdateHighlightAttribute_eq (K : Constants) (r : Renderer F) (d : HighlightDefine)
    (a : HighlightAttributes) (hid : r.hl_attribs[d.attrib_index]? = some a)
    (hmax : d.attrib_index ≤ K.MAX_HIGHLIGHT_ATTRIBS) :
    UpdateHighlightAttribute K r d = .ok
      { r with hl_attribs := r.hl_attribs.set d.attrib_index (applyAttribMap K a d.attrib_map) } := by
  unfold UpdateHighlightAttribute
  rw [if_pos hmax, modifyAt_eq _ hid]
  rfl

theorem SetColor_eq (K : Constants) (c : Option Nat) (h : ∀ v, c = some v → v < 2 ^ 32) :
    SetColor K c = c.getD K.DEFAULT_COLOR := by
  cases c with
  | none => rfl
  | some v => simpa [SetColor] using Nat.mod_eq_of_lt (h v rfl)

/-! ## Highlight table: claims C8, C9, C10 -/

/-- C8: an `hl_attr_define` tuple `(i, attr_map)` whose id `i` is an index of the table (and
passes the capacity assertion) and whose colours are 32-bit values sets each colour of
entry `i` to the given value or to the default sentinel when the key is absent, sets
each of the six flags to the given value or leaves it as it was when the key is absent,
and changes no other entry and nothing else in the renderer.  Second part: from an entry
5 without flags, defining `{bold: true}` and then `{italic: true}` leaves exactly bold
and italic set. -/
theorem UpdateHighlightAttributes_define (K : Constants) (r : Renderer F) (i : Nat)
    (m : AttribMap) (a : HighlightAttributes)
    (hid : r.hl_attribs[i]? = some a) (hmax : i ≤ K.MAX_HIGHLIGHT_ATTRIBS)
    (hfg : ∀ c, m.foreground = some c → c < 2 ^ 32)
    (hbg : ∀ c, m.background = some c → c < 2 ^ 32)
    (hsp : ∀ c, m.special = some c → c < 2 ^ 32)
    (s : Renderer F) (b : HighlightAttributes)
    (hs : s.hl_attribs[5]? = some b) (hb : b.flags = 0) (hsmax : 5 ≤ K.MAX_HIGHLIGHT_ATTRIBS) :
    (∃ r' a', UpdateHighlightAttributes K r [⟨i, m⟩] = .ok r' ∧
      r' = { r with hl_attribs := r'.hl_attribs } ∧
      r'.hl_attribs.length = r.hl_attribs.length ∧
      r'.hl_attribs[i]? = some a' ∧
      a'.foreground = m.foreground.getD K.DEFAULT_COLOR ∧
      a'.background = m.background.getD K.DEFAULT_COLOR ∧
      a'.special = m.special.getD K.DEFAULT_COLOR ∧
      hasFlag a'.flags HL_ATTRIB_REVERSE = m.reverse.getD (hasFlag a.flags HL_ATTRIB_REVERSE) ∧
      hasFlag a'.flags HL_ATTRIB_ITALIC = m.italic.getD (hasFlag a.flags HL_ATTRIB_ITALIC) ∧
      hasFlag a'.flags HL_ATTRIB_BOLD = m.bold.getD (hasFlag a.flags HL_ATTRIB_BOLD) ∧
      hasFlag a'.flags HL_ATTRIB_STRIKETHROUGH =
        m.strikethrough.getD (hasFlag a.flags HL_ATTRIB_STRIKETHROUGH) ∧
      hasFlag a'.flags HL_ATTRIB_UNDERLINE =
        m.underline.getD (hasFlag a.flags HL_ATTRIB_UNDERLINE) ∧
      hasFlag a'.flags HL_ATTRIB_UNDERCURL =
        m.undercurl.getD (hasFlag a.flags HL_ATTRIB_UNDERCURL) ∧
      ∀ j, j ≠ i → r'.hl_attribs[j]? = r.hl_attribs[j]?) ∧
    (∃ s1 s2 b', UpdateHighlightAttributes K s [⟨5, { AttribMap.empty with bold := some true }⟩]
        = .ok s1 ∧
      UpdateHighlightAttributes K s1 [⟨5, { AttribMap.empty with italic := some true }⟩]
        = .ok s2 ∧
      s2.hl_attribs[5]? = some b' ∧
      b'.flags = HL_ATTRIB_BOLD ||| HL_ATTRIB_ITALIC ∧
      hasFlag b'.flags HL_ATTRIB_BOLD = true ∧ hasFlag b'.flags HL_ATTRIB_ITALIC = true ∧
      hasFlag b'.flags HL_ATTRIB_REVERSE = false ∧
      hasFlag b'.flags HL_ATTRIB_STRIKETHROUGH = false ∧
      hasFlag b'.flags HL_ATTRIB_UNDERLINE = false ∧
      hasFlag b'.flags HL_ATTRIB_UNDERCURL = false) := by
  have hlt : i < r.hl_attribs.length := by
    rcases Nat.lt_or_ge i r.hl_attribs.length with h | h
    · exact h
    · rw [List.getElem?_eq_none h] at hid; cases hid
  have run : ∀ (t : Renderer F) (j : Nat) (n : AttribMap) (c : HighlightAttributes),
      t.hl_attribs[j]? = some c → j ≤ K.MAX_HIGHLIGHT_ATTRIBS →
      UpdateHighlightAttributes K t [⟨j, n⟩] = .ok
        { t with hl_attribs := t.hl_attribs.set j (applyAttribMap K c n) } := by
    intro t j n c hc hj
    simp only [UpdateHighlightAttributes, List.foldlM_cons, List.foldlM_nil]
    rw [UpdateHighlightAttribute_eq K t ⟨j, n⟩ c hc hj]
    rfl
  constructor
  · refine ⟨_, applyAttribMap K a m, run r i m a hid hmax, rfl, by simp, by simp [hlt],
      SetColor_eq K _ hfg, SetColor_eq K _ hbg, SetColor_eq K _ hsp, ?_⟩
    obtain ⟨h1, h2, h3, h4, h5, h6⟩ := hasFlag_applyAttribMap K a m
    refine ⟨h1, h2, h3, h4, h5, h6, ?_⟩
    intro j hj
    simp [List.getElem?_set, Ne.symm hj]
  · have hlt5 : 5 < s.hl_attribs.length := by
      rcases Nat.lt_or_ge 5 s.hl_attribs.length with h | h
      · exact h
      · rw [List.getElem?_eq_none h] at hs; cases hs
    have hget : ∀ (xs : List HighlightAttributes) (c : HighlightAttributes),
        5 < xs.length → (xs.set 5 c)[5]? = some c := by
      intro xs c hx
      simp [List.getElem?_set, hx]
    refine ⟨_, _, _, run s 5 _ b hs hsmax,
      run _ 5 _ (applyAttribMap K b { AttribMap.empty with bold := some true })
        (hget _ _ hlt5) hsmax,
      hget _ _ (by simpa using hlt5), ?_⟩
    simp only [applyAttribMap, AttribMap.empty, SetFlag, hb]
    decide

/-- Witness for C8: entry 5 of the sample table receives a red foreground and the bold
flag. -/
theorem UpdateHighlightAttributes_define_witness :
    ∃ r' a', UpdateHighlightAttributes sampleConstants sampleRenderer
        [⟨5, { AttribMap.empty with foreground := some 0xff0000, bold := some true }⟩] = .ok r' ∧
      r'.hl_attribs[5]? = some a' ∧ a'.foreground = 0xff0000 ∧
      a'.background = sampleConstants.DEFAULT_COLOR ∧
      hasFlag a'.flags HL_ATTRIB_BOLD = true ∧ hasFlag a'.flags HL_ATTRIB_ITALIC = false := by
  obtain ⟨⟨r', a', h1, _, _, h2, h3, h4, _, _, h6, h5, _⟩, _⟩ :=
    UpdateHighlightAttributes_define sampleConstants sampleRenderer 5
      { AttribMap.empty with foreground := some 0xff0000, bold := some true }
      ⟨0x46464646, 0x46464646, 0x46464646, 0⟩ (by decide) (by decide)
      (by intro c hc; cases hc; decide) (by intro c hc; cases hc) (by intro c hc; cases hc)
      sampleRenderer ⟨0x46464646, 0x46464646, 0x46464646, 0⟩ (by decide) rfl (by decide)
  exact ⟨r', a', h1, h2, h3, h4, h5, h6⟩

/-- C9: `default_colors_set(fg, bg, special)` with 32-bit colours, on a table that has an
entry 0, leaves entry 0 with foreground `fg`, background `bg`, special `special` and no
flag, and leaves every other entry, the size of the table and the rest of the renderer
as they were. -/
theorem UpdateDefaultColors_entry_zero (r : Renderer F) (fg bg sp : Nat)
    (hfg : fg < 2 ^ 32) (hbg : bg < 2 ^ 32) (hsp : sp < 2 ^ 32)
    (h0 : 0 < r.hl_attribs.length) :
    ∃ r', UpdateDefaultColors r [⟨fg, bg, sp⟩] = .ok r' ∧
      r' = { r with hl_attribs := r'.hl_attribs } ∧
      r'.hl_attribs.length = r.hl_attribs.length ∧
      r'.hl_attribs[0]? = some ⟨fg, bg, sp, 0⟩ ∧
      ∀ j, j ≠ 0 → r'.hl_attribs[j]? = r.hl_attribs[j]? := by
  have hd : r.hl_attribs[0]? = some r.hl_attribs[0] := by simp [h0]
  refine ⟨{ r with hl_attribs := r.hl_attribs.set 0 ⟨fg, bg, sp, 0⟩ }, ?_, rfl, by simp,
    by simp [h0], ?_⟩
  · simp only [UpdateDefaultColors, List.foldlM_cons, List.foldlM_nil]
    rw [modifyAt_eq _ hd, Nat.mod_eq_of_lt hfg, Nat.mod_eq_of_lt hbg, Nat.mod_eq_of_lt hsp]
    rfl
  · intro j hj
    simp [List.getElem?_set, Ne.symm hj]

/-- Witness for C9 on the sample renderer. -/
theorem UpdateDefaultColors_entry_zero_witness :
    ∃ r', UpdateDefaultColors sampleRenderer [⟨0xffffff, 0x000000, 0x000000⟩] = .ok r' ∧
      r'.hl_attribs[0]? = some ⟨0xffffff, 0x000000, 0x000000, 0⟩ ∧
      r'.hl_attribs[1]? = sampleRenderer.hl_attribs[1]? := by
  obtain ⟨r', h1, _, _, h2, h3⟩ :=
    UpdateDefaultColors_entry_zero sampleRenderer 0xffffff 0x000000 0x000000
      (by decide) (by decide) (by decide) (by decide)
  exact ⟨r', h1, h2, h3 1 (by decide)⟩

/-- C10: on a table with entry 0, for an attribute `a` without the reverse flag
`CreateForegroundColor` returns the foreground of `a`, or that of entry 0 when the
foreground of `a` is the default sentinel; with the reverse flag it returns the
background of `a`, or that of entry 0 when the background of `a` is the sentinel. -/
theorem CreateForegroundColor_resolve (K : Constants) (r : Renderer F)
    (a d : HighlightAttributes) (h0 : r.hl_attribs[0]? = some d) :
    (hasFlag a.flags HL_ATTRIB_REVERSE = false →
      CreateForegroundColor K r a =
        .ok (if a.foreground = K.DEFAULT_COLOR then d.foreground else a.foreground)) ∧
    (hasFlag a.flags HL_ATTRIB_REVERSE = true →
      CreateForegroundColor K r a =
        .ok (if a.background = K.DEFAULT_COLOR then d.background else a.background)) := by
  constructor
  · intro h
    unfold CreateForegroundColor
    rw [h, readAt_eq h0]
    split_ifs <;> first | rfl | contradiction
  · intro h
    unfold CreateForegroundColor
    rw [h, readAt_eq h0]
    split_ifs <;> first | rfl | contradiction

/-- Witness for C10: entry 1 of the sample table is reversed with default colours, so its
text is drawn in the background of entry 0. -/
theorem CreateForegroundColor_resolve_witness :
    sampleRenderer.hl_attribs[0]? = some ⟨0xffffff, 0x000000, 0xff0000, 0⟩ ∧
    CreateForegroundColor sampleConstants sampleRenderer
      ⟨0x46464646, 0x46464646, 0x46464646, 1⟩ = .ok 0x000000 :=
  ⟨by decide,
    (CreateForegroundColor_resolve sampleConstants sampleRenderer
      ⟨0x46464646, 0x46464646, 0x46464646, 1⟩ ⟨0xffffff, 0x000000, 0xff0000, 0⟩
      (by decide)).2 (by decide)⟩

/-! ## Flat indices -/

theorem flat_lt {rows cols row col : Nat} (hr : row < rows) (hc : col < cols) :
    row * cols + col < rows * cols := by
  have h : (row + 1) * cols ≤ rows * cols := Nat.mul_le_mul_right _ hr
  rw [Nat.succ_mul] at h
  omega

theorem cell_eq {r : Renderer F} {chars : List Nat} {props : List CellProperty}
    (hc : r.grid_chars = some chars) (hp : r.grid_cell_properties = some props)
    (row col : Nat) (ch : Nat) (p : CellProperty)
    (h1 : chars[row * r.grid_cols + col]? = some ch)
    (h2 : props[row * r.grid_cols + col]? = some p) :
    r.cell row col = some ⟨ch, p.hl_attrib_id, p.is_wide_char⟩ := by
  simp [Renderer.cell, hc, hp, h1, h2]

/-! ## grid_resize and grid_clear: claims C6, C7 -/

/-- C6: when both buffers exist and the grid already has `cols` columns and `rows` rows,
`grid_resize(cols, rows)` leaves the renderer as it is; in every other case, for sizes
whose product is in the range of `int`, the grid has those dimensions afterwards, both
buffers hold `rows * cols` elements, every cell is a space with highlight id 0 and not
wide, and nothing but the grid store has changed. -/
theorem UpdateGridSize_resize (r : Renderer F) (cols rows : Nat) :
    ((r.grid_chars ≠ none ∧ r.grid_cell_properties ≠ none ∧
        r.grid_cols = cols ∧ r.grid_rows = rows) →
      UpdateGridSize r cols rows = .ok r) ∧
    (¬ (r.grid_chars ≠ none ∧ r.grid_cell_properties ≠ none ∧
        r.grid_cols = cols ∧ r.grid_rows = rows) →
      cols < 2 ^ 31 → rows < 2 ^ 31 → cols * rows < 2 ^ 31 →
      ∃ t, UpdateGridSize r cols rows = .ok t ∧
        t.grid_cols = cols ∧ t.grid_rows = rows ∧
        (∃ chars props, t.grid_chars = some chars ∧ t.grid_cell_properties = some props ∧
          chars.length = rows * cols ∧ props.length = rows * cols) ∧
        (∀ row col, row < rows → col < cols → t.cell row col = some ⟨32, 0, false⟩) ∧
        t = { r with
          grid_cols := cols
          grid_rows := rows
          grid_chars := t.grid_chars
          grid_cell_properties := t.grid_cell_properties }) := by
  constructor
  · rintro ⟨h1, h2, h3, h4⟩
    unfold UpdateGridSize
    rw [if_neg]
    · rfl
    · simp [h1, h2, h3, h4]
  · intro h
    have hcond : r.grid_chars = none ∨ r.grid_cell_properties = none ∨
        r.grid_cols ≠ cols ∨ r.grid_rows ≠ rows := by
      by_contra hn
      simp only [not_or, not_not] at hn
      exact h ⟨hn.1, hn.2.1, hn.2.2.1, hn.2.2.2⟩
    intro hc hr hp
    have hrun : UpdateGridSize r cols rows =
        .ok { r with
          grid_cols := cols
          grid_rows := rows
          grid_chars := some (List.replicate (cols * rows) 32)
          grid_cell_properties := some (List.replicate (cols * rows) ⟨0, false⟩) } := by
      unfold UpdateGridSize
      rw [if_pos hcond, if_pos ⟨hc, hr, hp⟩]
      rfl
    refine ⟨_, hrun, rfl, rfl, ⟨_, _, rfl, rfl, ?_, ?_⟩, ?_, rfl⟩
    · simp [Nat.mul_comm]
    · simp [Nat.mul_comm]
    · intro row col hrow hcol
      have hlt : row * cols + col < cols * rows := by
        rw [Nat.mul_comm cols rows]; exact flat_lt hrow hcol
      exact cell_eq (r := { r with
          grid_cols := cols
          grid_rows := rows
          grid_chars := some (List.replicate (cols * rows) 32)
          grid_cell_properties := some (List.replicate (cols * rows) ⟨0, false⟩) })
        rfl rfl row col 32 ⟨0, false⟩ (by simp [List.getElem?_replicate, hlt])
        (by simp [List.getElem?_replicate, hlt])

/-- Witness for C6: resizing the sample grid (3 rows, 4 columns) to its own size changes
nothing, and resizing it to 2 columns and 2 rows blanks the cell at row 1, column 1. -/
theorem UpdateGridSize_resize_witness :
    UpdateGridSize sampleRenderer 4 3 = .ok sampleRenderer ∧
    ∃ t, UpdateGridSize sampleRenderer 2 2 = .ok t ∧ t.cell 1 1 = some ⟨32, 0, false⟩ := by
  refine ⟨(UpdateGridSize_resize sampleRenderer 4 3).1 (by decide), ?_⟩
  obtain ⟨t, h1, _, _, _, h2, _⟩ :=
    (UpdateGridSize_resize sampleRenderer 2 2).2 (by decide) (by decide) (by decide)
      (by decide)
  exact ⟨t, h1, h2 1 1 (by decide) (by decide)⟩

/-- C7: on a grid whose buffers hold `grid_rows * grid_cols` elements and a table with an
entry 0, `grid_clear` leaves the dimensions as they were, makes every cell a space with
highlight id 0 and not wide, and issues exactly one call, a fill of the rectangle from
`(0, 0)` to `(grid_cols * font_width, grid_rows * font_height)` in the background colour
resolved for entry 0; nothing else in the renderer changes. -/
theorem ClearGrid_clear [NatCast F] [Mul F] (K : Constants) (r : Renderer F)
    (chars : List Nat) (props : List CellProperty) (d : HighlightAttributes)
    (hc : r.grid_chars = some chars) (hcl : chars.length = r.grid_rows * r.grid_cols)
    (hp : r.grid_cell_properties = some props) (hpl : props.length = r.grid_rows * r.grid_cols)
    (h0 : r.hl_attribs[0]? = some d) :
    ∃ r' color, ClearGrid K r = .ok r' ∧
      r'.grid_rows = r.grid_rows ∧ r'.grid_cols = r.grid_cols ∧
      (∀ row col, row < r.grid_rows → col < r.grid_cols →
        r'.cell row col = some ⟨32, 0, false⟩) ∧
      CreateBackgroundColor K r d = .ok color ∧
      r'.calls = r.calls ++ [.FillRectangle
        { left := ((0 : Nat) : F)
          top := ((0 : Nat) : F)
          right := (r.grid_cols : F) * r.font_width
          bottom := (r.grid_rows : F) * r.font_height } color] ∧
      r' = { r with
        grid_chars := r'.grid_chars
        grid_cell_properties := r'.grid_cell_properties
        calls := r'.calls } := by
  have hfill : ∀ {α : Type} (xs : List α) (v : α), xs.length = r.grid_rows * r.grid_cols →
      fill (some xs) (r.grid_cols * r.grid_rows) v =
        .ok (some (List.replicate (r.grid_cols * r.grid_rows) v)) := by
    intro α xs v hx
    unfold fill
    by_cases hz : r.grid_cols * r.grid_rows = 0
    · have : xs = [] := by
        apply List.eq_nil_of_length_eq_zero
        rw [hx, Nat.mul_comm]; exact hz
      simp [hz, this, pure, Except.pure]
    · have hle : r.grid_cols * r.grid_rows ≤ xs.length := by rw [hx, Nat.mul_comm]
      have hdrop : xs.drop (r.grid_cols * r.grid_rows) = [] := by
        apply List.drop_eq_nil_of_le
        rw [hx, Nat.mul_comm]
      simp [hz, deref, bind, Except.bind, hle, hdrop, pure, Except.pure]
  obtain ⟨color, hcolor⟩ : ∃ c, CreateBackgroundColor K r d = .ok c := by
    unfold CreateBackgroundColor
    simp only [readAt_eq h0]
    split_ifs <;> exact ⟨_, rfl⟩
  refine ⟨{ r with
      grid_chars := some (List.replicate (r.grid_cols * r.grid_rows) 32)
      grid_cell_properties := some (List.replicate (r.grid_cols * r.grid_rows) ⟨0, false⟩)
      calls := r.calls ++ [.FillRectangle
        { left := ((0 : Nat) : F)
          top := ((0 : Nat) : F)
          right := (r.grid_cols : F) * r.font_width
          bottom := (r.grid_rows : F) * r.font_height } color] },
    color, ?_, rfl, rfl, ?_, hcolor, rfl, rfl⟩
  · have hcolor' : ∀ cs ps, CreateBackgroundColor K
        ({ r with grid_chars := cs, grid_cell_properties := ps } : Renderer F) d = .ok color := by
      intro cs ps
      rw [← hcolor]; rfl
    unfold ClearGrid
    simp only [hc, hp, hfill chars 32 hcl, hfill props _ hpl, bind, Except.bind, readAt_eq h0,
      DrawBackgroundRect, hcolor', pure, Except.pure, Renderer.emit]
  · intro row col hrow hcol
    have hlt : row * r.grid_cols + col < r.grid_cols * r.grid_rows := by
      rw [Nat.mul_comm r.grid_cols]; exact flat_lt hrow hcol
    exact cell_eq (r := { r with
        grid_chars := some (List.replicate (r.grid_cols * r.grid_rows) 32)
        grid_cell_properties := some (List.replicate (r.grid_cols * r.grid_rows) ⟨0, false⟩)
        calls := _ })
      rfl rfl row col 32 ⟨0, false⟩ (by simp [List.getElem?_replicate, hlt])
      (by simp [List.getElem?_replicate, hlt])

/-- Witness for C7: clearing the sample grid paints one rectangle of 32 by 48 pixels in
black, the background of entry 0. -/
theorem ClearGrid_clear_witness :
    ∃ r', ClearGrid sampleConstants sampleRenderer = .ok r' ∧
      r'.cell 2 3 = some ⟨32, 0, false⟩ ∧
      r'.calls = [.FillRectangle { left := 0, top := 0, right := 32, bottom := 48 } 0] := by
  obtain ⟨r', color, h1, _, _, h2, h3, h4, _⟩ :=
    ClearGrid_clear sampleConstants sampleRenderer _ _ ⟨0xffffff, 0x000000, 0xff0000, 0⟩
      rfl (by decide) rfl (by decide) (by decide)
  have hcol : color = 0 := by
    have : CreateBackgroundColor sampleConstants sampleRenderer
        ⟨0xffffff, 0x000000, 0xff0000, 0⟩ = .ok 0 := by decide
    rw [this] at h3
    cases h3; rfl
  subst hcol
  exact ⟨r', h1, h2 2 3 (by decide) (by decide), h4⟩

/-- A first `grid_resize` to a non-empty size in the range of `int`, on a renderer whose
highlight table is not empty, gives a well-formed state. -/
theorem UpdateGridSize_WF (r : Renderer F) (cols rows : Nat) (hnull : r.grid_chars = none)
    (hcols : 0 < cols) (hc : cols < 2 ^ 31) (hr : rows < 2 ^ 31) (hsz : rows * cols < 2 ^ 31)
    (htab : 0 < r.hl_attribs.length) :
    ∃ t, UpdateGridSize r cols rows = .ok t ∧ t.WF ∧ t.grid_rows = rows ∧ t.grid_cols = cols ∧
      t.hl_attribs = r.hl_attribs ∧ t.cursor = r.cursor := by
  unfold UpdateGridSize
  rw [if_pos (Or.inl hnull), if_pos ⟨hc, hr, by rw [Nat.mul_comm]; exact hsz⟩]
  refine ⟨_, rfl, ⟨hcols, hsz, ⟨_, rfl, ?_⟩, ⟨_, rfl, ?_, ?_⟩⟩, rfl, rfl, rfl, rfl⟩
  · simp [Nat.mul_comm]
  · simp [Nat.mul_comm]
  · intro p hp
    rw [List.eq_of_mem_replicate hp]
    exact htab

/-! ## Drawing leaves the store alone and succeeds on a well-formed state -/

@[simp] theorem emit_grid_rows (r : Renderer F) (c : DrawCall F) :
    (r.emit c).grid_rows = r.grid_rows := rfl

@[simp] theorem emit_grid_cols (r : Renderer F) (c : DrawCall F) :
    (r.emit c).grid_cols = r.grid_cols := rfl

@[simp] theorem emit_grid_chars (r : Renderer F) (c : DrawCall F) :
    (r.emit c).grid_chars = r.grid_chars := rfl

@[simp] theorem emit_grid_cell_properties (r : Renderer F) (c : DrawCall F) :
    (r.emit c).grid_cell_properties = r.grid_cell_properties := rfl

@[simp] theorem emit_hl_attribs (r : Renderer F) (c : DrawCall F) :
    (r.emit c).hl_attribs = r.hl_attribs := rfl

@[simp] theorem emit_font_width (r : Renderer F) (c : DrawCall F) :
    (r.emit c).font_width = r.font_width := rfl

@[simp] theorem emit_font_height (r : Renderer F) (c : DrawCall F) :
    (r.emit c).font_height = r.font_height := rfl

theorem sameStore_refl (r : Renderer F) : r.sameStore r := by
  simp [Renderer.sameStore]

theorem sameStore_emit {r t : Renderer F} (h : r.sameStore t) (c : DrawCall F) :
    r.sameStore (t.emit c) := by
  unfold Renderer.sameStore at *
  rw [h]; simp [Renderer.emit]

theorem sameStore_trans {r s t : Renderer F} (h1 : r.sameStore s) (h2 : s.sameStore t) :
    r.sameStore t := by
  unfold Renderer.sameStore at *
  rw [h2, h1]

theorem sameStore_hl {r t : Renderer F} (h : r.sameStore t) : t.hl_attribs = r.hl_attribs := by
  rw [h]

theorem sameStore_cond_emit {r t : Renderer F} (b : Bool) (h : r.sameStore t)
    (c : DrawCall F) : r.sameStore (if b = true then t.emit c else t) := by
  split_ifs
  · exact sameStore_emit h c
  · exact h

theorem CreateForegroundColor_ok (K : Constants) (r : Renderer F) (a : HighlightAttributes)
    (h : 0 < r.hl_attribs.length) : ∃ c, CreateForegroundColor K r a = .ok c := by
  have hd : r.hl_attribs[0]? = some r.hl_attribs[0] := by simp [h]
  unfold CreateForegroundColor
  simp only [readAt_eq hd]
  split_ifs <;> exact ⟨_, rfl⟩

theorem CreateBackgroundColor_ok (K : Constants) (r : Renderer F) (a : HighlightAttributes)
    (h : 0 < r.hl_attribs.length) : ∃ c, CreateBackgroundColor K r a = .ok c := by
  have hd : r.hl_attribs[0]? = some r.hl_attribs[0] := by simp [h]
  unfold CreateBackgroundColor
  simp only [readAt_eq hd]
  split_ifs <;> exact ⟨_, rfl⟩

theorem CreateSpecialColor_ok (K : Constants) (r : Renderer F) (a : HighlightAttributes)
    (h : 0 < r.hl_attribs.length) : ∃ c, CreateSpecialColor K r a = .ok c := by
  have hd : r.hl_attribs[0]? = some r.hl_attribs[0] := by simp [h]
  unfold CreateSpecialColor
  simp only [readAt_eq hd]
  split_ifs <;> exact ⟨_, rfl⟩

theorem DrawBackgroundRect_ok (K : Constants) (r : Renderer F) (rect : D2D1_RECT_F F)
    (a : HighlightAttributes) (h : 0 < r.hl_attribs.length) :
    ∃ t, DrawBackgroundRect K r rect a = .ok t ∧ r.sameStore t := by
  obtain ⟨c, hc⟩ := CreateBackgroundColor_ok K r a h
  refine ⟨r.emit (.FillRectangle rect c), ?_, sameStore_emit (sameStore_refl r) _⟩
  simp [DrawBackgroundRect, hc, bind, Except.bind, pure, Except.pure]

theorem ApplyHighlightAttributes_ok (K : Constants) (r : Renderer F) (a : HighlightAttributes)
    (start end_ : Nat) (h : 0 < r.hl_attribs.length) :
    ∃ t, ApplyHighlightAttributes K r a start end_ = .ok t ∧ r.sameStore t := by
  obtain ⟨c, hc⟩ := CreateForegroundColor_ok K r a h
  obtain ⟨s, hs⟩ := CreateSpecialColor_ok K r a h
  unfold ApplyHighlightAttributes
  simp only [hc, hs, bind, Except.bind, pure, Except.pure]
  refine ⟨_, rfl, ?_⟩
  exact sameStore_emit (sameStore_cond_emit _ (sameStore_cond_emit _ (sameStore_cond_emit _
    (sameStore_cond_emit _ (sameStore_cond_emit _ (sameStore_refl r) _) _) _) _) _) _

theorem DrawGridLine_loop_ok [NatCast F] [Add F] [Sub F] [Mul F] (K : Constants)
    (row base : Nat) (props : List CellProperty) (r0 : Renderer F)
    (hids : ∀ p ∈ props, p.hl_attrib_id < r0.hl_attribs.length) :
    ∀ (n i hl co : Nat) (r : Renderer F), r0.sameStore r → base + i + n ≤ props.length →
      hl < r0.hl_attribs.length →
      ∃ hl' co' t, DrawGridLine.loop K row base props n i hl co r = .ok (hl', co', t) ∧
        r0.sameStore t ∧ hl' < r0.hl_attribs.length := by
  intro n
  induction n with
  | zero =>
    intro i hl co r hr _ hhl
    exact ⟨hl, co, r, rfl, hr, hhl⟩
  | succ n ih =>
    intro i hl co r hr hlen hhl
    have hlt : base + i < props.length := by omega
    have hcell : props[base + i]? = some props[base + i] := by simp [hlt]
    have hmem : props[base + i] ∈ props := List.getElem_mem hlt
    rw [DrawGridLine.loop]
    simp only [readAt_eq hcell, bind, Except.bind]
    generalize (if props[base + i].is_wide_char = true then r.font_width * ((2 : Nat) : F)
      else r.font_width) = w
    have hr1 := sameStore_emit hr (.SetCharacterSpacing w { startPosition := i, length := 1 })
    split_ifs with hne
    · have hpos : 0 < r0.hl_attribs.length := by omega
      have hget : r0.hl_attribs[hl]? = some r0.hl_attribs[hl] := by simp [hhl]
      have hhl1 := sameStore_hl hr1
      rw [hhl1, readAt_eq hget]
      simp only []
      obtain ⟨t1, ht1, hs1⟩ := DrawBackgroundRect_ok K _ _ r0.hl_attribs[hl] (hhl1 ▸ hpos)
      rw [ht1]
      simp only []
      obtain ⟨t2, ht2, hs2⟩ := ApplyHighlightAttributes_ok K t1 r0.hl_attribs[hl] co i
        (sameStore_hl (sameStore_trans hr1 hs1) ▸ hpos)
      rw [ht2]
      simp only []
      exact ih (i + 1) _ i t2 (sameStore_trans (sameStore_trans hr1 hs1) hs2) (by omega)
        (hids _ hmem)
    · exact ih (i + 1) hl co _ hr1 (by omega) hhl

/-- Redrawing a row inside the grid of a well-formed state succeeds and changes nothing
but the calls. -/
theorem DrawGridLine_ok [NatCast F] [Add F] [Sub F] [Mul F] (K : Constants) (r : Renderer F)
    (row : Nat) (hwf : r.WF) (hrow : row < r.grid_rows) :
    ∃ t, DrawGridLine K r row = .ok t ∧ r.sameStore t := by
  obtain ⟨hcols, _, ⟨chars, hc, hcl⟩, ⟨props, hp, hpl, hids⟩⟩ := hwf
  have hbase : row * r.grid_cols + r.grid_cols ≤ r.grid_rows * r.grid_cols := by
    have h : (row + 1) * r.grid_cols ≤ r.grid_rows * r.grid_cols := Nat.mul_le_mul_right _ hrow
    rw [Nat.succ_mul] at h
    exact h
  have hfirst : props[row * r.grid_cols]? = some props[row * r.grid_cols] := by
    have : row * r.grid_cols < props.length := by omega
    simp [this]
  have hmem : props[row * r.grid_cols] ∈ props := List.getElem_mem (by omega)
  unfold DrawGridLine
  simp only [hc, hp, deref, readSlice, hcl, hbase, if_true, bind, Except.bind,
    emit_grid_cell_properties, emit_grid_cols, readAt_eq hfirst]
  obtain ⟨hl, co, t, ht, hst, hhl⟩ := DrawGridLine_loop_ok K row (row * r.grid_cols) props r hids
    r.grid_cols 0 props[row * r.grid_cols].hl_attrib_id 0 _
    (sameStore_emit (sameStore_refl r) (.CreateTextLayout
      (List.take r.grid_cols (List.drop (row * r.grid_cols) chars))
      ((r.grid_cols : F) * r.font_width - ((0 : Nat) : F))
      ((row : F) * r.font_height + r.font_height - (row : F) * r.font_height)))
    (by omega) (hids _ hmem)
  rw [ht]
  simp only []
  have hpos : 0 < r.hl_attribs.length := by omega
  have hget : r.hl_attribs[hl]? = some r.hl_attribs[hl] := by simp [hhl]
  rw [sameStore_hl hst, readAt_eq hget]
  simp only []
  obtain ⟨t1, ht1, hs1⟩ := DrawBackgroundRect_ok K t
    { left := (co : F) * t.font_width
      top := (row : F) * r.font_height
      right := (r.grid_cols : F) * r.font_width
      bottom := (row : F) * r.font_height + r.font_height } r.hl_attribs[hl]
    (sameStore_hl hst ▸ hpos)
  rw [ht1]
  simp only []
  obtain ⟨t2, ht2, hs2⟩ := ApplyHighlightAttributes_ok K t1 r.hl_attribs[hl] co t1.grid_cols
    (sameStore_hl (sameStore_trans hst hs1) ▸ hpos)
  rw [ht2]
  simp only [pure, Except.pure]
  refine ⟨_, rfl, ?_⟩
  have h2 := sameStore_trans (sameStore_trans hst hs1) hs2
  exact sameStore_emit (sameStore_emit (sameStore_cond_emit _ (sameStore_emit h2 _) _) _) _

/-! ## memcpy -/

theorem memcpy_eq {α : Type} (xs : List α) (dst src n : Nat) (hd : dst + n ≤ xs.length)
    (hs : src + n ≤ xs.length) :
    memcpy xs (dst : Int) (src : Int) (n : Int) =
      .ok (xs.take dst ++ (xs.drop src).take n ++ xs.drop (dst + n)) := by
  have hlen : ((xs.drop src).take n).length = n := by
    rw [List.length_take, List.length_drop]; omega
  unfold memcpy
  have hneg : ¬ ((dst : Int) < 0 ∨ (src : Int) < 0 ∨ (n : Int) < 0) := by omega
  rw [if_neg hneg]
  simp only [Int.toNat_ofNat, readSlice, hs, if_true, bind, Except.bind, writeSlice, hlen, hd]

theorem memcpy_length {α : Type} (xs : List α) (dst src n : Nat) (hd : dst + n ≤ xs.length)
    (hs : src + n ≤ xs.length) :
    (xs.take dst ++ (xs.drop src).take n ++ xs.drop (dst + n)).length = xs.length := by
  simp only [List.length_append, List.length_take, List.length_drop]
  omega

theorem memcpy_getElem? {α : Type} (xs : List α) (dst src n : Nat) (hd : dst + n ≤ xs.length)
    (hs : src + n ≤ xs.length) (k : Nat) :
    (xs.take dst ++ (xs.drop src).take n ++ xs.drop (dst + n))[k]? =
      if dst ≤ k ∧ k < dst + n then xs[src + (k - dst)]? else xs[k]? := by
  have h1 : (xs.take dst).length = dst := by rw [List.length_take]; omega
  have h2 : ((xs.drop src).take n).length = n := by
    rw [List.length_take, List.length_drop]; omega
  rw [List.append_assoc]
  by_cases hk : k < dst
  · rw [List.getElem?_append_left (by omega), List.getElem?_take, if_pos hk, if_neg (by omega)]
  · rw [List.getElem?_append_right (by omega), h1]
    by_cases hk2 : k < dst + n
    · rw [List.getElem?_append_left (by omega), List.getElem?_take, if_pos (by omega),
        List.getElem?_drop, if_pos (by omega)]
    · rw [List.getElem?_append_right (by omega), h2, List.getElem?_drop, if_neg (by omega)]
      congr 1
      omega

theorem memcpy_mem {α : Type} (xs : List α) (dst src n : Nat) (x : α)
    (h : x ∈ xs.take dst ++ (xs.drop src).take n ++ xs.drop (dst + n)) : x ∈ xs := by
  simp only [List.mem_append] at h
  rcases h with (h | h) | h
  · exact List.mem_of_mem_take h
  · exact List.mem_of_mem_drop (List.mem_of_mem_take h)
  · exact List.mem_of_mem_drop h

/-- A cell of a row segment, among the flat indices. -/
theorem flat_range_iff (cols t l rt row col : Nat) (hcol : col < cols) (hl : l ≤ rt)
    (hrt : rt ≤ cols) :
    (t * cols + l ≤ row * cols + col ∧ row * cols + col < t * cols + l + (rt - l)) ↔
      (row = t ∧ l ≤ col ∧ col < rt) := by
  constructor
  · rintro ⟨h1, h2⟩
    rcases Nat.lt_trichotomy row t with h | h | h
    · have h3 : (row + 1) * cols ≤ t * cols := Nat.mul_le_mul_right _ h
      rw [Nat.succ_mul] at h3
      omega
    · subst h; omega
    · have h3 : (t + 1) * cols ≤ row * cols := Nat.mul_le_mul_right _ h
      rw [Nat.succ_mul] at h3
      omega
  · rintro ⟨rfl, h1, h2⟩
    omega

/-! ## One row of a scroll -/

theorem cell_congr {r t : Renderer F} {cs cs' : List Nat} {ps ps' : List CellProperty}
    (hc : r.grid_chars = some cs) (hp : r.grid_cell_properties = some ps)
    (hc' : t.grid_chars = some cs') (hp' : t.grid_cell_properties = some ps')
    (hcols : t.grid_cols = r.grid_cols) (row col row' col' : Nat)
    (h1 : cs'[row * r.grid_cols + col]? = cs[row' * r.grid_cols + col']?)
    (h2 : ps'[row * r.grid_cols + col]? = ps[row' * r.grid_cols + col']?) :
    t.cell row col = r.cell row' col' := by
  simp only [Renderer.cell, hc, hp, hc', hp', hcols, h1, h2]

theorem cell_sameStore {r t : Renderer F} (h : r.sameStore t) (row col : Nat) :
    t.cell row col = r.cell row col := by
  rw [h]; rfl

theorem WF_sameStore {r t : Renderer F} (h : r.sameStore t) (hwf : r.WF) : t.WF := by
  rw [h]; exact hwf

theorem sameFrame_refl (r : Renderer F) : r.sameFrame r := by
  simp [Renderer.sameFrame]

theorem sameFrame_trans {r s t : Renderer F} (h1 : r.sameFrame s) (h2 : s.sameFrame t) :
    r.sameFrame t := by
  unfold Renderer.sameFrame at *
  rw [h2, h1]

theorem sameFrame_of_sameStore {r t : Renderer F} (h : r.sameStore t) : r.sameFrame t := by
  unfold Renderer.sameFrame Renderer.sameStore at *
  rw [h]

theorem sameFrame_rows {r t : Renderer F} (h : r.sameFrame t) : t.grid_rows = r.grid_rows := by
  rw [h]

theorem sameFrame_cols {r t : Renderer F} (h : r.sameFrame t) : t.grid_cols = r.grid_cols := by
  rw [h]

theorem sameFrame_hl {r t : Renderer F} (h : r.sameFrame t) : t.hl_attribs = r.hl_attribs := by
  rw [h]

theorem sameFrame_cursor {r t : Renderer F} (h : r.sameFrame t) : t.cursor = r.cursor := by
  rw [h]

/-- Row `i` of the region is copied onto row `t = i - d` when `t` lies in the region and
both rows lie in the grid: the state stays well formed, and the cells of row `t` between
`l` and `rt` become those of row `i`. -/
theorem ScrollRegion_row_copy [NatCast F] [Add F] [Sub F] [Mul F] (K : Constants)
    (r : Renderer F) (top bottom d : Int) (l rt i t : Nat)
    (hwf : r.WF) (hi : i < r.grid_rows) (ht : t < r.grid_rows)
    (htd : (t : Int) = (i : Int) - d) (htop : top ≤ (t : Int)) (hbot : (t : Int) < bottom)
    (hl : l ≤ rt) (hrt : rt ≤ r.grid_cols) :
    ∃ r', ScrollRegion.row K top bottom l rt d r i = .ok r' ∧ r'.WF ∧ r.sameFrame r' ∧
      ∀ row col, row < r.grid_rows → col < r.grid_cols →
        r'.cell row col =
          if row = t ∧ l ≤ col ∧ col < rt then r.cell i col else r.cell row col := by
  obtain ⟨hcols, hsz, ⟨cs, hc, hcl⟩, ⟨ps, hp, hpl, hids⟩⟩ := hwf
  have hti : t * r.grid_cols + r.grid_cols ≤ r.grid_rows * r.grid_cols := by
    have h : (t + 1) * r.grid_cols ≤ r.grid_rows * r.grid_cols := Nat.mul_le_mul_right _ ht
    rw [Nat.succ_mul] at h
    exact h
  have hii : i * r.grid_cols + r.grid_cols ≤ r.grid_rows * r.grid_cols := by
    have h : (i + 1) * r.grid_cols ≤ r.grid_rows * r.grid_cols := Nat.mul_le_mul_right _ hi
    rw [Nat.succ_mul] at h
    exact h
  have e1 : ((i : Int) - d) * (r.grid_cols : Int) + (l : Int) =
      ((t * r.grid_cols + l : Nat) : Int) := by
    rw [← htd]; push_cast; ring
  have e2 : (i : Int) * (r.grid_cols : Int) + (l : Int) = ((i * r.grid_cols + l : Nat) : Int) := by
    push_cast; ring
  have e3 : (rt : Int) - (l : Int) = ((rt - l : Nat) : Int) := by omega
  have hcond : ¬ ((i : Int) - d < top ∨ (i : Int) - d ≥ bottom) := by omega
  set cs' := cs.take (t * r.grid_cols + l) ++ (cs.drop (i * r.grid_cols + l)).take (rt - l) ++
    cs.drop (t * r.grid_cols + l + (rt - l)) with hcs'
  set ps' := ps.take (t * r.grid_cols + l) ++ (ps.drop (i * r.grid_cols + l)).take (rt - l) ++
    ps.drop (t * r.grid_cols + l + (rt - l)) with hps'
  have hmc : memcpy cs (((i : Int) - d) * (r.grid_cols : Int) + (l : Int))
      ((i : Int) * (r.grid_cols : Int) + (l : Int)) ((rt : Int) - (l : Int)) = .ok cs' := by
    rw [e1, e2, e3]
    exact memcpy_eq cs _ _ _ (by omega) (by omega)
  have hmp : memcpy ps (((i : Int) - d) * (r.grid_cols : Int) + (l : Int))
      ((i : Int) * (r.grid_cols : Int) + (l : Int)) ((rt : Int) - (l : Int)) = .ok ps' := by
    rw [e1, e2, e3]
    exact memcpy_eq ps _ _ _ (by omega) (by omega)
  have hwf2 : ({ r with grid_chars := some cs', grid_cell_properties := some ps' } :
      Renderer F).WF := by
    refine ⟨hcols, hsz, ⟨cs', rfl, ?_⟩, ⟨ps', rfl, ?_, ?_⟩⟩
    · rw [hcs', memcpy_length cs _ _ _ (by omega) (by omega)]; exact hcl
    · rw [hps', memcpy_length ps _ _ _ (by omega) (by omega)]; exact hpl
    · intro p hp'
      exact hids p (memcpy_mem ps _ _ _ p hp')
  obtain ⟨r', hr', hst⟩ := DrawGridLine_ok K
    ({ r with grid_chars := some cs', grid_cell_properties := some ps' } : Renderer F) t hwf2 ht
  refine ⟨r', ?_, WF_sameStore hst hwf2, ?_, ?_⟩
  · unfold ScrollRegion.row
    simp only [hcond, if_false, hc, hp, deref, bind, Except.bind, hmc, hmp, DrawGridLineInt]
    have ht31 : (t : Int) < 2 ^ 31 := by
      have : t ≤ t * r.grid_cols := Nat.le_mul_of_pos_right t hcols
      omega
    have hconv : toInt32 ((i : Int) - d) = t := by
      unfold toInt32
      omega
    rw [hconv, if_neg (by omega), Int.toNat_ofNat]
    exact hr'
  · refine sameFrame_trans ?_ (sameFrame_of_sameStore hst)
    simp [Renderer.sameFrame]
  · intro row col hrow hcol
    rw [cell_sameStore hst]
    have hk := flat_range_iff r.grid_cols t l rt row col hcol hl hrt
    have g1 := memcpy_getElem? cs (t * r.grid_cols + l) (i * r.grid_cols + l) (rt - l)
      (by omega) (by omega) (row * r.grid_cols + col)
    have g2 := memcpy_getElem? ps (t * r.grid_cols + l) (i * r.grid_cols + l) (rt - l)
      (by omega) (by omega) (row * r.grid_cols + col)
    by_cases hin : row = t ∧ l ≤ col ∧ col < rt
    · rw [if_pos hin]
      rw [if_pos (hk.mpr hin)] at g1 g2
      have hidx : i * r.grid_cols + l + (row * r.grid_cols + col - (t * r.grid_cols + l)) =
          i * r.grid_cols + col := by
        obtain ⟨rfl, h1, h2⟩ := hin
        omega
      rw [hidx] at g1 g2
      exact cell_congr (r := r)
        (t := { r with grid_chars := some cs', grid_cell_properties := some ps' })
        hc hp rfl rfl rfl row col i col g1 g2
    · rw [if_neg hin]
      rw [if_neg (fun h => hin (hk.mp h))] at g1 g2
      exact cell_congr (r := r)
        (t := { r with grid_chars := some cs', grid_cell_properties := some ps' })
        hc hp rfl rfl rfl row col row col g1 g2

/-- A source row whose target lies outside the region is skipped. -/
theorem ScrollRegion_row_skip [NatCast F] [Add F] [Sub F] [Mul F] (K : Constants)
    (r : Renderer F) (top bottom left right d i : Int) (h : i - d < top ∨ i - d ≥ bottom) :
    ScrollRegion.row K top bottom left right d r i = .ok r := by
  unfold ScrollRegion.row
  simp only [h, if_true]
  rfl

/-! ## The loop of a scroll -/

/-- Scrolling with a positive delta: the loop walks the rows upwards from `i`; the cells
written so far are those whose source row lies below `i`. -/
theorem ScrollRegion_loop_down [NatCast F] [Add F] [Sub F] [Mul F] (K : Constants)
    (r0 : Renderer F) (top bottom d : Int) (l rt : Nat) (hd : 0 < d) (htop : 0 ≤ top)
    (hbot : bottom ≤ r0.grid_rows) (hl : l ≤ rt) (hrt : rt ≤ r0.grid_cols) :
    ∀ (fuel : Nat) (i : Int) (r : Renderer F), r.WF → r0.sameFrame r → top ≤ i →
      i + fuel = bottom →
      (∀ row col, row < r0.grid_rows → col < r0.grid_cols →
        r.cell row col =
          if top ≤ (row : Int) ∧ l ≤ col ∧ col < rt ∧ (row : Int) + d < i then
            r0.cell ((row : Int) + d).toNat col
          else r0.cell row col) →
      ∃ r', ScrollRegion.loop K top bottom l rt d true (bottom - 1) 1 fuel i r = .ok r' ∧
        r'.WF ∧ r0.sameFrame r' ∧
        ∀ row col, row < r0.grid_rows → col < r0.grid_cols →
          r'.cell row col =
            if top ≤ (row : Int) ∧ l ≤ col ∧ col < rt ∧ (row : Int) + d < bottom then
              r0.cell ((row : Int) + d).toNat col
            else r0.cell row col := by
  intro fuel
  induction fuel with
  | zero =>
    intro i r hwf hsf _ hfuel hinv
    have hi : i = bottom := by simpa using hfuel
    subst hi
    exact ⟨r, rfl, hwf, hsf, hinv⟩
  | succ fuel ih =>
    intro i r hwf hsf hti hfuel hinv
    have hguard : i ≤ bottom - 1 := by push_cast at hfuel; omega
    obtain ⟨n, rfl⟩ : ∃ n : Nat, i = n := ⟨i.toNat, by omega⟩
    have hrows := sameFrame_rows hsf
    have hcols := sameFrame_cols hsf
    rw [ScrollRegion.loop]
    simp only [if_true, hguard, bind, Except.bind]
    by_cases hskip : (n : Int) - d < top ∨ (n : Int) - d ≥ bottom
    · rw [ScrollRegion_row_skip K r top bottom l rt d n hskip]
      simp only []
      refine ih ((n : Int) + 1) r hwf hsf (by omega) (by push_cast at hfuel; omega) ?_
      intro row col hrow hcol
      rw [hinv row col hrow hcol]
      split_ifs <;> first | rfl | (exfalso; omega)
    · obtain ⟨t, ht⟩ : ∃ t : Nat, (t : Int) = (n : Int) - d := ⟨((n : Int) - d).toNat, by omega⟩
      obtain ⟨r1, hr1, hwf1, hsf1, hcell1⟩ := ScrollRegion_row_copy K r top bottom d l rt n t hwf
        (by omega) (by omega) ht (by omega) (by omega) hl (by omega)
      rw [hr1]
      simp only []
      refine ih ((n : Int) + 1) r1 hwf1 (sameFrame_trans hsf hsf1) (by omega)
        (by push_cast at hfuel; omega) ?_
      intro row col hrow hcol
      rw [hcell1 row col (by omega) (by omega), hinv n col (by omega) hcol,
        hinv row col hrow hcol]
      have e : ∀ m : Nat, (m : Int) + d = n → ((m : Int) + d).toNat = n := by
        intro m hm; omega
      split_ifs <;> first
        | rfl
        | (exfalso; omega)
        | (rw [e row (by omega)])

/-- Scrolling with a delta that is not positive: the loop walks the rows downwards from
`i`; the cells written so far are those whose source row lies above `i`. -/
theorem ScrollRegion_loop_up [NatCast F] [Add F] [Sub F] [Mul F] (K : Constants)
    (r0 : Renderer F) (top bottom d : Int) (l rt : Nat) (hd : d ≤ 0) (htop : 0 ≤ top)
    (hbot : bottom ≤ r0.grid_rows) (hl : l ≤ rt) (hrt : rt ≤ r0.grid_cols) :
    ∀ (fuel : Nat) (i : Int) (r : Renderer F), r.WF → r0.sameFrame r → i < bottom →
      i - fuel = top - 1 →
      (∀ row col, row < r0.grid_rows → col < r0.grid_cols →
        r.cell row col =
          if (row : Int) < bottom ∧ l ≤ col ∧ col < rt ∧ i < (row : Int) + d then
            r0.cell ((row : Int) + d).toNat col
          else r0.cell row col) →
      ∃ r', ScrollRegion.loop K top bottom l rt d false top (-1) fuel i r = .ok r' ∧
        r'.WF ∧ r0.sameFrame r' ∧
        ∀ row col, row < r0.grid_rows → col < r0.grid_cols →
          r'.cell row col =
            if (row : Int) < bottom ∧ l ≤ col ∧ col < rt ∧ top ≤ (row : Int) + d then
              r0.cell ((row : Int) + d).toNat col
            else r0.cell row col := by
  intro fuel
  induction fuel with
  | zero =>
    intro i r hwf hsf _ hfuel hinv
    have hi : i = top - 1 := by simpa using hfuel
    subst hi
    refine ⟨r, rfl, hwf, hsf, ?_⟩
    intro row col hrow hcol
    rw [hinv row col hrow hcol]
    split_ifs <;> first | rfl | (exfalso; omega)
  | succ fuel ih =>
    intro i r hwf hsf hib hfuel hinv
    have hguard : i ≥ top := by push_cast at hfuel; omega
    obtain ⟨n, rfl⟩ : ∃ n : Nat, i = n := ⟨i.toNat, by omega⟩
    have hrows := sameFrame_rows hsf
    have hcols := sameFrame_cols hsf
    rw [ScrollRegion.loop]
    simp only [Bool.false_eq_true, if_false, hguard, if_true, bind, Except.bind]
    have hnext : (n : Int) + -1 - (fuel : Int) = top - 1 := by push_cast at hfuel; omega
    by_cases hskip : (n : Int) - d < top ∨ (n : Int) - d ≥ bottom
    · rw [ScrollRegion_row_skip K r top bottom l rt d n hskip]
      simp only []
      refine ih ((n : Int) + -1) r hwf hsf (by omega) hnext ?_
      intro row col hrow hcol
      rw [hinv row col hrow hcol]
      split_ifs <;> first | rfl | (exfalso; omega)
    · obtain ⟨t, ht⟩ : ∃ t : Nat, (t : Int) = (n : Int) - d := ⟨((n : Int) - d).toNat, by omega⟩
      obtain ⟨r1, hr1, hwf1, hsf1, hcell1⟩ := ScrollRegion_row_copy K r top bottom d l rt n t hwf
        (by omega) (by omega) ht (by omega) (by omega) hl (by omega)
      rw [hr1]
      simp only []
      refine ih ((n : Int) + -1) r1 hwf1 (sameFrame_trans hsf hsf1) (by omega) hnext ?_
      intro row col hrow hcol
      rw [hcell1 row col (by omega) (by omega), hinv n col (by omega) hcol,
        hinv row col hrow hcol]
      have e : ∀ m : Nat, (m : Int) + d = n → ((m : Int) + d).toNat = n := by
        intro m hm; omega
      split_ifs <;> first
        | rfl
        | (exfalso; omega)
        | (rw [e row (by omega)])

/-- The fuel `ScrollRegion` gives its loop is enough: once the rows left to visit are
within the fuel, the loop leaves through its condition, so any additional fuel changes
nothing. -/
theorem ScrollRegion_loop_fuel [NatCast F] [Add F] [Sub F] [Mul F] (K : Constants)
    (top bottom left right rows : Int) (extra : Nat) :
    (∀ (fuel : Nat) (i : Int) (r : Renderer F), bottom ≤ i + fuel →
      ScrollRegion.loop K top bottom left right rows true (bottom - 1) 1 (fuel + extra) i r =
        ScrollRegion.loop K top bottom left right rows true (bottom - 1) 1 fuel i r) ∧
    (∀ (fuel : Nat) (i : Int) (r : Renderer F), i - fuel ≤ top - 1 →
      ScrollRegion.loop K top bottom left right rows false top (-1) (fuel + extra) i r =
        ScrollRegion.loop K top bottom left right rows false top (-1) fuel i r) := by
  constructor
  · intro fuel
    induction fuel with
    | zero =>
      intro i r h
      cases extra with
      | zero => rfl
      | succ e =>
        rw [Nat.zero_add, ScrollRegion.loop, ScrollRegion.loop]
        simp only [if_true]
        rw [if_neg (by push_cast at h; omega)]
    | succ fuel ih =>
      intro i r h
      rw [Nat.add_right_comm, ScrollRegion.loop, ScrollRegion.loop]
      simp only [if_true]
      by_cases hg : i ≤ bottom - 1
      · rw [if_pos hg, if_pos hg]
        congr 1
        funext s
        exact ih (i + 1) s (by push_cast at h; omega)
      · rw [if_neg hg, if_neg hg]
  · intro fuel
    induction fuel with
    | zero =>
      intro i r h
      cases extra with
      | zero => rfl
      | succ e =>
        rw [Nat.zero_add, ScrollRegion.loop, ScrollRegion.loop]
        simp only [Bool.false_eq_true, if_false]
        rw [if_neg (by push_cast at h; omega)]
    | succ fuel ih =>
      intro i r h
      rw [Nat.add_right_comm, ScrollRegion.loop, ScrollRegion.loop]
      simp only [Bool.false_eq_true, if_false]
      by_cases hg : i ≥ top
      · rw [if_pos hg, if_pos hg]
        congr 1
        funext s
        exact ih (i + -1) s (by push_cast at h; omega)
      · rw [if_neg hg, if_neg hg]

/-! ## grid_scroll in the older renderer -/

namespace Legacy

theorem cell_eq_of_getElem {r t : Renderer} {cs cs' ps ps' : List Nat}
    (hc : r.grid_chars = some cs) (hp : r.grid_hl_attrib_ids = some ps)
    (hc' : t.grid_chars = some cs') (hp' : t.grid_hl_attrib_ids = some ps')
    (hcols : t.grid_cols = r.grid_cols) (row col row' col' : Nat)
    (h1 : cs'[row * r.grid_cols + col]? = cs[row' * r.grid_cols + col']?)
    (h2 : ps'[row * r.grid_cols + col]? = ps[row' * r.grid_cols + col']?) :
    t.cell row col = r.cell row' col' := by
  simp only [Renderer.cell, hc, hp, hc', hp', hcols, h1, h2]

/-- Row `i` is copied onto row `t = i - d` when `t` lies in the region and both rows lie
in the grid. -/
theorem scroll_row_copy (r : Renderer) (top bot d : Int) (l rt i t : Nat)
    (hwf : r.WF) (hi : i < r.grid_rows) (ht : t < r.grid_rows)
    (htd : (t : Int) = (i : Int) - d) (htop : top ≤ (t : Int)) (hbot : (t : Int) < bot)
    (hl : l ≤ rt) (hrt : rt ≤ r.grid_cols) :
    ∃ r', ScrollRegion.row top bot l rt d r i = .ok r' ∧ r'.WF ∧
      r'.grid_rows = r.grid_rows ∧ r'.grid_cols = r.grid_cols ∧
      ∀ row col, row < r.grid_rows → col < r.grid_cols →
        r'.cell row col =
          if row = t ∧ l ≤ col ∧ col < rt then r.cell i col else r.cell row col := by
  obtain ⟨⟨cs, hc, hcl⟩, ⟨ps, hp, hpl⟩⟩ := hwf
  have hti : t * r.grid_cols + r.grid_cols ≤ r.grid_rows * r.grid_cols := by
    have h : (t + 1) * r.grid_cols ≤ r.grid_rows * r.grid_cols := Nat.mul_le_mul_right _ ht
    rw [Nat.succ_mul] at h
    exact h
  have hii : i * r.grid_cols + r.grid_cols ≤ r.grid_rows * r.grid_cols := by
    have h : (i + 1) * r.grid_cols ≤ r.grid_rows * r.grid_cols := Nat.mul_le_mul_right _ hi
    rw [Nat.succ_mul] at h
    exact h
  have e1 : ((i : Int) - d) * (r.grid_cols : Int) + (l : Int) =
      ((t * r.grid_cols + l : Nat) : Int) := by
    rw [← htd]; push_cast; ring
  have e2 : (i : Int) * (r.grid_cols : Int) + (l : Int) = ((i * r.grid_cols + l : Nat) : Int) := by
    push_cast; ring
  have e3 : (rt : Int) - (l : Int) = ((rt - l : Nat) : Int) := by omega
  have hcond : ¬ ((i : Int) - d < top ∨ (i : Int) - d ≥ bot) := by omega
  have hmc : memcpy cs (((i : Int) - d) * (r.grid_cols : Int) + (l : Int))
      ((i : Int) * (r.grid_cols : Int) + (l : Int)) ((rt : Int) - (l : Int)) =
      .ok (cs.take (t * r.grid_cols + l) ++ (cs.drop (i * r.grid_cols + l)).take (rt - l) ++
        cs.drop (t * r.grid_cols + l + (rt - l))) := by
    rw [e1, e2, e3]
    exact memcpy_eq cs _ _ _ (by omega) (by omega)
  have hmp : memcpy ps (((i : Int) - d) * (r.grid_cols : Int) + (l : Int))
      ((i : Int) * (r.grid_cols : Int) + (l : Int)) ((rt : Int) - (l : Int)) =
      .ok (ps.take (t * r.grid_cols + l) ++ (ps.drop (i * r.grid_cols + l)).take (rt - l) ++
        ps.drop (t * r.grid_cols + l + (rt - l))) := by
    rw [e1, e2, e3]
    exact memcpy_eq ps _ _ _ (by omega) (by omega)
  refine ⟨{ r with
      grid_chars := some (cs.take (t * r.grid_cols + l) ++
        (cs.drop (i * r.grid_cols + l)).take (rt - l) ++ cs.drop (t * r.grid_cols + l + (rt - l)))
      grid_hl_attrib_ids := some (ps.take (t * r.grid_cols + l) ++
        (ps.drop (i * r.grid_cols + l)).take (rt - l) ++
        ps.drop (t * r.grid_cols + l + (rt - l))) }, ?_, ?_, rfl, rfl, ?_⟩
  · unfold ScrollRegion.row
    simp only [hcond, if_false, hc, hp, deref, bind, Except.bind, hmc, hmp, pure, Except.pure]
  · refine ⟨⟨_, rfl, ?_⟩, ⟨_, rfl, ?_⟩⟩
    · rw [memcpy_length cs _ _ _ (by omega) (by omega)]; exact hcl
    · rw [memcpy_length ps _ _ _ (by omega) (by omega)]; exact hpl
  · intro row col hrow hcol
    have hk := flat_range_iff r.grid_cols t l rt row col hcol hl hrt
    have g1 := memcpy_getElem? cs (t * r.grid_cols + l) (i * r.grid_cols + l) (rt - l)
      (by omega) (by omega) (row * r.grid_cols + col)
    have g2 := memcpy_getElem? ps (t * r.grid_cols + l) (i * r.grid_cols + l) (rt - l)
      (by omega) (by omega) (row * r.grid_cols + col)
    by_cases hin : row = t ∧ l ≤ col ∧ col < rt
    · rw [if_pos hin]
      rw [if_pos (hk.mpr hin)] at g1 g2
      have hidx : i * r.grid_cols + l + (row * r.grid_cols + col - (t * r.grid_cols + l)) =
          i * r.grid_cols + col := by
        obtain ⟨rfl, h1, h2⟩ := hin
        omega
      rw [hidx] at g1 g2
      exact cell_eq_of_getElem (r := r)
        (t := { r with
          grid_chars := some (cs.take (t * r.grid_cols + l) ++
            (cs.drop (i * r.grid_cols + l)).take (rt - l) ++
            cs.drop (t * r.grid_cols + l + (rt - l)))
          grid_hl_attrib_ids := some (ps.take (t * r.grid_cols + l) ++
            (ps.drop (i * r.grid_cols + l)).take (rt - l) ++
            ps.drop (t * r.grid_cols + l + (rt - l))) })
        hc hp rfl rfl rfl row col i col g1 g2
    · rw [if_neg hin]
      rw [if_neg (fun h => hin (hk.mp h))] at g1 g2
      exact cell_eq_of_getElem (r := r)
        (t := { r with
          grid_chars := some (cs.take (t * r.grid_cols + l) ++
            (cs.drop (i * r.grid_cols + l)).take (rt - l) ++
            cs.drop (t * r.grid_cols + l + (rt - l)))
          grid_hl_attrib_ids := some (ps.take (t * r.grid_cols + l) ++
            (ps.drop (i * r.grid_cols + l)).take (rt - l) ++
            ps.drop (t * r.grid_cols + l + (rt - l))) })
        hc hp rfl rfl rfl row col row col g1 g2

theorem scroll_row_skip (r : Renderer) (top bot left right d i : Int)
    (h : i - d < top ∨ i - d ≥ bot) : ScrollRegion.row top bot left right d r i = .ok r := by
  unfold ScrollRegion.row
  simp only [h, if_true]
  rfl

theorem scroll_loop_down (r0 : Renderer) (top bot d : Int) (l rt : Nat) (hd : 0 < d)
    (htop : 0 ≤ top) (hbot : bot ≤ r0.grid_rows) (hl : l ≤ rt) (hrt : rt ≤ r0.grid_cols) :
    ∀ (fuel : Nat) (i : Int) (r : Renderer), r.WF → r.grid_rows = r0.grid_rows →
      r.grid_cols = r0.grid_cols → top ≤ i → i + fuel = bot →
      (∀ row col, row < r0.grid_rows → col < r0.grid_cols →
        r.cell row col =
          if top ≤ (row : Int) ∧ l ≤ col ∧ col < rt ∧ (row : Int) + d < i then
            r0.cell ((row : Int) + d).toNat col
          else r0.cell row col) →
      ∃ r', ScrollRegion.loop top bot l rt d (bot - 1) 1 fuel i r = .ok r' ∧
        r'.WF ∧ r'.grid_rows = r0.grid_rows ∧ r'.grid_cols = r0.grid_cols ∧
        ∀ row col, row < r0.grid_rows → col < r0.grid_cols →
          r'.cell row col =
            if top ≤ (row : Int) ∧ l ≤ col ∧ col < rt ∧ (row : Int) + d < bot then
              r0.cell ((row : Int) + d).toNat col
            else r0.cell row col := by
  intro fuel
  induction fuel with
  | zero =>
    intro i r hwf hrows hcols _ hfuel hinv
    have hi : i = bot := by simpa using hfuel
    subst hi
    exact ⟨r, rfl, hwf, hrows, hcols, hinv⟩
  | succ fuel ih =>
    intro i r hwf hrows hcols hti hfuel hinv
    have hguard : i ≤ bot - 1 := by push_cast at hfuel; omega
    obtain ⟨n, rfl⟩ : ∃ n : Nat, i = n := ⟨i.toNat, by omega⟩
    rw [ScrollRegion.loop]
    simp only [gt_iff_lt, hd, if_true, hguard, bind, Except.bind]
    by_cases hskip : (n : Int) - d < top ∨ (n : Int) - d ≥ bot
    · rw [scroll_row_skip r top bot l rt d n hskip]
      simp only []
      refine ih ((n : Int) + 1) r hwf hrows hcols (by omega) (by push_cast at hfuel; omega) ?_
      intro row col hrow hcol
      rw [hinv row col hrow hcol]
      split_ifs <;> first | rfl | (exfalso; omega)
    · obtain ⟨t, ht⟩ : ∃ t : Nat, (t : Int) = (n : Int) - d := ⟨((n : Int) - d).toNat, by omega⟩
      obtain ⟨r1, hr1, hwf1, hrows1, hcols1, hcell1⟩ := scroll_row_copy r top bot d l rt
        n t hwf (by omega) (by omega) ht (by omega) (by omega) hl (by omega)
      rw [hr1]
      simp only []
      refine ih ((n : Int) + 1) r1 hwf1 (hrows1.trans hrows) (hcols1.trans hcols) (by omega)
        (by push_cast at hfuel; omega) ?_
      intro row col hrow hcol
      rw [hcell1 row col (by omega) (by omega), hinv n col (by omega) hcol,
        hinv row col hrow hcol]
      have e : ∀ m : Nat, (m : Int) + d = n → ((m : Int) + d).toNat = n := by
        intro m hm; omega
      split_ifs <;> first
        | rfl
        | (exfalso; omega)
        | (rw [e row (by omega)])

theorem scroll_loop_up (r0 : Renderer) (top bot d : Int) (l rt : Nat) (hd : d ≤ 0)
    (htop : 0 ≤ top) (hbot : bot ≤ r0.grid_rows) (hl : l ≤ rt) (hrt : rt ≤ r0.grid_cols) :
    ∀ (fuel : Nat) (i : Int) (r : Renderer), r.WF → r.grid_rows = r0.grid_rows →
      r.grid_cols = r0.grid_cols → i < bot → i - fuel = top - 1 →
      (∀ row col, row < r0.grid_rows → col < r0.grid_cols →
        r.cell row col =
          if (row : Int) < bot ∧ l ≤ col ∧ col < rt ∧ i < (row : Int) + d then
            r0.cell ((row : Int) + d).toNat col
          else r0.cell row col) →
      ∃ r', ScrollRegion.loop top bot l rt d top (-1) fuel i r = .ok r' ∧
        r'.WF ∧ r'.grid_rows = r0.grid_rows ∧ r'.grid_cols = r0.grid_cols ∧
        ∀ row col, row < r0.grid_rows → col < r0.grid_cols →
          r'.cell row col =
            if (row : Int) < bot ∧ l ≤ col ∧ col < rt ∧ top ≤ (row : Int) + d then
              r0.cell ((row : Int) + d).toNat col
            else r0.cell row col := by
  intro fuel
  induction fuel with
  | zero =>
    intro i r hwf hrows hcols _ hfuel hinv
    have hi : i = top - 1 := by simpa using hfuel
    subst hi
    refine ⟨r, rfl, hwf, hrows, hcols, ?_⟩
    intro row col hrow hcol
    rw [hinv row col hrow hcol]
    split_ifs <;> first | rfl | (exfalso; omega)
  | succ fuel ih =>
    intro i r hwf hrows hcols hib hfuel hinv
    have hguard : i ≥ top := by push_cast at hfuel; omega
    obtain ⟨n, rfl⟩ : ∃ n : Nat, i = n := ⟨i.toNat, by omega⟩
    have hnd : ¬ d > 0 := by omega
    rw [ScrollRegion.loop]
    simp only [hnd, if_false, hguard, if_true, bind, Except.bind]
    have hnext : (n : Int) + -1 - (fuel : Int) = top - 1 := by push_cast at hfuel; omega
    by_cases hskip : (n : Int) - d < top ∨ (n : Int) - d ≥ bot
    · rw [scroll_row_skip r top bot l rt d n hskip]
      simp only []
      refine ih ((n : Int) + -1) r hwf hrows hcols (by omega) hnext ?_
      intro row col hrow hcol
      rw [hinv row col hrow hcol]
      split_ifs <;> first | rfl | (exfalso; omega)
    · obtain ⟨t, ht⟩ : ∃ t : Nat, (t : Int) = (n : Int) - d := ⟨((n : Int) - d).toNat, by omega⟩
      obtain ⟨r1, hr1, hwf1, hrows1, hcols1, hcell1⟩ := scroll_row_copy r top bot d l rt
        n t hwf (by omega) (by omega) ht (by omega) (by omega) hl (by omega)
      rw [hr1]
      simp only []
      refine ih ((n : Int) + -1) r1 hwf1 (hrows1.trans hrows) (hcols1.trans hcols) (by omega)
        hnext ?_
      intro row col hrow hcol
      rw [hcell1 row col (by omega) (by omega), hinv n col (by omega) hcol,
        hinv row col hrow hcol]
      have e : ∀ m : Nat, (m : Int) + d = n → ((m : Int) + d).toNat = n := by
        intro m hm; omega
      split_ifs <;> first
        | rfl
        | (exfalso; omega)
        | (rw [e row (by omega)])

/-- The older `ScrollRegion` moves the cells as the newer one does: for a region inside
the grid and any row delta `d`, every cell of the region whose source row `row + d` lies
in the region takes the character and highlight id of the cell `d` rows below, and
every other cell keeps its own. -/
theorem scroll_cells (r : Renderer) (top bot left right d : Int) (hwf : r.WF)
    (h1 : 0 ≤ top) (h2 : top ≤ bot) (h3 : bot ≤ r.grid_rows)
    (h4 : 0 ≤ left) (h5 : left ≤ right) (h6 : right ≤ r.grid_cols) :
    ∃ r', ScrollRegion r top bot left right d 0 = .ok r' ∧ r'.WF ∧
      r'.grid_rows = r.grid_rows ∧ r'.grid_cols = r.grid_cols ∧
      ∀ row col, row < r.grid_rows → col < r.grid_cols →
        r'.cell row col =
          if top ≤ (row : Int) ∧ (row : Int) < bot ∧ left ≤ (col : Int) ∧ (col : Int) < right ∧
              top ≤ (row : Int) + d ∧ (row : Int) + d < bot then
            r.cell ((row : Int) + d).toNat col
          else r.cell row col := by
  obtain ⟨l, rfl⟩ : ∃ l : Nat, left = l := ⟨left.toNat, by omega⟩
  obtain ⟨rt, rfl⟩ : ∃ rt : Nat, right = rt := ⟨right.toNat, by omega⟩
  have hl : l ≤ rt := by omega
  have hrt : rt ≤ r.grid_cols := by omega
  unfold ScrollRegion
  simp only [ne_eq, not_true_eq_false, if_false]
  by_cases hd : 0 < d
  · obtain ⟨r1, hr1, hwf1, hrows1, hcols1, hcell1⟩ := scroll_loop_down r top bot d l rt
      hd h1 h3 hl hrt (bot - top).toNat top r hwf rfl rfl (le_refl _) (by omega)
      (by
        intro row col _ _
        rw [if_neg (by omega)])
    simp only [gt_iff_lt, hd, if_true, hr1]
    refine ⟨r1, rfl, hwf1, hrows1, hcols1, ?_⟩
    intro row col hrow hcol
    rw [hcell1 row col hrow hcol]
    split_ifs <;> first | rfl | (exfalso; omega)
  · obtain ⟨r1, hr1, hwf1, hrows1, hcols1, hcell1⟩ := scroll_loop_up r top bot d l rt
      (by omega) h1 h3 hl hrt (bot - top).toNat (bot - 1) r hwf rfl rfl (by omega) (by omega)
      (by
        intro row col _ _
        rw [if_neg (by omega)])
    simp only [gt_iff_lt, hd, if_false, hr1]
    refine ⟨r1, rfl, hwf1, hrows1, hcols1, ?_⟩
    intro row col hrow hcol
    rw [hcell1 row col hrow hcol]
    split_ifs <;> first | rfl | (exfalso; omega)

theorem sample_WF : sampleRenderer.WF :=
  ⟨⟨_, rfl, by decide⟩, ⟨_, rfl, by decide⟩⟩

theorem cell_some_of_WF {r : Renderer} (hwf : r.WF) (row col : Nat) (hrow : row < r.grid_rows)
    (hcol : col < r.grid_cols) : ∃ c, r.cell row col = some c := by
  obtain ⟨⟨cs, hc, hcl⟩, ⟨ps, hp, hpl⟩⟩ := hwf
  have hlt := flat_lt hrow hcol
  have e1 : cs[row * r.grid_cols + col]? = some cs[row * r.grid_cols + col] := by
    simp [hcl, hlt]
  have e2 : ps[row * r.grid_cols + col]? = some ps[row * r.grid_cols + col] := by
    simp [hpl, hlt]
  exact ⟨(cs[row * r.grid_cols + col], ps[row * r.grid_cols + col]),
    by simp only [Renderer.cell, hc, hp, e1, e2]⟩

end Legacy

/-! ## grid_scroll: claims C3, C4, C5 -/

theorem WF_cell_some {r : Renderer F} (hwf : r.WF) (row col : Nat) (hrow : row < r.grid_rows)
    (hcol : col < r.grid_cols) : ∃ c, r.cell row col = some c := by
  obtain ⟨_, _, ⟨cs, hc, hcl⟩, ⟨ps, hp, hpl, _⟩⟩ := hwf
  have hlt := flat_lt hrow hcol
  exact ⟨_, cell_eq hc hp row col cs[row * r.grid_cols + col] ps[row * r.grid_cols + col]
    (by simp [hcl, hlt]) (by simp [hpl, hlt])⟩

theorem sampleRenderer_WF : sampleRenderer.WF :=
  ⟨by decide, by decide, ⟨_, rfl, by decide⟩, ⟨_, rfl, by decide, by decide⟩⟩

/-- Effect of `grid_scroll` on the cells, for a region inside the grid of a well-formed
state and any row delta. -/
theorem ScrollRegion_cells [NatCast F] [Add F] [Sub F] [Mul F] (K : Constants) (r : Renderer F)
    (top bottom left right d : Int) (hwf : r.WF)
    (h1 : 0 ≤ top) (h2 : top ≤ bottom) (h3 : bottom ≤ r.grid_rows)
    (h4 : 0 ≤ left) (h5 : left ≤ right) (h6 : right ≤ r.grid_cols) :
    ∃ r', ScrollRegion K r top bottom left right d 0 = .ok r' ∧ r'.WF ∧ r.sameFrame r' ∧
      ∀ row col, row < r.grid_rows → col < r.grid_cols →
        r'.cell row col =
          if top ≤ (row : Int) ∧ (row : Int) < bottom ∧ left ≤ (col : Int) ∧ (col : Int) < right ∧
              top ≤ (row : Int) + d ∧ (row : Int) + d < bottom then
            r.cell ((row : Int) + d).toNat col
          else r.cell row col := by
  obtain ⟨l, rfl⟩ : ∃ l : Nat, left = l := ⟨left.toNat, by omega⟩
  obtain ⟨rt, rfl⟩ : ∃ rt : Nat, right = rt := ⟨right.toNat, by omega⟩
  have hl : l ≤ rt := by omega
  have hrt : rt ≤ r.grid_cols := by omega
  have hfin : ∀ r1 : Renderer F, r1.WF → r.sameFrame r1 →
      ∃ r', (if toInt32 ((r1.cursor.row : Int) - d) ≥ 0 ∧
            toInt32 ((r1.cursor.row : Int) - d) < r1.grid_rows then
          DrawGridLine K r1 (toInt32 ((r1.cursor.row : Int) - d)).toNat else pure r1) = .ok r' ∧
        r1.sameStore r' := by
    intro r1 hwf1 _
    split_ifs with hc
    · exact DrawGridLine_ok K r1 _ hwf1 (by omega)
    · exact ⟨r1, rfl, sameStore_refl r1⟩
  unfold ScrollRegion
  simp only [ne_eq, not_true_eq_false, if_false, bind, Except.bind]
  by_cases hd : 0 < d
  · obtain ⟨r1, hr1, hwf1, hsf1, hcell1⟩ := ScrollRegion_loop_down K r top bottom d l rt hd h1 h3
      hl hrt (bottom - top).toNat top r hwf (sameFrame_refl r) (le_refl _) (by omega)
      (by
        intro row col _ _
        rw [if_neg (by omega)])
    have hdec : decide (d > 0) = true := by simpa using hd
    simp only [hdec, if_true, hr1]
    obtain ⟨r', hr', hst⟩ := hfin r1 hwf1 hsf1
    refine ⟨r', hr', WF_sameStore hst hwf1, sameFrame_trans hsf1 (sameFrame_of_sameStore hst), ?_⟩
    intro row col hrow hcol
    rw [cell_sameStore hst, hcell1 row col hrow hcol]
    split_ifs <;> first | rfl | (exfalso; omega)
  · obtain ⟨r1, hr1, hwf1, hsf1, hcell1⟩ := ScrollRegion_loop_up K r top bottom d l rt
      (by omega) h1 h3 hl hrt (bottom - top).toNat (bottom - 1) r hwf (sameFrame_refl r)
      (by omega) (by omega)
      (by
        intro row col _ _
        rw [if_neg (by omega)])
    have hdec : decide (d > 0) = false := by simpa using hd
    simp only [hdec, Bool.false_eq_true, if_false, hr1]
    obtain ⟨r', hr', hst⟩ := hfin r1 hwf1 hsf1
    refine ⟨r', hr', WF_sameStore hst hwf1, sameFrame_trans hsf1 (sameFrame_of_sameStore hst), ?_⟩
    intro row col hrow hcol
    rw [cell_sameStore hst, hcell1 row col hrow hcol]
    split_ifs <;> first | rfl | (exfalso; omega)

/-- C3: for a region with `0 ≤ top ≤ bottom ≤ grid_rows` and
`0 ≤ left ≤ right ≤ grid_cols` of a well-formed state and any row delta `d` (column
delta 0), `grid_scroll` succeeds; afterwards every cell `(row, col)` of the region whose
source row `row + d` lies in the region equals (character, highlight id and wide mark)
the cell `(row + d, col)` of the state before, and every other cell equals the cell at
the same place before; nothing but the two grid buffers and the calls changes.  With
`d > 0` a cell thus takes the content of a row below it: content moves up.  The same
holds in the older renderer, whose cells are a character and a highlight id. -/
theorem ScrollRegion_scroll [NatCast F] [Add F] [Sub F] [Mul F] (K : Constants)
    (top bottom left right d : Int)
    (h1 : 0 ≤ top) (h2 : top ≤ bottom) (h4 : 0 ≤ left) (h5 : left ≤ right) :
    (∀ r : Renderer F, r.WF → bottom ≤ r.grid_rows → right ≤ r.grid_cols →
      ∃ r', ScrollRegion K r top bottom left right d 0 = .ok r' ∧ r.sameFrame r' ∧
        ∀ row col, row < r.grid_rows → col < r.grid_cols →
          (∃ c, r'.cell row col = some c) ∧
          r'.cell row col =
            if top ≤ (row : Int) ∧ (row : Int) < bottom ∧
                left ≤ (col : Int) ∧ (col : Int) < right ∧
                top ≤ (row : Int) + d ∧ (row : Int) + d < bottom then
              r.cell ((row : Int) + d).toNat col
            else r.cell row col) ∧
    (∀ s : Legacy.Renderer, s.WF → bottom ≤ s.grid_rows → right ≤ s.grid_cols →
      ∃ s', Legacy.ScrollRegion s top bottom left right d 0 = .ok s' ∧
        s'.grid_rows = s.grid_rows ∧ s'.grid_cols = s.grid_cols ∧
        ∀ row col, row < s.grid_rows → col < s.grid_cols →
          (∃ c, s'.cell row col = some c) ∧
          s'.cell row col =
            if top ≤ (row : Int) ∧ (row : Int) < bottom ∧
                left ≤ (col : Int) ∧ (col : Int) < right ∧
                top ≤ (row : Int) + d ∧ (row : Int) + d < bottom then
              s.cell ((row : Int) + d).toNat col
            else s.cell row col) := by
  constructor
  · intro r hwf h3 h6
    obtain ⟨r', hr', hwf', hsf, hcell⟩ := ScrollRegion_cells K r top bottom left right d hwf
      h1 h2 h3 h4 h5 h6
    refine ⟨r', hr', hsf, fun row col hrow hcol => ⟨?_, hcell row col hrow hcol⟩⟩
    exact WF_cell_some hwf' row col (by rw [sameFrame_rows hsf]; exact hrow)
      (by rw [sameFrame_cols hsf]; exact hcol)
  · intro s hwf h3 h6
    obtain ⟨s', hs', hwf', hrows, hcols, hcell⟩ := Legacy.scroll_cells s top bottom left
      right d hwf h1 h2 h3 h4 h5 h6
    refine ⟨s', hs', hrows, hcols, fun row col hrow hcol => ⟨?_, hcell row col hrow hcol⟩⟩
    exact Legacy.cell_some_of_WF hwf' row col (by rw [hrows]; exact hrow) (by rw [hcols]; exact hcol)

/-- Witness for C3: scrolling columns 1 and 2 of the sample grids by one row moves `f`
(row 1, highlight id 2) to row 0 and leaves column 3 of row 0 alone. -/
theorem ScrollRegion_scroll_witness :
    (∃ r', ScrollRegion sampleConstants sampleRenderer 0 3 1 3 1 0 = .ok r' ∧
      r'.cell 0 1 = some ⟨102, 2, false⟩ ∧ r'.cell 0 3 = some ⟨100, 1, false⟩) ∧
    (∃ s', Legacy.ScrollRegion Legacy.sampleRenderer 0 3 1 3 1 0 = .ok s' ∧
      s'.cell 0 1 = some (102, 2) ∧ s'.cell 0 3 = some (100, 1)) := by
  have h := ScrollRegion_scroll (F := Int) sampleConstants 0 3 1 3 1
    (by decide) (by decide) (by decide) (by decide)
  constructor
  · obtain ⟨r', h1, _, h2⟩ := h.1 sampleRenderer sampleRenderer_WF (by decide) (by decide)
    refine ⟨r', h1, ?_, ?_⟩
    · rw [(h2 0 1 (by decide) (by decide)).2]; decide
    · rw [(h2 0 3 (by decide) (by decide)).2]; decide
  · obtain ⟨s', h1, _, _, h2⟩ := h.2 Legacy.sampleRenderer Legacy.sample_WF
      (by decide) (by decide)
    refine ⟨s', h1, ?_, ?_⟩
    · rw [(h2 0 1 (by decide) (by decide)).2]; decide
    · rw [(h2 0 3 (by decide) (by decide)).2]; decide

/-- Two well-formed states of the same size whose cells agree hold the same buffers. -/
theorem store_eq_of_cells {r t : Renderer F} (hwf : r.WF) (hwf' : t.WF)
    (hrows : t.grid_rows = r.grid_rows) (hcols : t.grid_cols = r.grid_cols)
    (h : ∀ row col, row < r.grid_rows → col < r.grid_cols → t.cell row col = r.cell row col) :
    t.grid_chars = r.grid_chars ∧ t.grid_cell_properties = r.grid_cell_properties := by
  obtain ⟨hpos, _, ⟨cs, hc, hcl⟩, ⟨ps, hp, hpl, _⟩⟩ := hwf
  obtain ⟨_, _, ⟨cs', hc', hcl'⟩, ⟨ps', hp', hpl', _⟩⟩ := hwf'
  rw [hrows, hcols] at hcl' hpl'
  have key : ∀ n, n < r.grid_rows * r.grid_cols →
      cs'[n]? = cs[n]? ∧ ps'[n]? = ps[n]? := by
    intro n hn
    have hrow : n / r.grid_cols < r.grid_rows := (Nat.div_lt_iff_lt_mul hpos).mpr hn
    have hcol : n % r.grid_cols < r.grid_cols := Nat.mod_lt _ hpos
    have hidx : n / r.grid_cols * r.grid_cols + n % r.grid_cols = n := by
      rw [Nat.mul_comm]; exact Nat.div_add_mod n r.grid_cols
    have hh := h _ _ hrow hcol
    simp only [Renderer.cell, hc, hp, hc', hp', hcols, hidx] at hh
    have e1 : cs'[n]? = some cs'[n] := by simp [hcl', hn]
    have e2 : ps'[n]? = some ps'[n] := by simp [hpl', hn]
    have e3 : cs[n]? = some cs[n] := by simp [hcl, hn]
    have e4 : ps[n]? = some ps[n] := by simp [hpl, hn]
    rw [e1, e2, e3, e4] at hh
    simp only [Option.some.injEq, Cell.mk.injEq] at hh
    obtain ⟨g1, g2, g3⟩ := hh
    rw [e1, e2, e3, e4, g1]
    refine ⟨rfl, ?_⟩
    congr 1
    cases hx : ps'[n]
    cases hy : ps[n]
    simp only [hx, hy] at g2 g3
    rw [g2, g3]
  rw [hc, hp, hc', hp']
  constructor
  · congr 1
    apply List.ext_getElem? 
    intro n
    by_cases hn : n < r.grid_rows * r.grid_cols
    · exact (key n hn).1
    · rw [List.getElem?_eq_none (by omega), List.getElem?_eq_none (by omega)]
  · congr 1
    apply List.ext_getElem?
    intro n
    by_cases hn : n < r.grid_rows * r.grid_cols
    · exact (key n hn).2
    · rw [List.getElem?_eq_none (by omega), List.getElem?_eq_none (by omega)]

/-- C4: for a well-formed state and a region inside the grid, `grid_scroll` with
`rows = 0` and `cols = 0` succeeds and leaves the grid store as it was: the dimensions,
both buffers, and so every cell's character, highlight id and wide mark. -/
theorem ScrollRegion_zero_rows [NatCast F] [Add F] [Sub F] [Mul F] (K : Constants)
    (r : Renderer F) (top bottom left right : Int) (hwf : r.WF)
    (h1 : 0 ≤ top) (h2 : top ≤ bottom) (h3 : bottom ≤ r.grid_rows)
    (h4 : 0 ≤ left) (h5 : left ≤ right) (h6 : right ≤ r.grid_cols) :
    ∃ r', ScrollRegion K r top bottom left right 0 0 = .ok r' ∧
      r'.grid_rows = r.grid_rows ∧ r'.grid_cols = r.grid_cols ∧
      r'.grid_chars = r.grid_chars ∧ r'.grid_cell_properties = r.grid_cell_properties ∧
      ∀ row col, row < r.grid_rows → col < r.grid_cols → r'.cell row col = r.cell row col := by
  obtain ⟨r', hr', hwf', hsf, hcell⟩ := ScrollRegion_cells K r top bottom left right 0 hwf
    h1 h2 h3 h4 h5 h6
  have hsame : ∀ row col, row < r.grid_rows → col < r.grid_cols →
      r'.cell row col = r.cell row col := by
    intro row col hrow hcol
    rw [hcell row col hrow hcol]
    split_ifs
    · simp
    · rfl
  obtain ⟨e1, e2⟩ := store_eq_of_cells hwf hwf' (sameFrame_rows hsf) (sameFrame_cols hsf) hsame
  exact ⟨r', hr', sameFrame_rows hsf, sameFrame_cols hsf, e1, e2, hsame⟩

/-- Witness for C4 on the sample grid. -/
theorem ScrollRegion_zero_rows_witness :
    ∃ r', ScrollRegion sampleConstants sampleRenderer 0 3 1 3 0 0 = .ok r' ∧
      r'.grid_chars = sampleRenderer.grid_chars ∧
      r'.grid_cell_properties = sampleRenderer.grid_cell_properties := by
  obtain ⟨r', h, _, _, e1, e2, _⟩ := ScrollRegion_zero_rows sampleConstants sampleRenderer
    0 3 1 3 sampleRenderer_WF (by decide) (by decide) (by decide) (by decide) (by decide)
    (by decide)
  exact ⟨r', h, e1, e2⟩

/-- C5: scrolling is not a round trip.  On the sample grid (rows `abcd`, `efgh`, `ijkl`)
with the region of rows 0 to 2 and columns 1 to 2, scrolling by `rows = 1` and then by
`rows = -1` leaves `f` in row 0, column 1, where `b` was: row 0, the row outside the
overlap, is not restored. -/
theorem ScrollRegion_not_round_trip :
    ∃ r1 r2, ScrollRegion sampleConstants sampleRenderer 0 3 1 3 1 0 = .ok r1 ∧
      ScrollRegion sampleConstants r1 0 3 1 3 (-1) 0 = .ok r2 ∧
      sampleRenderer.cell 0 1 = some ⟨98, 1, false⟩ ∧
      r2.cell 0 1 = some ⟨102, 2, false⟩ ∧
      r2.cell 0 1 ≠ sampleRenderer.cell 0 1 := by
  obtain ⟨r1, hr1, hwf1, hsf1, hcell1⟩ := ScrollRegion_cells sampleConstants sampleRenderer
    0 3 1 3 1 sampleRenderer_WF (by decide) (by decide) (by decide) (by decide) (by decide)
    (by decide)
  have hrows : r1.grid_rows = 3 := sameFrame_rows hsf1
  have hcols : r1.grid_cols = 4 := sameFrame_cols hsf1
  obtain ⟨r2, hr2, _, _, hcell2⟩ := ScrollRegion_cells sampleConstants r1
    0 3 1 3 (-1) hwf1 (by decide) (by decide) (by rw [hrows]; decide) (by decide) (by decide)
    (by rw [hcols]; decide)
  have e2 : r2.cell 0 1 = some ⟨102, 2, false⟩ := by
    rw [hcell2 0 1 (by rw [hrows]; decide) (by rw [hcols]; decide), if_neg (by decide),
      hcell1 0 1 (by decide) (by decide)]
    decide
  refine ⟨r1, r2, hr1, hr2, by decide, e2, ?_⟩
  rw [e2]
  decide

/-! ## Storing a run of cells -/

theorem writeSlice_getElem? {α : Type} (xs vs : List α) (i : Nat)
    (h : i + vs.length ≤ xs.length) (k : Nat) :
    (xs.take i ++ vs ++ xs.drop (i + vs.length))[k]? =
      if i ≤ k ∧ k < i + vs.length then vs[k - i]? else xs[k]? := by
  have h1 : (xs.take i).length = i := by rw [List.length_take]; omega
  rw [List.append_assoc]
  by_cases hk : k < i
  · rw [List.getElem?_append_left (by omega), List.getElem?_take, if_pos hk, if_neg (by omega)]
  · rw [List.getElem?_append_right (by omega), h1]
    by_cases hk2 : k < i + vs.length
    · rw [List.getElem?_append_left (by omega), if_pos (by omega)]
    · rw [List.getElem?_append_right (by omega), List.getElem?_drop, if_neg (by omega)]
      congr 1
      omega

theorem writeSlice_length {α : Type} (xs vs : List α) (i : Nat)
    (h : i + vs.length ≤ xs.length) :
    (xs.take i ++ vs ++ xs.drop (i + vs.length)).length = xs.length := by
  simp only [List.length_append, List.length_take, List.length_drop]
  omega

/-- The conversion of a non-empty text that fits between `idx` and the end of the grid. -/
theorem MultiByteToWideChar_fits (text chars : List Nat) (idx grid_size : Nat)
    (htext : text ≠ []) (hfit : idx + text.length ≤ grid_size)
    (hlen : chars.length = grid_size) :
    MultiByteToWideChar text chars idx ((grid_size : Int) - (idx : Int)) =
      .ok (text.length, chars.take idx ++ text ++ chars.drop (idx + text.length)) := by
  have hpos : 0 < text.length := List.length_pos.mpr htext
  unfold MultiByteToWideChar
  rw [if_neg (by simp only [htext, false_or]; omega), if_neg (by omega), if_neg (by omega)]
  simp only [writeSlice, hlen, hfit, if_true, bind, Except.bind, pure, Except.pure]

/-- The repeat loop from round `k` on, `n` rounds being left, when the rounds before
have stored `k` copies of the text. -/
theorem repeatLoop_spec (text : List Nat) (grid_size offset : Nat) (htext : text ≠ []) :
    ∀ (n k wstrlen : Nat) (chars : List Nat), (k = 0 ∨ wstrlen = text.length) →
      offset + (k + n) * text.length ≤ grid_size → chars.length = grid_size →
      ∃ chars', DrawGridLines.repeatLoop text grid_size offset n k wstrlen chars =
          .ok ((if n = 0 then wstrlen else text.length), chars') ∧
        chars'.length = grid_size ∧
        ∀ idx, chars'[idx]? =
          if offset + k * text.length ≤ idx ∧ idx < offset + (k + n) * text.length then
            some (text.getD ((idx - offset) % text.length) 0)
          else chars[idx]? := by
  have hpos : 0 < text.length := List.length_pos.mpr htext
  intro n
  induction n with
  | zero =>
    intro k wstrlen chars _ _ hlen
    refine ⟨chars, rfl, hlen, ?_⟩
    intro idx
    rw [if_neg (by simp)]
  | succ n ih =>
    intro k wstrlen chars hk hfit hlen
    have hidx : offset + k * wstrlen = offset + k * text.length := by
      rcases hk with rfl | rfl
      · simp
      · rfl
    have hmul : (k + (n + 1)) * text.length = k * text.length + text.length + n * text.length := by
      ring
    have hmul2 : (k + 1 + n) * text.length = k * text.length + text.length + n * text.length := by
      ring
    rw [DrawGridLines.repeatLoop]
    simp only [hidx]
    rw [MultiByteToWideChar_fits text chars _ grid_size htext (by omega) hlen]
    simp only [bind, Except.bind]
    obtain ⟨chars', hrun, hlen', hget⟩ := ih (k + 1) text.length
      (chars.take (offset + k * text.length) ++ text ++
        chars.drop (offset + k * text.length + text.length)) (Or.inr rfl) (by omega)
      (by rw [writeSlice_length _ _ _ (by omega)]; exact hlen)
    refine ⟨chars', ?_, hlen', ?_⟩
    · rw [hrun]
      simp only [Nat.succ_ne_zero, if_false]
      split_ifs <;> rfl
    · intro idx
      rw [hget idx, writeSlice_getElem? _ _ _ (by omega)]
      have hk1 : (k + 1) * text.length = k * text.length + text.length := by ring
      by_cases h1 : offset + (k + 1) * text.length ≤ idx ∧
          idx < offset + (k + 1 + n) * text.length
      · rw [if_pos h1, if_pos (by omega)]
      · rw [if_neg h1]
        by_cases h2 : offset + k * text.length ≤ idx ∧
            idx < offset + k * text.length + text.length
        · rw [if_pos h2, if_pos (by omega)]
          have hm : (idx - offset) % text.length = idx - (offset + k * text.length) := by
            have : idx - offset = (idx - (offset + k * text.length)) + k * text.length := by
              omega
            rw [this, Nat.add_mul_mod_self_right, Nat.mod_eq_of_lt (by omega)]
          rw [hm, List.getD_eq_getElem?_getD]
          have hlt : idx - (offset + k * text.length) < text.length := by omega
          simp [hlt]
        · rw [if_neg h2, if_neg (by omega)]

/-- The property loop from round `k` on, `n` rounds being left. -/
theorem propLoop_spec (hl offset : Nat) :
    ∀ (n k : Nat) (props : List CellProperty), offset + k + n ≤ props.length →
      ∃ props', DrawGridLines.propLoop hl offset n k props = .ok props' ∧
        props'.length = props.length ∧
        ∀ idx, props'[idx]? =
          if offset + k ≤ idx ∧ idx < offset + k + n then
            some { hl_attrib_id := hl % 2 ^ 16, is_wide_char := false }
          else props[idx]? := by
  intro n
  induction n with
  | zero =>
    intro k props _
    refine ⟨props, rfl, rfl, ?_⟩
    intro idx
    rw [if_neg (by omega)]
  | succ n ih =>
    intro k props hfit
    have hcur : props[offset + k]? = some props[offset + k] := by
      have : offset + k < props.length := by omega
      simp [this]
    rw [DrawGridLines.propLoop, modifyAt_eq _ hcur]
    simp only [bind, Except.bind]
    obtain ⟨props', hrun, hlen', hget⟩ := ih (k + 1)
      (props.set (offset + k) { hl_attrib_id := hl % 2 ^ 16, is_wide_char := false })
      (by rw [List.length_set]; omega)
    refine ⟨props', hrun, by rw [hlen', List.length_set], ?_⟩
    intro idx
    rw [hget idx, List.getElem?_set]
    by_cases h1 : offset + (k + 1) ≤ idx ∧ idx < offset + (k + 1) + n
    · rw [if_pos h1, if_pos (by omega)]
    · rw [if_neg h1]
      by_cases h2 : offset + k = idx
      · rw [if_pos h2, if_pos (by omega), if_pos (by omega)]
      · rw [if_neg h2, if_neg (by omega)]

/-! ## The cell loop on entries with non-empty text -/

theorem writtenAt_lt : ∀ (cells : List GridLineCell) (start hl idx : Nat), idx < start →
    writtenAt cells start hl idx = none := by
  intro cells
  induction cells with
  | nil => intros; rfl
  | cons c rest ih =>
    intro start hl idx h
    rw [writtenAt, if_neg (by omega)]
    exact ih _ _ _ (by omega)

theorem writtenAt_ge : ∀ (cells : List GridLineCell) (start hl idx : Nat),
    start + totalWidth cells ≤ idx → writtenAt cells start hl idx = none := by
  intro cells
  induction cells with
  | nil => intros; rfl
  | cons c rest ih =>
    intro start hl idx h
    have hw : totalWidth (c :: rest) = c.text.length * c.repeatCount + totalWidth rest := by
      simp [totalWidth]
    rw [writtenAt, if_neg (by omega)]
    exact ih _ _ _ (by omega)

theorem writtenAt_shift : ∀ (cells : List GridLineCell) (b start hl col : Nat),
    writtenAt cells (b + start) hl (b + col) = writtenAt cells start hl col := by
  intro cells
  induction cells with
  | nil => intros; rfl
  | cons c rest ih =>
    intro b start hl col
    rw [writtenAt, writtenAt]
    have e : b + col - (b + start) = col - start := by omega
    by_cases h : start ≤ col ∧ col < start + c.text.length * c.repeatCount
    · rw [if_pos h, if_pos (by omega), e]
    · rw [if_neg h, if_neg (by omega), Nat.add_assoc]
      exact ih _ _ _ _

/-- One round of the cell loop for an entry with text that is not followed by an entry
with empty text. -/
theorem cellLoop_cons_run (grid_cols grid_size row : Nat) (c : GridLineCell)
    (rest : List GridLineCell) (col_offset hl : Nat) (chars : List Nat)
    (props : List CellProperty) (hc : c.text ≠ []) (hrest : ∀ n ∈ rest, n.text ≠ []) :
    DrawGridLines.cellLoop grid_cols grid_size row (c :: rest) col_offset hl chars props =
      (DrawGridLines.repeatLoop c.text grid_size (row * grid_cols + col_offset)
        c.repeatCount 0 0 chars).bind (fun v =>
        (DrawGridLines.propLoop (c.ints.head?.getD hl) (row * grid_cols + col_offset)
          (v.1 * c.repeatCount) 0 props).bind (fun props' =>
          DrawGridLines.cellLoop grid_cols grid_size row rest
            (col_offset + v.1 * c.repeatCount) (c.ints.head?.getD hl) v.2 props')) := by
  cases rest with
  | nil =>
    cases hi : c.ints <;>
      simp [DrawGridLines.cellLoop, hi, hc, bind, GridLineCell.repeatCount]
  | cons n tl =>
    have hn : n.text ≠ [] := hrest n (List.mem_cons_self _ _)
    cases hi : c.ints <;>
      simp [DrawGridLines.cellLoop, hi, hc, hn, bind, GridLineCell.repeatCount]

/-- The cell loop on entries that all have text and fit into the grid: both buffers
afterwards, index by index. -/
theorem cellLoop_runs (grid_cols grid_size row : Nat) :
    ∀ (cells : List GridLineCell) (col_offset hl : Nat) (chars : List Nat)
      (props : List CellProperty), (∀ c ∈ cells, c.text ≠ []) →
      row * grid_cols + col_offset + totalWidth cells ≤ grid_size →
      chars.length = grid_size → props.length = grid_size →
      ∃ chars' props',
        DrawGridLines.cellLoop grid_cols grid_size row cells col_offset hl chars props =
          .ok (chars', props') ∧
        chars'.length = grid_size ∧ props'.length = grid_size ∧
        ∀ idx,
          chars'[idx]? = (match writtenAt cells (row * grid_cols + col_offset) hl idx with
            | some v => some v.1
            | none => chars[idx]?) ∧
          props'[idx]? = (match writtenAt cells (row * grid_cols + col_offset) hl idx with
            | some v => some { hl_attrib_id := v.2 % 2 ^ 16, is_wide_char := false }
            | none => props[idx]?) := by
  intro cells
  induction cells with
  | nil =>
    intro col_offset hl chars props _ _ hcl hpl
    exact ⟨chars, props, rfl, hcl, hpl, fun idx => ⟨rfl, rfl⟩⟩
  | cons c rest ih =>
    intro col_offset hl chars props htext hfit hcl hpl
    have hc : c.text ≠ [] := htext c (List.mem_cons_self _ _)
    have hrest : ∀ n ∈ rest, n.text ≠ [] := fun n hn => htext n (List.mem_cons_of_mem _ hn)
    have hw : totalWidth (c :: rest) = c.text.length * c.repeatCount + totalWidth rest := by
      simp [totalWidth]
    have hcomm : c.repeatCount * c.text.length = c.text.length * c.repeatCount :=
      Nat.mul_comm _ _
    obtain ⟨chars1, hrun1, hcl1, hget1⟩ := repeatLoop_spec c.text grid_size
      (row * grid_cols + col_offset) hc c.repeatCount 0 0 chars (Or.inl rfl)
      (by rw [Nat.zero_add, hcomm]; omega) hcl
    have hwidth : (if c.repeatCount = 0 then 0 else c.text.length) * c.repeatCount =
        c.text.length * c.repeatCount := by
      split_ifs with h0
      · rw [h0]; simp
      · rfl
    obtain ⟨props1, hrun2, hpl1, hget2⟩ := propLoop_spec (c.ints.head?.getD hl)
      (row * grid_cols + col_offset) (c.text.length * c.repeatCount) 0 props (by omega)
    obtain ⟨chars', props', hrun3, hcl', hpl', hget3⟩ := ih
      (col_offset + c.text.length * c.repeatCount) (c.ints.head?.getD hl) chars1 props1 hrest
      (by omega) hcl1 (by rw [hpl1]; exact hpl)
    refine ⟨chars', props', ?_, hcl', hpl', ?_⟩
    · rw [cellLoop_cons_run grid_cols grid_size row c rest col_offset hl chars props hc hrest,
        hrun1]
      simp only [Except.bind, hwidth, hrun2, hrun3]
    · intro idx
      obtain ⟨g1, g2⟩ := hget3 idx
      have hstart : row * grid_cols + (col_offset + c.text.length * c.repeatCount) =
          row * grid_cols + col_offset + c.text.length * c.repeatCount := by omega
      rw [hstart] at g1 g2
      rw [g1, g2, hget1 idx, hget2 idx, writtenAt]
      simp only [Nat.zero_mul, Nat.add_zero, Nat.zero_add, hcomm]
      by_cases hin : row * grid_cols + col_offset ≤ idx ∧
          idx < row * grid_cols + col_offset + c.text.length * c.repeatCount
      · rw [if_pos hin, if_pos hin, if_pos hin, writtenAt_lt rest _ _ idx hin.2]
        exact ⟨rfl, rfl⟩
      · rw [if_neg hin, if_neg hin, if_neg hin]
        exact ⟨rfl, rfl⟩

/-! ## grid_line: claim C1 -/

theorem writtenAt_id (P : Nat → Prop) : ∀ (cells : List GridLineCell) (start hl idx : Nat)
    (v : Nat × Nat), writtenAt cells start hl idx = some v → P hl →
    (∀ c ∈ cells, ∀ id ∈ c.ints.head?, P id) → P v.2 := by
  intro cells
  induction cells with
  | nil => intro _ _ _ v h; cases h
  | cons c rest ih =>
    intro start hl idx v h hhl hall
    have hid : P (c.ints.head?.getD hl) := by
      cases hh : c.ints.head? with
      | none => exact hhl
      | some id => exact hall c (List.mem_cons_self _ _) id hh
    rw [writtenAt] at h
    split_ifs at h
    · cases h; exact hid
    · exact ih _ _ _ v h hid (fun c' hc' => hall c' (List.mem_cons_of_mem _ hc'))

theorem writtenAt_inside : ∀ (cells : List GridLineCell) (start hl idx : Nat),
    start ≤ idx → idx < start + totalWidth cells → ∃ v, writtenAt cells start hl idx = some v := by
  intro cells
  induction cells with
  | nil =>
    intro start hl idx h1 h2
    simp [totalWidth] at h2
    omega
  | cons c rest ih =>
    intro start hl idx h1 h2
    have hw : totalWidth (c :: rest) = c.text.length * c.repeatCount + totalWidth rest := by
      simp [totalWidth]
    rw [writtenAt]
    split_ifs with h
    · exact ⟨_, rfl⟩
    · exact ih _ _ _ (by omega) (by omega)

/-- A `grid_line` event with one entry whose cells all have text and fit into the row,
on a well-formed state: the buffers afterwards. -/
theorem DrawGridLines_line_runs [NatCast F] [Add F] [Sub F] [Mul F] (K : Constants)
    (r : Renderer F) (row col_start : Nat) (cells : List GridLineCell)
    (hwf : r.WF) (hrow : row < r.grid_rows) (htext : ∀ c ∈ cells, c.text ≠ [])
    (hfit : col_start + totalWidth cells ≤ r.grid_cols)
    (hids : ∀ c ∈ cells, ∀ id ∈ c.ints.head?, id < 2 ^ 16 ∧ id < r.hl_attribs.length) :
    ∃ r' chars props chars' props', r.grid_chars = some chars ∧
      r.grid_cell_properties = some props ∧
      DrawGridLines K r [⟨row, col_start, cells⟩] = .ok r' ∧ r.sameFrame r' ∧
      r'.grid_chars = some chars' ∧ r'.grid_cell_properties = some props' ∧
      ∀ idx,
        chars'[idx]? = (match writtenAt cells (row * r.grid_cols + col_start) 0 idx with
          | some v => some v.1
          | none => chars[idx]?) ∧
        props'[idx]? = (match writtenAt cells (row * r.grid_cols + col_start) 0 idx with
          | some v => some { hl_attrib_id := v.2, is_wide_char := false }
          | none => props[idx]?) := by
  obtain ⟨hcols, hsz, ⟨chars, hc, hcl⟩, ⟨props, hp, hpl, hpid⟩⟩ := hwf
  have hflat : row * r.grid_cols + r.grid_cols ≤ r.grid_rows * r.grid_cols := by
    have h : (row + 1) * r.grid_cols ≤ r.grid_rows * r.grid_cols := Nat.mul_le_mul_right _ hrow
    rw [Nat.succ_mul] at h
    exact h
  have hsize : r.grid_cols * r.grid_rows = r.grid_rows * r.grid_cols := Nat.mul_comm _ _
  obtain ⟨chars', props', hrun, hcl', hpl', hget⟩ := cellLoop_runs r.grid_cols
    (r.grid_cols * r.grid_rows) row cells col_start 0 chars props htext (by omega)
    (by omega) (by omega)
  have htab : 0 < r.hl_attribs.length := by
    have h0 : 0 < props.length := by
      rw [hpl]; exact Nat.mul_pos (by omega) hcols
    have := hpid props[0] (List.getElem_mem h0)
    omega
  have hval : ∀ idx v, writtenAt cells (row * r.grid_cols + col_start) 0 idx = some v →
      v.2 < 2 ^ 16 ∧ v.2 < r.hl_attribs.length := by
    intro idx v hv
    exact writtenAt_id (fun id => id < 2 ^ 16 ∧ id < r.hl_attribs.length) cells _ 0 idx v hv
      ⟨by decide, htab⟩ hids
  have hwf2 : ({ r with grid_chars := some chars', grid_cell_properties := some props' } :
      Renderer F).WF := by
    refine ⟨hcols, hsz, ⟨chars', rfl, (by show chars'.length = r.grid_rows * r.grid_cols; omega)⟩,
      ⟨props', rfl, (by show props'.length = r.grid_rows * r.grid_cols; omega), ?_⟩⟩
    intro p hmem
    obtain ⟨idx, hlt, rfl⟩ := List.getElem_of_mem hmem
    have hsome : props'[idx]? = some props'[idx] := by simp [hlt]
    have g := (hget idx).2
    rw [hsome] at g
    cases hw : writtenAt cells (row * r.grid_cols + col_start) 0 idx with
    | none =>
      rw [hw] at g
      have hlt2 : idx < props.length := by omega
      have : props[idx]? = some props[idx] := by simp [hlt2]
      rw [this] at g
      rw [Option.some.inj g]
      exact hpid _ (List.getElem_mem hlt2)
    | some v =>
      rw [hw] at g
      rw [Option.some.inj g]
      show v.2 % 2 ^ 16 < r.hl_attribs.length
      rw [Nat.mod_eq_of_lt (hval idx v hw).1]
      exact (hval idx v hw).2
  obtain ⟨r', hr', hst⟩ := DrawGridLine_ok K
    ({ r with grid_chars := some chars', grid_cell_properties := some props' } : Renderer F)
    row hwf2 hrow
  refine ⟨r', chars, props, chars', props', hc, hp, ?_, ?_, ?_, ?_, ?_⟩
  · unfold DrawGridLines
    rw [if_neg (by simp [hc, hp])]
    simp only [List.foldlM_cons, List.foldlM_nil, DrawGridLines.line, hc, hp, deref, bind,
      Except.bind, hrun, hr', pure, Except.pure]
  · refine sameFrame_trans ?_ (sameFrame_of_sameStore hst)
    simp [Renderer.sameFrame]
  · rw [hst]
  · rw [hst]
  · intro idx
    obtain ⟨g1, g2⟩ := hget idx
    refine ⟨g1, ?_⟩
    rw [g2]
    cases hw : writtenAt cells (row * r.grid_cols + col_start) 0 idx with
    | none => rfl
    | some v =>
      simp only []
      rw [Nat.mod_eq_of_lt (hval idx v hw).1]

/-! ## A double-width pair -/

/-- The three stores into the cell properties for a double-width pair at `offset`. -/
theorem wide_props (props : List CellProperty) (offset id : Nat)
    (h : offset + 1 < props.length) :
    ∃ p1 p2 p3,
      modifyAt props offset (fun p => { p with is_wide_char := true }) = .ok p1 ∧
      modifyAt p1 offset (fun p => { p with hl_attrib_id := id }) = .ok p2 ∧
      modifyAt p2 (offset + 1) (fun p => { p with hl_attrib_id := id }) = .ok p3 ∧
      p3.length = props.length ∧
      ∀ idx, p3[idx]? =
        if idx = offset then some { hl_attrib_id := id, is_wide_char := true }
        else if idx = offset + 1 then
          some { hl_attrib_id := id, is_wide_char := props[offset + 1].is_wide_char }
        else props[idx]? := by
  have hlt : offset < props.length := by omega
  have h0 : props[offset]? = some props[offset] := by simp [hlt]
  have h1 : (props.set offset ⟨props[offset].hl_attrib_id, true⟩)[offset]? =
      some ⟨props[offset].hl_attrib_id, true⟩ := by
    simp [List.getElem?_set, hlt]
  have h2 : ((props.set offset ⟨props[offset].hl_attrib_id, true⟩).set offset
      ⟨id, true⟩)[offset + 1]? = some props[offset + 1] := by
    simp [List.getElem?_set, h]
  refine ⟨props.set offset ⟨props[offset].hl_attrib_id, true⟩,
    (props.set offset ⟨props[offset].hl_attrib_id, true⟩).set offset ⟨id, true⟩,
    ((props.set offset ⟨props[offset].hl_attrib_id, true⟩).set offset ⟨id, true⟩).set
      (offset + 1) ⟨id, props[offset + 1].is_wide_char⟩,
    modifyAt_eq _ h0, modifyAt_eq _ h1, modifyAt_eq _ h2, by simp, ?_⟩
  intro idx
  simp only [List.getElem?_set, List.length_set]
  by_cases e0 : idx = offset
  · subst e0
    simp [hlt]
  · by_cases e1 : idx = offset + 1
    · subst e1
      simp [h]
    · rw [if_neg (Ne.symm e1), if_neg (Ne.symm e0), if_neg (Ne.symm e0), if_neg e0, if_neg e1]

/-- The cell loop on a text of one code unit followed by an empty text. -/
theorem cellLoop_wide_one (grid_cols grid_size row col_offset hl ch : Nat)
    (ints ints2 : List Nat) (chars : List Nat) (props : List CellProperty)
    (hfit : row * grid_cols + col_offset + 1 < grid_size)
    (hcl : chars.length = grid_size) (hpl : props.length = grid_size) :
    ∃ chars' props', DrawGridLines.cellLoop grid_cols grid_size row
        [⟨[ch], ints⟩, ⟨[], ints2⟩] col_offset hl chars props = .ok (chars', props') ∧
      chars'.length = grid_size ∧ props'.length = grid_size ∧
      ∀ idx,
        chars'[idx]? =
          (if idx = row * grid_cols + col_offset then some ch
          else if idx = row * grid_cols + col_offset + 1 then some 0
          else chars[idx]?) ∧
        props'[idx]? =
          (if idx = row * grid_cols + col_offset then
            some { hl_attrib_id := ints.head?.getD hl % 2 ^ 16, is_wide_char := true }
          else if idx = row * grid_cols + col_offset + 1 then
            some { hl_attrib_id := ints.head?.getD hl % 2 ^ 16
                   is_wide_char := (props.getD (row * grid_cols + col_offset + 1)
                     ⟨0, false⟩).is_wide_char }
          else props[idx]?) := by
  obtain ⟨p1, p2, props', hm1, hm2, hm3, hp2, hp3⟩ := wide_props props
    (row * grid_cols + col_offset) (ints.head?.getD hl % 2 ^ 16) (by omega)
  obtain ⟨chars1, hmb, hlen1, hget1⟩ : ∃ chars1,
      MultiByteToWideChar [ch] chars (row * grid_cols + col_offset)
        ((grid_size : Int) - ((row * grid_cols + col_offset : Nat) : Int)) = .ok (1, chars1) ∧
      chars1.length = grid_size ∧
      ∀ idx, chars1[idx]? =
        if row * grid_cols + col_offset ≤ idx ∧ idx < row * grid_cols + col_offset + 1 then
          [ch][idx - (row * grid_cols + col_offset)]? else chars[idx]? := by
    refine ⟨_, MultiByteToWideChar_fits [ch] chars _ grid_size (by simp) (by simp; omega) hcl,
      ?_, ?_⟩
    · rw [writeSlice_length chars [ch] _ (by simp; omega)]; exact hcl
    · intro idx
      exact writeSlice_getElem? chars [ch] _ (by simp; omega) idx
  have hb1 : row * grid_cols + col_offset + 1 < chars1.length := by omega
  have hnext : chars1[row * grid_cols + col_offset + 1]? =
      some chars1[row * grid_cols + col_offset + 1] := by
    simp [hlen1, hfit]
  refine ⟨chars1.set (row * grid_cols + col_offset + 1) 0, props', ?_, ?_, hp2.trans hpl, ?_⟩
  · cases ints <;> cases ints2 <;>
      simp only [DrawGridLines.cellLoop, bind, Except.bind, hm1, hm2, hm3, hmb, writeAt,
        modifyAt_eq _ hnext, pure, Except.pure, decide_True, if_true, true_or,
        List.head?_nil, List.head?_cons, Option.getD_none, Option.getD_some] at * <;>
      simp only [hm2, hm3, Except.bind, hmb, true_or, if_true, modifyAt_eq _ hnext,
        decide_False, Bool.false_eq_true, if_false]
  · simp [hlen1]
  · intro idx
    refine ⟨?_, ?_⟩
    · rw [List.getElem?_set, hget1 idx]
      by_cases e1 : idx = row * grid_cols + col_offset + 1
      · subst e1
        simp [hlen1, hfit]
      · rw [if_neg (Ne.symm e1)]
        by_cases e0 : idx = row * grid_cols + col_offset
        · subst e0; simp
        · rw [if_neg (by omega), if_neg e0, if_neg e1]
    · rw [hp3 idx]
      have hb2 : row * grid_cols + col_offset + 1 < props.length := by omega
      have hget : props.getD (row * grid_cols + col_offset + 1) ⟨0, false⟩ =
          props[row * grid_cols + col_offset + 1] := by
        rw [List.getD_eq_getElem?_getD]
        simp [hb2]
      rw [hget]

/-- The cell loop on a text of two code units followed by an empty text. -/
theorem cellLoop_wide_two (grid_cols grid_size row col_offset hl hi lo : Nat)
    (ints ints2 : List Nat) (chars : List Nat) (props : List CellProperty)
    (hfit : row * grid_cols + col_offset + 1 < grid_size)
    (hcl : chars.length = grid_size) (hpl : props.length = grid_size) :
    ∃ chars' props', DrawGridLines.cellLoop grid_cols grid_size row
        [⟨[hi, lo], ints⟩, ⟨[], ints2⟩] col_offset hl chars props = .ok (chars', props') ∧
      chars'.length = grid_size ∧ props'.length = grid_size ∧
      ∀ idx,
        chars'[idx]? =
          (if idx = row * grid_cols + col_offset then some hi
          else if idx = row * grid_cols + col_offset + 1 then some lo
          else chars[idx]?) ∧
        props'[idx]? =
          (if idx = row * grid_cols + col_offset then
            some { hl_attrib_id := ints.head?.getD hl % 2 ^ 16, is_wide_char := true }
          else if idx = row * grid_cols + col_offset + 1 then
            some { hl_attrib_id := ints.head?.getD hl % 2 ^ 16
                   is_wide_char := (props.getD (row * grid_cols + col_offset + 1)
                     ⟨0, false⟩).is_wide_char }
          else props[idx]?) := by
  obtain ⟨p1, p2, props', hm1, hm2, hm3, hp2, hp3⟩ := wide_props props
    (row * grid_cols + col_offset) (ints.head?.getD hl % 2 ^ 16) (by omega)
  obtain ⟨chars1, hmb, hlen1, hget1⟩ : ∃ chars1,
      MultiByteToWideChar [hi, lo] chars (row * grid_cols + col_offset)
        ((grid_size : Int) - ((row * grid_cols + col_offset : Nat) : Int)) = .ok (2, chars1) ∧
      chars1.length = grid_size ∧
      ∀ idx, chars1[idx]? =
        if row * grid_cols + col_offset ≤ idx ∧ idx < row * grid_cols + col_offset + 2 then
          [hi, lo][idx - (row * grid_cols + col_offset)]? else chars[idx]? := by
    refine ⟨_, MultiByteToWideChar_fits [hi, lo] chars _ grid_size (by simp) (by simp; omega) hcl,
      ?_, ?_⟩
    · rw [writeSlice_length chars [hi, lo] _ (by simp; omega)]; exact hcl
    · intro idx
      exact writeSlice_getElem? chars [hi, lo] _ (by simp; omega) idx
  refine ⟨chars1, props', ?_, hlen1, hp2.trans hpl, ?_⟩
  · cases ints <;> cases ints2 <;>
      simp only [DrawGridLines.cellLoop, bind, Except.bind, hm1, hm2, hm3, hmb,
        pure, Except.pure, decide_True, if_true, true_or, or_true,
        List.head?_nil, List.head?_cons, Option.getD_none, Option.getD_some] at * <;>
      simp only [hm2, hm3, Except.bind, hmb, true_or, or_true, if_true,
        decide_False, Bool.false_eq_true, if_false, OfNat.ofNat_ne_one, Nat.succ_ne_self]
  · intro idx
    refine ⟨?_, ?_⟩
    · rw [hget1 idx]
      by_cases e0 : idx = row * grid_cols + col_offset
      · subst e0; simp
      · by_cases e1 : idx = row * grid_cols + col_offset + 1
        · subst e1
          simp
        · rw [if_neg (by omega), if_neg e0, if_neg e1]
    · rw [hp3 idx]
      have hb2 : row * grid_cols + col_offset + 1 < props.length := by omega
      have hget : props.getD (row * grid_cols + col_offset + 1) ⟨0, false⟩ =
          props[row * grid_cols + col_offset + 1] := by
        rw [List.getD_eq_getElem?_getD]
        simp [hb2]
      rw [hget]

/-- A `grid_line` event with one entry, once the cell loop is known to return buffers of
the right size with highlight ids inside the table: the row is redrawn and the buffers
are those the cell loop returned. -/
theorem DrawGridLines_single [NatCast F] [Add F] [Sub F] [Mul F] (K : Constants)
    (r : Renderer F) (row col_start : Nat) (cells : List GridLineCell)
    (chars chars' : List Nat) (props props' : List CellProperty)
    (hcols : 0 < r.grid_cols) (hsz : r.grid_rows * r.grid_cols < 2 ^ 31)
    (hrow : row < r.grid_rows)
    (hc : r.grid_chars = some chars) (hp : r.grid_cell_properties = some props)
    (hrun : DrawGridLines.cellLoop r.grid_cols (r.grid_cols * r.grid_rows) row cells
      col_start 0 chars props = .ok (chars', props'))
    (hcl : chars'.length = r.grid_rows * r.grid_cols)
    (hpl : props'.length = r.grid_rows * r.grid_cols)
    (hids : ∀ p ∈ props', p.hl_attrib_id < r.hl_attribs.length) :
    ∃ r', DrawGridLines K r [⟨row, col_start, cells⟩] = .ok r' ∧ r.sameFrame r' ∧
      r'.grid_chars = some chars' ∧ r'.grid_cell_properties = some props' := by
  have hwf2 : ({ r with grid_chars := some chars', grid_cell_properties := some props' } :
      Renderer F).WF := ⟨hcols, hsz, ⟨chars', rfl, hcl⟩, ⟨props', rfl, hpl, hids⟩⟩
  obtain ⟨r', hr', hst⟩ := DrawGridLine_ok K
    ({ r with grid_chars := some chars', grid_cell_properties := some props' } : Renderer F)
    row hwf2 hrow
  refine ⟨r', ?_, ?_, by rw [hst], by rw [hst]⟩
  · unfold DrawGridLines
    rw [if_neg (by simp [hc, hp])]
    simp only [List.foldlM_cons, List.foldlM_nil, DrawGridLines.line, hc, hp, deref, bind,
      Except.bind, hrun, hr', pure, Except.pure]
  · refine sameFrame_trans ?_ (sameFrame_of_sameStore hst)
    simp [Renderer.sameFrame]

/-- Two flat indices of cells are equal only for the same cell. -/
theorem flat_inj (cols row col row' col' : Nat) (h1 : col < cols) (h2 : col' < cols)
    (h : row' * cols + col' = row * cols + col) : row' = row ∧ col' = col := by
  have := (flat_range_iff cols row col (col + 1) row' col' h2 (by omega) (by omega)).mp
    (by omega)
  omega

/-- C1, as amended: on a well-formed state, for a `grid_line` entry `(row, col_start,
cells)` whose cells all have a non-empty text and fit into the row, with highlight ids
that are 16-bit indices of the highlight table, `DrawGridLines` succeeds; every column
of the row that an entry reaches holds the character of that entry (its text repeated
`repeat` times, one column per UTF-16 code unit) with that entry's highlight id and no
wide mark; the columns the entries reach are exactly those from `col_start` to
`col_start + totalWidth cells - 1`; every other cell of the row and every cell of every
other row is as before, as are the dimensions and all but the two buffers and the
calls. -/
theorem DrawGridLines_runs [NatCast F] [Add F] [Sub F] [Mul F] (K : Constants)
    (r : Renderer F) (row col_start : Nat) (cells : List GridLineCell)
    (hwf : r.WF) (hrow : row < r.grid_rows) (htext : ∀ c ∈ cells, c.text ≠ [])
    (hfit : col_start + totalWidth cells ≤ r.grid_cols)
    (hids : ∀ c ∈ cells, ∀ id ∈ c.ints.head?, id < 2 ^ 16 ∧ id < r.hl_attribs.length) :
    ∃ r', DrawGridLines K r [⟨row, col_start, cells⟩] = .ok r' ∧ r.sameFrame r' ∧
      (∀ col, col < r.grid_cols →
        r'.cell row col = match writtenAt cells col_start 0 col with
          | some v => some ⟨v.1, v.2, false⟩
          | none => r.cell row col) ∧
      (∀ col, col_start ≤ col → col < col_start + totalWidth cells →
        ∃ v, writtenAt cells col_start 0 col = some v) ∧
      (∀ col, col < col_start ∨ col_start + totalWidth cells ≤ col →
        writtenAt cells col_start 0 col = none) ∧
      (∀ row' col, row' < r.grid_rows → col < r.grid_cols → row' ≠ row →
        r'.cell row' col = r.cell row' col) := by
  obtain ⟨r', chars, props, chars', props', hc, hp, hrun, hsf, hc', hp', hget⟩ :=
    DrawGridLines_line_runs K r row col_start cells hwf hrow htext hfit hids
  have hcols' := sameFrame_cols hsf
  refine ⟨r', hrun, hsf, ?_, ?_, ?_, ?_⟩
  · intro col hcol
    obtain ⟨g1, g2⟩ := hget (row * r.grid_cols + col)
    rw [writtenAt_shift] at g1 g2
    simp only [Renderer.cell, hc, hp, hc', hp', hcols', g1, g2]
    cases writtenAt cells col_start 0 col <;> rfl
  · intro col h1 h2
    exact writtenAt_inside cells col_start 0 col h1 h2
  · intro col h
    rcases h with h | h
    · exact writtenAt_lt cells col_start 0 col h
    · exact writtenAt_ge cells col_start 0 col h
  · intro row' col hrow' hcol hne
    obtain ⟨g1, g2⟩ := hget (row' * r.grid_cols + col)
    have hnone : writtenAt cells (row * r.grid_cols + col_start) 0 (row' * r.grid_cols + col) =
        none := by
      rcases Nat.lt_or_gt_of_ne hne with h | h
      · apply writtenAt_lt
        have h3 : (row' + 1) * r.grid_cols ≤ row * r.grid_cols := Nat.mul_le_mul_right _ h
        rw [Nat.succ_mul] at h3
        omega
      · apply writtenAt_ge
        have h3 : (row + 1) * r.grid_cols ≤ row' * r.grid_cols := Nat.mul_le_mul_right _ h
        rw [Nat.succ_mul] at h3
        omega
    rw [hnone] at g1 g2
    simp only [Renderer.cell, hc, hp, hc', hp', hcols', g1, g2]

/-- Witness for C1 as amended: `x` twice and then `z`, written at column 1 of row 1 of the
sample grid under highlight id 5. -/
theorem DrawGridLines_runs_witness :
    ∃ r', DrawGridLines sampleConstants sampleRenderer
        [⟨1, 1, [⟨[120], [5, 2]⟩, ⟨[122], []⟩]⟩] = .ok r' ∧
      r'.cell 1 0 = some ⟨101, 2, false⟩ ∧ r'.cell 1 1 = some ⟨120, 5, false⟩ ∧
      r'.cell 1 2 = some ⟨120, 5, false⟩ ∧ r'.cell 1 3 = some ⟨122, 5, false⟩ ∧
      r'.cell 2 1 = some ⟨106, 3, false⟩ := by
  obtain ⟨r', h, _, h1, _, _, h2⟩ := DrawGridLines_runs sampleConstants sampleRenderer 1 1
    [⟨[120], [5, 2]⟩, ⟨[122], []⟩] sampleRenderer_WF (by decide) (by decide) (by decide)
    (by decide)
  refine ⟨r', h, ?_, ?_, ?_, ?_, ?_⟩
  · rw [h1 0 (by decide)]; decide
  · rw [h1 1 (by decide)]; decide
  · rw [h1 2 (by decide)]; decide
  · rw [h1 3 (by decide)]; decide
  · rw [h2 2 1 (by decide) (by decide) (by decide)]; decide

/-- Counterexample to C1 as stated: the entry `(1, 0, [["a", 7, 3], [""]])` fits into row 1
of the sample grid (4 columns) and, read as the claim reads it, puts `a` with highlight
id 7 into columns 0, 1 and 2.  `DrawGridLines` takes the first cell for the left half of
a double-width character because an empty text follows, and ignores its repeat count:
column 1 holds the null character and column 2 still holds `g` with id 2. -/
theorem DrawGridLines_runs_counterexample :
    0 + totalWidth [⟨[97], [7, 3]⟩, ⟨[], []⟩] ≤ sampleRenderer.grid_cols ∧
    writtenAt [⟨[97], [7, 3]⟩, ⟨[], []⟩] 0 0 1 = some (97, 7) ∧
    writtenAt [⟨[97], [7, 3]⟩, ⟨[], []⟩] 0 0 2 = some (97, 7) ∧
    ∃ r', DrawGridLines sampleConstants sampleRenderer
        [⟨1, 0, [⟨[97], [7, 3]⟩, ⟨[], []⟩]⟩] = .ok r' ∧
      r'.cell 1 1 = some ⟨0, 7, false⟩ ∧ r'.cell 1 2 = some ⟨103, 2, false⟩ := by
  refine ⟨by decide, by decide, by decide, ?_⟩
  have h : (DrawGridLines sampleConstants sampleRenderer
      [⟨1, 0, [⟨[97], [7, 3]⟩, ⟨[], []⟩]⟩]).map (fun r => (r.cell 1 1, r.cell 1 2)) =
      .ok (some ⟨0, 7, false⟩, some ⟨103, 2, false⟩) := by rfl
  cases hr : DrawGridLines sampleConstants sampleRenderer
      [⟨1, 0, [⟨[97], [7, 3]⟩, ⟨[], []⟩]⟩] with
  | error e => rw [hr] at h; cases h
  | ok r' =>
    rw [hr] at h
    simp only [Except.map, Except.ok.injEq, Prod.mk.injEq] at h
    exact ⟨r', rfl, h.1, h.2⟩

/-! ## grid_line: claim C2 -/

/-- C2, as amended: on a well-formed state, for a row and a column `c` with
`c + 1 < grid_cols`, a `grid_line` entry that has a character at column `c` followed by an
empty text, under a highlight id that is a 16-bit index of the table.  When the
character is one UTF-16 code unit `ch`, afterwards cell `c` holds `ch` and is marked
wide and cell `c + 1` holds the null character; when it is two code units `hi`, `lo` (a
surrogate pair), cell `c` holds `hi` and is marked wide and cell `c + 1` holds `lo`.  In
both cases both cells carry the highlight id, cell `c + 1` keeps its wide mark, every
other cell is as before, and handling the empty text stores nothing. -/
theorem DrawGridLines_wide [NatCast F] [Add F] [Sub F] [Mul F] (K : Constants) (r : Renderer F)
    (row c : Nat) (ints ints2 : List Nat) (old : Cell)
    (hwf : r.WF) (hrow : row < r.grid_rows) (hc : c + 1 < r.grid_cols)
    (hid : ints.head?.getD 0 < 2 ^ 16 ∧ ints.head?.getD 0 < r.hl_attribs.length)
    (hold : r.cell row (c + 1) = some old) :
    (∀ ch, ∃ r', DrawGridLines K r [⟨row, c, [⟨[ch], ints⟩, ⟨[], ints2⟩]⟩] = .ok r' ∧
      r.sameFrame r' ∧
      r'.cell row c = some ⟨ch, ints.head?.getD 0, true⟩ ∧
      r'.cell row (c + 1) = some ⟨0, ints.head?.getD 0, old.is_wide⟩ ∧
      ∀ row' col, row' < r.grid_rows → col < r.grid_cols →
        (row' ≠ row ∨ (col ≠ c ∧ col ≠ c + 1)) → r'.cell row' col = r.cell row' col) ∧
    (∀ hi lo, ∃ r', DrawGridLines K r [⟨row, c, [⟨[hi, lo], ints⟩, ⟨[], ints2⟩]⟩] = .ok r' ∧
      r.sameFrame r' ∧
      r'.cell row c = some ⟨hi, ints.head?.getD 0, true⟩ ∧
      r'.cell row (c + 1) = some ⟨lo, ints.head?.getD 0, old.is_wide⟩ ∧
      ∀ row' col, row' < r.grid_rows → col < r.grid_cols →
        (row' ≠ row ∨ (col ≠ c ∧ col ≠ c + 1)) → r'.cell row' col = r.cell row' col) := by
  obtain ⟨hcols, hsz, ⟨chars, hcs, hcl⟩, ⟨props, hps, hpl, hpid⟩⟩ := hwf
  have hflat : row * r.grid_cols + r.grid_cols ≤ r.grid_rows * r.grid_cols := by
    have h : (row + 1) * r.grid_cols ≤ r.grid_rows * r.grid_cols := Nat.mul_le_mul_right _ hrow
    rw [Nat.succ_mul] at h
    exact h
  have hsize : r.grid_cols * r.grid_rows = r.grid_rows * r.grid_cols := Nat.mul_comm _ _
  have hmod : ints.head?.getD 0 % 2 ^ 16 = ints.head?.getD 0 := Nat.mod_eq_of_lt hid.1
  have hb : row * r.grid_cols + c + 1 < props.length := by omega
  have holdw : (props.getD (row * r.grid_cols + c + 1) ⟨0, false⟩).is_wide_char =
      old.is_wide := by
    have e : props[row * r.grid_cols + (c + 1)]? = some props[row * r.grid_cols + c + 1] := by
      rw [← Nat.add_assoc]; simp [hb]
    have hb2 : row * r.grid_cols + (c + 1) < chars.length := by omega
    have e2 : chars[row * r.grid_cols + (c + 1)]? = some chars[row * r.grid_cols + (c + 1)] := by
      simp [hb2]
    simp only [Renderer.cell, hcs, hps, e, e2, Option.some.injEq] at hold
    rw [List.getD_eq_getElem?_getD]
    simp [hb, ← hold]
  -- what both cases share, from the buffers the cell loop returns
  have finish : ∀ (text : List Nat) (a b : Nat) (chars' : List Nat) (props' : List CellProperty),
      DrawGridLines.cellLoop r.grid_cols (r.grid_cols * r.grid_rows) row
        [⟨text, ints⟩, ⟨[], ints2⟩] c 0 chars props = .ok (chars', props') →
      chars'.length = r.grid_cols * r.grid_rows → props'.length = r.grid_cols * r.grid_rows →
      (∀ idx,
        chars'[idx]? =
          (if idx = row * r.grid_cols + c then some a
          else if idx = row * r.grid_cols + c + 1 then some b
          else chars[idx]?) ∧
        props'[idx]? =
          (if idx = row * r.grid_cols + c then
            some { hl_attrib_id := ints.head?.getD 0 % 2 ^ 16, is_wide_char := true }
          else if idx = row * r.grid_cols + c + 1 then
            some { hl_attrib_id := ints.head?.getD 0 % 2 ^ 16
                   is_wide_char := (props.getD (row * r.grid_cols + c + 1)
                     ⟨0, false⟩).is_wide_char }
          else props[idx]?)) →
      ∃ r', DrawGridLines K r [⟨row, c, [⟨text, ints⟩, ⟨[], ints2⟩]⟩] = .ok r' ∧
        r.sameFrame r' ∧
        r'.cell row c = some ⟨a, ints.head?.getD 0, true⟩ ∧
        r'.cell row (c + 1) = some ⟨b, ints.head?.getD 0, old.is_wide⟩ ∧
        ∀ row' col, row' < r.grid_rows → col < r.grid_cols →
          (row' ≠ row ∨ (col ≠ c ∧ col ≠ c + 1)) → r'.cell row' col = r.cell row' col := by
    intro text a b chars' props' hrun hcl' hpl' hget
    rw [hmod, holdw] at hget
    have hids' : ∀ p ∈ props', p.hl_attrib_id < r.hl_attribs.length := by
      intro p hmem
      obtain ⟨idx, hlt, rfl⟩ := List.getElem_of_mem hmem
      have hsome : props'[idx]? = some props'[idx] := by simp [hlt]
      have g := (hget idx).2
      rw [hsome] at g
      split_ifs at g
      · rw [Option.some.inj g]; exact hid.2
      · rw [Option.some.inj g]; exact hid.2
      · have hlt2 : idx < props.length := by omega
        have : props[idx]? = some props[idx] := by simp [hlt2]
        rw [this] at g
        rw [Option.some.inj g]
        exact hpid _ (List.getElem_mem hlt2)
    obtain ⟨r', hr', hsf, hc', hp'⟩ := DrawGridLines_single K r row c _ chars chars' props props'
      hcols hsz hrow hcs hps hrun (by omega) (by omega) hids'
    have hcols' := sameFrame_cols hsf
    refine ⟨r', hr', hsf, ?_, ?_, ?_⟩
    · obtain ⟨g1, g2⟩ := hget (row * r.grid_cols + c)
      rw [if_pos rfl] at g1 g2
      simp only [Renderer.cell, hc', hp', hcols', g1, g2]
    · obtain ⟨g1, g2⟩ := hget (row * r.grid_cols + (c + 1))
      rw [if_neg (by omega), if_pos (by omega)] at g1 g2
      simp only [Renderer.cell, hc', hp', hcols', g1, g2]
    · intro row' col hrow' hcol hne
      obtain ⟨g1, g2⟩ := hget (row' * r.grid_cols + col)
      have n1 : row' * r.grid_cols + col ≠ row * r.grid_cols + c := by
        intro h
        have := flat_inj r.grid_cols row c row' col (by omega) hcol h
        omega
      have n2 : row' * r.grid_cols + col ≠ row * r.grid_cols + c + 1 := by
        intro h
        have := flat_inj r.grid_cols row (c + 1) row' col (by omega) hcol (by omega)
        omega
      rw [if_neg n1, if_neg n2] at g1 g2
      simp only [Renderer.cell, hcs, hps, hc', hp', hcols', g1, g2]
  constructor
  · intro ch
    obtain ⟨chars', props', hrun, hcl', hpl', hget⟩ := cellLoop_wide_one r.grid_cols
      (r.grid_cols * r.grid_rows) row c 0 ch ints ints2 chars props (by omega) (by omega)
      (by omega)
    exact finish [ch] ch 0 chars' props' hrun hcl' hpl' hget
  · intro hi lo
    obtain ⟨chars', props', hrun, hcl', hpl', hget⟩ := cellLoop_wide_two r.grid_cols
      (r.grid_cols * r.grid_rows) row c 0 hi lo ints ints2 chars props (by omega) (by omega)
      (by omega)
    exact finish [hi, lo] hi lo chars' props' hrun hcl' hpl' hget

/-- Witness for C2 as amended: HIRAGANA LETTER A (one code unit) at column 2 of row 0 of
the sample grid, under highlight id 7. -/
theorem DrawGridLines_wide_witness :
    ∃ r', DrawGridLines sampleConstants sampleRenderer
        [⟨0, 2, [⟨[0x3042], [7]⟩, ⟨[], []⟩]⟩] = .ok r' ∧
      r'.cell 0 2 = some ⟨0x3042, 7, true⟩ ∧ r'.cell 0 3 = some ⟨0, 7, false⟩ ∧
      r'.cell 0 1 = some ⟨98, 1, false⟩ := by
  obtain ⟨r', h, _, h1, h2, h3⟩ := (DrawGridLines_wide sampleConstants sampleRenderer 0 2 [7] []
    ⟨100, 1, false⟩ sampleRenderer_WF (by decide) (by decide) (by decide) (by decide)).1 0x3042
  refine ⟨r', h, h1, h2, ?_⟩
  rw [h3 0 1 (by decide) (by decide) (by decide)]
  decide

/-- Counterexample to C2 as stated: GRINNING FACE (U+1F600) is two columns wide and is the
surrogate pair `D83D DE00` in UTF-16.  Written at column 0 of row 1 of the sample grid
and followed by an empty text, it leaves `DE00` in column 1, which is neither blank nor
null. -/
theorem DrawGridLines_wide_counterexample :
    ∃ r', DrawGridLines sampleConstants sampleRenderer
        [⟨1, 0, [⟨[0xD83D, 0xDE00], [7]⟩, ⟨[], []⟩]⟩] = .ok r' ∧
      r'.cell 1 0 = some ⟨0xD83D, 7, true⟩ ∧ r'.cell 1 1 = some ⟨0xDE00, 7, false⟩ ∧
      r'.cell 1 1 ≠ some ⟨0, 7, false⟩ ∧ r'.cell 1 1 ≠ some ⟨32, 7, false⟩ := by
  have h : (DrawGridLines sampleConstants sampleRenderer
      [⟨1, 0, [⟨[0xD83D, 0xDE00], [7]⟩, ⟨[], []⟩]⟩]).map (fun r => (r.cell 1 0, r.cell 1 1)) =
      .ok (some ⟨0xD83D, 7, true⟩, some ⟨0xDE00, 7, false⟩) := by rfl
  cases hr : DrawGridLines sampleConstants sampleRenderer
      [⟨1, 0, [⟨[0xD83D, 0xDE00], [7]⟩, ⟨[], []⟩]⟩] with
  | error e => rw [hr] at h; cases h
  | ok r' =>
    rw [hr] at h
    simp only [Except.map, Except.ok.injEq, Prod.mk.injEq] at h
    refine ⟨r', rfl, h.1, h.2, ?_, ?_⟩
    · rw [h.2]; decide
    · rw [h.2]; decide

/-! ## Colour resolution: claims C11, C12 -/

/-- Toggling the reverse bit of a flag word flips the reverse flag and leaves the other
five flags as they are. -/
theorem hasFlag_toggle_reverse (fl : Nat) :
    hasFlag (fl ^^^ HL_ATTRIB_REVERSE) HL_ATTRIB_REVERSE = !hasFlag fl HL_ATTRIB_REVERSE ∧
    hasFlag (fl ^^^ HL_ATTRIB_REVERSE) HL_ATTRIB_ITALIC = hasFlag fl HL_ATTRIB_ITALIC ∧
    hasFlag (fl ^^^ HL_ATTRIB_REVERSE) HL_ATTRIB_BOLD = hasFlag fl HL_ATTRIB_BOLD ∧
    hasFlag (fl ^^^ HL_ATTRIB_REVERSE) HL_ATTRIB_STRIKETHROUGH =
      hasFlag fl HL_ATTRIB_STRIKETHROUGH ∧
    hasFlag (fl ^^^ HL_ATTRIB_REVERSE) HL_ATTRIB_UNDERLINE = hasFlag fl HL_ATTRIB_UNDERLINE ∧
    hasFlag (fl ^^^ HL_ATTRIB_REVERSE) HL_ATTRIB_UNDERCURL = hasFlag fl HL_ATTRIB_UNDERCURL := by
  obtain ⟨h0, h1, h2, h3, h4, h5⟩ := HL_ATTRIB_pow
  have e0 : Nat.testBit (2 ^ 0) 0 = true := by decide
  have e1 : Nat.testBit (2 ^ 0) 1 = false := by decide
  have e2 : Nat.testBit (2 ^ 0) 2 = false := by decide
  have e3 : Nat.testBit (2 ^ 0) 3 = false := by decide
  have e4 : Nat.testBit (2 ^ 0) 4 = false := by decide
  have e5 : Nat.testBit (2 ^ 0) 5 = false := by decide
  simp only [h0, h1, h2, h3, h4, h5, hasFlag_two_pow, Nat.testBit_xor, e0, e1, e2, e3, e4, e5,
    Bool.xor_false, Bool.xor_true, and_self]

/-- C11: reverse video swaps the two channels before the fallback to entry 0.  For every
table and attribute `a`, and every attribute `b` with the colours of `a` and the reverse
flag toggled (whatever its other flags, so in particular `a` with that one bit flipped),
`CreateBackgroundColor` of `a` is `CreateForegroundColor` of `b` and
`CreateForegroundColor` of `a` is `CreateBackgroundColor` of `b`, faults included; and
on a table with entry 0, without the reverse flag `CreateBackgroundColor` returns the
background of `a`, or that of entry 0 when the background of `a` is the sentinel. -/
theorem CreateBackgroundColor_reverse (K : Constants) (r : Renderer F)
    (a d : HighlightAttributes) :
    (∀ b : HighlightAttributes, b.foreground = a.foreground → b.background = a.background →
      hasFlag b.flags HL_ATTRIB_REVERSE = !hasFlag a.flags HL_ATTRIB_REVERSE →
      CreateBackgroundColor K r a = CreateForegroundColor K r b ∧
      CreateForegroundColor K r a = CreateBackgroundColor K r b) ∧
    (hasFlag (a.flags ^^^ HL_ATTRIB_REVERSE) HL_ATTRIB_REVERSE =
        !hasFlag a.flags HL_ATTRIB_REVERSE ∧
      hasFlag (a.flags ^^^ HL_ATTRIB_REVERSE) HL_ATTRIB_ITALIC = hasFlag a.flags HL_ATTRIB_ITALIC ∧
      hasFlag (a.flags ^^^ HL_ATTRIB_REVERSE) HL_ATTRIB_BOLD = hasFlag a.flags HL_ATTRIB_BOLD ∧
      hasFlag (a.flags ^^^ HL_ATTRIB_REVERSE) HL_ATTRIB_STRIKETHROUGH =
        hasFlag a.flags HL_ATTRIB_STRIKETHROUGH ∧
      hasFlag (a.flags ^^^ HL_ATTRIB_REVERSE) HL_ATTRIB_UNDERLINE =
        hasFlag a.flags HL_ATTRIB_UNDERLINE ∧
      hasFlag (a.flags ^^^ HL_ATTRIB_REVERSE) HL_ATTRIB_UNDERCURL =
        hasFlag a.flags HL_ATTRIB_UNDERCURL) ∧
    (r.hl_attribs[0]? = some d → hasFlag a.flags HL_ATTRIB_REVERSE = false →
      CreateBackgroundColor K r a =
        .ok (if a.background = K.DEFAULT_COLOR then d.background else a.background)) := by
  refine ⟨?_, ?_, ?_⟩
  · intro b hf hb hr
    unfold CreateBackgroundColor CreateForegroundColor
    rw [hf, hb, hr]
    cases hasFlag a.flags HL_ATTRIB_REVERSE <;> simp
  · exact hasFlag_toggle_reverse a.flags
  · intro h0 h
    unfold CreateBackgroundColor
    rw [h, readAt_eq h0]
    split_ifs <;> first | rfl | contradiction

/-- Witness for C11: entry 1 of the sample table (reversed, default colours) is filled
with the foreground of entry 0, which is the text colour of the same entry without the
reverse flag; a plain entry with a green background is filled in green. -/
theorem CreateBackgroundColor_reverse_witness :
    CreateBackgroundColor sampleConstants sampleRenderer ⟨0x46464646, 0x46464646, 0x46464646, 1⟩ =
      CreateForegroundColor sampleConstants sampleRenderer
        ⟨0x46464646, 0x46464646, 0x46464646, 1 ^^^ HL_ATTRIB_REVERSE⟩ ∧
    CreateBackgroundColor sampleConstants sampleRenderer ⟨0x46464646, 0x00ff00, 0x46464646, 0⟩ =
      .ok 0x00ff00 :=
  ⟨((CreateBackgroundColor_reverse sampleConstants sampleRenderer
      ⟨0x46464646, 0x46464646, 0x46464646, 1⟩ ⟨0xffffff, 0x000000, 0xff0000, 0⟩).1
      ⟨0x46464646, 0x46464646, 0x46464646, 1 ^^^ HL_ATTRIB_REVERSE⟩ rfl rfl (by decide)).1,
    (CreateBackgroundColor_reverse sampleConstants sampleRenderer
      ⟨0x46464646, 0x00ff00, 0x46464646, 0⟩ ⟨0xffffff, 0x000000, 0xff0000, 0⟩).2.2
      (by decide) (by decide)⟩

/-- C12: on a table with entry 0, `CreateSpecialColor` returns the special colour of the
attribute, or that of entry 0 when it is the default sentinel; the result, faults
included, is the same for every attribute with that special colour, whatever its flags
and other colours, so it does not depend on the reverse flag. -/
theorem CreateSpecialColor_resolve (K : Constants) (r : Renderer F)
    (a d : HighlightAttributes) :
    (r.hl_attribs[0]? = some d →
      CreateSpecialColor K r a =
        .ok (if a.special = K.DEFAULT_COLOR then d.special else a.special)) ∧
    (∀ b : HighlightAttributes, b.special = a.special →
      CreateSpecialColor K r b = CreateSpecialColor K r a) ∧
    CreateSpecialColor K r { a with flags := a.flags ^^^ HL_ATTRIB_REVERSE } =
      CreateSpecialColor K r a := by
  refine ⟨?_, ?_, rfl⟩
  · intro h0
    unfold CreateSpecialColor
    rw [readAt_eq h0]
    split_ifs <;> rfl
  · intro b hb
    unfold CreateSpecialColor
    rw [hb]

/-- Witness for C12: entry 1 of the sample table has the default special colour and takes
the red of entry 0. -/
theorem CreateSpecialColor_resolve_witness :
    CreateSpecialColor sampleConstants sampleRenderer ⟨0x46464646, 0x46464646, 0x46464646, 1⟩ =
      .ok 0xff0000 :=
  (CreateSpecialColor_resolve sampleConstants sampleRenderer
    ⟨0x46464646, 0x46464646, 0x46464646, 1⟩ ⟨0xffffff, 0x000000, 0xff0000, 0⟩).1 (by decide)

/-! ## Pixels and grid positions: claims C13, C14 -/

theorem truncate_intCast [LinearOrderedField F] [FloorRing F] (n : Int) :
    truncate ((n : Int) : F) = n := by
  unfold truncate
  split_ifs
  · exact Int.floor_intCast n
  · exact Int.ceil_intCast n

theorem truncate_of_nonneg [LinearOrderedField F] [FloorRing F] {x : F} (h : 0 ≤ x) :
    truncate x = ⌊x⌋ := by
  unfold truncate
  rw [if_pos h]

theorem truncate_of_neg [LinearOrderedField F] [FloorRing F] {x : F} (h : x < 0) :
    truncate x = ⌈x⌉ := by
  unfold truncate
  rw [if_neg (not_le.mpr h)]

theorem floatToInt_eq [LinearOrderedField F] [FloorRing F] {x : F} {n : Int}
    (h : truncate x = n) (h1 : -2 ^ 31 ≤ n) (h2 : n < 2 ^ 31) : floatToInt x = .ok n := by
  unfold floatToInt
  rw [h, if_pos ⟨h1, h2⟩]

/-! ## Rounding -/

theorem roundHalfEven_cases (m : ℚ) : roundHalfEven m = ⌊m⌋ ∨ roundHalfEven m = ⌊m⌋ + 1 := by
  unfold roundHalfEven
  split_ifs <;> simp

theorem le_roundHalfEven (m : ℚ) (a : Int) (h : (a : ℚ) ≤ m) : a ≤ roundHalfEven m := by
  have h1 : a ≤ ⌊m⌋ := Int.le_floor.mpr h
  rcases roundHalfEven_cases m with e | e <;> omega

theorem roundHalfEven_le (m : ℚ) (b : Int) (h : m ≤ (b : ℚ)) : roundHalfEven m ≤ b := by
  have hfl : (⌊m⌋ : ℚ) ≤ m := Int.floor_le m
  by_cases hf : m - ⌊m⌋ < 1 / 2
  · unfold roundHalfEven
    rw [if_pos hf]
    exact_mod_cast le_trans hfl h
  · have hlt : (⌊m⌋ : ℚ) < (b : ℚ) := by linarith
    have hlt2 : ⌊m⌋ < b := by exact_mod_cast hlt
    rcases roundHalfEven_cases m with e | e <;> omega

theorem roundHalfEven_near (m : ℚ) :
    m - 1 / 2 ≤ (roundHalfEven m : ℚ) ∧ (roundHalfEven m : ℚ) ≤ m + 1 / 2 := by
  have hfl : (⌊m⌋ : ℚ) ≤ m := Int.floor_le m
  have hlt : m < (⌊m⌋ : ℚ) + 1 := Int.lt_floor_add_one m
  unfold roundHalfEven
  split_ifs with h1 h2 h3
  · constructor <;> linarith
  · push_cast
    constructor <;> linarith
  · constructor <;> linarith
  · push_cast
    constructor <;> linarith

namespace Binary32

theorem exponentUpTo_spec (x : ℚ) :
    ∀ n, exponentUpTo x n = -126 ∨ (2 : ℚ) ^ exponentUpTo x n ≤ x := by
  intro n
  induction n with
  | zero => exact Or.inl rfl
  | succ n ih =>
    rw [exponentUpTo]
    split_ifs with h
    · exact Or.inr h
    · exact ih

theorem exponent_spec (q : ℚ) : exponent q = -126 ∨ (2 : ℚ) ^ exponent q ≤ |q| :=
  exponentUpTo_spec |q| 253

theorem ulp_pos (q : ℚ) : 0 < ulp q := by
  unfold ulp
  positivity

theorem exponent_le (q : ℚ) (h : |q| < 2 ^ 24) : exponent q ≤ 23 := by
  rcases exponent_spec q with e | e
  · omega
  · by_contra hn
    have h24 : (24 : Int) ≤ exponent q := by omega
    have : (2 : ℚ) ^ (24 : Int) ≤ (2 : ℚ) ^ exponent q :=
      zpow_le_zpow_right₀ (by norm_num) h24
    have e24 : (2 : ℚ) ^ (24 : Int) = 2 ^ 24 := by norm_num
    linarith

/-- Below `2 ^ 24` the unit in the last place is one over a whole number. -/
theorem ulp_inv (q : ℚ) (h : |q| < 2 ^ 24) : ∃ N : Nat, 0 < N ∧ ulp q = 1 / (N : ℚ) := by
  have he := exponent_le q h
  refine ⟨2 ^ (23 - exponent q).toNat, by positivity, ?_⟩
  unfold ulp
  have : exponent q - 23 = -(((23 - exponent q).toNat : Nat) : Int) := by omega
  rw [this, zpow_neg, zpow_natCast]
  push_cast
  rw [one_div]

/-- Whole numbers that bound a value below `2 ^ 24` bound the value it is rounded to. -/
theorem round_between (q : ℚ) (h : |q| < 2 ^ 24) (a b : Int) :
    ((a : ℚ) ≤ q → (a : ℚ) ≤ round q) ∧ (q ≤ (b : ℚ) → round q ≤ (b : ℚ)) := by
  obtain ⟨N, hN, hu⟩ := ulp_inv q h
  have hNq : (0 : ℚ) < (N : ℚ) := by exact_mod_cast hN
  unfold round
  rw [hu]
  have hdiv : q / (1 / (N : ℚ)) = q * N := by field_simp
  rw [hdiv]
  constructor
  · intro ha
    have h1 : ((a * N : Int) : ℚ) ≤ q * N := by
      push_cast
      exact mul_le_mul_of_nonneg_right ha hNq.le
    have h2 := le_roundHalfEven _ _ h1
    have h3 : ((a * N : Int) : ℚ) ≤ (roundHalfEven (q * N) : ℚ) := by exact_mod_cast h2
    push_cast at h3
    rw [mul_one_div, le_div_iff₀ hNq]
    exact h3
  · intro hb
    have h1 : q * N ≤ ((b * N : Int) : ℚ) := by
      push_cast
      exact mul_le_mul_of_nonneg_right hb hNq.le
    have h2 := roundHalfEven_le _ _ h1
    have h3 : (roundHalfEven (q * N) : ℚ) ≤ ((b * N : Int) : ℚ) := by exact_mod_cast h2
    push_cast at h3
    rw [mul_one_div, div_le_iff₀ hNq]
    exact h3

/-- A whole number below `2 ^ 24` in magnitude is a value of the format. -/
theorem round_intCast (n : Int) (h : |(n : ℚ)| < 2 ^ 24) : round n = n := by
  obtain ⟨h1, h2⟩ := round_between n h n n
  exact le_antisymm (h2 le_rfl) (h1 le_rfl)

/-- The value rounded to is within half a unit in the last place. -/
theorem round_near (q : ℚ) : q - ulp q / 2 ≤ round q ∧ round q ≤ q + ulp q / 2 := by
  have hu := ulp_pos q
  obtain ⟨h1, h2⟩ := roundHalfEven_near (q / ulp q)
  unfold round
  have e : q / ulp q * ulp q = q := by field_simp
  constructor
  · have := mul_le_mul_of_nonneg_right h1 hu.le
    rw [sub_mul, e] at this
    linarith
  · have := mul_le_mul_of_nonneg_right h2 hu.le
    rw [add_mul, e] at this
    linarith

/-- The quotient of whole numbers below `2 ^ 24`: half a unit in the last place of the
quotient is less than one part in `w`. -/
theorem ulp_div_lt (p w : Int) (hw : 0 < w) (hp : |(p : ℚ)| < 2 ^ 24) (hw2 : (w : ℚ) < 2 ^ 24) :
    ulp ((p : ℚ) / w) / 2 < 1 / (w : ℚ) := by
  have hwq : (0 : ℚ) < (w : ℚ) := by exact_mod_cast hw
  rw [div_lt_div_iff₀ (by norm_num) hwq, one_mul]
  unfold ulp
  rcases exponent_spec ((p : ℚ) / w) with e | e
  · rw [e]
    have : (2 : ℚ) ^ ((-126 : Int) - 23) = 1 / 2 ^ 149 := by
      rw [show ((-126 : Int) - 23) = -((149 : Nat) : Int) by norm_num, zpow_neg, zpow_natCast,
        one_div]
    rw [this]
    have : (1 : ℚ) / 2 ^ 149 * w < 1 / 2 ^ 149 * 2 ^ 24 :=
      mul_lt_mul_of_pos_left hw2 (by positivity)
    have e2 : (1 : ℚ) / 2 ^ 149 * 2 ^ 24 < 2 := by norm_num
    linarith
  · rw [abs_div, abs_of_pos hwq, le_div_iff₀ hwq] at e
    have h1 : (2 : ℚ) ^ (exponent ((p : ℚ) / w) - 23) =
        (2 : ℚ) ^ exponent ((p : ℚ) / w) / 2 ^ 23 := by
      rw [zpow_sub₀ (by norm_num)]
      norm_num
    rw [h1, div_mul_eq_mul_div, div_lt_iff₀ (by positivity)]
    have : (2 : ℚ) * 2 ^ 23 = 2 ^ 24 := by norm_num
    linarith

/-- Rounding the quotient of whole numbers below `2 ^ 24` does not reach a whole number
that the quotient does not reach. -/
theorem round_div_between (p w : Int) (hw : 0 < w) (hp : |(p : ℚ)| < 2 ^ 24)
    (hw2 : (w : ℚ) < 2 ^ 24) (a b : Int) :
    ((a : ℚ) < (p : ℚ) / w → (a : ℚ) < round ((p : ℚ) / w)) ∧
    ((p : ℚ) / w < (b : ℚ) → round ((p : ℚ) / w) < (b : ℚ)) := by
  have hwq : (0 : ℚ) < (w : ℚ) := by exact_mod_cast hw
  have hu := ulp_div_lt p w hw hp hw2
  obtain ⟨n1, n2⟩ := round_near ((p : ℚ) / w)
  constructor
  · intro ha
    rw [lt_div_iff₀ hwq] at ha
    have h1 : a * w < p := by exact_mod_cast ha
    have h2 : a * w + 1 ≤ p := by omega
    have h3 : (a : ℚ) * w + 1 ≤ p := by exact_mod_cast h2
    have h4 : (a : ℚ) + 1 / w ≤ (p : ℚ) / w := by
      rw [le_div_iff₀ hwq, add_mul]
      have : 1 / (w : ℚ) * w = 1 := by field_simp
      linarith
    linarith
  · intro hb
    rw [div_lt_iff₀ hwq] at hb
    have h1 : p < b * w := by exact_mod_cast hb
    have h2 : p + 1 ≤ b * w := by omega
    have h3 : (p : ℚ) + 1 ≤ b * w := by exact_mod_cast h2
    have h4 : (p : ℚ) / w ≤ (b : ℚ) - 1 / w := by
      rw [div_le_iff₀ hwq, sub_mul]
      have : 1 / (w : ℚ) * w = 1 := by field_simp
      linarith
    linarith

end Binary32

/-- The integer a rounded value converts to, for a value from 0 to `2 ^ 24`: the floor of
the value, or the floor plus one when the value is rounded up to that whole number. -/
theorem truncate_round_nonneg (q : ℚ) (h0 : 0 ≤ q) (h : q < 2 ^ 24) :
    truncate (Binary32.round q) = ⌊q⌋ ∨
      (Binary32.round q = ((⌊q⌋ + 1 : Int) : ℚ) ∧ truncate (Binary32.round q) = ⌊q⌋ + 1) := by
  have habs : |q| < 2 ^ 24 := by rw [abs_of_nonneg h0]; exact h
  have hlo := (Binary32.round_between q habs ⌊q⌋ 0).1 (Int.floor_le q)
  have hhi := (Binary32.round_between q habs 0 (⌊q⌋ + 1)).2 (by
    push_cast
    exact (Int.lt_floor_add_one q).le)
  have hpos := (Binary32.round_between q habs 0 0).1 (by exact_mod_cast h0)
  rw [truncate_of_nonneg (by exact_mod_cast hpos)]
  by_cases he : Binary32.round q = ((⌊q⌋ + 1 : Int) : ℚ)
  · right
    refine ⟨he, ?_⟩
    rw [he, Int.floor_intCast]
  · left
    rw [Int.floor_eq_iff]
    refine ⟨hlo, ?_⟩
    push_cast at hhi he
    exact lt_of_le_of_ne hhi he

/-- The integer a rounded value converts to, for a negative value above `-2 ^ 24`: the
ceiling of the value, or the ceiling minus one when the value is rounded down to that
whole number. -/
theorem truncate_round_neg (q : ℚ) (h0 : q < 0) (h : -2 ^ 24 < q) :
    truncate (Binary32.round q) = ⌈q⌉ ∨
      (Binary32.round q = ((⌈q⌉ - 1 : Int) : ℚ) ∧ truncate (Binary32.round q) = ⌈q⌉ - 1) := by
  have habs : |q| < 2 ^ 24 := by rw [abs_of_neg h0]; linarith
  have hlo := (Binary32.round_between q habs (⌈q⌉ - 1) 0).1 (by
    push_cast
    have := Int.ceil_lt_add_one q
    linarith)
  have hhi := (Binary32.round_between q habs 0 ⌈q⌉).2 (Int.le_ceil q)
  have hc0 : ⌈q⌉ ≤ 0 := Int.ceil_le.mpr (by exact_mod_cast h0.le)
  have hc0q : (⌈q⌉ : ℚ) ≤ 0 := by exact_mod_cast hc0
  by_cases he : Binary32.round q = ((⌈q⌉ - 1 : Int) : ℚ)
  · right
    refine ⟨he, ?_⟩
    have hneg : Binary32.round q < 0 := by
      rw [he]
      push_cast
      linarith
    rw [truncate_of_neg hneg, he, Int.ceil_intCast]
  · left
    have hceil : ⌈Binary32.round q⌉ = ⌈q⌉ := by
      rw [Int.ceil_eq_iff]
      push_cast at hlo he
      exact ⟨lt_of_le_of_ne hlo (Ne.symm he), hhi⟩
    by_cases hz : Binary32.round q < 0
    · rw [truncate_of_neg hz, hceil]
    · have hzero : Binary32.round q = 0 := le_antisymm (le_trans hhi hc0q) (not_lt.mp hz)
      rw [hzero] at hceil
      rw [hzero, ← hceil]
      simp [truncate]

/-- The quotient of whole numbers below `2 ^ 24` converts to the same integer rounded and
exact. -/
theorem truncate_div_intCast (p w : Int) (hw : 0 < w) (hp : |(p : ℚ)| < 2 ^ 24)
    (hw2 : (w : ℚ) < 2 ^ 24) :
    truncate (Binary32.div (p : ℚ) (w : ℚ)) = truncate ((p : ℚ) / (w : ℚ)) := by
  have hwq : (0 : ℚ) < (w : ℚ) := by exact_mod_cast hw
  have hw1 : (1 : ℚ) ≤ (w : ℚ) := by exact_mod_cast hw
  have hq : |(p : ℚ) / w| < 2 ^ 24 := by
    rw [abs_div, abs_of_pos hwq]
    exact lt_of_le_of_lt (div_le_self (abs_nonneg _) hw1) hp
  obtain ⟨hq1, hq2⟩ := abs_lt.mp hq
  unfold Binary32.div
  by_cases h0 : 0 ≤ (p : ℚ) / w
  · rw [truncate_of_nonneg h0]
    rcases truncate_round_nonneg _ h0 hq2 with e | ⟨e, _⟩
    · exact e
    · have := (Binary32.round_div_between p w hw hp hw2 0 (⌊(p : ℚ) / w⌋ + 1)).2 (by
        push_cast
        exact Int.lt_floor_add_one _)
      rw [e] at this
      exact absurd this (lt_irrefl _)
  · have h0 := not_le.mp h0
    rw [truncate_of_neg h0]
    rcases truncate_round_neg _ h0 hq1 with e | ⟨e, _⟩
    · exact e
    · have := (Binary32.round_div_between p w hw hp hw2 (⌈(p : ℚ) / w⌉ - 1) 0).1 (by
        push_cast
        have := Int.ceil_lt_add_one ((p : ℚ) / w)
        linarith)
      rw [e] at this
      exact absurd this (lt_irrefl _)

/-- The conversion of a quotient `n / w` to `int`, for `n` and the quotient below
`2 ^ 24` in magnitude and a positive divisor. -/
theorem divToInt_ofInt (n : Int) (w : ℚ) (hw : 0 < w) (hn : |(n : ℚ)| < 2 ^ 24)
    (hq : |(n : ℚ) / w| < 2 ^ 24) :
    Binary32.divToInt (Binary32.ofInt n) w = .ok (truncate (Binary32.round ((n : ℚ) / w))) := by
  unfold Binary32.divToInt Binary32.ofInt Binary32.div
  rw [if_neg hw.ne.symm, Binary32.round_intCast n hn]
  obtain ⟨hq1, hq2⟩ := abs_lt.mp hq
  have hb1 := (Binary32.round_between _ hq (-2 ^ 24) (2 ^ 24)).1 (by push_cast; linarith)
  have hb2 := (Binary32.round_between _ hq (-2 ^ 24) (2 ^ 24)).2 (by push_cast; linarith)
  push_cast at hb1 hb2
  have t1 : -2 ^ 24 ≤ truncate (Binary32.round ((n : ℚ) / w)) := by
    unfold truncate
    split_ifs
    · exact Int.le_floor.mpr (by push_cast; exact hb1)
    · exact le_trans (Int.le_floor.mpr (by push_cast; exact hb1)) (Int.floor_le_ceil _)
  have t2 : truncate (Binary32.round ((n : ℚ) / w)) ≤ 2 ^ 24 := by
    unfold truncate
    split_ifs
    · exact le_trans (Int.floor_le_ceil _) (Int.ceil_le.mpr (by push_cast; exact hb2))
    · exact Int.ceil_le.mpr (by push_cast; exact hb2)
  exact floatToInt_eq rfl (by omega) (by omega)

/-- One direction of the mapping from a grid size to a window size and back: `n` cells of
size `w`, a frame that adds `f` pixels. -/
theorem floor_ceil_mul_add_div (w : ℚ) (n : Int) (f : Nat) (hw : 0 < w) (hn : 0 ≤ n) :
    0 ≤ (((⌈w⌉ * n + f : Int) : ℚ) / w) ∧
    n ≤ ⌊((⌈w⌉ * n + f : Int) : ℚ) / w⌋ ∧
    ((⌈w⌉ : ℚ) = w → (f : ℚ) < w → ⌊((⌈w⌉ * n + f : Int) : ℚ) / w⌋ = n) := by
  have hceil : w ≤ (⌈w⌉ : ℚ) := Int.le_ceil w
  have hn' : (0 : ℚ) ≤ (n : ℚ) := by exact_mod_cast hn
  have hf : (0 : ℚ) ≤ (f : ℚ) := Nat.cast_nonneg f
  have hnum : (n : ℚ) * w ≤ ((⌈w⌉ * n + f : Int) : ℚ) := by
    push_cast
    nlinarith [mul_le_mul_of_nonneg_right hceil hn']
  have hq : (n : ℚ) ≤ ((⌈w⌉ * n + f : Int) : ℚ) / w := (le_div_iff₀ hw).mpr hnum
  refine ⟨le_trans hn' hq, Int.le_floor.mpr hq, ?_⟩
  intro hint hfw
  rw [Int.floor_eq_iff]
  refine ⟨hq, ?_⟩
  rw [div_lt_iff₀ hw]
  push_cast
  rw [hint]
  nlinarith

/-- One direction of the two queries: the pixels of `n` cells of size `w` and a frame of
`f` pixels, and the number of cells in them. -/
theorem pixels_of_cells (w : ℚ) (n : Int) (f : Nat) (hw : 0 < w) (hn : 0 ≤ n)
    (hp : ⌈w⌉ * n + f < 2 ^ 24) (hq : ((⌈w⌉ * n + f : Int) : ℚ) / w < 2 ^ 24) :
    floatToInt (Binary32.mul (ceilf w) (Binary32.ofInt n)) = .ok (⌈w⌉ * n) ∧
    ∃ g, Binary32.divToInt (Binary32.ofInt (⌈w⌉ * n + f)) w = .ok g ∧
      (g = ⌊((⌈w⌉ * n + f : Int) : ℚ) / w⌋ ∨
        (Binary32.div ((⌈w⌉ * n + f : Int) : ℚ) w =
            ((⌊((⌈w⌉ * n + f : Int) : ℚ) / w⌋ + 1 : Int) : ℚ) ∧
          g = ⌊((⌈w⌉ * n + f : Int) : ℚ) / w⌋ + 1)) ∧
      n ≤ g ∧
      (∀ k : Int, w = (k : ℚ) → k < 2 ^ 24 → (f : Int) < k → g = n) := by
  have hcw : 0 < ⌈w⌉ := Int.ceil_pos.mpr hw
  have hprod : 0 ≤ ⌈w⌉ * n := mul_nonneg hcw.le hn
  have hnle : n ≤ ⌈w⌉ * n := by nlinarith
  have hf0 : (0 : Int) ≤ (f : Int) := Int.natCast_nonneg f
  have absn : ∀ m : Int, 0 ≤ m → m < 2 ^ 24 → |(m : ℚ)| < 2 ^ 24 := by
    intro m h0 h1
    rw [abs_of_nonneg (by exact_mod_cast h0)]
    exact_mod_cast h1
  obtain ⟨q0, q1, q2⟩ := floor_ceil_mul_add_div w n f hw hn
  constructor
  · unfold Binary32.mul Binary32.ofInt ceilf
    rw [Binary32.round_intCast n (absn n hn (by omega)), ← Int.cast_mul,
      Binary32.round_intCast _ (absn _ hprod (by omega))]
    exact floatToInt_eq (truncate_intCast _) (by omega) (by omega)
  · have hqabs : |((⌈w⌉ * n + f : Int) : ℚ) / w| < 2 ^ 24 := by
      rw [abs_of_nonneg q0]
      exact hq
    refine ⟨_, divToInt_ofInt _ w hw (absn _ (by omega) hp) hqabs, ?_, ?_, ?_⟩
    · exact truncate_round_nonneg _ q0 hq
    · rcases truncate_round_nonneg _ q0 hq with e | ⟨_, e⟩
      · rw [e]; exact q1
      · rw [e]; omega
    · intro k hk hk2 hfk
      have hkpos : 0 < k := by
        have : (0 : ℚ) < (k : ℚ) := by rw [← hk]; exact hw
        exact_mod_cast this
      have hceilk : ⌈w⌉ = k := by rw [hk]; exact Int.ceil_intCast k
      have e := truncate_div_intCast (⌈w⌉ * n + f) k hkpos (absn _ (by omega) hp)
        (by exact_mod_cast hk2)
      unfold Binary32.div at e
      rw [← hk] at e
      rw [e, truncate_of_nonneg q0]
      apply q2
      · rw [hceilk, hk]
      · rw [hk]
        exact_mod_cast hfk

/-- C13, as amended: for positive cell metrics and `rows, cols ≥ 0`, window sizes and
quotients below `2 ^ 24`.  `RendererGridToPixelSize` returns the size of the window:
`⌈w⌉ * cols` by `⌈h⌉ * rows` pixels plus what the frame adds.  `RendererPixelsToGridSize`
of that size returns its quotients by the cell metrics as the float division rounds them,
with the fraction discarded: the floor of the exact quotient, or that floor plus one when
the division rounds the quotient up to the next whole number.  The result is at least
`cols` and `rows`, and it is exactly `cols` (`rows`) when the cell width (height) is a
whole number and the frame adds less than one cell in that direction, as it does without
a frame. -/
theorem RendererPixelsToGridSize_of_grid (frame : WindowFrame) (r : Renderer ℚ)
    (rows cols : Int) (hw : 0 < r.font_width) (hh : 0 < r.font_height)
    (hrows : 0 ≤ rows) (hcols : 0 ≤ cols)
    (hwr : ⌈r.font_width⌉ * cols + (frame.left + frame.right : Nat) < 2 ^ 24)
    (hhr : ⌈r.font_height⌉ * rows + (frame.top + frame.bottom : Nat) < 2 ^ 24)
    (hwq : ((⌈r.font_width⌉ * cols + (frame.left + frame.right : Nat) : Int) : ℚ)
      / r.font_width < 2 ^ 24)
    (hhq : ((⌈r.font_height⌉ * rows + (frame.top + frame.bottom : Nat) : Int) : ℚ)
      / r.font_height < 2 ^ 24) :
    ∃ p g, RendererGridToPixelSize frame r rows cols = .ok p ∧
      p.width = ⌈r.font_width⌉ * cols + (frame.left + frame.right : Nat) ∧
      p.height = ⌈r.font_height⌉ * rows + (frame.top + frame.bottom : Nat) ∧
      RendererPixelsToGridSize r p.width p.height = .ok g ∧
      (g.cols = ⌊(p.width : ℚ) / r.font_width⌋ ∨
        (Binary32.div (p.width : ℚ) r.font_width =
            ((⌊(p.width : ℚ) / r.font_width⌋ + 1 : Int) : ℚ) ∧
          g.cols = ⌊(p.width : ℚ) / r.font_width⌋ + 1)) ∧
      (g.rows = ⌊(p.height : ℚ) / r.font_height⌋ ∨
        (Binary32.div (p.height : ℚ) r.font_height =
            ((⌊(p.height : ℚ) / r.font_height⌋ + 1 : Int) : ℚ) ∧
          g.rows = ⌊(p.height : ℚ) / r.font_height⌋ + 1)) ∧
      cols ≤ g.cols ∧ rows ≤ g.rows ∧
      (∀ k : Int, r.font_width = (k : ℚ) → k < 2 ^ 24 →
        ((frame.left + frame.right : Nat) : Int) < k → g.cols = cols) ∧
      (∀ k : Int, r.font_height = (k : ℚ) → k < 2 ^ 24 →
        ((frame.top + frame.bottom : Nat) : Int) < k → g.rows = rows) := by
  obtain ⟨w1, gc, w2, w3, w4, w5⟩ := pixels_of_cells r.font_width cols
    (frame.left + frame.right) hw hcols hwr hwq
  obtain ⟨h1, gr, h2, h3, h4, h5⟩ := pixels_of_cells r.font_height rows
    (frame.top + frame.bottom) hh hrows hhr hhq
  refine ⟨⟨⌈r.font_width⌉ * cols + (frame.left + frame.right : Nat),
      ⌈r.font_height⌉ * rows + (frame.top + frame.bottom : Nat)⟩, ⟨gr, gc⟩, ?_, rfl, rfl, ?_,
    w3, h3, w4, h4, w5, h5⟩
  · unfold RendererGridToPixelSize AdjustWindowRect
    simp only [w1, h1, bind, Except.bind, pure, Except.pure]
    congr 2
    · push_cast; ring
    · push_cast; ring
  · unfold RendererPixelsToGridSize
    simp only [w2, h2, bind, Except.bind, pure, Except.pure]

/-- Witness for C13: cells of 8 by 16 pixels and no frame; 24 rows and 80 columns come
back. -/
theorem RendererPixelsToGridSize_of_grid_witness :
    ∃ p g, RendererGridToPixelSize ⟨0, 0, 0, 0⟩ sampleRendererQ 24 80 = .ok p ∧
      RendererPixelsToGridSize sampleRendererQ p.width p.height = .ok g ∧
      g.cols = 80 ∧ g.rows = 24 := by
  obtain ⟨p, g, h1, _, _, h2, _, _, _, _, h3, h4⟩ :=
    RendererPixelsToGridSize_of_grid ⟨0, 0, 0, 0⟩ sampleRendererQ 24 80
      (by decide!) (by decide!) (by decide) (by decide) (by decide!) (by decide!)
      (by decide!) (by decide!)
  exact ⟨p, g, h1, h2, h3 8 (by decide!) (by decide) (by decide),
    h4 16 (by decide!) (by decide) (by decide)⟩

/-- Counterexample to C13 as stated.  With cells of 8 by 16 pixels and the frame of an
overlapped window (8 pixels at the sides and the bottom, 31 at the top), 24 rows and 80
columns give a window of 656 by 423 pixels, which maps back to 26 rows and 82 columns.
Without any frame and with cells 15.5 pixels high, 50 rows give 800 pixels, which map
back to 51 rows.  Without any frame and with cells `8 * 1.1f = 9227469 / 2 ^ 20` high, 44
rows give 396 pixels, which map back to 45 rows although the floor of the exact quotient
is 44: the float division rounds it to 45. -/
theorem RendererPixelsToGridSize_of_grid_counterexample :
    (0 : ℚ) < sampleRendererQ.font_width ∧ (0 : ℚ) < sampleRendererQ.font_height ∧
    RendererGridToPixelSize ⟨8, 31, 8, 8⟩ sampleRendererQ 24 80 = .ok ⟨656, 423⟩ ∧
    RendererPixelsToGridSize sampleRendererQ 656 423 = .ok ⟨26, 82⟩ ∧
    RendererGridToPixelSize ⟨0, 0, 0, 0⟩ { sampleRendererQ with font_height := 31 / 2 } 50 80 =
      .ok ⟨640, 800⟩ ∧
    RendererPixelsToGridSize { sampleRendererQ with font_height := 31 / 2 } 640 800 =
      .ok ⟨51, 80⟩ ∧
    RendererGridToPixelSize ⟨0, 0, 0, 0⟩
      { sampleRendererQ with font_height := 9227469 / 1048576 } 44 80 = .ok ⟨640, 396⟩ ∧
    RendererPixelsToGridSize { sampleRendererQ with font_height := 9227469 / 1048576 } 640 396 =
      .ok ⟨45, 80⟩ ∧
    ⌊(396 : ℚ) / (9227469 / 1048576)⌋ = 44 ∧
    Binary32.mul 8 (Binary32.round (11 / 10)) = 9227469 / 1048576 := by
  refine ⟨by decide!, by decide!, by decide!, by decide!, by decide!, by decide!, by decide!,
    by decide!, by decide!, by decide!⟩

/-- C14, as amended: for positive cell metrics and a pixel position `(x, y)`,
coordinates and quotients below `2 ^ 24` in magnitude, `RendererCursorToGridPoint` returns
the quotients `y / cell_height` and `x / cell_width` as the float division rounds them,
truncated toward zero.  For a coordinate that is not negative that is the floor of the
exact quotient, or the floor plus one when the division rounds the quotient up to that
whole number; for a negative coordinate it is the ceiling of the exact quotient, or the
ceiling minus one when the division rounds the quotient down to that whole number.  With
a cell metric that is a whole number the rounding changes nothing: the result is the
exact quotient truncated toward zero.  The position query of the older renderer computes
the same. -/
theorem RendererCursorToGridPoint_truncates (r : Renderer ℚ) (x y : Int)
    (hw : 0 < r.font_width) (hh : 0 < r.font_height)
    (hx : |(x : ℚ)| < 2 ^ 24) (hy : |(y : ℚ)| < 2 ^ 24)
    (hxq : |(x : ℚ) / r.font_width| < 2 ^ 24) (hyq : |(y : ℚ) / r.font_height| < 2 ^ 24) :
    ∃ p, RendererCursorToGridPoint r x y = .ok p ∧
      Legacy.RendererTranslateMousePosToGrid r.font_width r.font_height x y = .ok p ∧
      p.row = truncate (Binary32.div (y : ℚ) r.font_height) ∧
      p.col = truncate (Binary32.div (x : ℚ) r.font_width) ∧
      (0 ≤ y → p.row = ⌊(y : ℚ) / r.font_height⌋ ∨
        (Binary32.div (y : ℚ) r.font_height = ((⌊(y : ℚ) / r.font_height⌋ + 1 : Int) : ℚ) ∧
          p.row = ⌊(y : ℚ) / r.font_height⌋ + 1)) ∧
      (0 ≤ x → p.col = ⌊(x : ℚ) / r.font_width⌋ ∨
        (Binary32.div (x : ℚ) r.font_width = ((⌊(x : ℚ) / r.font_width⌋ + 1 : Int) : ℚ) ∧
          p.col = ⌊(x : ℚ) / r.font_width⌋ + 1)) ∧
      (y < 0 → p.row = ⌈(y : ℚ) / r.font_height⌉ ∨
        (Binary32.div (y : ℚ) r.font_height = ((⌈(y : ℚ) / r.font_height⌉ - 1 : Int) : ℚ) ∧
          p.row = ⌈(y : ℚ) / r.font_height⌉ - 1)) ∧
      (x < 0 → p.col = ⌈(x : ℚ) / r.font_width⌉ ∨
        (Binary32.div (x : ℚ) r.font_width = ((⌈(x : ℚ) / r.font_width⌉ - 1 : Int) : ℚ) ∧
          p.col = ⌈(x : ℚ) / r.font_width⌉ - 1)) ∧
      (∀ k : Int, r.font_height = (k : ℚ) → k < 2 ^ 24 →
        p.row = truncate ((y : ℚ) / r.font_height)) ∧
      (∀ k : Int, r.font_width = (k : ℚ) → k < 2 ^ 24 →
        p.col = truncate ((x : ℚ) / r.font_width)) := by
  have key : ∀ (w : ℚ) (z : Int), 0 < w → |(z : ℚ)| < 2 ^ 24 → |(z : ℚ) / w| < 2 ^ 24 →
      (0 ≤ z → truncate (Binary32.div (z : ℚ) w) = ⌊(z : ℚ) / w⌋ ∨
        (Binary32.div (z : ℚ) w = ((⌊(z : ℚ) / w⌋ + 1 : Int) : ℚ) ∧
          truncate (Binary32.div (z : ℚ) w) = ⌊(z : ℚ) / w⌋ + 1)) ∧
      (z < 0 → truncate (Binary32.div (z : ℚ) w) = ⌈(z : ℚ) / w⌉ ∨
        (Binary32.div (z : ℚ) w = ((⌈(z : ℚ) / w⌉ - 1 : Int) : ℚ) ∧
          truncate (Binary32.div (z : ℚ) w) = ⌈(z : ℚ) / w⌉ - 1)) ∧
      (∀ k : Int, w = (k : ℚ) → k < 2 ^ 24 →
        truncate (Binary32.div (z : ℚ) w) = truncate ((z : ℚ) / w)) := by
    intro w z hw hz hq
    obtain ⟨hq1, hq2⟩ := abs_lt.mp hq
    refine ⟨?_, ?_, ?_⟩
    · intro h0
      exact truncate_round_nonneg _ (div_nonneg (by exact_mod_cast h0) hw.le) hq2
    · intro h0
      exact truncate_round_neg _ (div_neg_of_neg_of_pos (by exact_mod_cast h0) hw) hq1
    · intro k hk hk2
      have hkpos : 0 < k := by
        have : (0 : ℚ) < (k : ℚ) := by rw [← hk]; exact hw
        exact_mod_cast this
      rw [hk]
      exact truncate_div_intCast z k hkpos hz (by exact_mod_cast hk2)
  obtain ⟨kx1, kx2, kx3⟩ := key r.font_width x hw hx hxq
  obtain ⟨ky1, ky2, ky3⟩ := key r.font_height y hh hy hyq
  have ex := divToInt_ofInt x r.font_width hw hx hxq
  have ey := divToInt_ofInt y r.font_height hh hy hyq
  refine ⟨⟨truncate (Binary32.div (y : ℚ) r.font_height),
      truncate (Binary32.div (x : ℚ) r.font_width)⟩, ?_, ?_, rfl, rfl, ky1, kx1, ky2, kx2,
    ky3, kx3⟩
  · unfold RendererCursorToGridPoint
    simp only [ex, ey, bind, Except.bind, pure, Except.pure]
    rfl
  · unfold Legacy.RendererTranslateMousePosToGrid
    simp only [ex, ey, bind, Except.bind, pure, Except.pure]
    rfl

/-- Witness for C14: with cells of 8 by 16 pixels the pixel `(17, 33)` lies in row 2,
column 2. -/
theorem RendererCursorToGridPoint_truncates_witness :
    RendererCursorToGridPoint sampleRendererQ 17 33 = .ok ⟨2, 2⟩ := by
  obtain ⟨p, h, _, _, _, _, _, _, _, h1, h2⟩ :=
    RendererCursorToGridPoint_truncates sampleRendererQ 17 33
      (by decide!) (by decide!) (by decide!) (by decide!) (by decide!) (by decide!)
  have e1 : p.row = 2 := by rw [h1 16 (by decide!) (by decide)]; decide!
  have e2 : p.col = 2 := by rw [h2 8 (by decide!) (by decide)]; decide!
  rw [h]
  cases p
  simp only at e1 e2
  rw [e1, e2]

/-- Counterexample to C14 as stated.  With cells of 8 by 16 pixels the pixel `(-1, -1)`
has the floors `-1` and `-1`, and both queries return row 0, column 0.  With cells
`17 * 1.1f = 4902093 / 2 ^ 18` high the pixel row 187 has the floor 9, and both queries
return row 10: the float division rounds the quotient to 10. -/
theorem RendererCursorToGridPoint_truncates_counterexample :
    (0 : ℚ) < sampleRendererQ.font_width ∧ (0 : ℚ) < sampleRendererQ.font_height ∧
    ⌊((-1 : Int) : ℚ) / sampleRendererQ.font_height⌋ = -1 ∧
    ⌊((-1 : Int) : ℚ) / sampleRendererQ.font_width⌋ = -1 ∧
    RendererCursorToGridPoint sampleRendererQ (-1) (-1) = .ok ⟨0, 0⟩ ∧
    Legacy.RendererTranslateMousePosToGrid sampleRendererQ.font_width
      sampleRendererQ.font_height (-1) (-1) = .ok ⟨0, 0⟩ ∧
    Binary32.mul 17 (Binary32.round (11 / 10)) = 4902093 / 262144 ∧
    ⌊((187 : Int) : ℚ) / (4902093 / 262144)⌋ = 9 ∧
    RendererCursorToGridPoint { sampleRendererQ with font_height := 4902093 / 262144 } 0 187 =
      .ok ⟨10, 0⟩ ∧
    Legacy.RendererTranslateMousePosToGrid 8 (4902093 / 262144) 0 187 = .ok ⟨10, 0⟩ := by
  refine ⟨by decide!, by decide!, by decide!, by decide!, by decide!, by decide!, by decide!,
    by decide!, by decide!, by decide!⟩

/-! ## The calls a handler adds -/

theorem bind_eq_ok {ε α β : Type} {x : Except ε α} {f : α → Except ε β} {b : β}
    (h : (x >>= f) = .ok b) : ∃ a, x = .ok a ∧ f a = .ok b := by
  cases x with
  | error e => cases h
  | ok a => exact ⟨a, rfl, h⟩

theorem added_refl (P : DrawCall F → Prop) (r : Renderer F) : r.added P r :=
  ⟨[], by simp, by simp⟩

theorem added_of_calls_eq (P : DrawCall F → Prop) {r t : Renderer F} (h : t.calls = r.calls) :
    r.added P t :=
  ⟨[], by simp [h], by simp⟩

theorem added_trans {P : DrawCall F → Prop} {r s t : Renderer F} (h1 : r.added P s)
    (h2 : s.added P t) : r.added P t := by
  obtain ⟨n1, e1, p1⟩ := h1
  obtain ⟨n2, e2, p2⟩ := h2
  refine ⟨n1 ++ n2, by rw [e2, e1, List.append_assoc], ?_⟩
  intro c hc
  rcases List.mem_append.mp hc with h | h
  · exact p1 c h
  · exact p2 c h

theorem added_emit {P : DrawCall F → Prop} {r t : Renderer F} (h : r.added P t) (c : DrawCall F)
    (hc : P c) : r.added P (t.emit c) := by
  obtain ⟨n, e, p⟩ := h
  refine ⟨n ++ [c], by simp [Renderer.emit, e], ?_⟩
  intro d hd
  rcases List.mem_append.mp hd with h | h
  · exact p d h
  · rw [List.mem_singleton.mp h]; exact hc

theorem added_cond_emit {P : DrawCall F → Prop} {r t : Renderer F} (b : Bool)
    (h : r.added P t) (c : DrawCall F) (hc : P c) :
    r.added P (if b = true then t.emit c else t) := by
  cases b
  · simpa using h
  · simpa using added_emit h c hc

theorem added_mono {P Q : DrawCall F → Prop} {r t : Renderer F} (h : r.added P t)
    (hpq : ∀ c, P c → Q c) : r.added Q t := by
  obtain ⟨n, e, p⟩ := h
  exact ⟨n, e, fun c hc => hpq c (p c hc)⟩

theorem added_congr {P : DrawCall F → Prop} {r r2 t : Renderer F} (h : r.added P t)
    (hr : r2.calls = r.calls) : r2.added P t := by
  obtain ⟨n, e, p⟩ := h
  exact ⟨n, by rw [hr]; exact e, p⟩

/-- Calls that are not `Present` leave the number of `Present` calls as it was. -/
theorem presentCount_added {r t : Renderer F}
    (h : r.added (fun c => c.isPresent = false) t) :
    presentCount t.calls = presentCount r.calls := by
  obtain ⟨n, e, p⟩ := h
  unfold presentCount
  rw [e, List.countP_append]
  have : List.countP DrawCall.isPresent n = 0 := by
    rw [List.countP_eq_zero]
    intro c hc
    simp [p c hc]
  omega

theorem kind_draw_not_present (c : DrawCall F) (h : c.kind = .draw) : c.isPresent = false := by
  cases c <;> first | rfl | cases h

theorem kind_window_not_present (c : DrawCall F) (h : c.kind = .window) :
    c.isPresent = false := by
  cases c <;> first | rfl | cases h

theorem kind_device_not_present (c : DrawCall F) (h : c.kind = .device) :
    c.isPresent = false := by
  cases c <;> first | rfl | cases h

/-! ## Drawing handlers add drawing calls only -/

theorem DrawBackgroundRect_added (K : Constants) (r t : Renderer F) (rect : D2D1_RECT_F F)
    (a : HighlightAttributes) (h : DrawBackgroundRect K r rect a = .ok t) :
    ∃ color, CreateBackgroundColor K r a = .ok color ∧ t = r.emit (.FillRectangle rect color) := by
  unfold DrawBackgroundRect at h
  obtain ⟨color, h1, h2⟩ := bind_eq_ok h
  refine ⟨color, h1, ?_⟩
  cases h2
  rfl

theorem ApplyHighlightAttributes_added (K : Constants) (r t : Renderer F)
    (a : HighlightAttributes) (start end_ : Nat)
    (h : ApplyHighlightAttributes K r a start end_ = .ok t) :
    r.sameStore t ∧ r.added (fun c => c.kind = .draw) t := by
  unfold ApplyHighlightAttributes at h
  obtain ⟨fg, _, h⟩ := bind_eq_ok h
  obtain ⟨sp, _, h⟩ := bind_eq_ok h
  cases h
  constructor
  · exact sameStore_emit (sameStore_cond_emit _ (sameStore_cond_emit _ (sameStore_cond_emit _
      (sameStore_cond_emit _ (sameStore_cond_emit _ (sameStore_refl r) _) _) _) _) _) _
  · refine added_emit ?_ _ rfl
    refine added_cond_emit _ ?_ _ rfl
    refine added_cond_emit _ ?_ _ rfl
    refine added_cond_emit _ ?_ _ rfl
    refine added_cond_emit _ ?_ _ rfl
    refine added_cond_emit _ ?_ _ rfl
    exact added_refl _ r

/-! ## The calls of one row redraw -/

theorem fillsOf_append [NatCast F] [Add F] [Sub F] [Mul F] (xs ys : List (DrawCall F)) :
    fillsOf (xs ++ ys) = fillsOf xs ++ fillsOf ys := by
  simp [fillsOf, List.filterMap_append]

theorem drawsOf_append (xs ys : List (DrawCall F)) :
    drawsOf (xs ++ ys) = drawsOf xs ++ drawsOf ys := by
  simp [drawsOf, List.filterMap_append]

theorem isStyling_kind (c : DrawCall F) (h : c.isStyling = true) : c.kind = .draw := by
  cases c <;> first | rfl | cases h

/-- Styling calls are neither fills nor draws. -/
theorem added_styling [NatCast F] [Add F] [Sub F] [Mul F] {r t : Renderer F}
    (h : r.added (fun c => c.isStyling = true) t) :
    fillsOf t.calls = fillsOf r.calls ∧ drawsOf t.calls = drawsOf r.calls := by
  obtain ⟨n, e, p⟩ := h
  have h1 : fillsOf n = [] := by
    unfold fillsOf
    rw [List.filterMap_eq_nil_iff]
    intro c hc
    have := p c hc
    cases c <;> first | rfl | cases this
  have h2 : drawsOf n = [] := by
    unfold drawsOf
    rw [List.filterMap_eq_nil_iff]
    intro c hc
    have := p c hc
    cases c <;> first | rfl | cases this
  rw [e, fillsOf_append, drawsOf_append, h1, h2]
  simp

theorem ApplyHighlightAttributes_styling (K : Constants) (r t : Renderer F)
    (a : HighlightAttributes) (start end_ : Nat)
    (h : ApplyHighlightAttributes K r a start end_ = .ok t) :
    r.added (fun c => c.isStyling = true) t := by
  unfold ApplyHighlightAttributes at h
  obtain ⟨fg, _, h⟩ := bind_eq_ok h
  obtain ⟨sp, _, h⟩ := bind_eq_ok h
  cases h
  refine added_emit ?_ _ rfl
  refine added_cond_emit _ ?_ _ rfl
  refine added_cond_emit _ ?_ _ rfl
  refine added_cond_emit _ ?_ _ rfl
  refine added_cond_emit _ ?_ _ rfl
  refine added_cond_emit _ ?_ _ rfl
  exact added_refl _ r

theorem CreateBackgroundColor_congr (K : Constants) {r t : Renderer F}
    (h : t.hl_attribs = r.hl_attribs) (a : HighlightAttributes) :
    CreateBackgroundColor K t a = CreateBackgroundColor K r a := by
  unfold CreateBackgroundColor
  rw [h]

/-- The fill of one run: its rectangle, and the background colour resolved for the table
entry of its id. -/
theorem forall₂_fill_congr [NatCast F] [Add F] [Sub F] [Mul F] (K : Constants)
    {r t : Renderer F} (h : r.sameStore t) (row : Nat) {runs : List (Nat × Nat × Nat)}
    {fills : List (D2D1_RECT_F F × Nat)}
    (hf : List.Forall₂ (fun run fill =>
      fill.1 = DrawGridLine.bg_rect t.font_width t.font_height row run.1 run.2.1 ∧
      ∃ a, t.hl_attribs[run.2.2]? = some a ∧ CreateBackgroundColor K t a = .ok fill.2)
      runs fills) :
    List.Forall₂ (fun run fill =>
      fill.1 = DrawGridLine.bg_rect r.font_width r.font_height row run.1 run.2.1 ∧
      ∃ a, r.hl_attribs[run.2.2]? = some a ∧ CreateBackgroundColor K r a = .ok fill.2)
      runs fills := by
  have e1 : t.font_width = r.font_width := by rw [h]
  have e2 : t.font_height = r.font_height := by rw [h]
  have e3 : t.hl_attribs = r.hl_attribs := by rw [h]
  refine hf.imp ?_
  intro run fill hrf
  obtain ⟨h1, a, h2, h3⟩ := hrf
  rw [e1, e2] at h1
  rw [e3] at h2
  rw [CreateBackgroundColor_congr K e3] at h3
  exact ⟨h1, a, h2, h3⟩

theorem readAt_of_ok {α : Type} {xs : List α} {i : Nat} {x : α} (h : readAt xs i = .ok x) :
    xs[i]? = some x := by
  unfold readAt at h
  cases hx : xs[i]? with
  | none => rw [hx] at h; cases h
  | some y => rw [hx] at h; cases h; rfl

theorem take_drop_succ {α : Type} {xs : List α} {k : Nat} {c : α} (n : Nat)
    (h : xs[k]? = some c) : (xs.drop k).take (n + 1) = c :: (xs.drop (k + 1)).take n := by
  have hk : k < xs.length := by
    rcases Nat.lt_or_ge k xs.length with h1 | h1
    · exact h1
    · rw [List.getElem?_eq_none h1] at h; cases h
  rw [List.drop_eq_getElem_cons hk, List.take_succ_cons]
  rw [List.getElem?_eq_getElem hk] at h
  rw [Option.some.inj h]

/-- What the loop of `DrawGridLine` does from column `i` on, `n` columns being left: it
has read `n` cells, it ends with the id and the start of the run that `hlRuns` leaves
open, it has issued drawing calls only, no `Draw`, and the fills of the runs that
`hlRuns` closes, in order. -/
theorem DrawGridLine_loop_calls [NatCast F] [Add F] [Sub F] [Mul F] (K : Constants)
    (row base : Nat) (props : List CellProperty) :
    ∀ (n i hl off : Nat) (r t : Renderer F) (hl2 off2 : Nat),
      DrawGridLine.loop K row base props n i hl off r = .ok (hl2, off2, t) →
      ((props.drop (base + i)).take n).length = n ∧
      hl2 = (hlRuns (((props.drop (base + i)).take n).map (fun p => p.hl_attrib_id)) i hl off).2.1 ∧
      off2 = (hlRuns (((props.drop (base + i)).take n).map (fun p => p.hl_attrib_id)) i hl off).2.2 ∧
      r.sameStore t ∧ r.added (fun c => c.kind = .draw) t ∧
      drawsOf t.calls = drawsOf r.calls ∧
      ∃ fills, fillsOf t.calls = fillsOf r.calls ++ fills ∧
        List.Forall₂ (fun run fill =>
          fill.1 = DrawGridLine.bg_rect r.font_width r.font_height row run.1 run.2.1 ∧
          ∃ a, r.hl_attribs[run.2.2]? = some a ∧ CreateBackgroundColor K r a = .ok fill.2)
          (hlRuns (((props.drop (base + i)).take n).map (fun p => p.hl_attrib_id)) i hl off).1
          fills := by
  intro n
  induction n with
  | zero =>
    intro i hl off r t hl2 off2 h
    simp only [DrawGridLine.loop, pure, Except.pure, Except.ok.injEq, Prod.mk.injEq] at h
    obtain ⟨h1, h2, h3⟩ := h
    subst h1 h2 h3
    refine ⟨by simp, by simp [hlRuns], by simp [hlRuns], sameStore_refl _, added_refl _ _, rfl,
      [], by simp, ?_⟩
    simp [hlRuns]
  | succ n ih =>
    intro i hl off r t hl2 off2 h
    simp only [DrawGridLine.loop] at h
    obtain ⟨cell, hcell, h⟩ := bind_eq_ok h
    have hget := readAt_of_ok hcell
    have hids : ((props.drop (base + i)).take (n + 1)).map (fun p => p.hl_attrib_id) =
        cell.hl_attrib_id ::
          ((props.drop (base + (i + 1))).take n).map (fun p => p.hl_attrib_id) := by
      rw [take_drop_succ n hget]
      rfl
    have hlen : ∀ m, ((props.drop (base + (i + 1))).take n).length = m →
        ((props.drop (base + i)).take (n + 1)).length = m + 1 := by
      intro m hm
      rw [take_drop_succ n hget, List.length_cons]
      exact congrArg (· + 1) hm
    rw [hids]
    -- the record after the character spacing of column `i`
    generalize hw : (if cell.is_wide_char = true then r.font_width * ((2 : Nat) : F)
      else r.font_width) = width at h
    have hs1 : r.sameStore (r.emit (.SetCharacterSpacing width { startPosition := i, length := 1 })) :=
      sameStore_emit (sameStore_refl r) _
    have ha1 : r.added (fun c => c.kind = .draw)
        (r.emit (.SetCharacterSpacing width { startPosition := i, length := 1 })) :=
      added_emit (added_refl _ r) _ rfl
    have hd1 : drawsOf (r.emit (.SetCharacterSpacing width
        { startPosition := i, length := 1 })).calls = drawsOf r.calls := by
      simp [Renderer.emit, drawsOf_append, drawsOf]
    have hf1 : fillsOf (r.emit (.SetCharacterSpacing width
        { startPosition := i, length := 1 })).calls = fillsOf r.calls := by
      simp [Renderer.emit, fillsOf_append, fillsOf]
    by_cases hne : cell.hl_attrib_id ≠ hl
    · rw [if_pos hne] at h
      obtain ⟨attribs, hattr, h⟩ := bind_eq_ok h
      obtain ⟨r2, hr2, h⟩ := bind_eq_ok h
      obtain ⟨r3, hr3, h⟩ := bind_eq_ok h
      obtain ⟨color, hcolor, er2⟩ := DrawBackgroundRect_added K _ _ _ _ hr2
      obtain ⟨hs3, ha3⟩ := ApplyHighlightAttributes_added K _ _ _ _ _ hr3
      obtain ⟨hf3, hd3⟩ := added_styling (ApplyHighlightAttributes_styling K _ _ _ _ _ hr3)
      obtain ⟨g1, g2, g3, g4, g5, g6, fills, g7, g8⟩ := ih _ _ _ _ _ _ _ h
      have hs2 : r.sameStore r2 := by rw [er2]; exact sameStore_emit hs1 _
      have hs13 : r.sameStore r3 := sameStore_trans hs2 hs3
      have hattr2 : r.hl_attribs[hl]? = some attribs := by
        have := readAt_of_ok hattr
        simpa using this
      have hcolor2 : CreateBackgroundColor K r attribs = .ok color := by
        rw [← hcolor]
        exact (CreateBackgroundColor_congr K (by simp) attribs).symm
      simp only [hlRuns, if_pos hne]
      refine ⟨hlen _ g1, g2, g3, sameStore_trans hs13 g4, ?_, ?_, ?_⟩
      · refine added_trans ?_ g5
        refine added_trans ?_ ha3
        rw [er2]
        exact added_emit ha1 _ rfl
      · rw [g6, hd3, er2]
        simp [Renderer.emit, drawsOf_append, drawsOf]
      · refine ⟨(DrawGridLine.bg_rect r.font_width r.font_height row off i, color) :: fills, ?_,
          ?_⟩
        · rw [g7, hf3, er2]
          simp [Renderer.emit, fillsOf_append, fillsOf, DrawGridLine.bg_rect]
        · refine List.Forall₂.cons ⟨rfl, attribs, hattr2, hcolor2⟩ ?_
          exact forall₂_fill_congr K hs13 row g8
    · rw [if_neg hne] at h
      obtain ⟨g1, g2, g3, g4, g5, g6, fills, g7, g8⟩ := ih _ _ _ _ _ _ _ h
      simp only [hlRuns, if_neg hne]
      refine ⟨hlen _ g1, g2, g3, sameStore_trans hs1 g4, added_trans ha1 g5, ?_, fills, ?_, ?_⟩
      · rw [g6, hd1]
      · rw [g7, hf1]
      · exact forall₂_fill_congr K hs1 row g8

/-! ## Runs cover the row -/

theorem coversRuns_cons (id_at : Nat → Option Nat) (cols start s e i : Nat)
    (rest : List (Nat × Nat × Nat)) :
    coversRuns id_at cols start ((s, e, i) :: rest) = true ↔
      s = start ∧ s < e ∧ e ≤ cols ∧ (∀ c, s ≤ c → c < e → id_at c = some i) ∧
      (∀ x ∈ rest.head?, x.2.2 ≠ i) ∧ coversRuns id_at cols e rest = true := by
  have hall : (List.range' s (e - s)).all (fun c => decide (id_at c = some i)) = true ↔
      ∀ c, s ≤ c → c < e → id_at c = some i := by
    rw [List.all_eq_true]
    constructor
    · intro h c h1 h2
      have := h c (by rw [List.mem_range']; exact ⟨c - s, by omega, by omega⟩)
      simpa using this
    · intro h c hc
      rw [List.mem_range'] at hc
      obtain ⟨k, hk, rfl⟩ := hc
      simpa using h (s + 1 * k) (by omega) (by omega)
  have hhead : (match rest with
      | (_, _, j) :: _ => decide (j ≠ i)
      | [] => true) = true ↔ ∀ x ∈ rest.head?, x.2.2 ≠ i := by
    cases rest with
    | nil => simp
    | cons x xs =>
      obtain ⟨a, b, j⟩ := x
      simp
  simp only [coversRuns, Bool.and_eq_true, decide_eq_true_eq, hall, hhead]
  tauto

/-- The runs of `hlRuns`, the open one included, begin with a run that starts at `off`
and has id `hl`. -/
theorem hlRuns_head (ids : List Nat) : ∀ (i hl off stop : Nat),
    ∃ e tail, (hlRuns ids i hl off).1 ++
      [((hlRuns ids i hl off).2.2, stop, (hlRuns ids i hl off).2.1)] = (off, e, hl) :: tail := by
  induction ids with
  | nil => intro i hl off stop; exact ⟨stop, [], rfl⟩
  | cons next rest ih =>
    intro i hl off stop
    by_cases hne : next ≠ hl
    · simp only [hlRuns, if_pos hne]
      exact ⟨i, _, rfl⟩
    · simp only [hlRuns, if_neg hne]
      exact ih (i + 1) hl off stop

/-- The runs of `hlRuns`, the open one included, split the columns from `off` to the end
of the ids into ranges of one id each, neighbours having different ids. -/
theorem hlRuns_covers (id_at : Nat → Option Nat) (ids : List Nat) :
    ∀ (i hl off : Nat), off ≤ i → off < i + ids.length → id_at off = some hl →
      (∀ c, off ≤ c → c < i → id_at c = some hl) →
      (∀ k, k < ids.length → id_at (i + k) = ids[k]?) →
      coversRuns id_at (i + ids.length) off ((hlRuns ids i hl off).1 ++
        [((hlRuns ids i hl off).2.2, i + ids.length, (hlRuns ids i hl off).2.1)]) = true := by
  induction ids with
  | nil =>
    intro i hl off h1 h2 h3 h4 _
    simp only [hlRuns, List.nil_append, List.length_nil, Nat.add_zero] at *
    rw [coversRuns_cons]
    refine ⟨rfl, h2, le_refl _, h4, by simp, by simp [coversRuns]⟩
  | cons next rest ih =>
    intro i hl off h1 h2 h3 h4 h5
    have hi : id_at i = some next := by
      have := h5 0 (by simp)
      simpa using this
    have h5' : ∀ k, k < rest.length → id_at (i + 1 + k) = rest[k]? := by
      intro k hk
      have := h5 (k + 1) (by simp; omega)
      rw [show i + (k + 1) = i + 1 + k by omega] at this
      simpa using this
    have hlen : i + (next :: rest).length = i + 1 + rest.length := by simp; omega
    rw [hlen]
    by_cases hne : next ≠ hl
    · simp only [hlRuns, if_pos hne, List.cons_append]
      have hoff : off < i := by
        rcases Nat.lt_or_ge off i with h | h
        · exact h
        · have : off = i := by omega
          rw [this, hi] at h3
          exact absurd (Option.some.inj h3) hne
      rw [coversRuns_cons]
      refine ⟨rfl, hoff, by omega, h4, ?_, ?_⟩
      · obtain ⟨e, tail, ht⟩ := hlRuns_head rest (i + 1) next i (i + 1 + rest.length)
        rw [ht]
        intro x hx
        simp only [List.head?_cons, Option.mem_def, Option.some.injEq] at hx
        rw [← hx]
        exact hne
      · exact ih (i + 1) next i (by omega) (by omega) hi
          (by intro c hc1 hc2; rw [show c = i by omega]; exact hi) h5'
    · simp only [hlRuns, if_neg hne]
      have heq : next = hl := by
        by_contra h
        exact hne h
      refine ih (i + 1) hl off (by omega) (by omega) h3 ?_ h5'
      intro c hc1 hc2
      rcases Nat.lt_or_ge c i with h | h
      · exact h4 c hc1 h
      · rw [show c = i by omega, hi, heq]

/-- The runs of a row split its columns into maximal ranges of one highlight id. -/
theorem rowRuns_covers (ids : List Nat) (h : ids ≠ []) :
    coversRuns (fun c => ids[c]?) ids.length 0 (rowRuns ids) = true := by
  cases ids with
  | nil => exact absurd rfl h
  | cons first rest =>
    have := hlRuns_covers (fun c => (first :: rest)[c]?) (first :: rest) 0 first 0
      (le_refl _) (by simp) (by simp) (by intro c h1 h2; omega)
      (by intro k hk; simp)
    simpa [rowRuns] using this

/-! ## One row redraw: claim C15 -/

theorem deref_of_ok {α : Type} {buf : Option (List α)} {xs : List α} (h : deref buf = .ok xs) :
    buf = some xs := by
  cases buf with
  | none => cases h
  | some ys => cases h; rfl

/-- What one redraw of a row adds: drawing calls only, among them one `Draw`, at the
origin of the row, and the fills of the runs of the row in order, the last run being
filled to the end of the row. -/
theorem DrawGridLine_calls [NatCast F] [Add F] [Sub F] [Mul F] (K : Constants)
    (r t : Renderer F) (row : Nat) (h : DrawGridLine K r row = .ok t) :
    r.sameStore t ∧ r.added (fun c => c.kind = .draw) t ∧
    drawsOf t.calls = drawsOf r.calls ++ [(((0 : Nat) : F), (row : F) * r.font_height)] ∧
    ∃ props first fills color a, r.grid_cell_properties = some props ∧
      props[row * r.grid_cols]? = some first ∧
      ((props.drop (row * r.grid_cols)).take r.grid_cols).length = r.grid_cols ∧
      fillsOf t.calls = fillsOf r.calls ++ fills ++
        [(DrawGridLine.last_rect r.font_width r.font_height row
          (hlRuns (((props.drop (row * r.grid_cols)).take r.grid_cols).map
            (fun p => p.hl_attrib_id)) 0 first.hl_attrib_id 0).2.2 r.grid_cols, color)] ∧
      List.Forall₂ (fun run fill =>
        fill.1 = DrawGridLine.bg_rect r.font_width r.font_height row run.1 run.2.1 ∧
        ∃ a, r.hl_attribs[run.2.2]? = some a ∧ CreateBackgroundColor K r a = .ok fill.2)
        (hlRuns (((props.drop (row * r.grid_cols)).take r.grid_cols).map
          (fun p => p.hl_attrib_id)) 0 first.hl_attrib_id 0).1 fills ∧
      r.hl_attribs[(hlRuns (((props.drop (row * r.grid_cols)).take r.grid_cols).map
        (fun p => p.hl_attrib_id)) 0 first.hl_attrib_id 0).2.1]? = some a ∧
      CreateBackgroundColor K r a = .ok color := by
  unfold DrawGridLine at h
  obtain ⟨chars, hchars, h1⟩ := bind_eq_ok h
  clear h
  obtain ⟨text, htext, h2⟩ := bind_eq_ok h1
  clear h1
  obtain ⟨props, hprops, h3⟩ := bind_eq_ok h2
  clear h2
  obtain ⟨first, hfirst, h4⟩ := bind_eq_ok h3
  clear h3
  obtain ⟨⟨hl2, off2, r2⟩, hloop, h5⟩ := bind_eq_ok h4
  clear h4
  obtain ⟨attribs, hattr, h6⟩ := bind_eq_ok h5
  clear h5
  obtain ⟨r3, hr3, h7⟩ := bind_eq_ok h6
  clear h6
  obtain ⟨r4, hr4, h8⟩ := bind_eq_ok h7
  clear h7
  simp only [emit_grid_cell_properties, emit_grid_cols, emit_font_width, emit_font_height]
    at hprops hfirst hloop hattr hr3 hr4 h8
  have hp := deref_of_ok hprops
  have hf := readAt_of_ok hfirst
  obtain ⟨g1, g2, g3, g4, g5, g6, fills, g7, g8⟩ :=
    DrawGridLine_loop_calls K row (row * r.grid_cols) props _ _ _ _ _ _ _ _ hloop
  generalize hc1 : DrawCall.CreateTextLayout text (↑r.grid_cols * r.font_width - ((0 : Nat) : F))
    (↑row * r.font_height + r.font_height - ↑row * r.font_height) = c1 at g4 g5 g6 g7 g8 hloop
  have k1 : c1.kind = .draw := by rw [← hc1]; rfl
  have hs1 : r.sameStore (r.emit c1) := sameStore_emit (sameStore_refl r) _
  have hs2 : r.sameStore r2 := sameStore_trans hs1 g4
  replace g8 := forall₂_fill_congr K hs1 row g8
  simp only [Nat.add_zero] at g1 g2 g3 g8
  obtain ⟨color, hcolor, er3⟩ := DrawBackgroundRect_added K _ _ _ _ hr3
  obtain ⟨hs4, ha4⟩ := ApplyHighlightAttributes_added K _ _ _ _ _ hr4
  obtain ⟨hf4, hd4⟩ := added_styling (ApplyHighlightAttributes_styling K _ _ _ _ _ hr4)
  have e2w : r2.font_width = r.font_width := by rw [hs2]
  have e2h : r2.hl_attribs = r.hl_attribs := by rw [hs2]
  have hs3 : r.sameStore r3 := by rw [er3]; exact sameStore_emit hs2 _
  have hsr4 : r.sameStore r4 := sameStore_trans hs3 hs4
  have hattr2 : r.hl_attribs[hl2]? = some attribs := by
    rw [← e2h]; exact readAt_of_ok hattr
  have hcolor2 : CreateBackgroundColor K r attribs = .ok color := by
    rw [← hcolor]; exact (CreateBackgroundColor_congr K e2h attribs).symm
  have ha3 : r.added (fun c => c.kind = .draw) r4 := by
    refine added_trans ?_ ha4
    rw [er3]
    exact added_emit (added_trans (added_emit (added_refl _ r) _ k1) g5) _ rfl
  have hd3 : drawsOf r4.calls = drawsOf r.calls := by
    rw [hd4, er3]
    simp only [Renderer.emit, drawsOf_append, g6]
    rw [← hc1]
    simp [drawsOf]
  have hfl : fillsOf r4.calls = fillsOf r.calls ++ fills ++
      [(DrawGridLine.last_rect r.font_width r.font_height row off2 r.grid_cols, color)] := by
    rw [hf4, er3]
    simp only [Renderer.emit, fillsOf_append, g7, e2w]
    rw [← hc1]
    simp [fillsOf, DrawGridLine.last_rect]
  simp only [pure, Except.pure, Except.ok.injEq] at h8
  subst h8
  refine ⟨?_, ?_, ?_, props, first, fills, color, attribs, hp, hf, g1, ?_, g8, ?_, hcolor2⟩
  · exact sameStore_emit (sameStore_emit (sameStore_cond_emit _ (sameStore_emit hsr4 _) _) _) _
  · refine added_emit ?_ _ rfl
    refine added_emit ?_ _ rfl
    refine added_cond_emit _ ?_ _ rfl
    exact added_emit ha3 _ rfl
  · simp only [Renderer.emit]
    split_ifs <;> (simp only [drawsOf_append, hd3]; simp [drawsOf])
  · rw [← g3]
    simp only [Renderer.emit]
    split_ifs <;> (simp only [fillsOf_append, hfl]; simp [fillsOf])
  · rw [← g2]; exact hattr2

theorem hlRuns_le (ids : List Nat) : ∀ (i hl off : Nat), off ≤ i →
    (∀ run ∈ (hlRuns ids i hl off).1, run.1 ≤ run.2.1) ∧
    (hlRuns ids i hl off).2.2 ≤ i + ids.length := by
  induction ids with
  | nil => intro i hl off h; simp [hlRuns, h]
  | cons next rest ih =>
    intro i hl off h
    by_cases hne : next ≠ hl
    · simp only [hlRuns, if_pos hne, List.mem_cons, List.length_cons]
      obtain ⟨h1, h2⟩ := ih (i + 1) next i (by omega)
      refine ⟨?_, by omega⟩
      rintro run (rfl | hrun)
      · exact h
      · exact h1 run hrun
    · simp only [hlRuns, if_neg hne, List.length_cons]
      obtain ⟨h1, h2⟩ := ih (i + 1) hl off (by omega)
      exact ⟨h1, by omega⟩

theorem forall₂_imp_mem {α β : Type} {P Q : α → β → Prop} {xs : List α} {ys : List β}
    (h : List.Forall₂ P xs ys) (hpq : ∀ a ∈ xs, ∀ b, P a b → Q a b) : List.Forall₂ Q xs ys := by
  induction h with
  | nil => exact List.Forall₂.nil
  | cons hab _ ih =>
    refine List.Forall₂.cons (hpq _ (List.mem_cons_self _ _) _ hab) (ih ?_)
    intro a ha b hp
    exact hpq a (List.mem_cons_of_mem _ ha) b hp

theorem coversRuns_congr (f g : Nat → Option Nat) (cols : Nat) (hfg : ∀ c, c < cols → f c = g c)
    (runs : List (Nat × Nat × Nat)) : ∀ start, coversRuns f cols start runs = true →
      coversRuns g cols start runs = true := by
  induction runs with
  | nil => intro start h; simpa [coversRuns] using h
  | cons run rest ih =>
    intro start h
    obtain ⟨s, e, i⟩ := run
    rw [coversRuns_cons] at h ⊢
    obtain ⟨h1, h2, h3, h4, h5, h6⟩ := h
    refine ⟨h1, h2, h3, ?_, h5, ih e h6⟩
    intro c hc1 hc2
    rw [← hfg c (by omega)]
    exact h4 c hc1 hc2

/-- C15: on a well-formed state (at least one column), the background fills that
`DrawGridLine` issues for a row are, in order, those of a list of runs `(start, end, id)`
that `coversRuns` accepts: the runs start at column 0, each begins where the one before
ends, the last ends at `grid_cols`, none is empty, every cell of a run has the id of the
run, and neighbouring runs have different ids.  The fill of a run is the rectangle from
`x = start * font_width` to `x = end * font_width` over the height of the row, in the
background colour resolved for the table entry of the id; neither the characters nor
the wide marks of the cells enter.  Nothing but the calls changes. -/
theorem DrawGridLine_run_fills [CommRing F] (K : Constants) (r : Renderer F) (row : Nat)
    (hwf : r.WF) (hrow : row < r.grid_rows) :
    ∃ r' runs fills, DrawGridLine K r row = .ok r' ∧ r.sameStore r' ∧
      fillsOf r'.calls = fillsOf r.calls ++ fills ∧
      coversRuns (fun c => (r.cell row c).map (fun cell => cell.hl_attrib_id)) r.grid_cols 0 runs
        = true ∧
      List.Forall₂ (fun run fill =>
        fill.1 =
          { left := (run.1 : F) * r.font_width
            top := (row : F) * r.font_height
            right := (run.2.1 : F) * r.font_width
            bottom := (row : F) * r.font_height + r.font_height } ∧
        ∃ a, r.hl_attribs[run.2.2]? = some a ∧ CreateBackgroundColor K r a = .ok fill.2)
        runs fills := by
  obtain ⟨r', hr', _⟩ := DrawGridLine_ok K r row hwf hrow
  obtain ⟨hs, _, _, props, first, fills, color, a, hp, hf, hlen, hfills, hall, ha, hcolor⟩ :=
    DrawGridLine_calls K r r' row hr'
  obtain ⟨hcols, _, ⟨chars, hc, hcl⟩, ⟨props2, hp2, hpl, _⟩⟩ := hwf
  rw [hp] at hp2
  cases hp2
  have hbase : row * r.grid_cols + r.grid_cols ≤ r.grid_rows * r.grid_cols := by
    have h : (row + 1) * r.grid_cols ≤ r.grid_rows * r.grid_cols := Nat.mul_le_mul_right _ hrow
    rw [Nat.succ_mul] at h
    exact h
  -- the ids of the row
  generalize hids : ((props.drop (row * r.grid_cols)).take r.grid_cols).map
    (fun p => p.hl_attrib_id) = ids at hfills hall ha
  have hidlen : ids.length = r.grid_cols := by rw [← hids, List.length_map, hlen]
  have hidget : ∀ c, c < r.grid_cols →
      (r.cell row c).map (fun cell => cell.hl_attrib_id) = ids[c]? := by
    intro c hc'
    have h1 : row * r.grid_cols + c < props.length := by omega
    have h2 : row * r.grid_cols + c < chars.length := by omega
    rw [cell_eq hc hp row c chars[row * r.grid_cols + c] props[row * r.grid_cols + c]
      (by simp [h2]) (by simp [h1])]
    rw [← hids]
    simp [List.getElem?_take, hc', List.getElem?_drop, h1]
  have h0 : ids[0]? = some first.hl_attrib_id := by
    rw [← hids]
    simp [List.getElem?_take, hcols, List.getElem?_drop, hf]
  cases ids with
  | nil => simp at h0
  | cons x rest =>
    simp only [List.getElem?_cons_zero, Option.some.injEq] at h0
    subst h0
    have hcov := rowRuns_covers (first.hl_attrib_id :: rest) (by simp)
    rw [hidlen] at hcov
    have hcov2 := coversRuns_congr _
      (fun c => (r.cell row c).map (fun cell => cell.hl_attrib_id)) r.grid_cols
      (fun c hc' => (hidget c hc').symm) _ 0 hcov
    obtain ⟨hle, _⟩ := hlRuns_le (first.hl_attrib_id :: rest) 0 first.hl_attrib_id 0 (le_refl _)
    refine ⟨r', rowRuns (first.hl_attrib_id :: rest), fills ++
      [(DrawGridLine.last_rect r.font_width r.font_height row
        (hlRuns (first.hl_attrib_id :: rest) 0 first.hl_attrib_id 0).2.2 r.grid_cols, color)],
      hr', hs, ?_, hcov2, ?_⟩
    · rw [hfills, List.append_assoc]
    · simp only [rowRuns]
      refine List.rel_append (forall₂_imp_mem hall ?_) (List.Forall₂.cons ?_ List.Forall₂.nil)
      · rintro run hrun fill ⟨h1, h2⟩
        refine ⟨?_, h2⟩
        rw [h1]
        simp only [DrawGridLine.bg_rect, D2D1_RECT_F.mk.injEq, true_and, and_true]
        rw [Nat.cast_sub (hle run hrun)]
        ring
      · refine ⟨?_, a, ha, hcolor⟩
        simp only [DrawGridLine.last_rect, hidlen]

/-- Witness for C15: row 0 of `sampleRunsRenderer` (ids 1, 1, 3, 3, the second cell
marked wide) is filled in two rectangles, columns 0 to 1 in the background of entry 1
and columns 2 to 3 in that of entry 3. -/
theorem DrawGridLine_run_fills_witness :
    ∃ r' runs, DrawGridLine sampleConstants sampleRunsRenderer 0 = .ok r' ∧
      coversRuns (fun c => (sampleRunsRenderer.cell 0 c).map (fun cell => cell.hl_attrib_id))
        4 0 runs = true ∧
      fillsOf r'.calls = [(⟨0, 0, 16, 16⟩, 0xffffff), (⟨16, 0, 32, 16⟩, 0x000000)] := by
  obtain ⟨r', runs, fills, h1, _, _, h3, _⟩ := DrawGridLine_run_fills sampleConstants
    sampleRunsRenderer 0
    ⟨by decide, by decide, ⟨_, rfl, by decide⟩, ⟨_, rfl, by decide, by decide⟩⟩ (by decide)
  have h : (DrawGridLine sampleConstants sampleRunsRenderer 0).map (fun t => fillsOf t.calls) =
      .ok [(⟨0, 0, 16, 16⟩, 0xffffff), (⟨16, 0, 32, 16⟩, 0x000000)] := by decide!
  rw [h1] at h
  simp only [Except.map, Except.ok.injEq] at h
  exact ⟨r', runs, h1, h3, h⟩

/-! ## The cursor: claims C16, C17 -/

/-- C16: `GetCursorForegroundRect` returns the cell rectangle as it is when no mode is
active and, for the active mode (an entry of the mode table), when its shape is `Block`
or `None`; for `Vertical` it returns the rectangle with `right = left + 2` and the
other three edges as they are, for `Horizontal` the rectangle with `top = bottom - 2`
and the other three edges as they are. -/
theorem GetCursorForegroundRect_shape [NatCast F] [Add F] [Sub F] [Mul F] (r : Renderer F)
    (R : D2D1_RECT_F F) :
    (r.cursor.mode_info = none → GetCursorForegroundRect r R = .ok R) ∧
    (∀ mode info, r.cursor.mode_info = some mode → r.cursor_mode_infos[mode]? = some info →
      (info.shape = .Block → GetCursorForegroundRect r R = .ok R) ∧
      (info.shape = .None → GetCursorForegroundRect r R = .ok R) ∧
      (info.shape = .Vertical → GetCursorForegroundRect r R =
        .ok { left := R.left, top := R.top, right := R.left + ((2 : Nat) : F),
              bottom := R.bottom }) ∧
      (info.shape = .Horizontal → GetCursorForegroundRect r R =
        .ok { left := R.left, top := R.bottom - ((2 : Nat) : F), right := R.right,
              bottom := R.bottom })) := by
  constructor
  · intro h
    unfold GetCursorForegroundRect
    rw [h]
    rfl
  · intro mode info hm hi
    unfold GetCursorForegroundRect
    rw [hm]
    simp only [readAt_eq hi, bind, Except.bind]
    refine ⟨?_, ?_, ?_, ?_⟩ <;> intro hs <;> rw [hs] <;> rfl

/-- Witness for C16: in `sampleCursorRenderer` with the mode of entry 1 (vertical) the
cell rectangle from `(8, 16)` to `(16, 32)` is cut down to the strip up to `x = 10`. -/
theorem GetCursorForegroundRect_shape_witness :
    GetCursorForegroundRect
      { sampleCursorRenderer with cursor := { mode_info := some 1, row := 1, col := 1 } }
      ⟨8, 16, 16, 32⟩ = .ok ⟨8, 16, 10, 32⟩ :=
  ((GetCursorForegroundRect_shape
    { sampleCursorRenderer with cursor := { mode_info := some 1, row := 1, col := 1 } }
    ⟨8, 16, 16, 32⟩).2 1 ⟨.Vertical, 0⟩ rfl (by decide)).2.2.1 rfl

theorem DrawHighlightedCharacter_added [NatCast F] [Add F] [Sub F] [Mul F] (K : Constants)
    (r t : Renderer F) (rect : D2D1_RECT_F F) (chars : List Nat) (offset factor : Nat)
    (a : HighlightAttributes)
    (h : DrawHighlightedCharacter K r rect chars offset factor a = .ok t) :
    r.sameStore t ∧ r.added (fun c => c.kind = .draw) t ∧
    drawsOf t.calls = drawsOf r.calls ++ [(rect.left, rect.top)] ∧
    fillsOf t.calls = fillsOf r.calls := by
  unfold DrawHighlightedCharacter at h
  obtain ⟨character, _, h1⟩ := bind_eq_ok h
  clear h
  obtain ⟨r2, hr2, h2⟩ := bind_eq_ok h1
  clear h1
  obtain ⟨hs2, ha2⟩ := ApplyHighlightAttributes_added K _ _ _ _ _ hr2
  obtain ⟨hf2, hd2⟩ := added_styling (ApplyHighlightAttributes_styling K _ _ _ _ _ hr2)
  simp only [pure, Except.pure, Except.ok.injEq] at h2
  subst h2
  refine ⟨?_, ?_, ?_, ?_⟩
  · exact sameStore_emit (sameStore_emit (sameStore_emit (sameStore_emit
      (sameStore_trans (sameStore_emit (sameStore_refl r) _) hs2) _) _) _) _
  · refine added_emit ?_ _ rfl
    refine added_emit ?_ _ rfl
    refine added_emit ?_ _ rfl
    refine added_emit ?_ _ rfl
    refine added_trans (added_emit (added_refl _ r) _ ?_) ha2
    rfl
  · simp only [Renderer.emit, drawsOf_append, hd2]
    simp [drawsOf]
  · simp only [Renderer.emit, fillsOf_append, hf2]
    simp [fillsOf]

theorem DrawHighlightedCharacter_ok [NatCast F] [Add F] [Sub F] [Mul F] (K : Constants)
    (r : Renderer F) (rect : D2D1_RECT_F F) (chars : List Nat) (offset factor : Nat)
    (a : HighlightAttributes) (hfit : offset + factor ≤ chars.length)
    (h0 : 0 < r.hl_attribs.length) :
    ∃ t, DrawHighlightedCharacter K r rect chars offset factor a = .ok t := by
  unfold DrawHighlightedCharacter
  simp only [readSlice, if_pos hfit, bind, Except.bind]
  obtain ⟨t, ht, _⟩ := ApplyHighlightAttributes_ok K
    (r.emit (.CreateTextLayout ((chars.drop offset).take factor) (rect.right - rect.left)
      (rect.bottom - rect.top))) a 0 1 (by simpa using h0)
  rw [ht]
  exact ⟨_, rfl⟩

/-- C17, as amended: in a well-formed state with the cursor inside the grid and an
active mode (an entry of the mode table) of attribute id 0, the attribute that
`DrawCursor` paints with has the foreground, background and special colour of table
entry 0, the entry of the mode, and the flags of the entry of the cell under the cursor
with the reverse flag toggled, the other five flags as they are.  `DrawCursor` succeeds
(for a block on a wide cell, when the cell after the cursor is still in the buffer); its
first call fills the shape rectangle in the background colour resolved for that
attribute; a shape other than block adds no further call; only the calls change. -/
theorem DrawCursor_attribs [NatCast F] [Add F] [Sub F] [Mul F] (K : Constants) (r : Renderer F)
    (mode : Nat) (info : CursorModeInfo) (d u : HighlightAttributes) (c : Cell)
    (hwf : r.WF) (hmode : r.cursor.mode_info = some mode)
    (hinfo : r.cursor_mode_infos[mode]? = some info) (hid : info.hl_attrib_id = 0)
    (hrow : r.cursor.row < r.grid_rows) (hcol : r.cursor.col < r.grid_cols)
    (h0 : r.hl_attribs[0]? = some d) (hc : r.cell r.cursor.row r.cursor.col = some c)
    (hu : r.hl_attribs[c.hl_attrib_id]? = some u)
    (hfit : info.shape = .Block → c.is_wide = true →
      r.cursor.row * r.grid_cols + r.cursor.col + 2 ≤ r.grid_rows * r.grid_cols) :
    ∃ props r' rect color rest, r.grid_cell_properties = some props ∧
      DrawCursor.attribs r info props (r.cursor.row * r.grid_cols + r.cursor.col) =
        .ok ⟨d.foreground, d.background, d.special, u.flags ^^^ HL_ATTRIB_REVERSE⟩ ∧
      hasFlag (u.flags ^^^ HL_ATTRIB_REVERSE) HL_ATTRIB_REVERSE =
        !hasFlag u.flags HL_ATTRIB_REVERSE ∧
      hasFlag (u.flags ^^^ HL_ATTRIB_REVERSE) HL_ATTRIB_ITALIC = hasFlag u.flags HL_ATTRIB_ITALIC ∧
      hasFlag (u.flags ^^^ HL_ATTRIB_REVERSE) HL_ATTRIB_BOLD = hasFlag u.flags HL_ATTRIB_BOLD ∧
      hasFlag (u.flags ^^^ HL_ATTRIB_REVERSE) HL_ATTRIB_STRIKETHROUGH =
        hasFlag u.flags HL_ATTRIB_STRIKETHROUGH ∧
      hasFlag (u.flags ^^^ HL_ATTRIB_REVERSE) HL_ATTRIB_UNDERLINE =
        hasFlag u.flags HL_ATTRIB_UNDERLINE ∧
      hasFlag (u.flags ^^^ HL_ATTRIB_REVERSE) HL_ATTRIB_UNDERCURL =
        hasFlag u.flags HL_ATTRIB_UNDERCURL ∧
      DrawCursor K r = .ok r' ∧ r.sameStore r' ∧
      GetCursorForegroundRect r (DrawCursor.rect r (if c.is_wide then 2 else 1)) = .ok rect ∧
      CreateBackgroundColor K r
        ⟨d.foreground, d.background, d.special, u.flags ^^^ HL_ATTRIB_REVERSE⟩ = .ok color ∧
      r'.calls = r.calls ++ .FillRectangle rect color :: rest ∧
      (info.shape ≠ .Block → rest = []) := by
  obtain ⟨hcols, _, ⟨chars, hcs, hcl⟩, ⟨props, hps, hpl, hpid⟩⟩ := hwf
  have hlt := flat_lt hrow hcol
  have hb1 : r.cursor.row * r.grid_cols + r.cursor.col < props.length := by omega
  have hb2 : r.cursor.row * r.grid_cols + r.cursor.col < chars.length := by omega
  have hpget : props[r.cursor.row * r.grid_cols + r.cursor.col]? =
      some props[r.cursor.row * r.grid_cols + r.cursor.col] := by simp [hb1]
  have hcell := cell_eq hcs hps r.cursor.row r.cursor.col
    chars[r.cursor.row * r.grid_cols + r.cursor.col]
    props[r.cursor.row * r.grid_cols + r.cursor.col] (by simp [hb2]) hpget
  rw [hc] at hcell
  generalize props[r.cursor.row * r.grid_cols + r.cursor.col] = p at hpget hcell
  have hcid : c.hl_attrib_id = p.hl_attrib_id := by rw [Option.some.inj hcell]
  have hcw : c.is_wide = p.is_wide_char := by rw [Option.some.inj hcell]
  rw [hcid] at hu
  have hattr : DrawCursor.attribs r info props (r.cursor.row * r.grid_cols + r.cursor.col) =
      .ok ⟨d.foreground, d.background, d.special, u.flags ^^^ HL_ATTRIB_REVERSE⟩ := by
    unfold DrawCursor.attribs
    simp only [hid, readAt_eq h0, readAt_eq hpget, readAt_eq hu, bind, Except.bind, if_true]
    rfl
  have hlen0 : 0 < r.hl_attribs.length := by
    rcases Nat.lt_or_ge 0 r.hl_attribs.length with h | h
    · exact h
    · rw [List.getElem?_eq_none h] at h0; cases h0
  obtain ⟨color, hcolor⟩ := CreateBackgroundColor_ok K r
    ⟨d.foreground, d.background, d.special, u.flags ^^^ HL_ATTRIB_REVERSE⟩ hlen0
  obtain ⟨rect, hrect⟩ : ∃ rect, GetCursorForegroundRect r
      (DrawCursor.rect r (if c.is_wide then 2 else 1)) = .ok rect := by
    unfold GetCursorForegroundRect
    rw [hmode]
    simp only [readAt_eq hinfo, bind, Except.bind]
    cases info.shape <;> exact ⟨_, rfl⟩
  obtain ⟨t1, t2, t3, t4, t5, t6⟩ := hasFlag_toggle_reverse u.flags
  have hback : DrawBackgroundRect K r rect
      ⟨d.foreground, d.background, d.special, u.flags ^^^ HL_ATTRIB_REVERSE⟩ =
      .ok (r.emit (.FillRectangle rect color)) := by
    unfold DrawBackgroundRect
    rw [hcolor]
    rfl
  have hstart : DrawCursor K r = (if info.shape = .Block then do
      let chars ← deref (r.emit (.FillRectangle rect color)).grid_chars
      DrawHighlightedCharacter K (r.emit (.FillRectangle rect color)) rect chars
        (r.cursor.row * r.grid_cols + r.cursor.col) (if c.is_wide then 2 else 1)
        ⟨d.foreground, d.background, d.special, u.flags ^^^ HL_ATTRIB_REVERSE⟩
    else pure (r.emit (.FillRectangle rect color))) := by
    unfold DrawCursor
    rw [hmode]
    simp only [hps, deref, bind, Except.bind, if_pos hlt, readAt_eq hpget, readAt_eq hinfo,
      hattr, pure, Except.pure, Functor.map, Except.map]
    rw [hcw] at hrect
    simp only [hrect, hback, hcw]
  by_cases hsh : info.shape = .Block
  · rw [if_pos hsh] at hstart
    simp only [emit_grid_chars, hcs, deref, bind, Except.bind] at hstart
    obtain ⟨t, ht⟩ := DrawHighlightedCharacter_ok K (r.emit (.FillRectangle rect color)) rect
      chars (r.cursor.row * r.grid_cols + r.cursor.col) (if c.is_wide then 2 else 1)
      ⟨d.foreground, d.background, d.special, u.flags ^^^ HL_ATTRIB_REVERSE⟩
      (by
        by_cases hw : c.is_wide = true
        · have := hfit hsh hw
          rw [if_pos hw]; omega
        · rw [if_neg hw]; omega)
      (by simpa using hlen0)
    obtain ⟨hs, ⟨new, hnew, _⟩, _, _⟩ := DrawHighlightedCharacter_added K _ _ _ _ _ _ _ ht
    refine ⟨props, t, rect, color, new, hps, hattr, t1, t2, t3, t4, t5, t6, by rw [hstart, ht],
      sameStore_trans (sameStore_emit (sameStore_refl r) _) hs, hrect, hcolor, ?_,
      fun h => absurd hsh h⟩
    rw [hnew]
    simp [Renderer.emit]
  · rw [if_neg hsh] at hstart
    refine ⟨props, r.emit (.FillRectangle rect color), rect, color, [], hps, hattr,
      t1, t2, t3, t4, t5, t6, hstart, sameStore_emit (sameStore_refl r) _, hrect, hcolor, rfl,
      fun _ => rfl⟩

theorem sampleCursorRenderer_WF : sampleCursorRenderer.WF :=
  ⟨by decide, by decide, ⟨_, rfl, by decide⟩, ⟨_, rfl, by decide, by decide⟩⟩

/-- Witness for C17: in `sampleCursorRenderer` the cursor is on `f`, whose entry 2 is red
on blue and bold; the cursor is painted with the white, black and red of entry 0 and the
flags bold and reverse. -/
theorem DrawCursor_attribs_witness :
    ∃ props r', sampleCursorRenderer.grid_cell_properties = some props ∧
      DrawCursor.attribs sampleCursorRenderer ⟨.Block, 0⟩ props 5 =
        .ok ⟨0xffffff, 0x000000, 0xff0000, 4 ^^^ HL_ATTRIB_REVERSE⟩ ∧
      DrawCursor sampleConstants sampleCursorRenderer = .ok r' := by
  obtain ⟨props, r', _, _, _, h1, h2, _, _, _, _, _, _, h3, _⟩ :=
    DrawCursor_attribs sampleConstants sampleCursorRenderer 0 ⟨.Block, 0⟩
      ⟨0xffffff, 0x000000, 0xff0000, 0⟩ ⟨0xff0000, 0x0000ff, 0x46464646, 4⟩ ⟨102, 2, false⟩
      sampleCursorRenderer_WF rfl (by decide) rfl (by decide) (by decide) (by decide)
      (by decide) (by decide) (by intro _ h; cases h)
  exact ⟨props, r', h1, h2, h3⟩

/-- Counterexample to C17 as stated: in `sampleCursorRenderer` the active mode has
attribute id 0 and the cursor is on `f` in row 1, column 1, whose entry 2 is red on blue
with the default special colour, bold.  That entry with the reverse flag toggled would
fill the cursor in red; `DrawCursor` paints with the colours of entry 0 and fills the
cursor in white. -/
theorem DrawCursor_attribs_counterexample :
    sampleCursorRenderer.cursor.mode_info = some 0 ∧
    sampleCursorRenderer.cursor_mode_infos[0]? = some ⟨.Block, 0⟩ ∧
    sampleCursorRenderer.cell 1 1 = some ⟨102, 2, false⟩ ∧
    sampleCursorRenderer.hl_attribs[2]? = some ⟨0xff0000, 0x0000ff, 0x46464646, 4⟩ ∧
    DrawCursor.attribs sampleCursorRenderer ⟨.Block, 0⟩
      ((List.replicate 4 ⟨1, false⟩ ++ List.replicate 4 ⟨2, false⟩) ++
        List.replicate 4 ⟨3, false⟩) 5 = .ok ⟨0xffffff, 0x000000, 0xff0000, 5⟩ ∧
    (⟨0xffffff, 0x000000, 0xff0000, 5⟩ : HighlightAttributes) ≠
      ⟨0xff0000, 0x0000ff, 0x46464646, 4 ^^^ HL_ATTRIB_REVERSE⟩ ∧
    CreateBackgroundColor sampleConstants sampleCursorRenderer
      ⟨0xff0000, 0x0000ff, 0x46464646, 4 ^^^ HL_ATTRIB_REVERSE⟩ = .ok 0xff0000 ∧
    (DrawCursor sampleConstants sampleCursorRenderer).map (fun t => fillsOf t.calls) =
      .ok [(⟨8, 16, 16, 32⟩, 0xffffff)] := by
  refine ⟨rfl, by decide, by decide, by decide, by decide, by decide, by decide, by decide!⟩

/-! ## Dispatch on the event name -/

theorem MPackMatchString_eq_true (name s : String) :
    MPackMatchString name s = true ↔ name = s := by
  simp [MPackMatchString]

theorem MPackMatchString_of_ne {name s : String} (h : name ≠ s) :
    MPackMatchString name s = false := by
  simp [MPackMatchString, h]

/-- An event whose name is none of the names tested for is passed over. -/
theorem command_other [LinearOrderedField F] [FloorRing F] (K : Constants)
    (KF : FloatConstants F) (env : Env) (r : Renderer F) (cmd : RedrawCommand)
    (h : cmd.name ∉ handledNames) : RendererRedraw.command K KF env r cmd = .ok r := by
  simp only [handledNames, List.mem_cons, List.mem_singleton, not_or, List.mem_nil_iff,
    not_false_eq_true, and_true] at h
  obtain ⟨h1, h2, h3, h4, h5, h6, h7, h8, h9, h10, h11, h12, h13, h14⟩ := h
  unfold RendererRedraw.command
  simp only [MPackMatchString_of_ne h1, MPackMatchString_of_ne h2, MPackMatchString_of_ne h3,
    MPackMatchString_of_ne h4, MPackMatchString_of_ne h5, MPackMatchString_of_ne h6,
    MPackMatchString_of_ne h7, MPackMatchString_of_ne h8, MPackMatchString_of_ne h9,
    MPackMatchString_of_ne h10, MPackMatchString_of_ne h11, MPackMatchString_of_ne h12,
    MPackMatchString_of_ne h13, MPackMatchString_of_ne h14]
  rfl

theorem command_flush [LinearOrderedField F] [FloorRing F] (K : Constants)
    (KF : FloatConstants F) (env : Env) (r : Renderer F) (cmd : RedrawCommand)
    (h : cmd.name = "flush") :
    RendererRedraw.command K KF env r cmd = (do
      let r ← (if !r.ui_busy then DrawCursor K r else pure r)
      let r ← DrawBorderRectangles K r
      pure (FinishDraw env r)) := by
  unfold RendererRedraw.command
  simp [h, MPackMatchString]

/-! ## What the handlers leave alone -/

theorem handled_refl (r : Renderer F) : r.handled r :=
  ⟨rfl, rfl, added_refl _ r⟩

theorem handled_trans {r s t : Renderer F} (h1 : r.handled s) (h2 : s.handled t) :
    r.handled t :=
  ⟨h2.1.trans h1.1, h2.2.1.trans h1.2.1, added_trans h1.2.2 h2.2.2⟩

theorem handled_of_sameFrame {r t : Renderer F} (h : r.sameFrame t)
    (ha : r.added (fun c => c.kind = .draw) t) : r.handled t := by
  refine ⟨?_, ?_, added_mono ha (fun c hc => Or.inl hc)⟩
  · rw [h]
  · rw [h]

theorem handled_of_sameStore {r t : Renderer F} (h : r.sameStore t)
    (ha : r.added (fun c => c.kind = .draw) t) : r.handled t :=
  handled_of_sameFrame (sameFrame_of_sameStore h) ha

/-- A handler that changes neither the flags nor the calls. -/
theorem handled_of_eq {r t : Renderer F} (h1 : t.ui_busy = r.ui_busy)
    (h2 : t.draw_active = r.draw_active) (h3 : t.calls = r.calls) : r.handled t :=
  ⟨h1, h2, added_of_calls_eq _ h3⟩

theorem DrawGridLines_line_frame [NatCast F] [Add F] [Sub F] [Mul F] (K : Constants)
    (r t : Renderer F) (grid_line : GridLine) (h : DrawGridLines.line K r grid_line = .ok t) :
    r.sameFrame t ∧ r.added (fun c => c.kind = .draw) t := by
  unfold DrawGridLines.line at h
  obtain ⟨chars, _, h1⟩ := bind_eq_ok h
  obtain ⟨props, _, h2⟩ := bind_eq_ok h1
  obtain ⟨⟨chars2, props2⟩, _, h3⟩ := bind_eq_ok h2
  obtain ⟨hs, ha, _⟩ := DrawGridLine_calls K _ t _ h3
  constructor
  · unfold Renderer.sameFrame
    unfold Renderer.sameStore at hs
    rw [hs]
  · exact added_congr ha rfl

theorem foldlM_invariant {α β ε : Type} (f : β → α → Except ε β) (R : β → β → Prop)
    (hrefl : ∀ b, R b b) (htrans : ∀ a b c, R a b → R b c → R a c)
    (hstep : ∀ b a b2, f b a = .ok b2 → R b b2) :
    ∀ (xs : List α) (b b2 : β), xs.foldlM f b = .ok b2 → R b b2 := by
  intro xs
  induction xs with
  | nil =>
    intro b b2 h
    simp only [List.foldlM_nil, pure, Except.pure, Except.ok.injEq] at h
    rw [← h]
    exact hrefl b
  | cons x rest ih =>
    intro b b2 h
    rw [List.foldlM_cons] at h
    obtain ⟨b1, h1, h2⟩ := bind_eq_ok h
    exact htrans _ _ _ (hstep _ _ _ h1) (ih _ _ h2)

theorem DrawGridLines_frame [NatCast F] [Add F] [Sub F] [Mul F] (K : Constants)
    (r t : Renderer F) (grid_lines : List GridLine) (h : DrawGridLines K r grid_lines = .ok t) :
    r.sameFrame t ∧ r.added (fun c => c.kind = .draw) t := by
  unfold DrawGridLines at h
  split_ifs at h
  exact foldlM_invariant (DrawGridLines.line K)
    (fun a b => a.sameFrame b ∧ a.added (fun c => c.kind = .draw) b)
    (fun b => ⟨sameFrame_refl b, added_refl _ b⟩)
    (fun a b c h1 h2 => ⟨sameFrame_trans h1.1 h2.1, added_trans h1.2 h2.2⟩)
    (fun b a b2 hb => DrawGridLines_line_frame K b b2 a hb) grid_lines r t h

theorem ScrollRegion_row_frame [NatCast F] [Add F] [Sub F] [Mul F] (K : Constants)
    (top bottom left right rows : Int) (r t : Renderer F) (i : Int)
    (h : ScrollRegion.row K top bottom left right rows r i = .ok t) :
    r.sameFrame t ∧ r.added (fun c => c.kind = .draw) t := by
  unfold ScrollRegion.row at h
  simp only at h
  split_ifs at h with hc
  · simp only [pure, Except.pure, Except.ok.injEq] at h
    rw [← h]
    exact ⟨sameFrame_refl r, added_refl _ r⟩
  · obtain ⟨chars, _, h1⟩ := bind_eq_ok h
    obtain ⟨chars2, _, h2⟩ := bind_eq_ok h1
    obtain ⟨props, _, h3⟩ := bind_eq_ok h2
    obtain ⟨props2, _, h4⟩ := bind_eq_ok h3
    unfold DrawGridLineInt at h4
    split_ifs at h4
    obtain ⟨hs, ha, _⟩ := DrawGridLine_calls K _ t _ h4
    constructor
    · unfold Renderer.sameFrame
      unfold Renderer.sameStore at hs
      rw [hs]
    · exact added_congr ha rfl

theorem ScrollRegion_loop_frame [NatCast F] [Add F] [Sub F] [Mul F] (K : Constants)
    (top bottom left right rows : Int) (down : Bool) (end_row increment : Int) :
    ∀ (fuel : Nat) (i : Int) (r t : Renderer F),
      ScrollRegion.loop K top bottom left right rows down end_row increment fuel i r = .ok t →
      r.sameFrame t ∧ r.added (fun c => c.kind = .draw) t := by
  intro fuel
  induction fuel with
  | zero =>
    intro i r t h
    simp only [ScrollRegion.loop, pure, Except.pure, Except.ok.injEq] at h
    rw [← h]
    exact ⟨sameFrame_refl r, added_refl _ r⟩
  | succ fuel ih =>
    intro i r t h
    simp only [ScrollRegion.loop] at h
    have hstep : ∀ t2, (ScrollRegion.row K top bottom left right rows r i >>= fun r =>
        ScrollRegion.loop K top bottom left right rows down end_row increment fuel
          (i + increment) r) = .ok t2 →
        r.sameFrame t2 ∧ r.added (fun c => c.kind = .draw) t2 := by
      intro t2 h
      obtain ⟨r1, h1, h2⟩ := bind_eq_ok h
      obtain ⟨f1, a1⟩ := ScrollRegion_row_frame K _ _ _ _ _ _ _ _ h1
      obtain ⟨f2, a2⟩ := ih _ _ _ h2
      exact ⟨sameFrame_trans f1 f2, added_trans a1 a2⟩
    have hstop : ∀ t2, (pure r : Except Fault (Renderer F)) = .ok t2 →
        r.sameFrame t2 ∧ r.added (fun c => c.kind = .draw) t2 := by
      intro t2 h
      simp only [pure, Except.pure, Except.ok.injEq] at h
      rw [← h]
      exact ⟨sameFrame_refl r, added_refl _ r⟩
    split_ifs at h
    all_goals first | exact hstep t h | exact hstop t h

theorem ScrollRegion_frame [NatCast F] [Add F] [Sub F] [Mul F] (K : Constants)
    (r t : Renderer F) (top bottom left right rows cols : Int)
    (h : ScrollRegion K r top bottom left right rows cols = .ok t) :
    r.sameFrame t ∧ r.added (fun c => c.kind = .draw) t := by
  unfold ScrollRegion at h
  split_ifs at h
  obtain ⟨r1, h1, h2⟩ := bind_eq_ok h
  obtain ⟨f1, a1⟩ := ScrollRegion_loop_frame K _ _ _ _ _ _ _ _ _ _ _ _ h1
  simp only at h2
  split_ifs at h2
  · obtain ⟨hs, ha, _⟩ := DrawGridLine_calls K _ t _ h2
    exact ⟨sameFrame_trans f1 (sameFrame_of_sameStore hs), added_trans a1 ha⟩
  · simp only [pure, Except.pure, Except.ok.injEq] at h2
    rw [← h2]
    exact ⟨f1, a1⟩

theorem ClearGrid_frame [NatCast F] [Add F] [Sub F] [Mul F] (K : Constants)
    (r t : Renderer F) (h : ClearGrid K r = .ok t) :
    r.sameFrame t ∧ r.added (fun c => c.kind = .draw) t := by
  unfold ClearGrid at h
  obtain ⟨chars, _, h1⟩ := bind_eq_ok h
  obtain ⟨props, _, h2⟩ := bind_eq_ok h1
  obtain ⟨attribs, _, h3⟩ := bind_eq_ok h2
  obtain ⟨color, _, e⟩ := DrawBackgroundRect_added K _ _ _ _ h3
  rw [e]
  constructor
  · unfold Renderer.sameFrame
    rfl
  · refine ⟨[_], rfl, ?_⟩
    intro c hc
    rw [List.mem_singleton.mp hc]
    rfl

theorem redrawCursorRow_frame [LinearOrderedField F] [FloorRing F] (K : Constants)
    (r t : Renderer F) (h : redrawCursorRow K r = .ok t) :
    r.sameStore t ∧ r.added (fun c => c.kind = .draw) t ∧
    ((r.cursor.row < r.grid_rows →
        drawsOf t.calls = drawsOf r.calls ++ [(((0 : Nat) : F), (r.cursor.row : F) * r.font_height)]) ∧
      (¬ r.cursor.row < r.grid_rows → t = r)) := by
  unfold redrawCursorRow at h
  split_ifs at h with hc
  · obtain ⟨hs, ha, hd, _⟩ := DrawGridLine_calls K _ t _ h
    exact ⟨hs, ha, fun _ => hd, fun hn => absurd hc hn⟩
  · simp only [pure, Except.pure, Except.ok.injEq] at h
    rw [← h]
    exact ⟨sameStore_refl r, added_refl _ r, fun hn => absurd hn hc, fun _ => rfl⟩

/-! ## Handlers that draw nothing -/

theorem UpdateDefaultColors_handled [NatCast F] [Add F] [Sub F] [Mul F] (r t : Renderer F)
    (default_colors : List DefaultColors) (h : UpdateDefaultColors r default_colors = .ok t) :
    r.handled t := by
  unfold UpdateDefaultColors at h
  refine foldlM_invariant _ (fun a b => a.handled b) handled_refl
    (fun a b c h1 h2 => handled_trans h1 h2) ?_ default_colors r t h
  intro b a b2 hb
  obtain ⟨hl, _, h2⟩ := bind_eq_ok hb
  simp only [pure, Except.pure, Except.ok.injEq] at h2
  rw [← h2]
  exact handled_of_eq rfl rfl rfl

theorem UpdateHighlightAttributes_handled [NatCast F] [Add F] [Sub F] [Mul F] (K : Constants)
    (r t : Renderer F) (highlight_attribs : List HighlightDefine)
    (h : UpdateHighlightAttributes K r highlight_attribs = .ok t) : r.handled t := by
  unfold UpdateHighlightAttributes at h
  refine foldlM_invariant _ (fun a b => a.handled b) handled_refl
    (fun a b c h1 h2 => handled_trans h1 h2) ?_ highlight_attribs r t h
  intro b a b2 hb
  unfold UpdateHighlightAttribute at hb
  split_ifs at hb
  obtain ⟨hl, _, h2⟩ := bind_eq_ok hb
  simp only [pure, Except.pure, Except.ok.injEq] at h2
  rw [← h2]
  exact handled_of_eq rfl rfl rfl

theorem UpdateCursorModeInfos_handled [LinearOrderedField F] [FloorRing F] (K : Constants)
    (r t : Renderer F) (mode_infos : List ModeInfoMap)
    (h : UpdateCursorModeInfos K r mode_infos = .ok t) : r.handled t := by
  unfold UpdateCursorModeInfos at h
  split_ifs at h
  obtain ⟨infos, _, h2⟩ := bind_eq_ok h
  simp only [pure, Except.pure, Except.ok.injEq] at h2
  rw [← h2]
  exact handled_of_eq rfl rfl rfl

theorem UpdateFontMetrics_calls [LinearOrderedField F] [FloorRing F] (K : Constants)
    (KF : FloatConstants F) (env : Env) (r : Renderer F) (font_size : FloatValue F)
    (font_string : List Nat) :
    (UpdateFontMetrics K KF env r font_size font_string).ui_busy = r.ui_busy ∧
    (UpdateFontMetrics K KF env r font_size font_string).draw_active = r.draw_active ∧
    (UpdateFontMetrics K KF env r font_size font_string).calls = r.calls := by
  unfold UpdateFontMetrics
  simp only
  split_ifs <;> exact ⟨rfl, rfl, rfl⟩

theorem RendererUpdateGuiFont_calls [LinearOrderedField F] [FloorRing F] (K : Constants)
    (KF : FloatConstants F) (env : Env) (r : Renderer F) (guifont : List Nat) (strlen : Nat) :
    (RendererUpdateGuiFont K KF env r guifont strlen).ui_busy = r.ui_busy ∧
    (RendererUpdateGuiFont K KF env r guifont strlen).draw_active = r.draw_active ∧
    (RendererUpdateGuiFont K KF env r guifont strlen).calls = r.calls := by
  unfold RendererUpdateGuiFont
  split_ifs
  · exact ⟨rfl, rfl, rfl⟩
  · cases strstr guifont (ascii ":h") with
    | none => exact ⟨rfl, rfl, rfl⟩
    | some n =>
      simp only [RendererUpdateFont]
      obtain ⟨h1, h2, h3⟩ := UpdateFontMetrics_calls K KF env
        (if r.res.dwrite_text_format ≠ .null then
          { r with res := { r.res with dwrite_text_format := r.res.dwrite_text_format.release } }
        else r)
        (if ((strlen : Int) - ((n : Int) + 2)) % 2 ^ 64 < 256 then
          atof ((guifont.drop (n + 2)).take (((strlen : Int) - ((n : Int) + 2)) % 2 ^ 64).toNat)
          else .finite KF.DEFAULT_FONT_SIZE) (guifont.take n)
      rw [h1, h2, h3]
      split_ifs <;> exact ⟨rfl, rfl, rfl⟩

theorem SetGuiOptions_handled [LinearOrderedField F] [FloorRing F] (K : Constants)
    (KF : FloatConstants F) (env : Env) (option_set : List OptionSet) :
    ∀ r : Renderer F, r.handled (SetGuiOptions K KF env r option_set) := by
  unfold SetGuiOptions
  induction option_set with
  | nil => intro r; exact handled_refl r
  | cons o rest ih =>
    intro r
    rw [List.foldl_cons]
    refine handled_trans ?_ (ih _)
    split_ifs
    · obtain ⟨h1, h2, h3⟩ := RendererUpdateGuiFont_calls K KF env r (o.value ++ o.after) o.value.length
      refine ⟨h1, h2, [.PostMessage], ?_, ?_⟩
      · simp [Renderer.emit, h3]
      · intro c hc
        rw [List.mem_singleton.mp hc]
        exact Or.inr rfl
    · exact handled_refl r

theorem UpdateImePos_handled [LinearOrderedField F] [FloorRing F] (env : Env)
    (r t : Renderer F) (h : UpdateImePos env r = .ok t) :
    t = { r with calls := t.calls } ∧ r.handled t := by
  unfold UpdateImePos at h
  obtain ⟨x, _, h1⟩ := bind_eq_ok h
  obtain ⟨y, _, h2⟩ := bind_eq_ok h1
  simp only at h2
  split_ifs at h2
  · obtain ⟨lf, _, h3⟩ := bind_eq_ok h2
    simp only [pure, Except.pure, Except.ok.injEq] at h3
    rw [← h3]
    refine ⟨rfl, rfl, rfl, [.ImmSetCompositionWindow x y, .ImmSetCompositionFontW lf r.font],
      by simp [Renderer.emit], ?_⟩
    intro c hc
    simp only [List.mem_cons, List.mem_singleton, List.mem_nil_iff, or_false] at hc
    rcases hc with rfl | rfl <;> exact Or.inr rfl
  · simp only [pure, Except.pure, Except.ok.injEq] at h2
    rw [← h2]
    refine ⟨rfl, rfl, rfl, [.ImmSetCompositionWindow x y], by simp [Renderer.emit], ?_⟩
    intro c hc
    rw [List.mem_singleton.mp hc]
    exact Or.inr rfl

/-! ## Flush -/

theorem DrawBorderRectangles_frame [LinearOrderedField F] [FloorRing F] (K : Constants)
    (r t : Renderer F) (h : DrawBorderRectangles K r = .ok t) :
    r.sameStore t ∧ r.added (fun c => c.kind = .draw) t ∧ drawsOf t.calls = drawsOf r.calls := by
  unfold DrawBorderRectangles at h
  obtain ⟨r1, h1, h2⟩ := bind_eq_ok h
  have step : ∀ (a b : Renderer F) (rect : D2D1_RECT_F F),
      (readAt a.hl_attribs 0 >>= fun attribs => DrawBackgroundRect K a rect attribs) = .ok b →
      a.sameStore b ∧ a.added (fun c => c.kind = .draw) b ∧ drawsOf b.calls = drawsOf a.calls := by
    intro a b rect hab
    obtain ⟨attribs, _, h3⟩ := bind_eq_ok hab
    obtain ⟨color, _, e⟩ := DrawBackgroundRect_added K _ _ _ _ h3
    rw [e]
    refine ⟨sameStore_emit (sameStore_refl a) _, added_emit (added_refl _ a) _ rfl, ?_⟩
    simp [Renderer.emit, drawsOf_append, drawsOf]
  have stay : ∀ (a b : Renderer F), (pure a : Except Fault (Renderer F)) = .ok b →
      a.sameStore b ∧ a.added (fun c => c.kind = .draw) b ∧ drawsOf b.calls = drawsOf a.calls := by
    intro a b hab
    simp only [pure, Except.pure, Except.ok.injEq] at hab
    rw [← hab]
    exact ⟨sameStore_refl a, added_refl _ a, rfl⟩
  have s1 : r.sameStore r1 ∧ r.added (fun c => c.kind = .draw) r1 ∧
      drawsOf r1.calls = drawsOf r.calls := by
    split_ifs at h1
    · exact step _ _ _ h1
    · exact stay _ _ h1
  have s2 : r1.sameStore t ∧ r1.added (fun c => c.kind = .draw) t ∧
      drawsOf t.calls = drawsOf r1.calls := by
    simp only at h2
    split_ifs at h2
    · exact step _ _ _ h2
    · exact stay _ _ h2
  exact ⟨sameStore_trans s1.1 s2.1, added_trans s1.2.1 s2.2.1, s2.2.2.trans s1.2.2⟩

theorem DrawCursor_frame [NatCast F] [Add F] [Sub F] [Mul F] (K : Constants)
    (r t : Renderer F) (h : DrawCursor K r = .ok t) :
    r.sameStore t ∧ r.added (fun c => c.kind = .draw) t ∧
    (r.cursor.mode_info = none → t = r) ∧
    (∀ mode, r.cursor.mode_info = some mode →
      ∃ rect color rest, t.calls = r.calls ++ .FillRectangle rect color :: rest) := by
  unfold DrawCursor at h
  cases hm : r.cursor.mode_info with
  | none =>
    rw [hm] at h
    simp only [pure, Except.pure, Except.ok.injEq] at h
    rw [← h]
    exact ⟨sameStore_refl r, added_refl _ r, fun _ => rfl, fun mode hmode => by cases hmode⟩
  | some mode =>
    rw [hm] at h
    simp only at h
    obtain ⟨props, _, h1⟩ := bind_eq_ok h
    obtain ⟨factor, _, h2⟩ := bind_eq_ok h1
    obtain ⟨info, _, h3⟩ := bind_eq_ok h2
    obtain ⟨attribs, _, h4⟩ := bind_eq_ok h3
    obtain ⟨rect, _, h5⟩ := bind_eq_ok h4
    obtain ⟨r1, h6, h7⟩ := bind_eq_ok h5
    obtain ⟨color, _, e⟩ := DrawBackgroundRect_added K _ _ _ _ h6
    have s1 : r.sameStore r1 := by rw [e]; exact sameStore_emit (sameStore_refl r) _
    have a1 : r.added (fun c => c.kind = .draw) r1 := by
      rw [e]; exact added_emit (added_refl _ r) _ rfl
    split_ifs at h7
    · obtain ⟨chars, _, h8⟩ := bind_eq_ok h7
      obtain ⟨s2, ⟨new, hnew, hk⟩, _, _⟩ := DrawHighlightedCharacter_added K _ _ _ _ _ _ _ h8
      refine ⟨sameStore_trans s1 s2, added_trans a1 ⟨new, hnew, hk⟩, fun hn => (by cases hn),
        fun _ _ => ⟨rect, color, new, ?_⟩⟩
      rw [hnew, e]
      simp [Renderer.emit]
    · simp only [pure, Except.pure, Except.ok.injEq] at h7
      rw [← h7]
      refine ⟨s1, a1, fun hn => (by cases hn), fun _ _ => ⟨rect, color, [], ?_⟩⟩
      rw [e]
      rfl

theorem HandleDeviceLost_calls (env : Env) (r : Renderer F) :
    (HandleDeviceLost env r).ui_busy = r.ui_busy ∧
    (HandleDeviceLost env r).draw_active = r.draw_active ∧
    (HandleDeviceLost env r).grid_rows = r.grid_rows ∧
    (HandleDeviceLost env r).grid_cols = r.grid_cols ∧
    (HandleDeviceLost env r).grid_chars = r.grid_chars ∧
    (HandleDeviceLost env r).grid_cell_properties = r.grid_cell_properties ∧
    (HandleDeviceLost env r).hl_attribs = r.hl_attribs ∧
    (HandleDeviceLost env r).cursor = r.cursor ∧
    (HandleDeviceLost env r).cursor_mode_infos = r.cursor_mode_infos ∧
    (HandleDeviceLost env r).calls =
      r.calls ++ [.OMSetRenderTargets, .SetTarget .null, .Flush] := by
  unfold HandleDeviceLost InitializeWindowDependentResources.create InitializeDWrite
    InitializeD3D InitializeD2D
  simp only [Renderer.emit]
  split_ifs <;> simp

/-- What `FinishDraw` does to the calls, the flags and the store. -/
theorem FinishDraw_calls (env : Env) (r : Renderer F) :
    (FinishDraw env r).ui_busy = r.ui_busy ∧
    (FinishDraw env r).draw_active = false ∧
    (FinishDraw env r).grid_rows = r.grid_rows ∧
    (FinishDraw env r).grid_cols = r.grid_cols ∧
    (FinishDraw env r).grid_chars = r.grid_chars ∧
    (FinishDraw env r).grid_cell_properties = r.grid_cell_properties ∧
    (FinishDraw env r).hl_attribs = r.hl_attribs ∧
    (FinishDraw env r).cursor = r.cursor ∧
    (FinishDraw env r).cursor_mode_infos = r.cursor_mode_infos ∧
    (FinishDraw env r).calls = r.calls ++ [.EndDraw, .Present, .CopyResource] ++
      (if env.present_device_removed then [.OMSetRenderTargets, .SetTarget .null, .Flush]
        else []) := by
  unfold FinishDraw CopyFrontToBack
  simp only
  split_ifs
  · obtain ⟨h1, h2, h3, h4, h5, h6, h7, h8, h9, h10⟩ := HandleDeviceLost_calls env
      ({ (r.emit .EndDraw).emit .Present with draw_active := false }.emit .CopyResource)
    rw [h1, h2, h3, h4, h5, h6, h7, h8, h9, h10]
    simp [Renderer.emit]
  · simp [Renderer.emit]

/-! ## One event -/

theorem UpdateGridSize_handled [NatCast F] [Add F] [Sub F] [Mul F] (r t : Renderer F)
    (cols rows : Nat) (h : UpdateGridSize r cols rows = .ok t) : r.handled t := by
  unfold UpdateGridSize at h
  split_ifs at h
  · cases h
    exact handled_of_eq rfl rfl rfl
  · cases h
    exact handled_refl r

/-- An event other than `busy_start`, `busy_stop` and `flush` leaves the busy flag and
the frame flag alone and adds only calls that draw or that go to the window. -/
theorem command_handled [LinearOrderedField F] [FloorRing F] (K : Constants)
    (KF : FloatConstants F) (env : Env) (r t : Renderer F) (cmd : RedrawCommand)
    (h : RendererRedraw.command K KF env r cmd = .ok t)
    (hstart : cmd.name ≠ "busy_start") (hstop : cmd.name ≠ "busy_stop")
    (hflush : cmd.name ≠ "flush") : r.handled t := by
  unfold RendererRedraw.command at h
  simp only [MPackMatchString_of_ne hstart, MPackMatchString_of_ne hstop,
    MPackMatchString_of_ne hflush] at h
  obtain ⟨r1, h1, h⟩ := bind_eq_ok h
  obtain ⟨r2, h2, h⟩ := bind_eq_ok h
  have s1 : r.handled r1 := by
    split_ifs at h1
    · split at h1
      · simp only [pure, Except.pure, Except.ok.injEq] at h1
        rw [← h1]
        exact SetGuiOptions_handled K KF env _ r
      · cases h1
    · simp only [pure, Except.pure, Except.ok.injEq] at h1
      rw [← h1]
      exact handled_refl r
  have s2 : r1.handled r2 := by
    split_ifs at h2
    · split at h2
      · exact UpdateGridSize_handled r1 r2 _ _ h2
      · cases h2
    · simp only [pure, Except.pure, Except.ok.injEq] at h2
      rw [← h2]
      exact handled_refl r1
  refine handled_trans (handled_trans s1 s2) ?_
  by_cases c1 : MPackMatchString cmd.name "grid_clear" = true
  · rw [if_pos c1] at h
    obtain ⟨a, b⟩ := ClearGrid_frame K _ _ h
    exact handled_of_sameFrame a b
  rw [if_neg c1] at h
  by_cases c2 : MPackMatchString cmd.name "default_colors_set" = true
  · rw [if_pos c2] at h
    split at h
    · exact UpdateDefaultColors_handled _ _ _ h
    · cases h
  rw [if_neg c2] at h
  by_cases c3 : MPackMatchString cmd.name "hl_attr_define" = true
  · rw [if_pos c3] at h
    split at h
    · exact UpdateHighlightAttributes_handled K _ _ _ h
    · cases h
  rw [if_neg c3] at h
  by_cases c4 : MPackMatchString cmd.name "grid_line" = true
  · rw [if_pos c4] at h
    split at h
    · obtain ⟨a, b⟩ := DrawGridLines_frame K _ _ _ h
      exact handled_of_sameFrame a b
    · cases h
  rw [if_neg c4] at h
  by_cases c5 : MPackMatchString cmd.name "grid_cursor_goto" = true
  · rw [if_pos c5] at h
    split at h
    · obtain ⟨r3, h3, h4⟩ := bind_eq_ok h
      obtain ⟨a, b, _⟩ := redrawCursorRow_frame K _ _ h3
      obtain ⟨_, c⟩ := UpdateImePos_handled env _ _ h4
      refine handled_trans (handled_of_sameStore a b) (handled_trans ?_ c)
      exact handled_of_eq rfl rfl rfl
    · cases h
  rw [if_neg c5] at h
  by_cases c6 : MPackMatchString cmd.name "mode_info_set" = true
  · rw [if_pos c6] at h
    split at h
    · exact UpdateCursorModeInfos_handled K _ _ _ h
    · cases h
  rw [if_neg c6] at h
  by_cases c7 : MPackMatchString cmd.name "mode_change" = true
  · rw [if_pos c7] at h
    split at h
    · obtain ⟨r3, h3, h4⟩ := bind_eq_ok h
      obtain ⟨a, b, _⟩ := redrawCursorRow_frame K _ _ h3
      simp only [pure, Except.pure, Except.ok.injEq] at h4
      rw [← h4]
      exact handled_trans (handled_of_sameStore a b) (handled_of_eq rfl rfl rfl)
    · cases h
  rw [if_neg c7] at h
  by_cases c8 : MPackMatchString cmd.name "set_title" = true
  · rw [if_pos c8] at h
    split at h
    · simp only [pure, Except.pure, Except.ok.injEq] at h
      rw [← h]
      refine ⟨rfl, rfl, [_], rfl, ?_⟩
      intro c hc
      rw [List.mem_singleton.mp hc]
      exact Or.inr rfl
    · cases h
  rw [if_neg c8] at h
  simp only [Bool.false_eq_true, if_false] at h
  by_cases c9 : MPackMatchString cmd.name "grid_scroll" = true
  · rw [if_pos c9] at h
    split at h
    · obtain ⟨a, b⟩ := ScrollRegion_frame K _ _ _ _ _ _ _ _ h
      exact handled_of_sameFrame a b
    · cases h
  rw [if_neg c9] at h
  simp only [pure, Except.pure, Except.ok.injEq] at h
  rw [← h]
  exact handled_refl r2

theorem command_busy_start [LinearOrderedField F] [FloorRing F] (K : Constants)
    (KF : FloatConstants F) (env : Env) (r : Renderer F) (cmd : RedrawCommand)
    (h : cmd.name = "busy_start") :
    RendererRedraw.command K KF env r cmd = redrawCursorRow K { r with ui_busy := true } := by
  unfold RendererRedraw.command
  simp [h, MPackMatchString]

theorem command_busy_stop [LinearOrderedField F] [FloorRing F] (K : Constants)
    (KF : FloatConstants F) (env : Env) (r : Renderer F) (cmd : RedrawCommand)
    (h : cmd.name = "busy_stop") :
    RendererRedraw.command K KF env r cmd = .ok { r with ui_busy := false } := by
  unfold RendererRedraw.command
  simp [h, MPackMatchString]
  rfl

/-- What one event other than `flush` does to the flags and the calls: the frame flag
stays, the busy flag is set by `busy_start`, cleared by `busy_stop` and left alone by
every other event, and the calls added draw or go to the window. -/
theorem command_quiet [LinearOrderedField F] [FloorRing F] (K : Constants)
    (KF : FloatConstants F) (env : Env) (r t : Renderer F) (cmd : RedrawCommand)
    (h : RendererRedraw.command K KF env r cmd = .ok t) (hflush : cmd.name ≠ "flush") :
    t.draw_active = r.draw_active ∧
    r.added (fun c => c.kind = .draw ∨ c.kind = .window) t ∧
    t.ui_busy = busyAfter r.ui_busy [cmd.name] := by
  by_cases hstart : cmd.name = "busy_start"
  · rw [command_busy_start K KF env r cmd hstart] at h
    obtain ⟨a, b, _⟩ := redrawCursorRow_frame K _ _ h
    obtain ⟨_, h2, h3⟩ := handled_of_sameStore a b
    refine ⟨h2, h3, ?_⟩
    have : t.ui_busy = true := by
      unfold Renderer.sameStore at a
      rw [a]
    simp [busyAfter, hstart, this]
  · by_cases hstop : cmd.name = "busy_stop"
    · rw [command_busy_stop K KF env r cmd hstop] at h
      cases h
      refine ⟨rfl, added_refl _ _, ?_⟩
      simp [busyAfter, hstop]
    · obtain ⟨h1, h2, h3⟩ := command_handled K KF env r t cmd h hstart hstop hflush
      refine ⟨h2, h3, ?_⟩
      simp [busyAfter, hstart, hstop, h1]

/-! ## The loop over the events of a message -/

theorem loop_append [LinearOrderedField F] [FloorRing F] (K : Constants)
    (KF : FloatConstants F) (env : Nat → Env) (xs ys : List RedrawCommand) :
    ∀ (i : Nat) (r : Renderer F),
      RendererRedraw.loop K KF env (xs ++ ys) i r =
        (RendererRedraw.loop K KF env xs i r >>= fun s =>
          RendererRedraw.loop K KF env ys (i + xs.length) s) := by
  induction xs with
  | nil =>
    intro i r
    rfl
  | cons x rest ih =>
    intro i r
    simp only [List.cons_append, RendererRedraw.loop, List.length_cons]
    cases RendererRedraw.command K KF (env i) r x with
    | error e => rfl
    | ok s =>
      have e : i + 1 + rest.length = i + (rest.length + 1) := by omega
      have := ih (i + 1) s
      rw [e] at this
      exact this

theorem loop_single [LinearOrderedField F] [FloorRing F] (K : Constants)
    (KF : FloatConstants F) (env : Nat → Env) (cmd : RedrawCommand) (i : Nat) (r : Renderer F) :
    RendererRedraw.loop K KF env [cmd] i r = RendererRedraw.command K KF (env i) r cmd := by
  simp only [RendererRedraw.loop]
  cases RendererRedraw.command K KF (env i) r cmd <;> rfl

theorem busyAfter_cons (busy : Bool) (name : String) (names : List String) :
    busyAfter busy (name :: names) = busyAfter (busyAfter busy [name]) names := by
  simp [busyAfter]

/-- Events other than `flush` leave the frame flag alone, add only calls that draw or go
to the window, and leave the busy flag as the last `busy_start` or `busy_stop` set it. -/
theorem loop_quiet [LinearOrderedField F] [FloorRing F] (K : Constants)
    (KF : FloatConstants F) (env : Nat → Env) (events : List RedrawCommand) :
    ∀ (i : Nat) (r t : Renderer F), (∀ e ∈ events, e.name ≠ "flush") →
      RendererRedraw.loop K KF env events i r = .ok t →
      t.draw_active = r.draw_active ∧
      r.added (fun c => c.kind = .draw ∨ c.kind = .window) t ∧
      t.ui_busy = busyAfter r.ui_busy (events.map (fun e => e.name)) := by
  induction events with
  | nil =>
    intro i r t _ h
    simp only [RendererRedraw.loop, pure, Except.pure, Except.ok.injEq] at h
    rw [← h]
    exact ⟨rfl, added_refl _ r, rfl⟩
  | cons x rest ih =>
    intro i r t hne h
    simp only [RendererRedraw.loop] at h
    obtain ⟨s, h1, h2⟩ := bind_eq_ok h
    obtain ⟨a1, a2, a3⟩ := command_quiet K KF (env i) r s x h1 (hne x (List.mem_cons_self _ _))
    obtain ⟨b1, b2, b3⟩ := ih (i + 1) s t (fun e he => hne e (List.mem_cons_of_mem _ he)) h2
    refine ⟨b1.trans a1, added_trans a2 b2, ?_⟩
    rw [List.map_cons, busyAfter_cons, ← a3]
    exact b3

/-! ## flush -/

/-- The three steps of a `flush` event. -/
theorem command_flush_steps [LinearOrderedField F] [FloorRing F] (K : Constants)
    (KF : FloatConstants F) (env : Env) (r t : Renderer F) (cmd : RedrawCommand)
    (hn : cmd.name = "flush") (h : RendererRedraw.command K KF env r cmd = .ok t) :
    ∃ r0 r1, (if r.ui_busy then r0 = r else DrawCursor K r = .ok r0) ∧
      DrawBorderRectangles K r0 = .ok r1 ∧ t = FinishDraw env r1 := by
  rw [command_flush K KF env r cmd hn] at h
  obtain ⟨r0, h0, h⟩ := bind_eq_ok h
  obtain ⟨r1, h1, h⟩ := bind_eq_ok h
  simp only [pure, Except.pure, Except.ok.injEq] at h
  refine ⟨r0, r1, ?_, h1, h.symm⟩
  cases hb : r.ui_busy with
  | false =>
    rw [hb] at h0
    simpa using h0
  | true =>
    rw [hb] at h0
    simp only [Bool.not_true, Bool.false_eq_true, if_false, pure, Except.pure,
      Except.ok.injEq] at h0
    simpa using h0.symm

theorem presentCount_FinishDraw (env : Env) (r : Renderer F) :
    presentCount (FinishDraw env r).calls = presentCount r.calls + 1 := by
  obtain ⟨_, _, _, _, _, _, _, _, _, h⟩ := FinishDraw_calls env r
  rw [h]
  unfold presentCount
  split_ifs <;> simp [List.countP_append, List.countP_cons, DrawCall.isPresent]

/-- A `flush` event presents once, closes the frame and leaves the busy flag and the
cursor alone. -/
theorem command_flush_calls [LinearOrderedField F] [FloorRing F] (K : Constants)
    (KF : FloatConstants F) (env : Env) (r t : Renderer F) (cmd : RedrawCommand)
    (hn : cmd.name = "flush") (h : RendererRedraw.command K KF env r cmd = .ok t) :
    t.draw_active = false ∧ t.ui_busy = r.ui_busy ∧
    presentCount t.calls = presentCount r.calls + 1 := by
  obtain ⟨r0, r1, h0, h1, h2⟩ := command_flush_steps K KF env r t cmd hn h
  have s0 : r.sameStore r0 ∧ r.added (fun c => c.kind = .draw) r0 := by
    cases hb : r.ui_busy with
    | false =>
      rw [hb] at h0
      simp only [Bool.false_eq_true, if_false] at h0
      obtain ⟨a, b, _⟩ := DrawCursor_frame K r r0 h0
      exact ⟨a, b⟩
    | true =>
      rw [hb] at h0
      simp only [if_true] at h0
      rw [h0]
      exact ⟨sameStore_refl r, added_refl _ r⟩
  obtain ⟨s1, a1, _⟩ := DrawBorderRectangles_frame K r0 r1 h1
  obtain ⟨f1, f2, _⟩ := FinishDraw_calls env r1
  have hs : r.sameStore r1 := sameStore_trans s0.1 s1
  have hb1 : r1.ui_busy = r.ui_busy := by
    unfold Renderer.sameStore at hs
    rw [hs]
  rw [h2]
  refine ⟨f2, f1.trans hb1, ?_⟩
  rw [presentCount_FinishDraw]
  have := presentCount_added (added_mono (added_trans s0.2 a1) kind_draw_not_present)
  omega

theorem StartDraw_calls (r : Renderer F) :
    (StartDraw r).draw_active = true ∧ (StartDraw r).ui_busy = r.ui_busy ∧
    (StartDraw r).grid_rows = r.grid_rows ∧ (StartDraw r).grid_cols = r.grid_cols ∧
    (StartDraw r).grid_chars = r.grid_chars ∧
    (StartDraw r).grid_cell_properties = r.grid_cell_properties ∧
    (StartDraw r).hl_attribs = r.hl_attribs ∧ (StartDraw r).cursor = r.cursor ∧
    (StartDraw r).cursor_mode_infos = r.cursor_mode_infos ∧
    presentCount (StartDraw r).calls = presentCount r.calls ∧
    drawsOf (StartDraw r).calls = drawsOf r.calls ∧
    (StartDraw r).calls.filter (fun c => c.kind = .draw) =
      r.calls.filter (fun c => c.kind = .draw) := by
  unfold StartDraw
  cases h : r.draw_active
  · simp [Renderer.emit, presentCount, drawsOf, List.countP_append, List.countP_cons,
      DrawCall.isPresent, List.filterMap_append, List.filter_append, DrawCall.kind]
  · simp [h]

/-- A message of events other than `flush` followed by one `flush`: the frame is
presented once and is closed afterwards. -/
theorem RendererRedraw_flush_last [LinearOrderedField F] [FloorRing F] (K : Constants)
    (KF : FloatConstants F) (env : Nat → Env) (r t : Renderer F)
    (events : List RedrawCommand) (flush : RedrawCommand)
    (hmut : ∀ e ∈ events, e.name ≠ "flush") (hflush : flush.name = "flush")
    (h : RendererRedraw K KF env r (events ++ [flush]) = .ok t) :
    presentCount t.calls = presentCount r.calls + 1 ∧ t.draw_active = false := by
  unfold RendererRedraw at h
  rw [loop_append] at h
  obtain ⟨s, h1, h2⟩ := bind_eq_ok h
  rw [loop_single] at h2
  obtain ⟨_, a2, _⟩ := loop_quiet K KF env events 0 (StartDraw r) s hmut h1
  obtain ⟨b1, _, b3⟩ := command_flush_calls K KF _ s t flush hflush h2
  obtain ⟨_, _, _, _, _, _, _, _, _, c, _⟩ := StartDraw_calls r
  have := presentCount_added (added_mono a2 (fun c hc => by
    rcases hc with hc | hc
    · exact kind_draw_not_present c hc
    · exact kind_window_not_present c hc))
  exact ⟨by omega, b1⟩

/-! ## The first frame -/

theorem DrawBorderRectangles_ok [LinearOrderedField F] [FloorRing F] (K : Constants)
    (r : Renderer F) (h : 0 < r.hl_attribs.length) :
    ∃ t, DrawBorderRectangles K r = .ok t ∧ r.sameStore t := by
  have hd : r.hl_attribs[0]? = some r.hl_attribs[0] := by simp [h]
  have step : ∀ (a : Renderer F) (rect : D2D1_RECT_F F), 0 < a.hl_attribs.length →
      ∃ b, (readAt a.hl_attribs 0 >>= fun attribs => DrawBackgroundRect K a rect attribs) =
        .ok b ∧ a.sameStore b := by
    intro a rect ha
    have hd : a.hl_attribs[0]? = some a.hl_attribs[0] := by simp [ha]
    obtain ⟨b, hb, hs⟩ := DrawBackgroundRect_ok K a rect a.hl_attribs[0] ha
    exact ⟨b, by rw [readAt_eq hd]; exact hb, hs⟩
  have first : ∃ r1, (if r.font_width * (r.grid_cols : F) ≠ (r.pixel_size.width : F) then
      (readAt r.hl_attribs 0 >>= fun attribs => DrawBackgroundRect K r
        { left := r.font_width * (r.grid_cols : F)
          top := ((0 : Nat) : F)
          right := (r.pixel_size.width : F)
          bottom := (r.pixel_size.height : F) } attribs)
      else pure r) = .ok r1 ∧ r.sameStore r1 := by
    split_ifs
    · exact step r _ h
    · exact ⟨r, rfl, sameStore_refl r⟩
  obtain ⟨r1, h1, s1⟩ := first
  have h1len : 0 < r1.hl_attribs.length := by
    rw [sameStore_hl s1]
    exact h
  have second : ∃ t, (if r.font_height * (r.grid_rows : F) ≠ (r1.pixel_size.height : F) then
      (readAt r1.hl_attribs 0 >>= fun attribs => DrawBackgroundRect K r1
        { left := ((0 : Nat) : F)
          top := r.font_height * (r.grid_rows : F)
          right := (r1.pixel_size.width : F)
          bottom := (r1.pixel_size.height : F) } attribs)
      else pure r1) = .ok t ∧ r1.sameStore t := by
    split_ifs
    · exact step r1 _ h1len
    · exact ⟨r1, rfl, sameStore_refl r1⟩
  obtain ⟨t, h2, s2⟩ := second
  refine ⟨t, ?_, sameStore_trans s1 s2⟩
  unfold DrawBorderRectangles
  simp only [bind, Except.bind] at h1 h2 ⊢
  rw [h1]
  exact h2

/-- The first message of a session, on a record that has no grid yet, a highlight table
and no cursor mode: the grid is allocated, entry 0 takes the default colours, the cell
is stored and its row drawn, and the frame is presented. -/
theorem first_frame [LinearOrderedField F] [FloorRing F] (K : Constants)
    (KF : FloatConstants F) (env : Nat → Env) (r : Renderer F)
    (hnull : r.grid_chars = none) (htab : 0 < r.hl_attribs.length)
    (hmode : r.cursor.mode_info = none) :
    ∃ t, RendererRedraw K KF env r
        [⟨"grid_resize", .grid_resize 80 24⟩,
          ⟨"default_colors_set", .default_colors_set [⟨0xffffff, 0x000000, 0x000000⟩]⟩,
          ⟨"grid_line", .grid_line [⟨0, 0, [⟨[65], [0, 1]⟩]⟩]⟩,
          ⟨"flush", .none⟩] = .ok t ∧
      t.grid_rows = 24 ∧ t.grid_cols = 80 ∧
      t.cell 0 0 = some ⟨65, 0, false⟩ ∧
      t.hl_attribs[0]? = some ⟨0xffffff, 0x000000, 0x000000, 0⟩ ∧
      CreateForegroundColor K t ⟨0xffffff, 0x000000, 0x000000, 0⟩ = .ok 0xffffff ∧
      CreateBackgroundColor K t ⟨0xffffff, 0x000000, 0x000000, 0⟩ = .ok 0x000000 := by
  obtain ⟨_, _, _, _, g5, _, g7, g8, _⟩ := StartDraw_calls r
  generalize hr0 : StartDraw r = r0 at g5 g7 g8
  rw [hnull] at g5
  rw [← g7] at htab
  rw [← g8] at hmode
  -- grid_resize
  obtain ⟨r1, hu1, w1, a1⟩ := UpdateGridSize_WF r0 80 24 g5 (by decide) (by decide) (by decide)
    (by decide) htab
  have e1 : RendererRedraw.command K KF (env 0) r0 ⟨"grid_resize", .grid_resize 80 24⟩ =
      .ok r1 := by
    unfold RendererRedraw.command
    simp [MPackMatchString, hu1]
  obtain ⟨a11, a12, a13, a14⟩ := a1
  rw [← a13] at htab
  rw [← a14] at hmode
  -- default_colors_set
  have hd : r1.hl_attribs[0]? = some r1.hl_attribs[0] := by simp [htab]
  have e2 : RendererRedraw.command K KF (env 1) r1
      ⟨"default_colors_set", .default_colors_set [⟨0xffffff, 0x000000, 0x000000⟩]⟩ =
      .ok { r1 with hl_attribs := r1.hl_attribs.set 0 ⟨0xffffff, 0x000000, 0x000000, 0⟩ } := by
    unfold RendererRedraw.command
    simp [MPackMatchString, UpdateDefaultColors, modifyAt_eq _ hd]
  have w2 : ({ r1 with hl_attribs := r1.hl_attribs.set 0 ⟨0xffffff, 0x000000, 0x000000, 0⟩ } :
      Renderer F).WF := by
    obtain ⟨c1, c2, c3, ⟨props, c4, c5, c6⟩⟩ := w1
    refine ⟨c1, c2, c3, ⟨props, c4, c5, ?_⟩⟩
    intro p hp
    simpa using c6 p hp
  have a2 : ({ r1 with hl_attribs := r1.hl_attribs.set 0 ⟨0xffffff, 0x000000, 0x000000, 0⟩ } :
      Renderer F).hl_attribs[0]? = some ⟨0xffffff, 0x000000, 0x000000, 0⟩ := by
    simp [htab]
  have b2 : ({ r1 with hl_attribs := r1.hl_attribs.set 0 ⟨0xffffff, 0x000000, 0x000000, 0⟩ } :
      Renderer F).grid_rows = 24 ∧
      ({ r1 with hl_attribs := r1.hl_attribs.set 0 ⟨0xffffff, 0x000000, 0x000000, 0⟩ } :
        Renderer F).grid_cols = 80 ∧
      ({ r1 with hl_attribs := r1.hl_attribs.set 0 ⟨0xffffff, 0x000000, 0x000000, 0⟩ } :
        Renderer F).cursor.mode_info = none := ⟨a11, a12, hmode⟩
  generalize ({ r1 with hl_attribs := r1.hl_attribs.set 0 ⟨0xffffff, 0x000000, 0x000000, 0⟩ } :
      Renderer F) = r2 at e2 w2 a2 b2
  obtain ⟨b21, b22, b23⟩ := b2
  have hlen2 : 0 < r2.hl_attribs.length := by
    rcases Nat.lt_or_ge 0 r2.hl_attribs.length with h | h
    · exact h
    · rw [List.getElem?_eq_none h] at a2; cases a2
  -- grid_line
  obtain ⟨r3, chars, props, chars3, props3, _, _, h3, s3, c3, p3, hget⟩ :=
    DrawGridLines_line_runs K r2 0 0 [⟨[65], [0, 1]⟩] w2 (by omega)
      (by intro c hc; rw [List.mem_singleton.mp hc]; simp)
      (by rw [b22]; decide)
      (by
        intro c hc id hid
        rw [List.mem_singleton.mp hc] at hid
        simp only [List.head?_cons, Option.mem_def, Option.some.injEq] at hid
        rw [← hid]
        exact ⟨by decide, hlen2⟩)
  have e3 : RendererRedraw.command K KF (env 2) r2
      ⟨"grid_line", .grid_line [⟨0, 0, [⟨[65], [0, 1]⟩]⟩]⟩ = .ok r3 := by
    unfold RendererRedraw.command
    simp [MPackMatchString]
    exact h3
  have hcell3 : r3.cell 0 0 = some ⟨65, 0, false⟩ := by
    obtain ⟨g1, g2⟩ := hget 0
    refine cell_eq c3 p3 0 0 65 ⟨0, false⟩ ?_ ?_
    · simpa [writtenAt, GridLineCell.repeatCount] using g1
    · simpa [writtenAt, GridLineCell.repeatCount] using g2
  have hhl3 : r3.hl_attribs = r2.hl_attribs := sameFrame_hl s3
  have hmode3 : r3.cursor.mode_info = none := by rw [sameFrame_cursor s3]; exact b23
  -- flush
  obtain ⟨r4, h4, s4⟩ := DrawBorderRectangles_ok K r3 (by rw [hhl3]; exact hlen2)
  have e4 : RendererRedraw.command K KF (env 3) r3 ⟨"flush", .none⟩ =
      .ok (FinishDraw (env 3) r4) := by
    rw [command_flush K KF (env 3) r3 _ rfl]
    have hcur : (if (!r3.ui_busy) = true then DrawCursor K r3 else pure r3) = .ok r3 := by
      split_ifs
      · unfold DrawCursor
        rw [hmode3]
        rfl
      · rfl
    simp only [bind, Except.bind, pure, Except.pure] at hcur ⊢
    rw [hcur]
    simp only [h4]
  obtain ⟨_, _, f3, f4, f5, f6, f7, _⟩ := FinishDraw_calls (env 3) r4
  have hentry : (FinishDraw (env 3) r4).hl_attribs[0]? =
      some ⟨0xffffff, 0x000000, 0x000000, 0⟩ := by
    rw [f7, sameStore_hl s4, hhl3]
    exact a2
  refine ⟨FinishDraw (env 3) r4, ?_, ?_, ?_, ?_, hentry, ?_, ?_⟩
  · simp only [RendererRedraw, RendererRedraw.loop, hr0, e1, e2, e3, e4, bind, Except.bind,
      pure, Except.pure]
  · rw [f3, ← b21, ← sameFrame_rows s3]
    unfold Renderer.sameStore at s4
    rw [s4]
  · rw [f4, ← b22, ← sameFrame_cols s3]
    unfold Renderer.sameStore at s4
    rw [s4]
  · rw [← hcell3, ← cell_sameStore s4 0 0]
    simp only [Renderer.cell, f4, f5, f6]
  · unfold CreateForegroundColor
    simp only [readAt_eq hentry, bind, Except.bind, pure, Except.pure]
    have : hasFlag 0 HL_ATTRIB_REVERSE = false := by decide
    simp [this]
  · unfold CreateBackgroundColor
    simp only [readAt_eq hentry, bind, Except.bind, pure, Except.pure]
    have : hasFlag 0 HL_ATTRIB_REVERSE = false := by decide
    simp [this]

/-! ## Messages: claims C18, C19, C20 -/

/-- Every event leaves the busy flag as `busyAfter` says: set by `busy_start`, cleared
by `busy_stop`, kept by every other event, `flush` included. -/
theorem command_busy [LinearOrderedField F] [FloorRing F] (K : Constants)
    (KF : FloatConstants F) (env : Env) (r t : Renderer F) (cmd : RedrawCommand)
    (h : RendererRedraw.command K KF env r cmd = .ok t) :
    t.ui_busy = busyAfter r.ui_busy [cmd.name] := by
  by_cases hf : cmd.name = "flush"
  · obtain ⟨_, h2, _⟩ := command_flush_calls K KF env r t cmd hf h
    rw [h2]
    simp [busyAfter, hf]
  · exact (command_quiet K KF env r t cmd h hf).2.2

theorem loop_busy [LinearOrderedField F] [FloorRing F] (K : Constants)
    (KF : FloatConstants F) (env : Nat → Env) (events : List RedrawCommand) :
    ∀ (i : Nat) (r t : Renderer F), RendererRedraw.loop K KF env events i r = .ok t →
      t.ui_busy = busyAfter r.ui_busy (events.map (fun e => e.name)) := by
  induction events with
  | nil =>
    intro i r t h
    simp only [RendererRedraw.loop, pure, Except.pure, Except.ok.injEq] at h
    rw [← h]
    rfl
  | cons x rest ih =>
    intro i r t h
    simp only [RendererRedraw.loop] at h
    obtain ⟨s, h1, h2⟩ := bind_eq_ok h
    rw [List.map_cons, busyAfter_cons, ← command_busy K KF (env i) r s x h1]
    exact ih (i + 1) s t h2

/-- C18: an event whose name is none of the names `RendererRedraw` tests for is passed
over.  The body of the loop returns the record as it is, so the grid, the highlight
table, the cursor, the table of cursor modes, the busy flag and the calls are all what
they were, and the loop goes on with the next event; a message of that event alone only
begins the frame: the store and the busy flag are left alone and no row is drawn, no
rectangle filled and nothing presented. -/
theorem RendererRedraw_unrecognized [LinearOrderedField F] [FloorRing F] (K : Constants)
    (KF : FloatConstants F) (env : Nat → Env) (r : Renderer F) (cmd : RedrawCommand)
    (rest : List RedrawCommand) (i : Nat) (h : cmd.name ∉ handledNames) :
    RendererRedraw.command K KF (env i) r cmd = .ok r ∧
    RendererRedraw.loop K KF env (cmd :: rest) i r = RendererRedraw.loop K KF env rest (i + 1) r ∧
    ∃ t, RendererRedraw K KF env r [cmd] = .ok t ∧
      t.grid_rows = r.grid_rows ∧ t.grid_cols = r.grid_cols ∧ t.grid_chars = r.grid_chars ∧
      t.grid_cell_properties = r.grid_cell_properties ∧ t.hl_attribs = r.hl_attribs ∧
      t.cursor = r.cursor ∧ t.cursor_mode_infos = r.cursor_mode_infos ∧
      t.ui_busy = r.ui_busy ∧
      drawsOf t.calls = drawsOf r.calls ∧
      t.calls.filter (fun c => c.kind = .draw) = r.calls.filter (fun c => c.kind = .draw) ∧
      presentCount t.calls = presentCount r.calls := by
  have e : ∀ (j : Nat) (s : Renderer F), RendererRedraw.command K KF (env j) s cmd = .ok s :=
    fun j s => command_other K KF (env j) s cmd h
  refine ⟨e i r, ?_, StartDraw r, ?_, ?_⟩
  · simp only [RendererRedraw.loop, e i r, bind, Except.bind]
  · simp only [RendererRedraw, RendererRedraw.loop, e 0 (StartDraw r), bind, Except.bind, pure,
      Except.pure]
  · obtain ⟨_, g2, g3, g4, g5, g6, g7, g8, g9, g10, g11, g12⟩ := StartDraw_calls r
    exact ⟨g3, g4, g5, g6, g7, g8, g9, g2, g11, g12, g10⟩

/-- C19: a message of events other than `flush` followed by one `flush` issues `Present`
exactly once and leaves `draw_active` false, whenever it is handled without a fault and
whether or not a frame was open before.  And on every record that has no grid yet, a
highlight table and no cursor mode, as after initialization, the message `grid_resize`
to 80 by 24, `default_colors_set(0xffffff, 0x000000, 0x000000)`, `grid_line` of row 0
from column 0 with the cell `["A", 0, 1]`, `flush` is handled without a fault: `Present`
is issued once, `draw_active` is false, cell (0, 0) holds `A` under highlight id 0, and
the colours resolved for entry 0 are 0xffffff for text and 0x000000 for the background. -/
theorem RendererRedraw_flush_presents [LinearOrderedField F] [FloorRing F] (K : Constants)
    (KF : FloatConstants F) (env : Nat → Env) :
    (∀ (r t : Renderer F) (events : List RedrawCommand) (flush : RedrawCommand),
      (∀ e ∈ events, e.name ≠ "flush") → flush.name = "flush" →
      RendererRedraw K KF env r (events ++ [flush]) = .ok t →
      presentCount t.calls = presentCount r.calls + 1 ∧ t.draw_active = false) ∧
    (∀ r : Renderer F, r.grid_chars = none → 0 < r.hl_attribs.length →
      r.cursor.mode_info = none →
      ∃ t a, RendererRedraw K KF env r
          [⟨"grid_resize", .grid_resize 80 24⟩,
            ⟨"default_colors_set", .default_colors_set [⟨0xffffff, 0x000000, 0x000000⟩]⟩,
            ⟨"grid_line", .grid_line [⟨0, 0, [⟨[65], [0, 1]⟩]⟩]⟩,
            ⟨"flush", .none⟩] = .ok t ∧
        presentCount t.calls = presentCount r.calls + 1 ∧ t.draw_active = false ∧
        t.grid_rows = 24 ∧ t.grid_cols = 80 ∧
        t.cell 0 0 = some ⟨65, 0, false⟩ ∧ t.hl_attribs[0]? = some a ∧
        CreateForegroundColor K t a = .ok 0xffffff ∧
        CreateBackgroundColor K t a = .ok 0x000000) := by
  constructor
  · intro r t events flush hmut hflush h
    exact RendererRedraw_flush_last K KF env r t events flush hmut hflush h
  · intro r hnull htab hmode
    obtain ⟨t, h, h1, h2, h3, h4, h5, h6⟩ := first_frame K KF env r hnull htab hmode
    obtain ⟨p1, p2⟩ := RendererRedraw_flush_last K KF env r t
      [⟨"grid_resize", .grid_resize 80 24⟩,
        ⟨"default_colors_set", .default_colors_set [⟨0xffffff, 0x000000, 0x000000⟩]⟩,
        ⟨"grid_line", .grid_line [⟨0, 0, [⟨[65], [0, 1]⟩]⟩]⟩] ⟨"flush", .none⟩
      (by
        intro e he
        simp only [List.mem_cons, List.mem_singleton, List.mem_nil_iff, or_false] at he
        rcases he with rfl | rfl | rfl <;> decide)
      rfl h
    exact ⟨t, _, h, p1, p2, h1, h2, h3, h4, h5, h6⟩

/-- C20: for a message whose events `before` are followed by the event `cmd`, handled
without a fault: when `cmd` is reached the busy flag is what `busyAfter` gives for the
names of `before`, that is, set from a `busy_start` until the next `busy_stop`.  If `cmd`
is `flush`: when the flag is clear and a cursor mode is active, `DrawCursor` runs and
adds the fill of the cursor before the border rectangles and the end of the frame; when
the flag is set or no mode is active, the border rectangles follow with no call in
between.  If `cmd` is `busy_start`: the flag is set, and when the row of the cursor is a
row of the grid the event is one `DrawGridLine` of that row, which adds exactly one
`Draw`, at the origin of the row; otherwise nothing else changes. -/
theorem RendererRedraw_busy [LinearOrderedField F] [FloorRing F] (K : Constants)
    (KF : FloatConstants F) (env : Nat → Env) (r t : Renderer F)
    (before : List RedrawCommand) (cmd : RedrawCommand)
    (h : RendererRedraw K KF env r (before ++ [cmd]) = .ok t) :
    ∃ s, RendererRedraw K KF env r before = .ok s ∧
      RendererRedraw.command K KF (env before.length) s cmd = .ok t ∧
      s.ui_busy = busyAfter r.ui_busy (before.map (fun e => e.name)) ∧
      (cmd.name = "flush" →
        (s.ui_busy = false → ∀ mode, s.cursor.mode_info = some mode →
          ∃ r0 r1 rect color rest, DrawCursor K s = .ok r0 ∧
            r0.calls = s.calls ++ .FillRectangle rect color :: rest ∧
            DrawBorderRectangles K r0 = .ok r1 ∧ t = FinishDraw (env before.length) r1) ∧
        (s.ui_busy = true ∨ s.cursor.mode_info = none →
          ∃ r1, DrawBorderRectangles K s = .ok r1 ∧ t = FinishDraw (env before.length) r1)) ∧
      (cmd.name = "busy_start" →
        t.ui_busy = true ∧
        (s.cursor.row < s.grid_rows →
          DrawGridLine K { s with ui_busy := true } s.cursor.row = .ok t ∧
          drawsOf t.calls =
            drawsOf s.calls ++ [(((0 : Nat) : F), (s.cursor.row : F) * s.font_height)]) ∧
        (¬ s.cursor.row < s.grid_rows → t = { s with ui_busy := true })) := by
  unfold RendererRedraw at h ⊢
  rw [loop_append] at h
  obtain ⟨s, h1, h2⟩ := bind_eq_ok h
  rw [loop_single, Nat.zero_add] at h2
  refine ⟨s, h1, h2, ?_, ?_, ?_⟩
  · rw [loop_busy K KF env before 0 (StartDraw r) s h1, (StartDraw_calls r).2.1]
  · intro hn
    obtain ⟨r0, r1, h0, h3, h4⟩ := command_flush_steps K KF _ s t cmd hn h2
    constructor
    · intro hb mode hmode
      rw [hb] at h0
      simp only [Bool.false_eq_true, if_false] at h0
      obtain ⟨_, _, _, hfill⟩ := DrawCursor_frame K s r0 h0
      obtain ⟨rect, color, rest, hcalls⟩ := hfill mode hmode
      exact ⟨r0, r1, rect, color, rest, h0, hcalls, h3, h4⟩
    · intro hor
      have : r0 = s := by
        cases hb : s.ui_busy with
        | true =>
          rw [hb] at h0
          simpa using h0
        | false =>
          rw [hb] at h0
          simp only [Bool.false_eq_true, if_false] at h0
          rcases hor with hor | hor
          · rw [hb] at hor; cases hor
          · exact (DrawCursor_frame K s r0 h0).2.2.1 hor
      rw [this] at h3
      exact ⟨r1, h3, h4⟩
  · intro hn
    rw [command_busy_start K KF _ s cmd hn] at h2
    obtain ⟨hs, _, hin, hout⟩ := redrawCursorRow_frame K _ t h2
    refine ⟨?_, ?_, ?_⟩
    · unfold Renderer.sameStore at hs
      rw [hs]
    · intro hrow
      refine ⟨?_, hin hrow⟩
      unfold redrawCursorRow at h2
      rw [if_pos hrow] at h2
      exact h2
    · intro hrow
      exact hout hrow

/-- Witness for C18: `win_viewport` is none of the names tested for; on the sample
renderer the event returns the record as it is and the loop goes on with the `flush`
that follows. -/
theorem RendererRedraw_unrecognized_witness :
    "win_viewport" ∉ handledNames ∧
    RendererRedraw.command sampleConstants sampleFloatConstants sampleEnv sampleRendererQ
      ⟨"win_viewport", .none⟩ = .ok sampleRendererQ ∧
    RendererRedraw.loop sampleConstants sampleFloatConstants (fun _ => sampleEnv)
      [⟨"win_viewport", .none⟩, ⟨"flush", .none⟩] 0 sampleRendererQ =
      RendererRedraw.loop sampleConstants sampleFloatConstants (fun _ => sampleEnv)
        [⟨"flush", .none⟩] 1 sampleRendererQ ∧
    RendererRedraw sampleConstants sampleFloatConstants (fun _ => sampleEnv) sampleRendererQ
      [⟨"win_viewport", .none⟩] =
      .ok { sampleRendererQ with draw_active := true, calls := sampleStartCalls } :=
  ⟨by decide,
    (RendererRedraw_unrecognized sampleConstants sampleFloatConstants (fun _ => sampleEnv)
      sampleRendererQ ⟨"win_viewport", .none⟩ [⟨"flush", .none⟩] 0 (by decide)).1,
    (RendererRedraw_unrecognized sampleConstants sampleFloatConstants (fun _ => sampleEnv)
      sampleRendererQ ⟨"win_viewport", .none⟩ [⟨"flush", .none⟩] 0 (by decide)).2.1,
    by decide!⟩

/-- Witness for C19: on `sampleFreshRenderer` the message `sampleFirstEvents`, `flush`
leads to `sampleFirstFrame`, whose calls hold one `Present` and whose `draw_active` is
false; and the message of the scenario is handled as stated. -/
theorem RendererRedraw_flush_presents_witness :
    ((∀ e ∈ sampleFirstEvents, e.name ≠ "flush") ∧
      RendererRedraw sampleConstants sampleFloatConstants (fun _ => sampleEnv)
        sampleFreshRenderer (sampleFirstEvents ++ [⟨"flush", .none⟩]) = .ok sampleFirstFrame ∧
      presentCount sampleFirstFrame.calls = presentCount sampleFreshRenderer.calls + 1 ∧
      sampleFirstFrame.draw_active = false) ∧
    (sampleFreshRenderer.grid_chars = none ∧ 0 < sampleFreshRenderer.hl_attribs.length ∧
      sampleFreshRenderer.cursor.mode_info = none ∧
      ∃ t a, RendererRedraw sampleConstants sampleFloatConstants (fun _ => sampleEnv)
          sampleFreshRenderer
          [⟨"grid_resize", .grid_resize 80 24⟩,
            ⟨"default_colors_set", .default_colors_set [⟨0xffffff, 0x000000, 0x000000⟩]⟩,
            ⟨"grid_line", .grid_line [⟨0, 0, [⟨[65], [0, 1]⟩]⟩]⟩,
            ⟨"flush", .none⟩] = .ok t ∧
        presentCount t.calls = presentCount sampleFreshRenderer.calls + 1 ∧
        t.draw_active = false ∧ t.grid_rows = 24 ∧ t.grid_cols = 80 ∧
        t.cell 0 0 = some ⟨65, 0, false⟩ ∧ t.hl_attribs[0]? = some a ∧
        CreateForegroundColor sampleConstants t a = .ok 0xffffff ∧
        CreateBackgroundColor sampleConstants t a = .ok 0x000000) :=
  ⟨⟨by decide, by decide!,
      (RendererRedraw_flush_presents sampleConstants sampleFloatConstants
        (fun _ => sampleEnv)).1 sampleFreshRenderer sampleFirstFrame sampleFirstEvents
        ⟨"flush", .none⟩ (by decide) rfl (by decide!)⟩,
    ⟨rfl, by decide, rfl,
      (RendererRedraw_flush_presents sampleConstants sampleFloatConstants
        (fun _ => sampleEnv)).2 sampleFreshRenderer rfl (by decide) rfl⟩⟩

/-- Witness for C20, on `sampleCursorRendererQ`, whose cursor is on row 1 of 3 and has an
active mode.  A message of one `busy_start` sets the flag and draws row 1 once.  In the
message `busy_start`, `flush` the flag is set at the `flush`, and the border rectangles
follow directly.  In the message `busy_start`, `busy_stop`, `flush` the flag is clear at
the `flush`, and `DrawCursor` adds the fill of the cursor first. -/
theorem RendererRedraw_busy_witness :
    (RendererRedraw sampleConstants sampleFloatConstants (fun _ => sampleEnv)
        sampleCursorRendererQ ([] ++ [⟨"busy_start", .none⟩]) = .ok sampleBusyStart ∧
      sampleBusyStart.ui_busy = true ∧
      drawsOf sampleBusyStart.calls = drawsOf (StartDraw sampleCursorRendererQ).calls ++
        [(((0 : Nat) : ℚ), ((1 : Nat) : ℚ) * 16)]) ∧
    (RendererRedraw sampleConstants sampleFloatConstants (fun _ => sampleEnv)
        sampleCursorRendererQ ([⟨"busy_start", .none⟩] ++ [⟨"flush", .none⟩]) =
        .ok sampleBusyFrame ∧
      sampleBusyStart.ui_busy = busyAfter sampleCursorRendererQ.ui_busy ["busy_start"] ∧
      ∃ r1, DrawBorderRectangles sampleConstants sampleBusyStart = .ok r1 ∧
        sampleBusyFrame = FinishDraw sampleEnv r1) ∧
    (RendererRedraw sampleConstants sampleFloatConstants (fun _ => sampleEnv)
        sampleCursorRendererQ
        ([⟨"busy_start", .none⟩, ⟨"busy_stop", .none⟩] ++ [⟨"flush", .none⟩]) =
        .ok sampleCursorFrame ∧
      sampleBusyStop.ui_busy =
        busyAfter sampleCursorRendererQ.ui_busy ["busy_start", "busy_stop"] ∧
      ∃ r0 r1 rect color rest, DrawCursor sampleConstants sampleBusyStop = .ok r0 ∧
        r0.calls = sampleBusyStop.calls ++ .FillRectangle rect color :: rest ∧
        DrawBorderRectangles sampleConstants r0 = .ok r1 ∧
        sampleCursorFrame = FinishDraw sampleEnv r1) := by
  have h1 : RendererRedraw sampleConstants sampleFloatConstants (fun _ => sampleEnv)
      sampleCursorRendererQ ([] ++ [⟨"busy_start", .none⟩]) = .ok sampleBusyStart := by decide!
  have h2 : RendererRedraw sampleConstants sampleFloatConstants (fun _ => sampleEnv)
      sampleCursorRendererQ ([⟨"busy_start", .none⟩] ++ [⟨"flush", .none⟩]) =
      .ok sampleBusyFrame := by decide!
  have h3 : RendererRedraw sampleConstants sampleFloatConstants (fun _ => sampleEnv)
      sampleCursorRendererQ
      ([⟨"busy_start", .none⟩, ⟨"busy_stop", .none⟩] ++ [⟨"flush", .none⟩]) =
      .ok sampleCursorFrame := by decide!
  have e2 : RendererRedraw sampleConstants sampleFloatConstants (fun _ => sampleEnv)
      sampleCursorRendererQ [⟨"busy_start", .none⟩] = .ok sampleBusyStart := h1
  have e3 : RendererRedraw sampleConstants sampleFloatConstants (fun _ => sampleEnv)
      sampleCursorRendererQ [⟨"busy_start", .none⟩, ⟨"busy_stop", .none⟩] =
      .ok sampleBusyStop := by decide!
  refine ⟨⟨h1, ?_⟩, ⟨h2, ?_⟩, ⟨h3, ?_⟩⟩
  · obtain ⟨s, a1, _, _, _, a5⟩ := RendererRedraw_busy sampleConstants sampleFloatConstants
      (fun _ => sampleEnv) sampleCursorRendererQ sampleBusyStart [] ⟨"busy_start", .none⟩ h1
    have hs : s = StartDraw sampleCursorRendererQ := by
      have : (Except.ok (StartDraw sampleCursorRendererQ) : Except Fault (Renderer ℚ)) =
          .ok s := a1
      cases this
      rfl
    rw [hs] at a5
    obtain ⟨b1, b2, _⟩ := a5 rfl
    exact ⟨b1, (b2 (by decide)).2⟩
  · obtain ⟨s, a1, _, a3, a4, _⟩ := RendererRedraw_busy sampleConstants sampleFloatConstants
      (fun _ => sampleEnv) sampleCursorRendererQ sampleBusyFrame [⟨"busy_start", .none⟩]
      ⟨"flush", .none⟩ h2
    have hs : s = sampleBusyStart := by
      rw [e2] at a1
      cases a1
      rfl
    rw [hs] at a3 a4
    exact ⟨a3, (a4 rfl).2 (Or.inl rfl)⟩
  · obtain ⟨s, a1, _, a3, a4, _⟩ := RendererRedraw_busy sampleConstants sampleFloatConstants
      (fun _ => sampleEnv) sampleCursorRendererQ sampleCursorFrame
      [⟨"busy_start", .none⟩, ⟨"busy_stop", .none⟩] ⟨"flush", .none⟩ h3
    have hs : s = sampleBusyStop := by
      rw [e3] at a1
      cases a1
      rfl
    rw [hs] at a3 a4
    exact ⟨a3, (a4 rfl).1 rfl 0 rfl⟩

/-! ## Initialization and the capacity of the highlight table: claim C22 -/

theorem resize_length {α : Type} (xs : List α) (n : Nat) (v : α) :
    (resize xs n v).length = n := by
  unfold resize
  rw [List.length_append, List.length_take, List.length_replicate]
  omega

theorem UpdateFontMetrics_hl [LinearOrderedField F] [FloorRing F] (K : Constants)
    (KF : FloatConstants F) (env : Env) (r : Renderer F) (font_size : FloatValue F)
    (font_string : List Nat) :
    (UpdateFontMetrics K KF env r font_size font_string).hl_attribs = r.hl_attribs := by
  unfold UpdateFontMetrics
  simp only
  split_ifs <;> rfl

theorem RendererInitialize_table [LinearOrderedField F] [FloorRing F] (K : Constants)
    (KF : FloatConstants F) (env : Env) (r : Renderer F) (DEFAULT_FONT : List Nat)
    (disable_ligatures : Bool) (linespace_factor monitor_dpi : F) :
    (RendererInitialize K KF env r DEFAULT_FONT disable_ligatures linespace_factor
      monitor_dpi).hl_attribs = resize r.hl_attribs K.MAX_HIGHLIGHT_ATTRIBS ⟨0, 0, 0, 0⟩ := by
  unfold RendererInitialize RendererUpdateFont
  simp only [UpdateFontMetrics_hl]
  unfold InitializeDWrite InitializeD3D InitializeD2D
  simp only
  split_ifs <;> rfl

/-- C22: what the capacity assertion of `UpdateHighlightAttributes` admits.  After
`RendererInitialize` the table has `MAX_HIGHLIGHT_ATTRIBS` entries, so its indices are
the ids below that number.  The assertion `attrib_index <= MAX_HIGHLIGHT_ATTRIBS` rejects
exactly the ids above that number: every id below it passes and is stored in the table,
and the id `MAX_HIGHLIGHT_ATTRIBS` itself, which is not an index of the table, passes as
well and is stored one entry past the end of the table. -/
theorem UpdateHighlightAttributes_capacity [LinearOrderedField F] [FloorRing F]
    (K : Constants) (KF : FloatConstants F) (env : Env) (r : Renderer F)
    (DEFAULT_FONT : List Nat) (disable_ligatures : Bool) (linespace_factor monitor_dpi : F)
    (attrib_index : Nat) (attrib_map : AttribMap) :
    (RendererInitialize K KF env r DEFAULT_FONT disable_ligatures linespace_factor
      monitor_dpi).hl_attribs.length = K.MAX_HIGHLIGHT_ATTRIBS ∧
    (UpdateHighlightAttributes K
        (RendererInitialize K KF env r DEFAULT_FONT disable_ligatures linespace_factor
          monitor_dpi) [⟨attrib_index, attrib_map⟩] = .error .assertion ↔
      K.MAX_HIGHLIGHT_ATTRIBS < attrib_index) ∧
    (attrib_index < K.MAX_HIGHLIGHT_ATTRIBS →
      ∃ t, UpdateHighlightAttributes K
        (RendererInitialize K KF env r DEFAULT_FONT disable_ligatures linespace_factor
          monitor_dpi) [⟨attrib_index, attrib_map⟩] = .ok t ∧
        t.hl_attribs.length = K.MAX_HIGHLIGHT_ATTRIBS) ∧
    UpdateHighlightAttributes K
      (RendererInitialize K KF env r DEFAULT_FONT disable_ligatures linespace_factor
        monitor_dpi) [⟨K.MAX_HIGHLIGHT_ATTRIBS, attrib_map⟩] = .error .invalidAccess := by
  have hlen : (RendererInitialize K KF env r DEFAULT_FONT disable_ligatures linespace_factor
      monitor_dpi).hl_attribs.length = K.MAX_HIGHLIGHT_ATTRIBS := by
    rw [RendererInitialize_table, resize_length]
  generalize RendererInitialize K KF env r DEFAULT_FONT disable_ligatures linespace_factor
    monitor_dpi = s at hlen
  have hstep : ∀ d : HighlightDefine, UpdateHighlightAttributes K s [d] =
      UpdateHighlightAttribute K s d := by
    intro d
    unfold UpdateHighlightAttributes
    simp only [List.foldlM_cons, List.foldlM_nil]
    cases UpdateHighlightAttribute K s d <;> rfl
  refine ⟨hlen, ?_, ?_, ?_⟩
  · rw [hstep]
    unfold UpdateHighlightAttribute
    simp only
    constructor
    · intro h
      by_cases hle : attrib_index ≤ K.MAX_HIGHLIGHT_ATTRIBS
      · rw [if_pos hle] at h
        unfold modifyAt at h
        cases hx : s.hl_attribs[attrib_index]? with
        | none => rw [hx] at h; cases h
        | some x => rw [hx] at h; cases h
      · omega
    · intro h
      rw [if_neg (by omega)]
  · intro hlt
    have hx : s.hl_attribs[attrib_index]? = some s.hl_attribs[attrib_index] := by
      simp [hlen, hlt]
    rw [hstep]
    unfold UpdateHighlightAttribute
    simp only
    rw [if_pos (by omega), modifyAt_eq _ hx]
    exact ⟨_, rfl, by simp [hlen]⟩
  · rw [hstep]
    unfold UpdateHighlightAttribute
    simp only
    rw [if_pos (Nat.le_refl _)]
    have hx : s.hl_attribs[K.MAX_HIGHLIGHT_ATTRIBS]? = none := by
      rw [List.getElem?_eq_none]
      omega
    unfold modifyAt
    rw [hx]
    rfl

/-- Witness for C22: with a table of 8 entries, `hl_attr_define` of id 8 passes the
assertion and is stored outside the table; id 9 fails the assertion; id 7 is stored. -/
theorem UpdateHighlightAttributes_capacity_witness :
    (RendererInitialize sampleConstants sampleFloatConstants sampleEnv sampleFreshRenderer
      (ascii "Consolas") false 1 96).hl_attribs.length = 8 ∧
    UpdateHighlightAttributes sampleConstants
      (RendererInitialize sampleConstants sampleFloatConstants sampleEnv sampleFreshRenderer
        (ascii "Consolas") false 1 96) [⟨8, AttribMap.empty⟩] = .error .invalidAccess ∧
    UpdateHighlightAttributes sampleConstants
      (RendererInitialize sampleConstants sampleFloatConstants sampleEnv sampleFreshRenderer
        (ascii "Consolas") false 1 96) [⟨9, AttribMap.empty⟩] = .error .assertion ∧
    ∃ t, UpdateHighlightAttributes sampleConstants
      (RendererInitialize sampleConstants sampleFloatConstants sampleEnv sampleFreshRenderer
        (ascii "Consolas") false 1 96) [⟨7, AttribMap.empty⟩] = .ok t ∧
      t.hl_attribs.length = 8 :=
  ⟨(UpdateHighlightAttributes_capacity sampleConstants sampleFloatConstants sampleEnv
      sampleFreshRenderer (ascii "Consolas") false 1 96 8 AttribMap.empty).1,
    (UpdateHighlightAttributes_capacity sampleConstants sampleFloatConstants sampleEnv
      sampleFreshRenderer (ascii "Consolas") false 1 96 8 AttribMap.empty).2.2.2,
    (UpdateHighlightAttributes_capacity sampleConstants sampleFloatConstants sampleEnv
      sampleFreshRenderer (ascii "Consolas") false 1 96 9 AttribMap.empty).2.1.mpr (by decide),
    (UpdateHighlightAttributes_capacity sampleConstants sampleFloatConstants sampleEnv
      sampleFreshRenderer (ascii "Consolas") false 1 96 7 AttribMap.empty).2.2.1 (by decide)⟩

/-! ## The window title: claim C25 -/

/-- C25: `UpdateWindowTitle` passes to `SetWindowText` the title followed by ` - Nvy`
when the title is not empty and `Nvy` alone when it is; that one call is all the handler
does, and a `set_title` event is that handler. -/
theorem UpdateWindowTitle_text [LinearOrderedField F] [FloorRing F] (K : Constants)
    (KF : FloatConstants F) (env : Env) (r : Renderer F) (t : List Nat) :
    (t ≠ [] → UpdateWindowTitle r t = r.emit (.SetWindowText (t ++ ascii " - Nvy"))) ∧
    UpdateWindowTitle r [] = r.emit (.SetWindowText (ascii "Nvy")) ∧
    ascii " - Nvy" = [32, 45, 32, 78, 118, 121] ∧ ascii "Nvy" = [78, 118, 121] ∧
    RendererRedraw.command K KF env r ⟨"set_title", .set_title t⟩ =
      .ok (UpdateWindowTitle r t) := by
  refine ⟨?_, ?_, by decide, by decide, ?_⟩
  · intro h
    unfold UpdateWindowTitle
    have : t.length ≠ 0 := by
      intro h0
      exact h (List.length_eq_zero.mp h0)
    simp only [if_neg this]
  · rfl
  · unfold RendererRedraw.command
    simp [MPackMatchString]
    rfl

/-- Witness for C25: the title `a.txt` becomes `a.txt - Nvy`. -/
theorem UpdateWindowTitle_text_witness :
    ascii "a.txt" ≠ [] ∧
    UpdateWindowTitle sampleRendererQ (ascii "a.txt") =
      sampleRendererQ.emit (.SetWindowText (ascii "a.txt - Nvy")) :=
  ⟨by decide,
    (UpdateWindowTitle_text sampleConstants sampleFloatConstants sampleEnv sampleRendererQ
      (ascii "a.txt")).1 (by decide)⟩

/-! ## Beginning a frame: claim C27 -/

/-- C27: while a frame is open `StartDraw` returns the record as it is, so no call is
issued; and on every record a second `StartDraw` changes nothing after the first, which
leaves `draw_active` true.  When no frame is open the first call waits for the swap
chain, sets the target and begins the frame. -/
theorem StartDraw_idempotent (r : Renderer F) :
    (r.draw_active = true → StartDraw r = r) ∧
    StartDraw (StartDraw r) = StartDraw r ∧
    (StartDraw r).draw_active = true ∧
    (r.draw_active = false →
      (StartDraw r).calls = r.calls ++ [.WaitForSingleObjectEx,
        .SetTarget r.res.d2d_target_bitmap, .BeginDraw, .SetTransform]) := by
  have h1 : r.draw_active = true → StartDraw r = r := by
    intro h
    unfold StartDraw
    simp [h]
  have h3 : (StartDraw r).draw_active = true := by
    unfold StartDraw
    cases h : r.draw_active <;> simp [h]
  refine ⟨h1, ?_, h3, ?_⟩
  · generalize StartDraw r = s at h3
    unfold StartDraw
    simp [h3]
  · intro h
    unfold StartDraw
    simp [h, Renderer.emit]

/-- Witness for C27: the sample renderer has a frame open, and `StartDraw` leaves it as
it is. -/
theorem StartDraw_idempotent_witness :
    sampleRenderer.draw_active = true ∧ StartDraw sampleRenderer = sampleRenderer ∧
    sampleRendererQ.draw_active = false ∧
    (StartDraw sampleRendererQ).calls = sampleStartCalls :=
  ⟨rfl, (StartDraw_idempotent sampleRenderer).1 rfl, rfl,
    (StartDraw_idempotent sampleRendererQ).2.2.2 rfl⟩

/-! ## Handlers without an assertion -/

theorem bind_ne_assertion {α β : Type} {x : Except Fault α} {f : α → Except Fault β}
    (hx : x ≠ .error .assertion) (hf : ∀ a, f a ≠ .error .assertion) :
    (x >>= f) ≠ .error .assertion := by
  cases x with
  | error e =>
    intro h
    change Except.error e = Except.error Fault.assertion at h
    cases h
    exact hx rfl
  | ok a => exact hf a

theorem pure_ne_assertion {α : Type} (a : α) :
    (pure a : Except Fault α) ≠ .error .assertion := by
  intro h
  cases h

theorem deref_ne_assertion {α : Type} (buf : Option (List α)) :
    deref buf ≠ .error .assertion := by
  cases buf <;> (intro h; cases h)

theorem readAt_ne_assertion {α : Type} (xs : List α) (i : Nat) :
    readAt xs i ≠ .error .assertion := by
  unfold readAt
  cases xs[i]? <;> (intro h; cases h)

theorem readSlice_ne_assertion {α : Type} (xs : List α) (i n : Nat) :
    readSlice xs i n ≠ .error .assertion := by
  unfold readSlice
  split_ifs <;> (intro h; cases h)

theorem writeSlice_ne_assertion {α : Type} (xs : List α) (i : Nat) (vs : List α) :
    writeSlice xs i vs ≠ .error .assertion := by
  unfold writeSlice
  split_ifs <;> (intro h; cases h)

theorem memcpy_ne_assertion {α : Type} (xs : List α) (dst src n : Int) :
    memcpy xs dst src n ≠ .error .assertion := by
  unfold memcpy
  split_ifs
  · intro h; cases h
  · exact bind_ne_assertion (readSlice_ne_assertion _ _ _) (fun _ => writeSlice_ne_assertion _ _ _)

theorem CreateForegroundColor_ne_assertion (K : Constants) (r : Renderer F)
    (a : HighlightAttributes) : CreateForegroundColor K r a ≠ .error .assertion := by
  unfold CreateForegroundColor
  split_ifs
  all_goals first
    | exact pure_ne_assertion _
    | exact bind_ne_assertion (readAt_ne_assertion _ _) (fun _ => pure_ne_assertion _)

theorem CreateBackgroundColor_ne_assertion (K : Constants) (r : Renderer F)
    (a : HighlightAttributes) : CreateBackgroundColor K r a ≠ .error .assertion := by
  unfold CreateBackgroundColor
  split_ifs
  all_goals first
    | exact pure_ne_assertion _
    | exact bind_ne_assertion (readAt_ne_assertion _ _) (fun _ => pure_ne_assertion _)

theorem CreateSpecialColor_ne_assertion (K : Constants) (r : Renderer F)
    (a : HighlightAttributes) : CreateSpecialColor K r a ≠ .error .assertion := by
  unfold CreateSpecialColor
  split_ifs
  all_goals first
    | exact pure_ne_assertion _
    | exact bind_ne_assertion (readAt_ne_assertion _ _) (fun _ => pure_ne_assertion _)

theorem DrawBackgroundRect_ne_assertion (K : Constants) (r : Renderer F)
    (rect : D2D1_RECT_F F) (a : HighlightAttributes) :
    DrawBackgroundRect K r rect a ≠ .error .assertion := by
  unfold DrawBackgroundRect
  exact bind_ne_assertion (CreateBackgroundColor_ne_assertion K r a)
    (fun _ => pure_ne_assertion _)

theorem ApplyHighlightAttributes_ne_assertion (K : Constants) (r : Renderer F)
    (a : HighlightAttributes) (start end_ : Nat) :
    ApplyHighlightAttributes K r a start end_ ≠ .error .assertion := by
  unfold ApplyHighlightAttributes
  refine bind_ne_assertion (CreateForegroundColor_ne_assertion K r a) (fun _ => ?_)
  exact bind_ne_assertion (CreateSpecialColor_ne_assertion K r a) (fun _ => pure_ne_assertion _)

theorem DrawGridLine_loop_ne_assertion [NatCast F] [Add F] [Sub F] [Mul F] (K : Constants)
    (row base : Nat) (props : List CellProperty) :
    ∀ (n i hl off : Nat) (r : Renderer F),
      DrawGridLine.loop K row base props n i hl off r ≠ .error .assertion := by
  intro n
  induction n with
  | zero =>
    intro i hl off r
    exact pure_ne_assertion _
  | succ n ih =>
    intro i hl off r
    simp only [DrawGridLine.loop]
    refine bind_ne_assertion (readAt_ne_assertion _ _) (fun cell => ?_)
    split_ifs
    all_goals first
      | exact ih _ _ _ _
      | exact bind_ne_assertion (readAt_ne_assertion _ _) (fun attribs =>
          bind_ne_assertion (DrawBackgroundRect_ne_assertion K _ _ _) (fun r2 =>
            bind_ne_assertion (ApplyHighlightAttributes_ne_assertion K _ _ _ _)
              (fun r3 => ih _ _ _ _)))

theorem DrawGridLine_ne_assertion [NatCast F] [Add F] [Sub F] [Mul F] (K : Constants)
    (r : Renderer F) (row : Nat) : DrawGridLine K r row ≠ .error .assertion := by
  unfold DrawGridLine
  refine bind_ne_assertion (deref_ne_assertion _) (fun chars => ?_)
  refine bind_ne_assertion (readSlice_ne_assertion _ _ _) (fun text => ?_)
  refine bind_ne_assertion (deref_ne_assertion _) (fun props => ?_)
  refine bind_ne_assertion (readAt_ne_assertion _ _) (fun first => ?_)
  refine bind_ne_assertion (DrawGridLine_loop_ne_assertion K _ _ _ _ _ _ _ _) (fun res => ?_)
  refine bind_ne_assertion (readAt_ne_assertion _ _) (fun attribs => ?_)
  refine bind_ne_assertion (DrawBackgroundRect_ne_assertion K _ _ _) (fun r2 => ?_)
  exact bind_ne_assertion (ApplyHighlightAttributes_ne_assertion K _ _ _ _)
    (fun r3 => pure_ne_assertion _)

theorem ScrollRegion_row_ne_assertion [NatCast F] [Add F] [Sub F] [Mul F] (K : Constants)
    (top bottom left right rows : Int) (r : Renderer F) (i : Int) :
    ScrollRegion.row K top bottom left right rows r i ≠ .error .assertion := by
  unfold ScrollRegion.row
  simp only
  split_ifs
  · exact pure_ne_assertion _
  · refine bind_ne_assertion (deref_ne_assertion _) (fun chars => ?_)
    refine bind_ne_assertion (memcpy_ne_assertion _ _ _ _) (fun chars2 => ?_)
    refine bind_ne_assertion (deref_ne_assertion _) (fun props => ?_)
    refine bind_ne_assertion (memcpy_ne_assertion _ _ _ _) (fun props2 => ?_)
    unfold DrawGridLineInt
    split_ifs
    · intro h; cases h
    · exact DrawGridLine_ne_assertion K _ _

theorem ScrollRegion_loop_ne_assertion [NatCast F] [Add F] [Sub F] [Mul F] (K : Constants)
    (top bottom left right rows : Int) (down : Bool) (end_row increment : Int) :
    ∀ (fuel : Nat) (i : Int) (r : Renderer F),
      ScrollRegion.loop K top bottom left right rows down end_row increment fuel i r ≠
        .error .assertion := by
  intro fuel
  induction fuel with
  | zero =>
    intro i r
    exact pure_ne_assertion _
  | succ n ih =>
    intro i r
    simp only [ScrollRegion.loop]
    split_ifs
    all_goals first
      | exact pure_ne_assertion _
      | exact bind_ne_assertion (ScrollRegion_row_ne_assertion K _ _ _ _ _ _ _)
          (fun r2 => ih _ _)

/-- C23: a `grid_scroll` event with a horizontal delta other than zero fails the
assertion of `ScrollRegion`, whatever the record and the other parameters: the
assertion is the first thing tested, before either buffer is touched and before any
row is drawn (a record without buffers fails the same way), so no state is produced
and the grid stays as it was.  With a zero delta no assertion fails. -/
theorem ScrollRegion_cols_assertion [NatCast F] [Add F] [Sub F] [Mul F] (K : Constants)
    (r : Renderer F) (top bottom left right rows cols : Int) :
    (cols ≠ 0 → ScrollRegion K r top bottom left right rows cols = .error .assertion) ∧
    (cols ≠ 0 → ScrollRegion K { r with grid_chars := none, grid_cell_properties := none }
      top bottom left right rows cols = .error .assertion) ∧
    ScrollRegion K r top bottom left right rows 0 ≠ .error .assertion := by
  refine ⟨?_, ?_, ?_⟩
  · intro h
    unfold ScrollRegion
    rw [if_pos h]
  · intro h
    unfold ScrollRegion
    rw [if_pos h]
  · unfold ScrollRegion
    rw [if_neg (by simp)]
    refine bind_ne_assertion (ScrollRegion_loop_ne_assertion K _ _ _ _ _ _ _ _ _ _ _)
      (fun r2 => ?_)
    simp only
    split_ifs
    · exact DrawGridLine_ne_assertion K _ _
    · exact pure_ne_assertion _

/-- Witness for C23: on the sample grid a scroll of columns 1 and 2 by one row with a
horizontal delta of 1 fails the assertion, and with a delta of 0 it is carried out. -/
theorem ScrollRegion_cols_assertion_witness :
    ((1 : Int) ≠ 0 ∧ ScrollRegion sampleConstants sampleRenderer 0 3 1 3 1 1 =
      .error .assertion) ∧
    ∃ t, ScrollRegion sampleConstants sampleRenderer 0 3 1 3 1 0 = .ok t ∧
      t.grid_chars = some [97, 102, 103, 100, 101, 106, 107, 104, 105, 106, 107, 108] :=
  ⟨⟨by decide,
    (ScrollRegion_cols_assertion sampleConstants sampleRenderer 0 3 1 3 1 1).1 (by decide)⟩,
    by
      have h := (ScrollRegion_cols_assertion sampleConstants sampleRenderer 0 3 1 3 1 0).2.2
      have hc : (ScrollRegion sampleConstants sampleRenderer 0 3 1 3 1 0).map
          (fun t => t.grid_chars) =
          .ok (some [97, 102, 103, 100, 101, 106, 107, 104, 105, 106, 107, 108]) := by
        decide
      cases hs : ScrollRegion sampleConstants sampleRenderer 0 3 1 3 1 0 with
      | error e =>
        rw [hs] at hc
        cases hc
      | ok t =>
        refine ⟨t, rfl, ?_⟩
        rw [hs] at hc
        exact Except.ok.inj hc⟩

/-! ## Recovery from a removed device: claim C30 -/

theorem UpdateFontMetrics_res [LinearOrderedField F] [FloorRing F] (K : Constants)
    (KF : FloatConstants F) (env : Env) (r : Renderer F) (font_size : FloatValue F)
    (font_string : List Nat) :
    (UpdateFontMetrics K KF env r font_size font_string).res =
      { r.res with
        font_face := .live r.res.objects
        dwrite_text_format := .live (r.res.objects + 1)
        objects := r.res.objects + 2 } := by
  unfold UpdateFontMetrics
  simp only [Resources.create]
  split_ifs <;> rfl

/-- C30: what `HandleDeviceLost` leaves in the record.  The Direct2D factory, the
Direct3D device and context, the Direct2D device and context, the background brush, the
DirectWrite factory, the swap chain and the target bitmap are objects created during
the recovery.  The text format is released and its pointer stays null, and the glyph
renderer is deleted and its pointer still designates the deleted object: neither is
created again, whereas `RendererInitialize` creates both after the same three
initializations.  When `Present` reports the removed device, `FinishDraw` ends with
that recovery, and `draw_active` is false. -/
theorem HandleDeviceLost_resources [LinearOrderedField F] [FloorRing F] (K : Constants)
    (KF : FloatConstants F) (env : Env) (r : Renderer F) (DEFAULT_FONT : List Nat)
    (disable_ligatures : Bool) (linespace_factor monitor_dpi : F) :
    ((HandleDeviceLost env r).res.d2d_factory.createdAfter r.res.objects = true ∧
      (HandleDeviceLost env r).res.d3d_device.createdAfter r.res.objects = true ∧
      (HandleDeviceLost env r).res.d3d_context.createdAfter r.res.objects = true ∧
      (HandleDeviceLost env r).res.d2d_device.createdAfter r.res.objects = true ∧
      (HandleDeviceLost env r).res.d2d_context.createdAfter r.res.objects = true ∧
      (HandleDeviceLost env r).res.d2d_background_rect_brush.createdAfter r.res.objects = true ∧
      (HandleDeviceLost env r).res.dwrite_factory.createdAfter r.res.objects = true ∧
      (HandleDeviceLost env r).res.dxgi_swapchain.createdAfter r.res.objects = true ∧
      (HandleDeviceLost env r).res.d2d_target_bitmap.createdAfter r.res.objects = true) ∧
    ((HandleDeviceLost env r).res.dwrite_text_format = .null ∧
      (HandleDeviceLost env r).res.glyph_renderer = r.res.glyph_renderer.release ∧
      (HandleDeviceLost env r).res.dwrite_text_format.valid = false ∧
      (HandleDeviceLost env r).res.glyph_renderer.valid = false) ∧
    ((RendererInitialize K KF env r DEFAULT_FONT disable_ligatures linespace_factor
        monitor_dpi).res.dwrite_text_format.valid = true ∧
      (RendererInitialize K KF env r DEFAULT_FONT disable_ligatures linespace_factor
        monitor_dpi).res.glyph_renderer.valid = true) ∧
    (env.present_device_removed = true →
      (FinishDraw env r).draw_active = false ∧
      (FinishDraw env r).res = (HandleDeviceLost env r).res ∧
      presentCount (FinishDraw env r).calls = presentCount r.calls + 1) := by
  refine ⟨?_, ?_, ?_, ?_⟩
  · unfold HandleDeviceLost InitializeWindowDependentResources.create InitializeDWrite
      InitializeD3D InitializeD2D
    simp only [Resources.create, Renderer.emit, SafeRelease]
    split_ifs <;> simp [Handle.createdAfter] <;> omega
  · have h1 : (HandleDeviceLost env r).res.dwrite_text_format = .null := by
      unfold HandleDeviceLost InitializeWindowDependentResources.create InitializeDWrite
        InitializeD3D InitializeD2D
      simp only [Resources.create, Renderer.emit, SafeRelease]
      split_ifs <;> rfl
    have h2 : (HandleDeviceLost env r).res.glyph_renderer = r.res.glyph_renderer.release := by
      unfold HandleDeviceLost InitializeWindowDependentResources.create InitializeDWrite
        InitializeD3D InitializeD2D
      simp only [Resources.create, Renderer.emit, SafeRelease]
      split_ifs <;> rfl
    refine ⟨h1, h2, by rw [h1]; rfl, ?_⟩
    rw [h2]
    cases r.res.glyph_renderer <;> rfl
  · unfold RendererInitialize RendererUpdateFont
    simp only [UpdateFontMetrics_res]
    constructor
    · rfl
    · unfold InitializeDWrite InitializeD3D InitializeD2D
      simp only [Resources.create]
      split_ifs <;> rfl
  · intro h
    obtain ⟨_, f2, _⟩ := FinishDraw_calls env r
    refine ⟨f2, ?_, presentCount_FinishDraw env r⟩
    unfold FinishDraw CopyFrontToBack
    simp only [h, if_true]
    unfold HandleDeviceLost InitializeWindowDependentResources.create InitializeDWrite
      InitializeD3D InitializeD2D
    simp only [Resources.create, Renderer.emit, SafeRelease]
    split_ifs <;> rfl

/-- Witness for C30: on the sample renderer, whose text format is object 9 and whose
glyph renderer is object 11, a `FinishDraw` whose `Present` reports the removed device
leaves the text format null and the glyph renderer pointing at the deleted object 11,
while the nine other pointers designate the new objects 12 to 20. -/
theorem HandleDeviceLost_resources_witness :
    ({ sampleEnv with present_device_removed := true } : Env).present_device_removed = true ∧
    (FinishDraw { sampleEnv with present_device_removed := true } sampleRendererQ).res =
      { d2d_factory := .live 12
        d3d_device := .live 13
        d3d_context := .live 14
        d2d_device := .live 15
        d2d_context := .live 16
        d2d_background_rect_brush := .live 17
        dwrite_factory := .live 18
        dxgi_swapchain := .live 19
        d2d_target_bitmap := .live 20
        dwrite_text_format := .null
        dwrite_typography := .null
        font_face := .live 10
        glyph_renderer := .released 11
        objects := 21 } ∧
    (FinishDraw { sampleEnv with present_device_removed := true } sampleRendererQ).draw_active =
      false ∧
    (HandleDeviceLost { sampleEnv with present_device_removed := true }
      sampleRendererQ).res.glyph_renderer.valid = false :=
  ⟨rfl, by decide!,
    ((HandleDeviceLost_resources sampleConstants sampleFloatConstants
      { sampleEnv with present_device_removed := true } sampleRendererQ (ascii "Consolas")
      false 1 96).2.2.2 rfl).1,
    (HandleDeviceLost_resources sampleConstants sampleFloatConstants
      { sampleEnv with present_device_removed := true } sampleRendererQ (ascii "Consolas")
      false 1 96).2.1.2.2.2⟩

/-! ## The table of cursor modes: claim C24 -/

/-- The loop of `UpdateCursorModeInfos` on a table that has the entries `i` to
`i + mode_infos.length - 1`: those entries are written from the maps, in order, and
every other entry stays. -/
theorem UpdateCursorModeInfos_loop_spec (mode_infos : List ModeInfoMap) :
    ∀ (i : Nat) (infos : List CursorModeInfo), i + mode_infos.length ≤ infos.length →
      ∃ out, UpdateCursorModeInfos.loop mode_infos i infos = .ok out ∧
        out.length = infos.length ∧
        ∀ j, out[j]? =
          if i ≤ j ∧ j < i + mode_infos.length then (mode_infos[j - i]?).map cursorModeInfoOf
          else infos[j]? := by
  induction mode_infos with
  | nil =>
    intro i infos _
    refine ⟨infos, rfl, rfl, ?_⟩
    intro j
    rw [if_neg]
    simp only [List.length_nil, Nat.add_zero]
    omega
  | cons m rest ih =>
    intro i infos hlen
    simp only [List.length_cons] at hlen
    have hi : infos[i]? = some infos[i] := by
      rw [List.getElem?_eq_getElem]
    obtain ⟨out, h1, h2, h3⟩ := ih (i + 1) (infos.set i (cursorModeInfoOf m))
      (by rw [List.length_set]; omega)
    refine ⟨out, ?_, by rw [h2, List.length_set], ?_⟩
    · simp only [UpdateCursorModeInfos.loop, writeAt, modifyAt_eq _ hi, bind, Except.bind]
      exact h1
    · intro j
      rw [h3 j]
      simp only [List.length_cons]
      by_cases hj : j = i
      · subst hj
        rw [if_neg (by omega), if_pos (by omega)]
        simp only [Nat.sub_self, List.getElem?_cons_zero, Option.map_some']
        rw [List.getElem?_set_self]
        omega
      · by_cases hin : i + 1 ≤ j ∧ j < i + 1 + rest.length
        · rw [if_pos hin, if_pos (by omega)]
          have e : j - i = (j - (i + 1)) + 1 := by omega
          rw [e, List.getElem?_cons_succ]
        · rw [if_neg hin, if_neg (by omega), List.getElem?_set_ne (fun h => hj h.symm)]

/-- C24, as amended: a `mode_info_set` event with more than `MAX_CURSOR_MODE_INFOS` maps
fails the assertion, before the table is touched.  With `n` maps, not more than that and
not more than the table has entries, the event changes the table of cursor modes alone:
entry `i < n` becomes what the `i`-th map gives (shape `None` without `cursor_shape`, id
0 without `attr_id`; the shapes named `block`, `vertical`, `horizontal`; an id below
`2 ^ 32`), the table keeps its length, and every entry from `n` on keeps its value. -/
theorem UpdateCursorModeInfos_overwrites [LinearOrderedField F] [FloorRing F] (K : Constants)
    (r : Renderer F) (mode_infos : List ModeInfoMap) :
    (K.MAX_CURSOR_MODE_INFOS < mode_infos.length →
      UpdateCursorModeInfos K r mode_infos = .error .assertion) ∧
    (mode_infos.length ≤ K.MAX_CURSOR_MODE_INFOS →
      mode_infos.length ≤ r.cursor_mode_infos.length →
      ∃ infos, UpdateCursorModeInfos K r mode_infos =
          .ok { r with cursor_mode_infos := infos } ∧
        infos.length = r.cursor_mode_infos.length ∧
        (∀ i, i < mode_infos.length →
          infos[i]? = (mode_infos[i]?).map cursorModeInfoOf) ∧
        (∀ i, mode_infos.length ≤ i → infos[i]? = r.cursor_mode_infos[i]?)) ∧
    (∀ attr_id : Option Nat, (cursorModeInfoOf ⟨none, attr_id⟩).shape = .None) ∧
    (∀ shape : Option (List Nat), (cursorModeInfoOf ⟨shape, none⟩).hl_attrib_id = 0) ∧
    (∀ attr_id : Option Nat,
      (cursorModeInfoOf ⟨some (ascii "block"), attr_id⟩).shape = .Block ∧
      (cursorModeInfoOf ⟨some (ascii "vertical"), attr_id⟩).shape = .Vertical ∧
      (cursorModeInfoOf ⟨some (ascii "horizontal"), attr_id⟩).shape = .Horizontal) ∧
    (∀ (shape : Option (List Nat)) (a : Nat), a < 2 ^ 32 →
      (cursorModeInfoOf ⟨shape, some a⟩).hl_attrib_id = a) := by
  refine ⟨?_, ?_, ?_, ?_, ?_, ?_⟩
  · intro h
    unfold UpdateCursorModeInfos
    rw [if_neg (by omega)]
  · intro h1 h2
    obtain ⟨out, e1, e2, e3⟩ := UpdateCursorModeInfos_loop_spec mode_infos 0
      r.cursor_mode_infos (by omega)
    refine ⟨out, ?_, e2, ?_, ?_⟩
    · unfold UpdateCursorModeInfos
      rw [if_pos h1, e1]
      rfl
    · intro i hi
      rw [e3 i, if_pos (by omega), Nat.sub_zero]
    · intro i hi
      rw [e3 i, if_neg (by omega)]
  · intro attr_id
    rfl
  · intro shape
    rfl
  · intro attr_id
    have h : ∀ s, (cursorModeInfoOf ⟨some s, attr_id⟩).shape =
        (cursorModeInfoOf ⟨some s, none⟩).shape := fun _ => rfl
    rw [h, h, h]
    exact ⟨by decide, by decide, by decide⟩
  · intro shape a ha
    simp only [cursorModeInfoOf]
    exact Nat.mod_eq_of_lt ha

/-- Witness for C24 as amended: two maps on the table of `sampleCursorRenderer`, which
has four entries, rewrite entries 0 and 1 and leave entries 2 and 3. -/
theorem UpdateCursorModeInfos_overwrites_witness :
    ∃ infos, UpdateCursorModeInfos sampleConstants sampleCursorRendererQ
        [⟨some (ascii "horizontal"), some 5⟩, ⟨none, none⟩] =
        .ok { sampleCursorRendererQ with cursor_mode_infos := infos } ∧
      infos[0]? = some ⟨.Horizontal, 5⟩ ∧ infos[1]? = some ⟨.None, 0⟩ ∧
      infos[2]? = some ⟨.Horizontal, 3⟩ ∧ infos[3]? = some ⟨.None, 0⟩ := by
  obtain ⟨infos, h1, _, h3, h4⟩ :=
    (UpdateCursorModeInfos_overwrites sampleConstants sampleCursorRendererQ
      [⟨some (ascii "horizontal"), some 5⟩, ⟨none, none⟩]).2.1 (by decide) (by decide)
  refine ⟨infos, h1, ?_, ?_, ?_, ?_⟩
  · rw [h3 0 (by decide)]; decide
  · rw [h3 1 (by decide)]; decide
  · rw [h4 2 (by decide)]; decide
  · rw [h4 3 (by decide)]; decide

/-- Counterexample to C24 as stated: the table of `sampleCursorRendererQ` holds a block,
a vertical bar, a horizontal bar of id 3 and no shape.  A `mode_info_set` event with the
one map `horizontal`, id 5, passes the assertion and rewrites entry 0; the three other
entries of the table before the event are still there. -/
theorem UpdateCursorModeInfos_overwrites_counterexample :
    sampleCursorRendererQ.cursor_mode_infos =
      [⟨.Block, 0⟩, ⟨.Vertical, 0⟩, ⟨.Horizontal, 3⟩, ⟨.None, 0⟩] ∧
    [(⟨some (ascii "horizontal"), some 5⟩ : ModeInfoMap)].length ≤
      sampleConstants.MAX_CURSOR_MODE_INFOS ∧
    (UpdateCursorModeInfos sampleConstants sampleCursorRendererQ
        [⟨some (ascii "horizontal"), some 5⟩]).map (fun t => t.cursor_mode_infos) =
      .ok [⟨.Horizontal, 5⟩, ⟨.Vertical, 0⟩, ⟨.Horizontal, 3⟩, ⟨.None, 0⟩] := by
  refine ⟨rfl, by decide, by decide⟩

/-! ## The guifont option: claim C26 -/

/-- The string search finds the first place where the pattern begins, when no null
character comes before it. -/
theorem strstr_eq_some (pat : List Nat) (hpat : pat ≠ []) :
    ∀ (s : List Nat) (i : Nat), i ≤ s.length → pat.isPrefixOf (s.drop i) = true →
      (∀ j, j < i → pat.isPrefixOf (s.drop j) = false) →
      (∀ j, j < i → s[j]? ≠ some 0) → strstr s pat = some i := by
  intro s
  induction s with
  | nil =>
    intro i hi hp _ _
    cases pat with
    | nil => exact absurd rfl hpat
    | cons c rest =>
      simp at hp
  | cons c s ih =>
    intro i hi hp hfirst hnul
    cases i with
    | zero =>
      simp only [List.drop_zero] at hp
      simp only [strstr, hp, if_true]
    | succ k =>
      have h0 := hfirst 0 (by omega)
      simp only [List.drop_zero] at h0
      have hc : c ≠ 0 := by
        have := hnul 0 (by omega)
        simpa using this
      simp only [strstr, h0, Bool.false_eq_true, if_false, if_neg hc]
      have := ih k (by simpa using hi) (by simpa using hp)
        (fun j hj => by simpa using hfirst (j + 1) (by omega))
        (fun j hj => by simpa using hnul (j + 1) (by omega))
      rw [this]
      rfl

/-- The string search finds nothing when the pattern begins nowhere. -/
theorem strstr_eq_none (pat : List Nat) (hpat : pat ≠ []) :
    ∀ s : List Nat, (∀ j, pat.isPrefixOf (s.drop j) = false) → strstr s pat = none := by
  intro s
  induction s with
  | nil =>
    intro _
    simp only [strstr, if_neg hpat]
  | cons c s ih =>
    intro h
    have h0 := h 0
    simp only [List.drop_zero] at h0
    simp only [strstr, h0, Bool.false_eq_true, if_false]
    split_ifs
    · rfl
    · rw [ih (fun j => by simpa using h (j + 1))]
      rfl

/-- The string search for `:h` stops at a null character. -/
theorem strstr_nul (rest : List Nat) :
    ∀ value : List Nat, (∀ j, (ascii ":h").isPrefixOf (value.drop j) = false) →
      strstr (value ++ 0 :: rest) (ascii ":h") = none := by
  have hpat : ascii ":h" = [58, 104] := by decide
  rw [hpat]
  intro value
  induction value with
  | nil =>
    intro _
    simp [strstr]
  | cons c s ih =>
    intro h
    have h0 := h 0
    simp only [List.drop_zero] at h0
    have hpre : List.isPrefixOf [58, 104] (c :: s ++ 0 :: rest) = false := by
      cases s with
      | nil => simp [List.isPrefixOf]
      | cons d s =>
        simp only [List.isPrefixOf, Bool.and_true] at h0
        simp only [List.cons_append, List.isPrefixOf, Bool.and_true]
        exact h0
    simp only [List.cons_append] at hpre ⊢
    simp only [strstr, hpre, Bool.false_eq_true, if_false]
    split_ifs
    · rfl
    · rw [ih (fun j => by simpa using h (j + 1))]
      rfl

theorem takeDigits_digits (digits : List Nat) (hd : ∀ c ∈ digits, 48 ≤ c ∧ c ≤ 57)
    (rest : List Nat) (hr : ∀ c, rest.head? = some c → ¬ (48 ≤ c ∧ c ≤ 57)) :
    ∀ value count, takeDigits (digits ++ rest) value count =
      (digits.foldl (fun value c => value * 10 + (c - 48)) value, count + digits.length,
        rest) := by
  induction digits with
  | nil =>
    intro value count
    cases rest with
    | nil => rfl
    | cons c rest =>
      have := hr c rfl
      simp only [List.nil_append, takeDigits, if_neg this]
      rfl
  | cons c digits ih =>
    intro value count
    have hc := hd c (List.mem_cons_self _ _)
    simp only [List.cons_append, takeDigits, if_pos hc]
    have e := ih (fun d hd2 => hd d (List.mem_cons_of_mem _ hd2)) (value * 10 + (c - 48))
      (count + 1)
    have : count + 1 + digits.length = count + (digits.length + 1) := by omega
    rw [this] at e
    exact e

theorem dropWhile_head (c : Nat) (s : List Nat) (h1 : ¬ (c = 32 ∨ (9 ≤ c ∧ c ≤ 13))) :
    List.dropWhile (fun c => c == 32 || (decide (9 ≤ c) && decide (c ≤ 13))) (c :: s) =
      c :: s := by
  have hp : (c == 32 || (decide (9 ≤ c) && decide (c ≤ 13))) = false := by
    simp only [Bool.or_eq_false_iff, beq_eq_false_iff_ne, ne_eq, Bool.and_eq_false_iff,
      decide_eq_false_iff_not]
    omega
  simp only [List.dropWhile_cons, hp, Bool.false_eq_true, if_false]

/-- A text whose first character begins neither a sign nor one of the words nor a
hexadecimal number is read as the decimal number at its head. -/
theorem atof_of_head [LinearOrderedField F] (c : Nat) (s : List Nat)
    (h1 : ¬ (c = 32 ∨ (9 ≤ c ∧ c ≤ 13))) (h2 : c ≠ 45) (h3 : c ≠ 43) (h4 : c ≠ 48)
    (h5 : c ≠ 105) (h6 : c ≠ 73) (h7 : c ≠ 110) (h8 : c ≠ 78) :
    (atof (c :: s) : FloatValue F) = .finite (atofDecimal (c :: s)) := by
  have hlow : toLower c ≠ 105 ∧ toLower c ≠ 110 := by
    unfold toLower
    split_ifs <;> omega
  have hinf : List.isPrefixOf (ascii "inf") ((c :: s).map toLower) = false := by
    have : ascii "inf" = [105, 110, 102] := by decide
    rw [this]
    simp [List.isPrefixOf, hlow.1.symm]
  have hnan : List.isPrefixOf (ascii "nan") ((c :: s).map toLower) = false := by
    have : ascii "nan" = [110, 97, 110] := by decide
    rw [this]
    simp [List.isPrefixOf, hlow.2.symm]
  have hinf2 : ¬ (ascii "inf" <+: toLower c :: List.map toLower s) := by
    intro h
    rw [← List.isPrefixOf_iff_prefix, ← List.map_cons, hinf] at h
    cases h
  have hnan2 : ¬ (ascii "nan" <+: toLower c :: List.map toLower s) := by
    intro h
    rw [← List.isPrefixOf_iff_prefix, ← List.map_cons, hnan] at h
    cases h
  unfold atof
  rw [dropWhile_head c s h1]
  simp [h2, h3, h4, hinf2, hnan2]

/-- A text that begins with a digit and has no `x` after it is read as the decimal number
at its head. -/
theorem atof_of_digit [LinearOrderedField F] (c : Nat) (s : List Nat) (hc : 48 ≤ c ∧ c ≤ 57)
    (hs : ∀ d, s.head? = some d → d ≠ 120 ∧ d ≠ 88) :
    (atof (c :: s) : FloatValue F) = .finite (atofDecimal (c :: s)) := by
  by_cases h0 : c = 48
  · subst h0
    have einf : ascii "inf" = [105, 110, 102] := by decide
    have enan : ascii "nan" = [110, 97, 110] := by decide
    unfold atof
    rw [dropWhile_head 48 s (by omega), einf, enan]
    cases s with
    | nil => simp [toLower]
    | cons d s =>
      obtain ⟨d1, d2⟩ := hs d rfl
      simp [toLower, d1, d2]
  · exact atof_of_head c s (by omega) (by omega) (by omega) h0 (by omega) (by omega) (by omega)
      (by omega)

theorem atof_nil [LinearOrderedField F] : (atof [] : FloatValue F) = .finite 0 := by
  have hinf : ¬ (ascii "inf" <+: ([] : List Nat)) := by
    intro h
    have h2 := List.isPrefixOf_iff_prefix.mpr h
    simp [List.isPrefixOf, ascii] at h2
  have hnan : ¬ (ascii "nan" <+: ([] : List Nat)) := by
    intro h
    have h2 := List.isPrefixOf_iff_prefix.mpr h
    simp [List.isPrefixOf, ascii] at h2
  unfold atof
  simp [hinf, hnan, atofDecimal, takeDigits]

/-- A text that begins with no white space, sign, digit or point and with none of the
letters `i` and `n` is read as 0. -/
theorem atof_head [LinearOrderedField F] (c : Nat) (s : List Nat)
    (h1 : ¬ (c = 32 ∨ (9 ≤ c ∧ c ≤ 13))) (h2 : c ≠ 45) (h3 : c ≠ 43)
    (h4 : ¬ (48 ≤ c ∧ c ≤ 57)) (h5 : c ≠ 46)
    (h6 : c ≠ 105 ∧ c ≠ 73 ∧ c ≠ 110 ∧ c ≠ 78) :
    (atof (c :: s) : FloatValue F) = .finite 0 := by
  rw [atof_of_head c s h1 h2 h3 (by omega) h6.1 h6.2.1 h6.2.2.1 h6.2.2.2]
  simp [atofDecimal, takeDigits, h4, h5]

/-- The decimal digits of a whole number are read as that number. -/
theorem atof_digits [LinearOrderedField F] (c : Nat) (ds : List Nat)
    (hd : ∀ d ∈ c :: ds, 48 ≤ d ∧ d ≤ 57) :
    (atof (c :: ds) : FloatValue F) = .finite (decimal (c :: ds) : F) := by
  have hc := hd c (List.mem_cons_self _ _)
  have e := takeDigits_digits (c :: ds) hd [] (by simp) 0 0
  simp only [List.append_nil] at e
  rw [atof_of_digit c ds hc (by
    intro d hd2
    have := hd d (List.mem_cons_of_mem _ (List.mem_of_mem_head? hd2))
    omega)]
  simp [atofDecimal, e, decimal, pow10, takeExponent]

/-- Digits, a point and digits are read as the decimal fraction they write. -/
theorem atof_fraction [LinearOrderedField F] (c : Nat) (ds fs : List Nat)
    (hd : ∀ d ∈ c :: ds, 48 ≤ d ∧ d ≤ 57) (hf : ∀ d ∈ fs, 48 ≤ d ∧ d ≤ 57) :
    (atof (c :: ds ++ 46 :: fs) : FloatValue F) =
      .finite ((decimal (c :: ds) : F) + (decimal fs : F) / 10 ^ fs.length) := by
  have hc := hd c (List.mem_cons_self _ _)
  have e := takeDigits_digits (c :: ds) hd (46 :: fs) (by simp) 0 0
  have e2 := takeDigits_digits fs hf [] (by simp) 0 0
  simp only [List.append_nil] at e2
  rw [List.cons_append] at e ⊢
  rw [atof_of_digit c (ds ++ 46 :: fs) hc (by
    intro d hd2
    cases ds with
    | nil =>
      simp only [List.nil_append, List.head?_cons, Option.some.injEq] at hd2
      omega
    | cons x xs =>
      simp only [List.cons_append, List.head?_cons, Option.some.injEq] at hd2
      have := hd x (by simp)
      omega)]
  simp [atofDecimal, e, e2, decimal, pow10, takeExponent]

theorem RendererUpdateFont_requested [LinearOrderedField F] [FloorRing F] (K : Constants)
    (KF : FloatConstants F) (env : Env) (r : Renderer F) (font_size : FloatValue F)
    (font_string : List Nat) :
    (RendererUpdateFont K KF env r font_size font_string).last_requested_font_size =
      clampFontSize font_size := by
  unfold RendererUpdateFont UpdateFontMetrics
  simp only
  split_ifs <;> rfl

theorem isPrefixOf_append_left (xs ys : List Nat) (h : 2 ≤ xs.length) :
    (ascii ":h").isPrefixOf (xs ++ ys) = (ascii ":h").isPrefixOf xs := by
  have hpat : ascii ":h" = [58, 104] := by decide
  rw [hpat]
  match xs, h with
  | a :: b :: xs, _ => simp [List.isPrefixOf]

/-- C26, as amended.  For a `guifont` value `name:hSIZE`, the `:h` after `name` being the
first in the value and `name` having no null character, whatever bytes follow the value
in the message: when `SIZE` has fewer than 256 characters `RendererUpdateGuiFont` is the
font update with family `name` and the size that `atof` reads from `SIZE`, which for
digits, or digits, a point and digits, is the number they write; when `SIZE` has 256
characters or more it is the font update with the default size.  `atof` reads 0 from an
empty text and from a text that begins with anything but white space, a sign, a digit, a
point or one of the letters `i` and `n` (which begin `inf` and `nan`), and the font
update raises a requested size below 5 to 5.  A value without `:h` that a null character
follows, or that nothing follows, leaves the record as it is, like the empty value: no
font update is made. -/
theorem RendererUpdateGuiFont_request [LinearOrderedField F] [FloorRing F] (K : Constants)
    (KF : FloatConstants F) (env : Env) (r : Renderer F) (name size_str after : List Nat) :
    ((∀ c ∈ name, c ≠ 0) →
      (∀ j, j < name.length →
        (ascii ":h").isPrefixOf ((name ++ ascii ":h" ++ size_str).drop j) = false) →
      (size_str.length < 256 →
        RendererUpdateGuiFont K KF env r (name ++ ascii ":h" ++ size_str ++ after)
            (name ++ ascii ":h" ++ size_str).length =
          RendererUpdateFont K KF env r (atof size_str) name) ∧
      (256 ≤ size_str.length → size_str.length < 2 ^ 64 →
        RendererUpdateGuiFont K KF env r (name ++ ascii ":h" ++ size_str ++ after)
            (name ++ ascii ":h" ++ size_str).length =
          RendererUpdateFont K KF env r (.finite KF.DEFAULT_FONT_SIZE) name)) ∧
    (∀ (c : Nat) (ds : List Nat), (∀ d ∈ c :: ds, 48 ≤ d ∧ d ≤ 57) →
      (atof (c :: ds) : FloatValue F) = .finite (decimal (c :: ds) : F)) ∧
    (∀ (c : Nat) (ds fs : List Nat), (∀ d ∈ c :: ds, 48 ≤ d ∧ d ≤ 57) →
      (∀ d ∈ fs, 48 ≤ d ∧ d ≤ 57) →
      (atof (c :: ds ++ 46 :: fs) : FloatValue F) =
        .finite ((decimal (c :: ds) : F) + (decimal fs : F) / 10 ^ fs.length)) ∧
    ((atof [] : FloatValue F) = .finite 0 ∧
      ∀ (c : Nat) (s : List Nat), ¬ (c = 32 ∨ (9 ≤ c ∧ c ≤ 13)) → c ≠ 45 → c ≠ 43 →
        ¬ (48 ≤ c ∧ c ≤ 57) → c ≠ 46 → (c ≠ 105 ∧ c ≠ 73 ∧ c ≠ 110 ∧ c ≠ 78) →
        (atof (c :: s) : FloatValue F) = .finite 0) ∧
    (∀ (font_size : F) (font_string : List Nat),
      (RendererUpdateFont K KF env r (.finite font_size) font_string).last_requested_font_size =
        max 5 (min font_size 150)) ∧
    (∀ value rest : List Nat, (∀ j, (ascii ":h").isPrefixOf (value.drop j) = false) →
      RendererUpdateGuiFont K KF env r (value ++ 0 :: rest) value.length = r ∧
      RendererUpdateGuiFont K KF env r value value.length = r) ∧
    (∀ guifont : List Nat, RendererUpdateGuiFont K KF env r guifont 0 = r) := by
  refine ⟨?_, fun c ds hd => atof_digits c ds hd, fun c ds fs hd hf => atof_fraction c ds fs hd hf,
    ⟨atof_nil, fun c s h1 h2 h3 h4 h5 h6 => atof_head c s h1 h2 h3 h4 h5 h6⟩,
    fun font_size font_string =>
      RendererUpdateFont_requested K KF env r (.finite font_size) font_string,
    ?_, fun guifont => rfl⟩
  · intro hnul hfirst
    have hpat : ascii ":h" ≠ [] := by decide
    have hlen2 : (ascii ":h").length = 2 := by decide
    have hfind : strstr (name ++ ascii ":h" ++ size_str ++ after) (ascii ":h") =
        some name.length := by
      apply strstr_eq_some _ hpat
      · simp only [List.length_append]
        omega
      · rw [List.append_assoc, List.append_assoc, List.drop_left]
        simp
      · intro j hj
        have hd : (name ++ ascii ":h" ++ size_str ++ after).drop j =
            (name ++ ascii ":h" ++ size_str).drop j ++ after := by
          rw [List.drop_append_of_le_length]
          simp only [List.length_append]
          omega
        rw [hd, isPrefixOf_append_left _ _ (by
          simp only [List.length_drop, List.length_append, hlen2]
          omega)]
        exact hfirst j hj
      · intro j hj
        rw [List.append_assoc, List.append_assoc, List.getElem?_append_left hj]
        intro h
        exact hnul 0 (List.mem_iff_getElem?.mpr ⟨j, h⟩) rfl
    have hne : (name ++ ascii ":h" ++ size_str).length ≠ 0 := by
      simp only [List.length_append, hlen2]
      omega
    have htake : (name ++ ascii ":h" ++ size_str ++ after).take name.length = name := by
      rw [List.append_assoc, List.append_assoc, List.take_left]
    have hdrop : (name ++ ascii ":h" ++ size_str ++ after).drop (name.length + 2) =
        size_str ++ after := by
      have : name.length + 2 = (name ++ ascii ":h").length := by
        rw [List.length_append, hlen2]
      rw [this, List.append_assoc (name ++ ascii ":h"), List.drop_left]
    have hsz : (((name ++ ascii ":h" ++ size_str).length : Int) - ((name.length : Int) + 2)) =
        (size_str.length : Int) := by
      simp only [List.length_append, hlen2]
      push_cast
      omega
    constructor
    · intro hlt
      have hmod : (size_str.length : Int) % 2 ^ 64 = size_str.length := by omega
      unfold RendererUpdateGuiFont
      rw [if_neg hne, hfind]
      simp only [htake, hdrop, hsz, hmod]
      rw [if_pos (by omega), Int.toNat_natCast, List.take_left]
    · intro hge hlt
      have hmod : (size_str.length : Int) % 2 ^ 64 = size_str.length := by omega
      unfold RendererUpdateGuiFont
      rw [if_neg hne, hfind]
      simp only [htake, hdrop, hsz, hmod]
      rw [if_neg (by omega)]
  · intro value rest habsent
    constructor
    · unfold RendererUpdateGuiFont
      rw [strstr_nul rest value habsent]
      split_ifs <;> rfl
    · unfold RendererUpdateGuiFont
      rw [strstr_eq_none _ (by decide) value habsent]
      split_ifs <;> rfl

/-- Witness for C26 as amended: `Fira Code:h11.5`, followed by a null character, asks for
the family `Fira Code` in the size 11.5. -/
theorem RendererUpdateGuiFont_request_witness :
    ascii "Fira Code" ++ ascii ":h" ++ ascii "11.5" = ascii "Fira Code:h11.5" ∧
    (atof (ascii "11.5") : FloatValue ℚ) = .finite (23 / 2) ∧
    RendererUpdateGuiFont sampleConstants sampleFloatConstants sampleEnv sampleRendererQ
      (ascii "Fira Code" ++ ascii ":h" ++ ascii "11.5" ++ [0])
      (ascii "Fira Code" ++ ascii ":h" ++ ascii "11.5").length =
      RendererUpdateFont sampleConstants sampleFloatConstants sampleEnv sampleRendererQ
        (atof (ascii "11.5")) (ascii "Fira Code") :=
  ⟨by decide, by decide!,
    ((RendererUpdateGuiFont_request sampleConstants sampleFloatConstants sampleEnv
      sampleRendererQ (ascii "Fira Code") (ascii "11.5") [0]).1 (by decide) (by decide)).1
        (by decide)⟩

/-- Counterexample to C26 as stated, with a default size of 14; a null character follows
each value.  The value `Fira Code` has no `:h`: the record stays as it is, with the font
`Consolas`, where a font update in the default size would take the new family.  The
value `Consolas:hbig` has a size text that is no number: the update is requested with
the size 0 that `atof` reads, and the font is taken in the size 5, not in the default
size. -/
theorem RendererUpdateGuiFont_request_counterexample :
    sampleFloatConstants.DEFAULT_FONT_SIZE = 14 ∧
    RendererUpdateGuiFont sampleConstants sampleFloatConstants sampleEnv sampleRendererQ
      (ascii "Fira Code" ++ [0]) 9 = sampleRendererQ ∧
    RendererUpdateFont sampleConstants sampleFloatConstants sampleEnv sampleRendererQ
      (.finite sampleFloatConstants.DEFAULT_FONT_SIZE) (ascii "Fira Code") ≠ sampleRendererQ ∧
    RendererUpdateGuiFont sampleConstants sampleFloatConstants sampleEnv sampleRendererQ
      (ascii "Consolas:hbig" ++ [0]) 13 =
      RendererUpdateFont sampleConstants sampleFloatConstants sampleEnv sampleRendererQ
        (.finite 0) (ascii "Consolas") ∧
    (RendererUpdateGuiFont sampleConstants sampleFloatConstants sampleEnv sampleRendererQ
      (ascii "Consolas:hbig" ++ [0]) 13).last_requested_font_size = 5 ∧
    (RendererUpdateFont sampleConstants sampleFloatConstants sampleEnv sampleRendererQ
      (.finite sampleFloatConstants.DEFAULT_FONT_SIZE)
      (ascii "Consolas")).last_requested_font_size = 14 := by
  refine ⟨rfl, by decide!, by decide!, by decide!, by decide!, by decide!⟩

/-! ## Moving the cursor: claim C29 -/

theorem UpdateImePos_calls [LinearOrderedField F] [FloorRing F] (env : Env)
    (r t : Renderer F) (h : UpdateImePos env r = .ok t) :
    ∃ ime, t = { r with calls := r.calls ++ ime } ∧ ∀ c ∈ ime, c.kind = .window := by
  unfold UpdateImePos at h
  obtain ⟨x, _, h1⟩ := bind_eq_ok h
  obtain ⟨y, _, h2⟩ := bind_eq_ok h1
  simp only at h2
  split_ifs at h2
  · obtain ⟨lf, _, h3⟩ := bind_eq_ok h2
    simp only [pure, Except.pure, Except.ok.injEq] at h3
    rw [← h3]
    refine ⟨[.ImmSetCompositionWindow x y, .ImmSetCompositionFontW lf r.font],
      by simp [Renderer.emit], ?_⟩
    intro c hc
    simp only [List.mem_cons, List.mem_singleton, List.mem_nil_iff, or_false] at hc
    rcases hc with rfl | rfl <;> rfl
  · simp only [pure, Except.pure, Except.ok.injEq] at h2
    rw [← h2]
    refine ⟨[.ImmSetCompositionWindow x y], by simp [Renderer.emit], ?_⟩
    intro c hc
    rw [List.mem_singleton.mp hc]
    rfl

theorem UpdateImePos_ok [LinearOrderedField F] [FloorRing F] (env : Env) (r : Renderer F)
    (hx : ∃ x, floatToInt ((r.cursor.col : F) * r.font_width) = .ok x)
    (hy : ∃ y, floatToInt ((r.cursor.row : F) * r.font_height) = .ok y)
    (hl : ∃ l, floatToInt r.font_height = .ok l) : ∃ t, UpdateImePos env r = .ok t := by
  obtain ⟨x, hx⟩ := hx
  obtain ⟨y, hy⟩ := hy
  obtain ⟨l, hl⟩ := hl
  unfold UpdateImePos
  simp only [hx, hy, bind, Except.bind]
  split_ifs
  · simp only [Renderer.emit, hl]
    exact ⟨_, rfl⟩
  · exact ⟨_, rfl⟩

theorem drawsOf_window (ime : List (DrawCall F)) (h : ∀ c ∈ ime, c.kind = .window) :
    drawsOf ime = [] := by
  unfold drawsOf
  rw [List.filterMap_eq_nil_iff]
  intro c hc
  have := h c hc
  cases c <;> first | rfl | cases this

theorem command_grid_cursor_goto [LinearOrderedField F] [FloorRing F] (K : Constants)
    (KF : FloatConstants F) (env : Env) (r : Renderer F) (row col : Nat) :
    RendererRedraw.command K KF env r ⟨"grid_cursor_goto", .grid_cursor_goto row col⟩ =
      (redrawCursorRow K r >>= fun s => UpdateImePos env (UpdateCursorPos s row col)) := by
  unfold RendererRedraw.command
  simp [MPackMatchString]

/-- C29, as amended: a `grid_cursor_goto(row, col)` event that is handled without a
fault redraws the old row of the cursor when that row is a row of the grid, whatever the
old column: one `DrawGridLine` of that row on the record as it was, so before the cursor
moves, which is one `Draw`; otherwise it draws nothing.  Then the cursor is at
`(row, col)` with its mode kept, and the calls to the input method follow.  The grid
store, its size and the highlight table are what they were.  The event is handled
without a fault when the state is well formed (if a row is redrawn) and the pixel
position of the new cursor and the cell height are in the range of `int`. -/
theorem grid_cursor_goto_redraw [LinearOrderedField F] [FloorRing F] (K : Constants)
    (KF : FloatConstants F) (env : Env) (r : Renderer F) (row col : Nat) :
    (∀ t, RendererRedraw.command K KF env r ⟨"grid_cursor_goto", .grid_cursor_goto row col⟩ =
        .ok t →
      ∃ s ime, (if r.cursor.row < r.grid_rows then DrawGridLine K r r.cursor.row = .ok s
          else s = r) ∧
        r.sameStore s ∧
        t = { UpdateCursorPos s row col with calls := s.calls ++ ime } ∧
        (∀ c ∈ ime, c.kind = .window) ∧
        drawsOf t.calls = drawsOf r.calls ++
          (if r.cursor.row < r.grid_rows then
            [(((0 : Nat) : F), (r.cursor.row : F) * r.font_height)] else []) ∧
        t.cursor.row = row ∧ t.cursor.col = col ∧ t.cursor.mode_info = r.cursor.mode_info ∧
        t.grid_rows = r.grid_rows ∧ t.grid_cols = r.grid_cols ∧
        t.grid_chars = r.grid_chars ∧ t.grid_cell_properties = r.grid_cell_properties ∧
        t.hl_attribs = r.hl_attribs) ∧
    ((r.cursor.row < r.grid_rows → r.WF) →
      (∃ x, floatToInt ((col : F) * r.font_width) = .ok x) →
      (∃ y, floatToInt ((row : F) * r.font_height) = .ok y) →
      (∃ l, floatToInt r.font_height = .ok l) →
      ∃ t, RendererRedraw.command K KF env r
        ⟨"grid_cursor_goto", .grid_cursor_goto row col⟩ = .ok t) := by
  constructor
  · intro t h
    rw [command_grid_cursor_goto] at h
    obtain ⟨s, h1, h2⟩ := bind_eq_ok h
    obtain ⟨hs, _, hin, hout⟩ := redrawCursorRow_frame K r s h1
    obtain ⟨ime, e, hk⟩ := UpdateImePos_calls env _ t h2
    have hstore := hs
    unfold Renderer.sameStore at hstore
    have hd : drawsOf t.calls = drawsOf s.calls := by
      rw [e]
      simp only [UpdateCursorPos, drawsOf_append, drawsOf_window ime hk, List.append_nil]
    refine ⟨s, ime, ?_, hs, e, hk, ?_, by rw [e]; rfl, by rw [e]; rfl, ?_, ?_, ?_, ?_, ?_, ?_⟩
    · unfold redrawCursorRow at h1
      split_ifs at h1 ⊢
      · exact h1
      · simp only [pure, Except.pure, Except.ok.injEq] at h1
        exact h1.symm
    · rw [hd]
      split_ifs with hc
      · exact hin hc
      · rw [hout hc, List.append_nil]
    all_goals
      rw [e, hstore]
      rfl
  · intro hwf hx hy hl
    rw [command_grid_cursor_goto]
    have hrow : ∃ s, redrawCursorRow K r = .ok s ∧ r.sameStore s := by
      unfold redrawCursorRow
      split_ifs with hc
      · exact DrawGridLine_ok K r _ (hwf hc) hc
      · exact ⟨r, rfl, sameStore_refl r⟩
    obtain ⟨s, h1, hs⟩ := hrow
    unfold Renderer.sameStore at hs
    have e1 : (UpdateCursorPos s row col).font_width = r.font_width := by rw [hs]; rfl
    have e2 : (UpdateCursorPos s row col).font_height = r.font_height := by rw [hs]; rfl
    obtain ⟨t, ht⟩ := UpdateImePos_ok env (UpdateCursorPos s row col)
      (by rw [e1]; exact hx) (by rw [e2]; exact hy) (by rw [e2]; exact hl)
    exact ⟨t, by rw [h1]; exact ht⟩

theorem sampleCursorRendererQ_WF : sampleCursorRendererQ.WF :=
  ⟨by decide, by decide, ⟨_, rfl, by decide⟩, ⟨_, rfl, by decide, by decide⟩⟩

/-- Witness for C29 as amended: in `sampleCursorRendererQ` the cursor is in row 1 of 3;
moving it to row 2, column 3 is handled, draws row 1 once and leaves the cursor at
(2, 3). -/
theorem grid_cursor_goto_redraw_witness :
    ∃ t, RendererRedraw.command sampleConstants sampleFloatConstants sampleEnv
        sampleCursorRendererQ ⟨"grid_cursor_goto", .grid_cursor_goto 2 3⟩ = .ok t ∧
      drawsOf t.calls = [(0, 16)] ∧ t.cursor.row = 2 ∧ t.cursor.col = 3 ∧
      t.grid_chars = sampleCursorRendererQ.grid_chars := by
  obtain ⟨t, h⟩ := (grid_cursor_goto_redraw sampleConstants sampleFloatConstants sampleEnv
    sampleCursorRendererQ 2 3).2 (fun _ => sampleCursorRendererQ_WF) ⟨24, by decide!⟩
    ⟨32, by decide!⟩ ⟨16, by decide!⟩
  obtain ⟨s, ime, _, _, _, _, h5, h6, h7, _, _, _, h11, _⟩ :=
    (grid_cursor_goto_redraw sampleConstants sampleFloatConstants sampleEnv
      sampleCursorRendererQ 2 3).1 t h
  refine ⟨t, h, ?_, h6, h7, h11⟩
  rw [h5]
  decide!

/-- Counterexample to C29 as stated: on the sample grid of 3 rows and 4 columns with the
cursor at row 1, column 7, a position outside the grid, a `grid_cursor_goto` event
draws row 1. -/
theorem grid_cursor_goto_redraw_counterexample :
    sampleCursorRendererQ.grid_rows = 3 ∧ sampleCursorRendererQ.grid_cols = 4 ∧
    (RendererRedraw.command sampleConstants sampleFloatConstants sampleEnv
      { sampleCursorRendererQ with cursor := { mode_info := some 0, row := 1, col := 7 } }
      ⟨"grid_cursor_goto", .grid_cursor_goto 2 3⟩).map (fun t => drawsOf t.calls) =
      .ok [(0, 16)] := by
  refine ⟨rfl, rfl, by decide!⟩

/-! ## The text a row is drawn with -/

theorem layoutsOf_append (xs ys : List (DrawCall F)) :
    layoutsOf (xs ++ ys) = layoutsOf xs ++ layoutsOf ys := by
  simp [layoutsOf, List.filterMap_append]

theorem layoutsOf_emit (r : Renderer F) (c : DrawCall F) :
    layoutsOf (r.emit c).calls = layoutsOf r.calls ++ layoutsOf [c] := by
  simp [Renderer.emit, layoutsOf_append]

/-- Styling calls lay out no text. -/
theorem layoutsOf_styling {r t : Renderer F} (h : r.added (fun c => c.isStyling = true) t) :
    layoutsOf t.calls = layoutsOf r.calls := by
  obtain ⟨n, e, p⟩ := h
  have h1 : layoutsOf n = [] := by
    unfold layoutsOf
    rw [List.filterMap_eq_nil_iff]
    intro c hc
    have := p c hc
    cases c <;> first | rfl | cases this
  rw [e, layoutsOf_append, h1, List.append_nil]

theorem DrawGridLine_loop_layouts [NatCast F] [Add F] [Sub F] [Mul F] (K : Constants)
    (row base : Nat) (props : List CellProperty) :
    ∀ (n i hl off : Nat) (r t : Renderer F) (hl2 off2 : Nat),
      DrawGridLine.loop K row base props n i hl off r = .ok (hl2, off2, t) →
      layoutsOf t.calls = layoutsOf r.calls := by
  intro n
  induction n with
  | zero =>
    intro i hl off r t hl2 off2 h
    simp only [DrawGridLine.loop, pure, Except.pure, Except.ok.injEq, Prod.mk.injEq] at h
    rw [← h.2.2]
  | succ n ih =>
    intro i hl off r t hl2 off2 h
    simp only [DrawGridLine.loop] at h
    obtain ⟨cell, _, h⟩ := bind_eq_ok h
    generalize hw : (if cell.is_wide_char = true then r.font_width * ((2 : Nat) : F)
      else r.font_width) = width at h
    have hl1 : layoutsOf (r.emit (.SetCharacterSpacing width
        { startPosition := i, length := 1 })).calls = layoutsOf r.calls := by
      rw [layoutsOf_emit]
      simp [layoutsOf]
    by_cases hne : cell.hl_attrib_id ≠ hl
    · rw [if_pos hne] at h
      obtain ⟨attribs, _, h⟩ := bind_eq_ok h
      obtain ⟨r2, hr2, h⟩ := bind_eq_ok h
      obtain ⟨r3, hr3, h⟩ := bind_eq_ok h
      obtain ⟨color, _, er2⟩ := DrawBackgroundRect_added K _ _ _ _ hr2
      have h3 := layoutsOf_styling (ApplyHighlightAttributes_styling K _ _ _ _ _ hr3)
      rw [ih _ _ _ _ _ _ _ h, h3, er2, layoutsOf_emit, hl1]
      simp [layoutsOf]
    · rw [if_neg hne] at h
      rw [ih _ _ _ _ _ _ _ h, hl1]

/-- A redraw of a row lays out one text, the characters the row has in the store. -/
theorem DrawGridLine_layout [NatCast F] [Add F] [Sub F] [Mul F] (K : Constants)
    (r t : Renderer F) (row : Nat) (h : DrawGridLine K r row = .ok t) :
    ∃ text, r.rowText row = some text ∧ text.length = r.grid_cols ∧
      layoutsOf t.calls = layoutsOf r.calls ++ [text] := by
  unfold DrawGridLine at h
  obtain ⟨chars, hchars, h1⟩ := bind_eq_ok h
  clear h
  obtain ⟨text, htext, h2⟩ := bind_eq_ok h1
  clear h1
  obtain ⟨props, hprops, h3⟩ := bind_eq_ok h2
  clear h2
  obtain ⟨first, hfirst, h4⟩ := bind_eq_ok h3
  clear h3
  obtain ⟨⟨hl2, off2, r2⟩, hloop, h5⟩ := bind_eq_ok h4
  clear h4
  obtain ⟨attribs, hattr, h6⟩ := bind_eq_ok h5
  clear h5
  obtain ⟨r3, hr3, h7⟩ := bind_eq_ok h6
  clear h6
  obtain ⟨r4, hr4, h8⟩ := bind_eq_ok h7
  clear h7
  have e1 := DrawGridLine_loop_layouts K _ _ _ _ _ _ _ _ _ _ _ hloop
  obtain ⟨color, _, e2⟩ := DrawBackgroundRect_added K _ _ _ _ hr3
  have e3 := layoutsOf_styling (ApplyHighlightAttributes_styling K _ _ _ _ _ hr4)
  have hc := deref_of_ok hchars
  have e4 : layoutsOf r4.calls = layoutsOf r.calls ++ [text] := by
    rw [e3, e2, layoutsOf_emit, e1, layoutsOf_emit]
    simp [layoutsOf]
  unfold readSlice at htext
  split_ifs at htext with hb
  simp only [Except.ok.injEq] at htext
  simp only [pure, Except.pure, Except.ok.injEq] at h8
  refine ⟨text, ?_, ?_, ?_⟩
  · unfold Renderer.rowText
    rw [hc, ← htext]
    rfl
  · rw [← htext, List.length_take, List.length_drop]
    omega
  · rw [← h8]
    simp only [Renderer.emit]
    split_ifs <;> (simp only [layoutsOf_append, e4]; simp [layoutsOf])

/-! ## The rows a scroll redraws -/

theorem memcpy_of_ok {α : Type} {xs ys : List α} {dst src n : Int}
    (h : memcpy xs dst src n = .ok ys) :
    0 ≤ dst ∧ 0 ≤ n ∧ ∃ vs : List α, vs.length = n.toNat ∧
      dst.toNat + vs.length ≤ xs.length ∧
      ys = xs.take dst.toNat ++ vs ++ xs.drop (dst.toNat + vs.length) := by
  unfold memcpy at h
  split_ifs at h with hneg
  obtain ⟨vs, h1, h2⟩ := bind_eq_ok h
  unfold readSlice at h1
  split_ifs at h1 with hb
  simp only [Except.ok.injEq] at h1
  unfold writeSlice at h2
  split_ifs at h2 with hb2
  simp only [Except.ok.injEq] at h2
  refine ⟨by omega, by omega, vs, ?_, hb2, h2.symm⟩
  rw [← h1, List.length_take, List.length_drop]
  omega

/-- A slice that a store into the buffer does not meet is what it was. -/
theorem slice_writeSlice_other {α : Type} (xs vs : List α) (d : Nat)
    (h : d + vs.length ≤ xs.length) (b c : Nat)
    (hdis : ∀ k, k < c → ¬ (d ≤ b + k ∧ b + k < d + vs.length)) :
    ((xs.take d ++ vs ++ xs.drop (d + vs.length)).drop b).take c = (xs.drop b).take c := by
  apply List.ext_getElem?
  intro k
  rw [List.getElem?_take, List.getElem?_take]
  by_cases hk : k < c
  · rw [if_pos hk, if_pos hk, List.getElem?_drop, List.getElem?_drop,
      writeSlice_getElem? xs vs d h, if_neg (hdis k hk)]
  · rw [if_neg hk, if_neg hk]

theorem rowText_sameStore {r t : Renderer F} (h : r.sameStore t) (row : Nat) :
    t.rowText row = r.rowText row := by
  unfold Renderer.sameStore at h
  rw [h]
  rfl

theorem toInt32_of_range {x : Int} (h1 : 0 ≤ x) (h2 : x < 2 ^ 31) : toInt32 x = x := by
  unfold toInt32
  omega

/-- One round of the loop of `ScrollRegion`, for a region from row 0 on and below row
`2 ^ 31`, between the columns `l ≤ rt` of the grid: a source row whose target lies
outside the region changes nothing; otherwise the target row is drawn once, with the
text it has after the round, and the text of every other row stays. -/
theorem ScrollRegion_row_trace [NatCast F] [Add F] [Sub F] [Mul F] (K : Constants)
    (top bottom d : Int) (l rt : Nat) (r t : Renderer F) (i : Int)
    (htop : 0 ≤ top) (hbot : bottom ≤ 2 ^ 31) (hl : l ≤ rt) (hrt : rt ≤ r.grid_cols)
    (h : ScrollRegion.row K top bottom l rt d r i = .ok t) :
    r.sameFrame t ∧
    (¬ (top ≤ i - d ∧ i - d < bottom) → t = r) ∧
    (top ≤ i - d ∧ i - d < bottom →
      drawsOf t.calls =
        drawsOf r.calls ++ [(((0 : Nat) : F), ((i - d).toNat : F) * r.font_height)] ∧
      ∃ text, t.rowText (i - d).toNat = some text ∧
        layoutsOf t.calls = layoutsOf r.calls ++ [text]) ∧
    ∀ row : Nat, (row : Int) ≠ i - d → t.rowText row = r.rowText row := by
  have hframe := (ScrollRegion_row_frame K top bottom l rt d r t i h).1
  unfold ScrollRegion.row at h
  simp only at h
  by_cases hc : i - d < top ∨ i - d ≥ bottom
  · rw [if_pos hc] at h
    simp only [pure, Except.pure, Except.ok.injEq] at h
    subst h
    exact ⟨hframe, fun _ => rfl, fun hin => by omega, fun _ _ => rfl⟩
  · rw [if_neg hc] at h
    obtain ⟨chars, hchars, h1⟩ := bind_eq_ok h
    clear h
    obtain ⟨chars2, hcopy, h2⟩ := bind_eq_ok h1
    clear h1
    obtain ⟨props, hprops, h3⟩ := bind_eq_ok h2
    clear h2
    obtain ⟨props2, hcopy2, h4⟩ := bind_eq_ok h3
    clear h3
    have hr1 : toInt32 (i - d) = i - d := toInt32_of_range (by omega) (by omega)
    unfold DrawGridLineInt at h4
    rw [hr1, if_neg (by omega)] at h4
    obtain ⟨hs, _, hd, _⟩ := DrawGridLine_calls K _ t _ h4
    obtain ⟨text, ht1, _, ht2⟩ := DrawGridLine_layout K _ t _ h4
    have hc0 := deref_of_ok hchars
    obtain ⟨hd0, hn0, vs, hv1, hv2, hv3⟩ := memcpy_of_ok hcopy
    refine ⟨hframe, fun hn => absurd (by omega) hn, fun _ => ⟨hd, text, ?_, ht2⟩, ?_⟩
    · rw [rowText_sameStore hs]
      exact ht1
    · intro row hrow
      rw [rowText_sameStore hs]
      unfold Renderer.rowText
      simp only [hc0, Option.map_some', Option.some.injEq]
      rw [hv3]
      apply slice_writeSlice_other _ _ _ hv2
      intro k hk hin
      obtain ⟨tn, htn⟩ := Int.eq_ofNat_of_zero_le (show 0 ≤ i - d by omega)
      have e1 : ((i - d) * (r.grid_cols : Int) + (l : Int)).toNat = tn * r.grid_cols + l := by
        rw [htn]
        have : ((tn : Int) * (r.grid_cols : Int) + (l : Int)) =
            ((tn * r.grid_cols + l : Nat) : Int) := by push_cast; rfl
        rw [this, Int.toNat_ofNat]
      have e2 : vs.length = rt - l := by
        rw [hv1]
        omega
      rw [e1, e2] at hin
      have := (flat_range_iff r.grid_cols tn l rt row k hk hl hrt).mp hin
      rw [htn] at hrow
      exact hrow (by rw [this.1])

theorem sameFrame_font_height {r t : Renderer F} (h : r.sameFrame t) :
    t.font_height = r.font_height := by
  rw [h]

/-- The loop of a scroll with a positive delta, from the source row `i` on: the rows
drawn are the targets inside the region of the source rows from `i` to `bottom - 1`, in
rising order, each with the text it has at the end; the text of no other row changes. -/
theorem ScrollRegion_loop_down_trace [NatCast F] [Add F] [Sub F] [Mul F] (K : Constants)
    (top bottom d : Int) (l rt : Nat) (htop : 0 ≤ top) (hbot : bottom ≤ 2 ^ 31)
    (hl : l ≤ rt) :
    ∀ (fuel : Nat) (i : Int) (r t : Renderer F), rt ≤ r.grid_cols → i + fuel = bottom →
      ScrollRegion.loop K top bottom l rt d true (bottom - 1) 1 fuel i r = .ok t →
      ∃ rows : List Int,
        (∀ x, x ∈ rows ↔ top ≤ x ∧ x < bottom ∧ i ≤ x + d ∧ x + d < bottom) ∧
        rows.Pairwise (fun a b => a < b) ∧
        drawsOf t.calls = drawsOf r.calls ++
          rows.map (fun x => (((0 : Nat) : F), (x.toNat : F) * r.font_height)) ∧
        (layoutsOf t.calls).map some = (layoutsOf r.calls).map some ++
          rows.map (fun x => t.rowText x.toNat) ∧
        r.sameFrame t ∧
        ∀ row : Nat, (row : Int) ∉ rows → t.rowText row = r.rowText row := by
  intro fuel
  induction fuel with
  | zero =>
    intro i r t _ hfuel h
    have hi : i = bottom := by simpa using hfuel
    rw [ScrollRegion.loop] at h
    simp only [pure, Except.pure, Except.ok.injEq] at h
    subst h
    refine ⟨[], ?_, List.Pairwise.nil, by simp, by simp, sameFrame_refl r, fun _ _ => rfl⟩
    intro x
    simp only [List.not_mem_nil, false_iff]
    omega
  | succ fuel ih =>
    intro i r t hrt hfuel h
    have hguard : i ≤ bottom - 1 := by push_cast at hfuel; omega
    rw [ScrollRegion.loop] at h
    simp only [if_true, hguard] at h
    obtain ⟨r1, hrow, hloop⟩ := bind_eq_ok h
    clear h
    obtain ⟨hsf, hskip, hcopy, hkeep⟩ := ScrollRegion_row_trace K top bottom d l rt r r1 i htop
      hbot hl hrt hrow
    obtain ⟨rows, hmem, hord, hdraw, hlay, hsf1, hkeep1⟩ := ih (i + 1) r1 t
      (by rw [sameFrame_cols hsf]; exact hrt) (by push_cast at hfuel; omega) hloop
    by_cases hin : top ≤ i - d ∧ i - d < bottom
    · obtain ⟨hd1, text, ht1, hl1⟩ := hcopy hin
      have hcast : (((i - d).toNat : Nat) : Int) = i - d := by omega
      have hnot : (((i - d).toNat : Nat) : Int) ∉ rows := by
        rw [hcast, hmem]
        omega
      refine ⟨(i - d) :: rows, ?_, ?_, ?_, ?_, sameFrame_trans hsf hsf1, ?_⟩
      · intro x
        rw [List.mem_cons, hmem x]
        omega
      · rw [List.pairwise_cons]
        refine ⟨?_, hord⟩
        intro y hy
        have := (hmem y).mp hy
        omega
      · rw [hdraw, hd1, sameFrame_font_height hsf]
        simp
      · rw [hlay, hl1, List.map_cons, hkeep1 _ hnot, ht1]
        simp
      · intro row hrow'
        rw [List.mem_cons, not_or] at hrow'
        rw [hkeep1 row hrow'.2, hkeep row hrow'.1]
    · have e := hskip hin
      subst e
      refine ⟨rows, ?_, hord, hdraw, hlay, hsf1, hkeep1⟩
      intro x
      rw [hmem x]
      omega

/-- The loop of a scroll with a delta that is not positive, from the source row `i`
down: the rows drawn are the targets inside the region of the source rows from `i` down
to `top`, in falling order, each with the text it has at the end; the text of no other
row changes. -/
theorem ScrollRegion_loop_up_trace [NatCast F] [Add F] [Sub F] [Mul F] (K : Constants)
    (top bottom d : Int) (l rt : Nat) (htop : 0 ≤ top) (hbot : bottom ≤ 2 ^ 31)
    (hl : l ≤ rt) :
    ∀ (fuel : Nat) (i : Int) (r t : Renderer F), rt ≤ r.grid_cols → i - fuel = top - 1 →
      ScrollRegion.loop K top bottom l rt d false top (-1) fuel i r = .ok t →
      ∃ rows : List Int,
        (∀ x, x ∈ rows ↔ top ≤ x ∧ x < bottom ∧ top ≤ x + d ∧ x + d ≤ i) ∧
        rows.Pairwise (fun a b => b < a) ∧
        drawsOf t.calls = drawsOf r.calls ++
          rows.map (fun x => (((0 : Nat) : F), (x.toNat : F) * r.font_height)) ∧
        (layoutsOf t.calls).map some = (layoutsOf r.calls).map some ++
          rows.map (fun x => t.rowText x.toNat) ∧
        r.sameFrame t ∧
        ∀ row : Nat, (row : Int) ∉ rows → t.rowText row = r.rowText row := by
  intro fuel
  induction fuel with
  | zero =>
    intro i r t _ hfuel h
    have hi : i = top - 1 := by simpa using hfuel
    rw [ScrollRegion.loop] at h
    simp only [pure, Except.pure, Except.ok.injEq] at h
    subst h
    refine ⟨[], ?_, List.Pairwise.nil, by simp, by simp, sameFrame_refl r, fun _ _ => rfl⟩
    intro x
    simp only [List.not_mem_nil, false_iff]
    omega
  | succ fuel ih =>
    intro i r t hrt hfuel h
    have hguard : i ≥ top := by push_cast at hfuel; omega
    rw [ScrollRegion.loop] at h
    simp only [Bool.false_eq_true, if_false, hguard, if_true] at h
    obtain ⟨r1, hrow, hloop⟩ := bind_eq_ok h
    clear h
    obtain ⟨hsf, hskip, hcopy, hkeep⟩ := ScrollRegion_row_trace K top bottom d l rt r r1 i htop
      hbot hl hrt hrow
    obtain ⟨rows, hmem, hord, hdraw, hlay, hsf1, hkeep1⟩ := ih (i + -1) r1 t
      (by rw [sameFrame_cols hsf]; exact hrt) (by push_cast at hfuel; omega) hloop
    by_cases hin : top ≤ i - d ∧ i - d < bottom
    · obtain ⟨hd1, text, ht1, hl1⟩ := hcopy hin
      have hcast : (((i - d).toNat : Nat) : Int) = i - d := by omega
      have hnot : (((i - d).toNat : Nat) : Int) ∉ rows := by
        rw [hcast, hmem]
        omega
      refine ⟨(i - d) :: rows, ?_, ?_, ?_, ?_, sameFrame_trans hsf hsf1, ?_⟩
      · intro x
        rw [List.mem_cons, hmem x]
        omega
      · rw [List.pairwise_cons]
        refine ⟨?_, hord⟩
        intro y hy
        have := (hmem y).mp hy
        omega
      · rw [hdraw, hd1, sameFrame_font_height hsf]
        simp
      · rw [hlay, hl1, List.map_cons, hkeep1 _ hnot, ht1]
        simp
      · intro row hrow'
        rw [List.mem_cons, not_or] at hrow'
        rw [hkeep1 row hrow'.2, hkeep row hrow'.1]
    · have e := hskip hin
      subst e
      refine ⟨rows, ?_, hord, hdraw, hlay, hsf1, hkeep1⟩
      intro x
      rw [hmem x]
      omega

/-- C28: for a well-formed state and a `grid_scroll` whose region lies inside the grid
(`0 ≤ top ≤ bottom ≤ grid_rows`, `0 ≤ left ≤ right ≤ grid_cols`, column delta 0) and any
row delta `d`, `ScrollRegion` succeeds and the rows it redraws are, in order: the rows
`rows`, which are exactly the rows `x` with `top ≤ x < bottom` and `top ≤ x + d < bottom`
(the target rows that received content), each once, rising when `d > 0` and falling
otherwise; then `last`, the row `cursor.row - d` as an `int` when that lies in
`[0, grid_rows)` and nothing otherwise, where the `int` is `cursor.row - d` itself when
that is in the range of `int`.  Each redraw lays out the text the row has in the final
store: a target row is drawn after its cells were copied, and a cell of it between `left`
and `right` then holds what the cell `d` rows further held before. -/
theorem ScrollRegion_redraws [NatCast F] [Add F] [Sub F] [Mul F] (K : Constants)
    (r : Renderer F) (top bottom left right d : Int) (hwf : r.WF)
    (h1 : 0 ≤ top) (h2 : top ≤ bottom) (h3 : bottom ≤ r.grid_rows)
    (h4 : 0 ≤ left) (h5 : left ≤ right) (h6 : right ≤ r.grid_cols) :
    ∃ (t : Renderer F) (rows last : List Int),
      ScrollRegion K r top bottom left right d 0 = .ok t ∧
      (∀ x, x ∈ rows ↔ top ≤ x ∧ x < bottom ∧ top ≤ x + d ∧ x + d < bottom) ∧
      (0 < d → rows.Pairwise (fun a b => a < b)) ∧
      (d ≤ 0 → rows.Pairwise (fun a b => b < a)) ∧
      last = (if 0 ≤ toInt32 ((r.cursor.row : Int) - d) ∧
          toInt32 ((r.cursor.row : Int) - d) < r.grid_rows then
        [toInt32 ((r.cursor.row : Int) - d)] else []) ∧
      (-2 ^ 31 ≤ (r.cursor.row : Int) - d → (r.cursor.row : Int) - d < 2 ^ 31 →
        toInt32 ((r.cursor.row : Int) - d) = (r.cursor.row : Int) - d) ∧
      drawsOf t.calls = drawsOf r.calls ++
        (rows ++ last).map (fun x => (((0 : Nat) : F), (x.toNat : F) * r.font_height)) ∧
      (layoutsOf t.calls).map some = (layoutsOf r.calls).map some ++
        (rows ++ last).map (fun x => t.rowText x.toNat) ∧
      ∀ row col, row < r.grid_rows → col < r.grid_cols →
        t.cell row col =
          if top ≤ (row : Int) ∧ (row : Int) < bottom ∧ left ≤ (col : Int) ∧
              (col : Int) < right ∧ top ≤ (row : Int) + d ∧ (row : Int) + d < bottom then
            r.cell ((row : Int) + d).toNat col
          else r.cell row col := by
  obtain ⟨t, ht, _, _, hcell⟩ := ScrollRegion_cells K r top bottom left right d hwf
    h1 h2 h3 h4 h5 h6
  obtain ⟨l, rfl⟩ : ∃ l : Nat, left = l := ⟨left.toNat, by omega⟩
  obtain ⟨rt, rfl⟩ : ∃ rt : Nat, right = rt := ⟨right.toNat, by omega⟩
  have hl : l ≤ rt := by omega
  have hrt : rt ≤ r.grid_cols := by omega
  have hbot : bottom ≤ 2 ^ 31 := by
    obtain ⟨hcols, hsz, _, _⟩ := hwf
    have : r.grid_rows ≤ r.grid_rows * r.grid_cols := Nat.le_mul_of_pos_right _ hcols
    omega
  have hconv : -2 ^ 31 ≤ (r.cursor.row : Int) - d → (r.cursor.row : Int) - d < 2 ^ 31 →
      toInt32 ((r.cursor.row : Int) - d) = (r.cursor.row : Int) - d := by
    intro ha hb
    unfold toInt32
    omega
  have hfin : ∀ (r1 : Renderer F) (rows : List Int), r.sameFrame r1 →
      drawsOf r1.calls = drawsOf r.calls ++
        rows.map (fun x => (((0 : Nat) : F), (x.toNat : F) * r1.font_height)) →
      (layoutsOf r1.calls).map some = (layoutsOf r.calls).map some ++
        rows.map (fun x => r1.rowText x.toNat) →
      (if toInt32 ((r1.cursor.row : Int) - d) ≥ 0 ∧
            toInt32 ((r1.cursor.row : Int) - d) < r1.grid_rows then
          DrawGridLine K r1 (toInt32 ((r1.cursor.row : Int) - d)).toNat else pure r1) = .ok t →
      ∃ last : List Int,
        last = (if 0 ≤ toInt32 ((r.cursor.row : Int) - d) ∧
            toInt32 ((r.cursor.row : Int) - d) < r.grid_rows then
          [toInt32 ((r.cursor.row : Int) - d)] else []) ∧
        drawsOf t.calls = drawsOf r.calls ++
          (rows ++ last).map (fun x => (((0 : Nat) : F), (x.toNat : F) * r.font_height)) ∧
        (layoutsOf t.calls).map some = (layoutsOf r.calls).map some ++
          (rows ++ last).map (fun x => t.rowText x.toNat) := by
    intro r1 rows hsf hdraw hlay hlast
    rw [sameFrame_cursor hsf, sameFrame_rows hsf] at hlast
    rw [sameFrame_font_height hsf] at hdraw
    refine ⟨_, rfl, ?_⟩
    by_cases hc : 0 ≤ toInt32 ((r.cursor.row : Int) - d) ∧
        toInt32 ((r.cursor.row : Int) - d) < r.grid_rows
    · rw [if_pos hc] at hlast
      rw [if_pos hc]
      obtain ⟨hs, _, hd2, _⟩ := DrawGridLine_calls K r1 t _ hlast
      obtain ⟨text, ht1, _, ht2⟩ := DrawGridLine_layout K r1 t _ hlast
      have e : t.rowText = r1.rowText := funext (rowText_sameStore hs)
      constructor
      · rw [hd2, hdraw, sameFrame_font_height hsf]
        simp
      · rw [ht2, List.map_append, hlay, e]
        simp [ht1]
    · rw [if_neg hc] at hlast
      rw [if_neg hc]
      simp only [pure, Except.pure, Except.ok.injEq] at hlast
      subst hlast
      exact ⟨by simpa using hdraw, by simpa using hlay⟩
  have h := ht
  unfold ScrollRegion at h
  by_cases hd : 0 < d
  · have hdec : decide (d > 0) = true := by simpa using hd
    simp only [ne_eq, not_true_eq_false, if_false, hdec, if_true] at h
    obtain ⟨r1, hloop, hlast⟩ := bind_eq_ok h
    obtain ⟨rows, hmem, hord, hdraw, hlay, hsf, _⟩ := ScrollRegion_loop_down_trace K top bottom
      d l rt h1 hbot hl (bottom - top).toNat top r r1 hrt (by omega) hloop
    obtain ⟨last, hlast1, hdraw1, hlay1⟩ := hfin r1 rows hsf
      (by rw [sameFrame_font_height hsf]; exact hdraw) hlay hlast
    exact ⟨t, rows, last, ht, hmem, fun _ => hord, fun hn => absurd hd (by omega), hlast1,
      hconv, hdraw1, hlay1, hcell⟩
  · have hdec : decide (d > 0) = false := by simpa using hd
    simp only [ne_eq, not_true_eq_false, if_false, hdec, Bool.false_eq_true] at h
    obtain ⟨r1, hloop, hlast⟩ := bind_eq_ok h
    obtain ⟨rows, hmem, hord, hdraw, hlay, hsf, _⟩ := ScrollRegion_loop_up_trace K top bottom
      d l rt h1 hbot hl (bottom - top).toNat (bottom - 1) r r1 hrt (by omega) hloop
    obtain ⟨last, hlast1, hdraw1, hlay1⟩ := hfin r1 rows hsf
      (by rw [sameFrame_font_height hsf]; exact hdraw) hlay hlast
    refine ⟨t, rows, last, ht, ?_, fun hp => absurd hp hd, fun _ => hord, hlast1,
      hconv, hdraw1, hlay1, hcell⟩
    intro x
    rw [hmem x]
    omega

/-- Witness for C28: scrolling the whole sample grid by `-1` with the cursor on row 0
draws row 2 with the old text of row 1, then row 1 with the old text of row 0, then the
row 1 of the cursor again. -/
theorem ScrollRegion_redraws_witness :
    (∃ (t : Renderer Int) (rows last : List Int),
      ScrollRegion sampleConstants sampleRenderer 0 3 0 4 (-1) 0 = .ok t ∧
      (∀ x, x ∈ rows ↔ (0 : Int) ≤ x ∧ x < 3 ∧ (0 : Int) ≤ x + -1 ∧ x + -1 < 3) ∧
      (0 < (-1 : Int) → rows.Pairwise (fun a b => a < b)) ∧
      ((-1 : Int) ≤ 0 → rows.Pairwise (fun a b => b < a)) ∧
      last = (if 0 ≤ toInt32 ((sampleRenderer.cursor.row : Int) - -1) ∧
          toInt32 ((sampleRenderer.cursor.row : Int) - -1) < sampleRenderer.grid_rows then
        [toInt32 ((sampleRenderer.cursor.row : Int) - -1)] else []) ∧
      (-2 ^ 31 ≤ (sampleRenderer.cursor.row : Int) - -1 →
        (sampleRenderer.cursor.row : Int) - -1 < 2 ^ 31 →
        toInt32 ((sampleRenderer.cursor.row : Int) - -1) =
          (sampleRenderer.cursor.row : Int) - -1) ∧
      drawsOf t.calls = drawsOf sampleRenderer.calls ++
        (rows ++ last).map
          (fun x => (((0 : Nat) : Int), (x.toNat : Int) * sampleRenderer.font_height)) ∧
      (layoutsOf t.calls).map some = (layoutsOf sampleRenderer.calls).map some ++
        (rows ++ last).map (fun x => t.rowText x.toNat) ∧
      ∀ row col, row < sampleRenderer.grid_rows → col < sampleRenderer.grid_cols →
        t.cell row col =
          if (0 : Int) ≤ (row : Int) ∧ (row : Int) < 3 ∧ (0 : Int) ≤ (col : Int) ∧
              (col : Int) < 4 ∧ (0 : Int) ≤ (row : Int) + -1 ∧ (row : Int) + -1 < 3 then
            sampleRenderer.cell ((row : Int) + -1).toNat col
          else sampleRenderer.cell row col) ∧
    (ScrollRegion sampleConstants sampleRenderer 0 3 0 4 (-1) 0).map
        (fun t => (drawsOf t.calls, layoutsOf t.calls)) =
      .ok ([(0, 32), (0, 16), (0, 16)],
        [[101, 102, 103, 104], [97, 98, 99, 100], [97, 98, 99, 100]]) :=
  ⟨ScrollRegion_redraws sampleConstants sampleRenderer 0 3 0 4 (-1) sampleRenderer_WF
    (by decide) (by decide) (by decide) (by decide) (by decide) (by decide), by decide⟩

/-! ## Entries inside the grid -/

theorem cellsEnd_wide (c n : GridLineCell) (tl : List GridLineCell) (col : Nat)
    (hn : n.text = []) : cellsEnd (c :: n :: tl) col = cellsEnd (n :: tl) (col + 2) := by
  rw [cellsEnd]
  simp [hn]

theorem cellsEnd_skip (c : GridLineCell) (rest : List GridLineCell) (col : Nat)
    (hnext : ∀ n ∈ rest.head?, n.text ≠ []) (hc : c.text = []) :
    cellsEnd (c :: rest) col = cellsEnd rest col := by
  cases rest with
  | nil => simp [cellsEnd, hc]
  | cons n tl =>
    have hn : n.text ≠ [] := hnext n rfl
    rw [cellsEnd]
    simp [hn, hc]

theorem cellsEnd_run (c : GridLineCell) (rest : List GridLineCell) (col : Nat)
    (hnext : ∀ n ∈ rest.head?, n.text ≠ []) (hc : c.text ≠ []) :
    cellsEnd (c :: rest) col = cellsEnd rest (col + c.text.length * c.repeatCount) := by
  cases rest with
  | nil => simp [cellsEnd, hc]
  | cons n tl =>
    have hn : n.text ≠ [] := hnext n rfl
    rw [cellsEnd]
    simp [hn, hc]

theorem cellsEnd_le : ∀ (cells : List GridLineCell) (col : Nat), col ≤ cellsEnd cells col := by
  intro cells
  induction cells with
  | nil =>
    intro col
    exact le_refl _
  | cons c rest ih =>
    intro col
    by_cases hnext : ∀ n ∈ rest.head?, n.text ≠ []
    · by_cases hc : c.text = []
      · rw [cellsEnd_skip c rest col hnext hc]
        exact ih col
      · rw [cellsEnd_run c rest col hnext hc]
        exact le_trans (by omega) (ih _)
    · cases rest with
      | nil => simp at hnext
      | cons n tl =>
        have hn : n.text = [] := by simpa using hnext
        rw [cellsEnd_wide c n tl col hn]
        exact le_trans (by omega) (ih _)

/-- One round of the cell loop for an entry followed by an entry with an empty text. -/
theorem cellLoop_cons_wide (grid_cols grid_size row : Nat) (c n : GridLineCell)
    (tl : List GridLineCell) (col_offset hl : Nat) (chars : List Nat)
    (props : List CellProperty) (hn : n.text = []) :
    DrawGridLines.cellLoop grid_cols grid_size row (c :: n :: tl) col_offset hl chars props =
      (modifyAt props (row * grid_cols + col_offset)
        (fun p => { p with is_wide_char := true })).bind (fun p1 =>
      (modifyAt p1 (row * grid_cols + col_offset)
        (fun p => { p with hl_attrib_id := c.ints.head?.getD hl % 2 ^ 16 })).bind (fun p2 =>
      (modifyAt p2 (row * grid_cols + col_offset + 1)
        (fun p => { p with hl_attrib_id := c.ints.head?.getD hl % 2 ^ 16 })).bind (fun p3 =>
      (MultiByteToWideChar c.text chars (row * grid_cols + col_offset)
        ((grid_size : Int) - ((row * grid_cols + col_offset : Nat) : Int))).bind (fun v =>
        if v.1 = 1 ∨ v.1 = 2 then
          if v.1 = 1 then
            (writeAt v.2 (row * grid_cols + col_offset + 1) 0).bind (fun chars' =>
              DrawGridLines.cellLoop grid_cols grid_size row (n :: tl) (col_offset + 2)
                (c.ints.head?.getD hl) chars' p3)
          else
            DrawGridLines.cellLoop grid_cols grid_size row (n :: tl) (col_offset + 2)
              (c.ints.head?.getD hl) v.2 p3
        else .error .assertion)))) := by
  cases hi : c.ints <;>
    (rw [DrawGridLines.cellLoop]
     simp only [hi, hn, decide_True, if_true, List.head?_nil, List.head?_cons,
       Option.getD_none, Option.getD_some, bind]
     rfl)

/-- One round of the cell loop for an entry with an empty text that is not followed by
another one. -/
theorem cellLoop_cons_skip (grid_cols grid_size row : Nat) (c : GridLineCell)
    (rest : List GridLineCell) (col_offset hl : Nat) (chars : List Nat)
    (props : List CellProperty) (hnext : ∀ n ∈ rest.head?, n.text ≠ []) (hc : c.text = []) :
    DrawGridLines.cellLoop grid_cols grid_size row (c :: rest) col_offset hl chars props =
      DrawGridLines.cellLoop grid_cols grid_size row rest col_offset (c.ints.head?.getD hl)
        chars props := by
  cases rest with
  | nil =>
    cases hi : c.ints <;>
      simp [DrawGridLines.cellLoop, hi, hc]
  | cons n tl =>
    have hn : n.text ≠ [] := hnext n rfl
    cases hi : c.ints <;>
      simp [DrawGridLines.cellLoop, hi, hc, hn]

/-- One round of the cell loop for an entry with text whose successor, if any, has text
too. -/
theorem cellLoop_cons_text (grid_cols grid_size row : Nat) (c : GridLineCell)
    (rest : List GridLineCell) (col_offset hl : Nat) (chars : List Nat)
    (props : List CellProperty) (hnext : ∀ n ∈ rest.head?, n.text ≠ []) (hc : c.text ≠ []) :
    DrawGridLines.cellLoop grid_cols grid_size row (c :: rest) col_offset hl chars props =
      (DrawGridLines.repeatLoop c.text grid_size (row * grid_cols + col_offset)
        c.repeatCount 0 0 chars).bind (fun v =>
        (DrawGridLines.propLoop (c.ints.head?.getD hl) (row * grid_cols + col_offset)
          (v.1 * c.repeatCount) 0 props).bind (fun props' =>
          DrawGridLines.cellLoop grid_cols grid_size row rest
            (col_offset + v.1 * c.repeatCount) (c.ints.head?.getD hl) v.2 props')) := by
  cases rest with
  | nil =>
    cases hi : c.ints <;>
      simp [DrawGridLines.cellLoop, hi, hc, bind, GridLineCell.repeatCount]
  | cons n tl =>
    have hn : n.text ≠ [] := hnext n rfl
    cases hi : c.ints <;>
      simp [DrawGridLines.cellLoop, hi, hc, hn, bind, GridLineCell.repeatCount]

/-- The conversion stores inside the buffer whatever the text and the place: it returns 0
or the length of the text, and the buffer keeps its length. -/
theorem MultiByteToWideChar_inside (text chars : List Nat) (idx : Nat) :
    ∃ w chars', MultiByteToWideChar text chars idx ((chars.length : Int) - (idx : Int)) =
        .ok (w, chars') ∧ chars'.length = chars.length := by
  unfold MultiByteToWideChar
  split_ifs with h1 h2 h3
  · exact ⟨_, _, rfl, rfl⟩
  · exact ⟨_, _, rfl, rfl⟩
  · exact ⟨_, _, rfl, rfl⟩
  · have hfit : idx + text.length ≤ chars.length := by omega
    refine ⟨text.length, chars.take idx ++ text ++ chars.drop (idx + text.length), ?_,
      writeSlice_length chars text idx hfit⟩
    simp only [writeSlice, hfit, if_true, bind, Except.bind, pure, Except.pure]

theorem mem_of_getElem?_spec {α : Type} {xs ys : List α} {P : α → Prop}
    (hxs : ∀ p ∈ xs, P p)
    (hget : ∀ (idx : Nat) (p : α), ys[idx]? = some p → P p ∨ xs[idx]? = some p) : ∀ p ∈ ys, P p := by
  intro p hp
  obtain ⟨idx, hidx⟩ := List.getElem?_of_mem hp
  rcases hget idx p hidx with h | h
  · exact h
  · exact hxs p (List.mem_iff_getElem?.mpr ⟨idx, h⟩)

/-- The cell loop on entries that end inside row `row` of the grid and carry highlight
ids below `bound`: every access lies inside the buffers, so the loop returns both
buffers, of the length they had and with ids below `bound`, unless it stops at the
assertion on the length of a double-width text. -/
theorem cellLoop_inside (grid_cols grid_size row bound : Nat)
    (hrow : row * grid_cols + grid_cols ≤ grid_size) :
    ∀ (cells : List GridLineCell) (col_offset hl : Nat) (chars : List Nat)
      (props : List CellProperty), chars.length = grid_size → props.length = grid_size →
      cellsEnd cells col_offset ≤ grid_cols → hl % 2 ^ 16 < bound →
      (∀ c ∈ cells, ∀ id ∈ c.ints.head?, id % 2 ^ 16 < bound) →
      (∀ p ∈ props, p.hl_attrib_id < bound) →
      (∃ chars' props',
        DrawGridLines.cellLoop grid_cols grid_size row cells col_offset hl chars props =
          .ok (chars', props') ∧
        chars'.length = grid_size ∧ props'.length = grid_size ∧
        ∀ p ∈ props', p.hl_attrib_id < bound) ∨
      DrawGridLines.cellLoop grid_cols grid_size row cells col_offset hl chars props =
        .error .assertion := by
  intro cells
  induction cells with
  | nil =>
    intro col_offset hl chars props hcl hpl _ _ _ hprops
    exact Or.inl ⟨chars, props, rfl, hcl, hpl, hprops⟩
  | cons c rest ih =>
    intro col_offset hl chars props hcl hpl hend hhl hids hprops
    have hhl' : c.ints.head?.getD hl % 2 ^ 16 < bound := by
      cases hi : c.ints with
      | nil => simpa using hhl
      | cons id tl => simpa using hids c (List.mem_cons_self _ _) id (by rw [hi]; rfl)
    have hrest : ∀ c' ∈ rest, ∀ id ∈ c'.ints.head?, id % 2 ^ 16 < bound :=
      fun c' h => hids c' (List.mem_cons_of_mem _ h)
    by_cases hnext : ∀ n ∈ rest.head?, n.text ≠ []
    · by_cases hc : c.text = []
      · rw [cellLoop_cons_skip grid_cols grid_size row c rest col_offset hl chars props hnext hc]
        rw [cellsEnd_skip c rest col_offset hnext hc] at hend
        exact ih col_offset _ chars props hcl hpl hend hhl' hrest hprops
      · rw [cellLoop_cons_text grid_cols grid_size row c rest col_offset hl chars props hnext hc]
        rw [cellsEnd_run c rest col_offset hnext hc] at hend
        have hle := cellsEnd_le rest (col_offset + c.text.length * c.repeatCount)
        have hcomm : c.repeatCount * c.text.length = c.text.length * c.repeatCount :=
          Nat.mul_comm _ _
        obtain ⟨chars1, hrun1, hcl1, _⟩ := repeatLoop_spec c.text grid_size
          (row * grid_cols + col_offset) hc c.repeatCount 0 0 chars (Or.inl rfl)
          (by rw [Nat.zero_add, hcomm]; omega) hcl
        have hwidth : (if c.repeatCount = 0 then 0 else c.text.length) * c.repeatCount =
            c.text.length * c.repeatCount := by
          split_ifs with h0
          · rw [h0]; simp
          · rfl
        obtain ⟨props1, hrun2, hpl1, hget2⟩ := propLoop_spec (c.ints.head?.getD hl)
          (row * grid_cols + col_offset) (c.text.length * c.repeatCount) 0 props (by omega)
        have hprops1 : ∀ p ∈ props1, p.hl_attrib_id < bound := by
          refine mem_of_getElem?_spec hprops ?_
          intro idx p h
          rw [hget2 idx] at h
          split_ifs at h with hin
          · left
            simp only [Option.some.injEq] at h
            rw [← h]
            exact hhl'
          · exact Or.inr h
        rw [hrun1]
        simp only [Except.bind, hwidth, hrun2]
        exact ih _ _ chars1 props1 hcl1 (hpl1.trans hpl) hend hhl' hrest hprops1
    · cases rest with
      | nil => simp at hnext
      | cons n tl =>
        have hn : n.text = [] := by simpa using hnext
        rw [cellLoop_cons_wide grid_cols grid_size row c n tl col_offset hl chars props hn]
        rw [cellsEnd_wide c n tl col_offset hn] at hend
        have hle := cellsEnd_le (n :: tl) (col_offset + 2)
        obtain ⟨p1, p2, p3, hm1, hm2, hm3, hp3l, hp3⟩ := wide_props props
          (row * grid_cols + col_offset) (c.ints.head?.getD hl % 2 ^ 16) (by omega)
        have hp3ids : ∀ p ∈ p3, p.hl_attrib_id < bound := by
          refine mem_of_getElem?_spec hprops ?_
          intro idx p h
          rw [hp3 idx] at h
          split_ifs at h with e0 e1
          · left
            simp only [Option.some.injEq] at h
            rw [← h]
            exact hhl'
          · left
            simp only [Option.some.injEq] at h
            rw [← h]
            exact hhl'
          · exact Or.inr h
        obtain ⟨w, chars1, hmb, hcl1⟩ := MultiByteToWideChar_inside c.text chars
          (row * grid_cols + col_offset)
        rw [hcl] at hmb hcl1
        simp only [hm1, hm2, hm3, hmb, Except.bind]
        by_cases hw : w = 1 ∨ w = 2
        · rw [if_pos hw]
          by_cases h1 : w = 1
          · rw [if_pos h1]
            have hnext1 : chars1[row * grid_cols + col_offset + 1]? =
                some chars1[row * grid_cols + col_offset + 1] := by
              have : row * grid_cols + col_offset + 1 < chars1.length := by omega
              simp [this]
            rw [writeAt, modifyAt_eq _ hnext1]
            simp only []
            exact ih _ _ _ p3 (by rw [List.length_set]; exact hcl1) (hp3l.trans hpl) hend hhl'
              hrest hp3ids
          · rw [if_neg h1]
            exact ih _ _ chars1 p3 hcl1 (hp3l.trans hpl) hend hhl' hrest hp3ids
        · rw [if_neg hw]
          exact Or.inr rfl

/-- One entry of `grid_line` that lies inside the grid of a well-formed state, with
highlight ids of the table: it is stored and its row redrawn with every access inside
the buffers, unless the assertion on a double-width text stops the handler. -/
theorem DrawGridLines_line_inside [NatCast F] [Add F] [Sub F] [Mul F] (K : Constants)
    (r : Renderer F) (g : GridLine) (hwf : r.WF) (hin : g.inside r.grid_rows r.grid_cols)
    (hids : ∀ c ∈ g.cells, ∀ id ∈ c.ints.head?, id % 2 ^ 16 < r.hl_attribs.length) :
    (∃ t, DrawGridLines.line K r g = .ok t ∧ t.WF ∧ r.sameFrame t) ∨
    DrawGridLines.line K r g = .error .assertion := by
  obtain ⟨hcols, hsz, ⟨chars, hc, hcl⟩, ⟨props, hp, hpl, hpids⟩⟩ := hwf
  obtain ⟨hrow, hend⟩ := hin
  have hbase : g.row * r.grid_cols + r.grid_cols ≤ r.grid_cols * r.grid_rows := by
    have h : (g.row + 1) * r.grid_cols ≤ r.grid_rows * r.grid_cols :=
      Nat.mul_le_mul_right _ hrow
    rw [Nat.succ_mul, Nat.mul_comm r.grid_rows] at h
    exact h
  have hcomm : r.grid_rows * r.grid_cols = r.grid_cols * r.grid_rows := Nat.mul_comm _ _
  have hpos : 0 % 2 ^ 16 < r.hl_attribs.length := by
    have hlt : g.row * r.grid_cols < props.length := by omega
    exact lt_of_le_of_lt (Nat.zero_le _) (hpids _ (List.getElem_mem hlt))
  unfold DrawGridLines.line
  simp only [hc, hp, deref, bind, Except.bind]
  rcases cellLoop_inside r.grid_cols (r.grid_cols * r.grid_rows) g.row r.hl_attribs.length
      hbase g.cells g.col_start 0 chars props (by omega) (by omega) hend hpos hids hpids with
    ⟨chars', props', hrun, hcl', hpl', hids'⟩ | hrun
  · rw [hrun]
    simp only []
    have hwf' : ({ r with grid_chars := some chars', grid_cell_properties := some props' } :
        Renderer F).WF :=
      ⟨hcols, hsz, ⟨chars', rfl, by rw [hcl', hcomm]⟩, ⟨props', rfl, by rw [hpl', hcomm], hids'⟩⟩
    obtain ⟨t, ht, hst⟩ := DrawGridLine_ok K
      ({ r with grid_chars := some chars', grid_cell_properties := some props' } : Renderer F)
      g.row hwf' hrow
    refine Or.inl ⟨t, ht, WF_sameStore hst hwf', ?_⟩
    refine sameFrame_trans ?_ (sameFrame_of_sameStore hst)
    simp [Renderer.sameFrame]
  · rw [hrun]
    exact Or.inr rfl

/-- The entries of one `grid_line` event, all inside the grid `r0` has. -/
theorem DrawGridLines_fold_inside [NatCast F] [Add F] [Sub F] [Mul F] (K : Constants)
    (r0 : Renderer F) :
    ∀ (lines : List GridLine) (r : Renderer F), r.WF → r0.sameFrame r →
      (∀ g ∈ lines, g.inside r0.grid_rows r0.grid_cols ∧
        ∀ c ∈ g.cells, ∀ id ∈ c.ints.head?, id % 2 ^ 16 < r0.hl_attribs.length) →
      (∃ t, lines.foldlM (DrawGridLines.line K) r = .ok t ∧ t.WF ∧ r0.sameFrame t) ∨
      lines.foldlM (DrawGridLines.line K) r = .error .assertion := by
  intro lines
  induction lines with
  | nil =>
    intro r hwf hsf _
    exact Or.inl ⟨r, rfl, hwf, hsf⟩
  | cons g rest ih =>
    intro r hwf hsf hall
    obtain ⟨hin, hids⟩ := hall g (List.mem_cons_self _ _)
    rw [List.foldlM_cons]
    rcases DrawGridLines_line_inside K r g hwf
        (by rw [sameFrame_rows hsf, sameFrame_cols hsf]; exact hin)
        (by rw [sameFrame_hl hsf]; exact hids) with ⟨t, ht, hwft, hsft⟩ | herr
    · rw [ht]
      exact ih t hwft (sameFrame_trans hsf hsft)
        (fun g' hg' => hall g' (List.mem_cons_of_mem _ hg'))
    · rw [herr]
      exact Or.inr rfl

/-- C21: where the handlers stay inside the buffers, and where they do not.  Neither
handler compares an event with the size of the grid.  On a well-formed state, a
`grid_line` event whose entries all lie inside the grid (row below the row count, cells
ending at or before the column count) and carry highlight ids of the table is handled
with every access inside the buffers: `DrawGridLines` returns a well-formed state of the
same size, or stops at the assertion on a double-width text, and never accesses a cell
outside `[0, rows * cols)`; and a `grid_scroll` event whose region lies inside the grid
(`0 ≤ top ≤ bottom ≤ grid_rows`, `0 ≤ left ≤ right ≤ grid_cols`) is handled by
`ScrollRegion` with every access inside the buffers, for any row delta.  Events that
reach beyond the grid are handled like the others and leave the buffers: on the sample
grid of 3 rows and 4 columns, an entry for row 3, the row count; an entry that starts at
column 3 of the last row and repeats its character twice, so reaches column 4; and a
scroll of the rows 0 to 3 each access a cell at or beyond index 12. -/
theorem grid_access_inside [NatCast F] [Add F] [Sub F] [Mul F] (K : Constants)
    (r : Renderer F) (hwf : r.WF) :
    (∀ lines : List GridLine,
      (∀ g ∈ lines, g.inside r.grid_rows r.grid_cols ∧
        ∀ c ∈ g.cells, ∀ id ∈ c.ints.head?, id % 2 ^ 16 < r.hl_attribs.length) →
      ((∃ t, DrawGridLines K r lines = .ok t ∧ t.WF ∧ r.sameFrame t) ∨
        DrawGridLines K r lines = .error .assertion) ∧
      DrawGridLines K r lines ≠ .error .invalidAccess) ∧
    (∀ top bottom left right d : Int, 0 ≤ top → top ≤ bottom → bottom ≤ r.grid_rows →
      0 ≤ left → left ≤ right → right ≤ r.grid_cols →
      ∃ t, ScrollRegion K r top bottom left right d 0 = .ok t ∧ t.WF ∧ r.sameFrame t) ∧
    (sampleRenderer.WF ∧ sampleRenderer.grid_rows = 3 ∧ sampleRenderer.grid_cols = 4 ∧
      (DrawGridLines sampleConstants sampleRenderer [⟨3, 0, [⟨[120], [1]⟩]⟩]).map
          (fun t => t.grid_chars) = .error .invalidAccess ∧
      (DrawGridLines sampleConstants sampleRenderer [⟨2, 3, [⟨[120], [1, 2]⟩]⟩]).map
          (fun t => t.grid_chars) = .error .invalidAccess ∧
      (ScrollRegion sampleConstants sampleRenderer 0 4 0 4 1 0).map
          (fun t => t.grid_chars) = .error .invalidAccess) := by
  refine ⟨?_, ?_, sampleRenderer_WF, rfl, rfl, by decide, by decide, by decide⟩
  · intro lines hall
    have hsome : ¬ (r.grid_chars = none ∨ r.grid_cell_properties = none) := by
      obtain ⟨_, _, ⟨chars, hc, _⟩, ⟨props, hp, _, _⟩⟩ := hwf
      rw [hc, hp]
      simp
    have h := DrawGridLines_fold_inside K r lines r hwf (sameFrame_refl r) hall
    unfold DrawGridLines
    rw [if_neg hsome]
    refine ⟨h, ?_⟩
    rcases h with ⟨t, ht, _⟩ | herr
    · rw [ht]
      exact fun hn => by cases hn
    · rw [herr]
      exact fun hn => by cases hn
  · intro top bottom left right d h1 h2 h3 h4 h5 h6
    obtain ⟨t, ht, hwft, hsft, _⟩ := ScrollRegion_cells K r top bottom left right d hwf
      h1 h2 h3 h4 h5 h6
    exact ⟨t, ht, hwft, hsft⟩

/-- Witness for C21: `x` twice at column 1 of row 1 of the sample grid under highlight
id 2 is stored, and the whole sample grid is scrolled by one row. -/
theorem grid_access_inside_witness :
    (((∃ t, DrawGridLines sampleConstants sampleRenderer [⟨1, 1, [⟨[120], [2, 2]⟩]⟩] = .ok t ∧
        t.WF ∧ sampleRenderer.sameFrame t) ∨
      DrawGridLines sampleConstants sampleRenderer [⟨1, 1, [⟨[120], [2, 2]⟩]⟩] =
        .error .assertion) ∧
      DrawGridLines sampleConstants sampleRenderer [⟨1, 1, [⟨[120], [2, 2]⟩]⟩] ≠
        .error .invalidAccess) ∧
    (∃ t, ScrollRegion sampleConstants sampleRenderer 0 3 0 4 1 0 = .ok t ∧ t.WF ∧
      sampleRenderer.sameFrame t) ∧
    (DrawGridLines sampleConstants sampleRenderer [⟨1, 1, [⟨[120], [2, 2]⟩]⟩]).map
        (fun t => t.grid_chars) =
      .ok (some [97, 98, 99, 100, 101, 120, 120, 104, 105, 106, 107, 108]) :=
  ⟨(grid_access_inside sampleConstants sampleRenderer sampleRenderer_WF).1
      [⟨1, 1, [⟨[120], [2, 2]⟩]⟩] (by
        intro g hg
        rw [List.mem_singleton] at hg
        subst hg
        refine ⟨⟨by decide, by decide⟩, ?_⟩
        intro c hc
        rw [List.mem_singleton] at hc
        subst hc
        intro id hid
        cases hid
        decide),
    (grid_access_inside sampleConstants sampleRenderer sampleRenderer_WF).2.1 0 3 0 4 1
      (by decide) (by decide) (by decide) (by decide) (by decide) (by decide),
    by decide⟩

/-! ## Scrolling there and back -/

/-- C31: on a well-formed state, for a region inside the grid and `0 < N ≤ bottom - top`,
`ScrollRegion` with `rows = N` and then with `rows = -N` both succeed, and afterwards
every cell of the rows `top + N` to `bottom - 1` equals the cell of the state before, as
does every cell outside the region; a cell of the region in the rows `top` to
`top + N - 1` holds what the first scroll left there, the cell `N` rows further down of
the state before when that row lies in the region. -/
theorem ScrollRegion_restores_overlap [NatCast F] [Add F] [Sub F] [Mul F] (K : Constants)
    (r : Renderer F) (top bottom left right N : Int) (hwf : r.WF)
    (h1 : 0 ≤ top) (h3 : bottom ≤ r.grid_rows) (h4 : 0 ≤ left) (h5 : left ≤ right)
    (h6 : right ≤ r.grid_cols) (hN : 0 < N) (hN2 : N ≤ bottom - top) :
    ∃ r1 r2, ScrollRegion K r top bottom left right N 0 = .ok r1 ∧
      ScrollRegion K r1 top bottom left right (-N) 0 = .ok r2 ∧
      r.sameFrame r2 ∧
      (∀ row col, row < r.grid_rows → col < r.grid_cols →
        top + N ≤ (row : Int) → (row : Int) < bottom → r2.cell row col = r.cell row col) ∧
      (∀ row col, row < r.grid_rows → col < r.grid_cols →
        ¬ (top ≤ (row : Int) ∧ (row : Int) < bottom ∧ left ≤ (col : Int) ∧ (col : Int) < right) →
        r2.cell row col = r.cell row col) ∧
      (∀ row col, row < r.grid_rows → col < r.grid_cols →
        top ≤ (row : Int) → (row : Int) < top + N → left ≤ (col : Int) → (col : Int) < right →
        r2.cell row col =
          if (row : Int) + N < bottom then r.cell ((row : Int) + N).toNat col
          else r.cell row col) := by
  obtain ⟨r1, hr1, hwf1, hsf1, hcell1⟩ := ScrollRegion_cells K r top bottom left right N hwf
    h1 (by omega) h3 h4 h5 h6
  have hrows := sameFrame_rows hsf1
  have hcols := sameFrame_cols hsf1
  obtain ⟨r2, hr2, _, hsf2, hcell2⟩ := ScrollRegion_cells K r1 top bottom left right (-N) hwf1
    h1 (by omega) (by rw [hrows]; exact h3) h4 h5 (by rw [hcols]; exact h6)
  refine ⟨r1, r2, hr1, hr2, sameFrame_trans hsf1 hsf2, ?_, ?_, ?_⟩
  · intro row col hrow hcol ht hb
    rw [hcell2 row col (by rw [hrows]; exact hrow) (by rw [hcols]; exact hcol)]
    by_cases hc : left ≤ (col : Int) ∧ (col : Int) < right
    · rw [if_pos (by omega), hcell1 _ col (by omega) hcol, if_pos (by omega)]
      have e : ((((row : Int) + -N).toNat : Nat) : Int) + N = row := by omega
      rw [e, Int.toNat_ofNat]
    · rw [if_neg (by omega), hcell1 row col hrow hcol, if_neg (by omega)]
  · intro row col hrow hcol hout
    rw [hcell2 row col (by rw [hrows]; exact hrow) (by rw [hcols]; exact hcol),
      if_neg (by omega), hcell1 row col hrow hcol, if_neg (by omega)]
  · intro row col hrow hcol ht hb hl hr
    rw [hcell2 row col (by rw [hrows]; exact hrow) (by rw [hcols]; exact hcol),
      if_neg (by omega), hcell1 row col hrow hcol]
    by_cases hc : (row : Int) + N < bottom
    · rw [if_pos (by omega), if_pos hc]
    · rw [if_neg (by omega), if_neg hc]

/-- Witness for C31: the columns 1 and 2 of the sample grid scrolled by 1 and by -1;
rows 1 and 2 are what they were, and so is column 3 of row 0. -/
theorem ScrollRegion_restores_overlap_witness :
    ∃ r1 r2, ScrollRegion sampleConstants sampleRenderer 0 3 1 3 1 0 = .ok r1 ∧
      ScrollRegion sampleConstants r1 0 3 1 3 (-1) 0 = .ok r2 ∧
      r2.cell 1 1 = sampleRenderer.cell 1 1 ∧ r2.cell 2 2 = sampleRenderer.cell 2 2 ∧
      r2.cell 0 3 = sampleRenderer.cell 0 3 ∧ r2.cell 0 1 = some ⟨102, 2, false⟩ := by
  obtain ⟨r1, r2, a, b, _, c, d, e⟩ := ScrollRegion_restores_overlap sampleConstants
    sampleRenderer 0 3 1 3 1 sampleRenderer_WF (by decide) (by decide) (by decide) (by decide)
    (by decide) (by decide) (by decide)
  refine ⟨r1, r2, a, b, c 1 1 (by decide) (by decide) (by decide) (by decide),
    c 2 2 (by decide) (by decide) (by decide) (by decide),
    d 0 3 (by decide) (by decide) (by decide), ?_⟩
  rw [e 0 1 (by decide) (by decide) (by decide) (by decide) (by decide) (by decide)]
  decide

/-! ## The shape of a cursor mode: claim C35 -/

/-- For strings without a null character, `strncmp` over the length of the first string
tests whether it is a prefix of the second. -/
theorem strncmpEq_prefix : ∀ (s lit : List Nat), (∀ c ∈ s, c ≠ 0) →
    (strncmpEq s lit s.length = true ↔ s <+: lit) := by
  intro s
  induction s with
  | nil =>
    intro lit _
    simp [strncmpEq]
  | cons c s ih =>
    intro lit hs
    have hc : c ≠ 0 := hs c (List.mem_cons_self _ _)
    have hs' : ∀ x ∈ s, x ≠ 0 := fun x hx => hs x (List.mem_cons_of_mem _ hx)
    cases lit with
    | nil => simp [strncmpEq, hc]
    | cons d lit =>
      simp only [List.length_cons, strncmpEq, Bool.and_eq_true, Bool.or_eq_true, beq_iff_eq,
        hc, false_or, ih lit hs', List.cons_prefix_cons]

theorem prefix_head {s lit : List Nat} {d e : Nat} (h1 : s <+: d :: lit) (h2 : s ≠ [])
    (h3 : d ≠ e) (lit' : List Nat) : ¬ s <+: e :: lit' := by
  cases s with
  | nil => exact absurd rfl h2
  | cons c s =>
    rw [List.cons_prefix_cons] at h1 ⊢
    intro h
    exact h3 (h1.1.symm.trans h.1)

/-- The shape that the three comparisons of `UpdateCursorModeInfos` select for a string
without a null character. -/
theorem shape_of_prefix (s : List Nat) (hs : ∀ c ∈ s, c ≠ 0) (attr_id : Option Nat) :
    ((cursorModeInfoOf ⟨some s, attr_id⟩).shape = .Block ↔ s <+: ascii "block") ∧
    ((cursorModeInfoOf ⟨some s, attr_id⟩).shape = .Vertical ↔
      s ≠ [] ∧ s <+: ascii "vertical") ∧
    ((cursorModeInfoOf ⟨some s, attr_id⟩).shape = .Horizontal ↔
      s ≠ [] ∧ s <+: ascii "horizontal") ∧
    ((cursorModeInfoOf ⟨some s, attr_id⟩).shape = .None ↔
      ¬ s <+: ascii "block" ∧ ¬ s <+: ascii "vertical" ∧ ¬ s <+: ascii "horizontal") := by
  have hb : ascii "block" = [98, 108, 111, 99, 107] := by decide
  have hv : ascii "vertical" = [118, 101, 114, 116, 105, 99, 97, 108] := by decide
  have hh : ascii "horizontal" = [104, 111, 114, 105, 122, 111, 110, 116, 97, 108] := by decide
  have e1 := strncmpEq_prefix s (ascii "block") hs
  have e2 := strncmpEq_prefix s (ascii "vertical") hs
  have e3 := strncmpEq_prefix s (ascii "horizontal") hs
  have hnil : s = [] → s <+: ascii "block" := fun h => by rw [h]; exact List.nil_prefix
  have n1 : s ≠ [] → s <+: ascii "vertical" → ¬ s <+: ascii "block" := by
    intro h0 h
    rw [hv] at h
    rw [hb]
    exact prefix_head h h0 (by decide) _
  have n2 : s ≠ [] → s <+: ascii "horizontal" → ¬ s <+: ascii "block" := by
    intro h0 h
    rw [hh] at h
    rw [hb]
    exact prefix_head h h0 (by decide) _
  have n3 : s ≠ [] → s <+: ascii "horizontal" → ¬ s <+: ascii "vertical" := by
    intro h0 h
    rw [hh] at h
    rw [hv]
    exact prefix_head h h0 (by decide) _
  simp only [cursorModeInfoOf]
  by_cases a : s <+: ascii "block"
  · rw [if_pos (e1.mpr a)]
    refine ⟨by simp [a], ?_, ?_, by simp [a]⟩
    · exact ⟨fun h => (by cases h), fun h => absurd a (n1 h.1 h.2)⟩
    · exact ⟨fun h => (by cases h), fun h => absurd a (n2 h.1 h.2)⟩
  · have h0 : s ≠ [] := fun h => a (hnil h)
    rw [if_neg (fun h => a (e1.mp h))]
    by_cases b : s <+: ascii "vertical"
    · rw [if_pos (e2.mpr b)]
      refine ⟨by simp [a], by simp [h0, b], ?_, by simp [b]⟩
      exact ⟨fun h => (by cases h), fun h => absurd b (n3 h.1 h.2)⟩
    · rw [if_neg (fun h => b (e2.mp h))]
      by_cases c : s <+: ascii "horizontal"
      · rw [if_pos (e3.mpr c)]
        exact ⟨by simp [a], by simp [b], by simp [h0, c], by simp [c]⟩
      · rw [if_neg (fun h => c (e3.mp h))]
        exact ⟨by simp [a], by simp [b], by simp [c], by simp [a, b, c]⟩

/-- C35: the shape that `UpdateCursorModeInfos` selects.  A `mode_info_set` event with
not more maps than `MAX_CURSOR_MODE_INFOS` and than the table has entries is handled,
and entry `i` of the table takes its shape from the `i`-th map: `None` when the key `cursor_shape` is absent,
and for a string `s` without a null character `Block` exactly when `s` is a prefix of
`block` (the empty string and `block` itself included), `Vertical` exactly when `s` is a
non-empty prefix of `vertical`, `Horizontal` exactly when `s` is a non-empty prefix of
`horizontal`, and `None` exactly when `s` is a prefix of none of the three names.  The
older renderer selects the same shape. -/
theorem UpdateCursorModeInfos_shape [LinearOrderedField F] [FloorRing F] (K : Constants)
    (r : Renderer F) (mode_infos : List ModeInfoMap) (i : Nat) (m : ModeInfoMap)
    (h1 : mode_infos.length ≤ K.MAX_CURSOR_MODE_INFOS)
    (h2 : mode_infos.length ≤ r.cursor_mode_infos.length) (hm : mode_infos[i]? = some m) :
    ∃ t info, UpdateCursorModeInfos K r mode_infos = .ok t ∧
      t.cursor_mode_infos[i]? = some info ∧
      (m.cursor_shape = none → info.shape = .None) ∧
      (∀ s, m.cursor_shape = some s → (∀ c ∈ s, c ≠ 0) →
        (info.shape = .Block ↔ s <+: ascii "block") ∧
        (info.shape = .Vertical ↔ s ≠ [] ∧ s <+: ascii "vertical") ∧
        (info.shape = .Horizontal ↔ s ≠ [] ∧ s <+: ascii "horizontal") ∧
        (info.shape = .None ↔
          ¬ s <+: ascii "block" ∧ ¬ s <+: ascii "vertical" ∧ ¬ s <+: ascii "horizontal")) ∧
      ∀ cell_percentage : Option Int,
        (Legacy.cursorModeInfoOf ⟨m.cursor_shape, cell_percentage, m.attr_id⟩ :
          Legacy.CursorModeInfo F).shape = info.shape := by
  obtain ⟨out, e1, _, e3⟩ := UpdateCursorModeInfos_loop_spec mode_infos 0
    r.cursor_mode_infos (by omega)
  have hi : i < mode_infos.length := by
    by_contra hn
    rw [List.getElem?_eq_none (by omega)] at hm
    cases hm
  refine ⟨{ r with cursor_mode_infos := out }, cursorModeInfoOf m, ?_, ?_, ?_, ?_, ?_⟩
  · unfold UpdateCursorModeInfos
    rw [if_pos h1, e1]
    rfl
  · show out[i]? = _
    rw [e3 i, if_pos (by omega), Nat.sub_zero, hm]
    rfl
  · intro hnone
    cases m with
    | mk shape attr_id =>
      simp only at hnone
      rw [hnone]
      rfl
  · intro s hsome hs
    cases m with
    | mk shape attr_id =>
      simp only at hsome
      rw [hsome]
      exact shape_of_prefix s hs attr_id
  · intro cell_percentage
    rfl

/-- Witness for C35: the map with the shape `vertical` as entry 1 of two maps
on the sample table gives entry 1 the shape `Vertical`. -/
theorem UpdateCursorModeInfos_shape_witness :
    ∃ t info, UpdateCursorModeInfos sampleConstants sampleCursorRendererQ
        [⟨none, none⟩, ⟨some (ascii "vertical"), some 2⟩] = .ok t ∧
      t.cursor_mode_infos[1]? = some info ∧ info.shape = .Vertical := by
  obtain ⟨t, info, a, b, _, c, _⟩ := UpdateCursorModeInfos_shape sampleConstants
    sampleCursorRendererQ [⟨none, none⟩, ⟨some (ascii "vertical"), some 2⟩] 1
    ⟨some (ascii "vertical"), some 2⟩ (by decide) (by decide) rfl
  exact ⟨t, info, a, b, (c (ascii "vertical") rfl (by decide)).2.1.mpr
    ⟨by decide, List.prefix_refl _⟩⟩

/-- C35 at the failing inputs: the empty string and the string `bl` give the shape
`Block`, the string `v` gives `Vertical` and the string `hor` gives `Horizontal`, in both
renderers, where only the whole names are meant to select a shape. -/
theorem UpdateCursorModeInfos_prefixes :
    (cursorModeInfoOf ⟨some (ascii ""), none⟩).shape = .Block ∧
    (cursorModeInfoOf ⟨some (ascii "bl"), none⟩).shape = .Block ∧
    (cursorModeInfoOf ⟨some (ascii "v"), none⟩).shape = .Vertical ∧
    (cursorModeInfoOf ⟨some (ascii "hor"), none⟩).shape = .Horizontal ∧
    (Legacy.cursorModeInfoOf ⟨some (ascii ""), none, none⟩ : Legacy.CursorModeInfo ℚ).shape =
      .Block ∧
    (Legacy.cursorModeInfoOf ⟨some (ascii "v"), none, none⟩ : Legacy.CursorModeInfo ℚ).shape =
      .Vertical ∧
    (UpdateCursorModeInfos sampleConstants sampleCursorRendererQ [⟨some (ascii ""), none⟩]).map
        (fun t => t.cursor_mode_infos[0]?) = .ok (some ⟨.Block, 0⟩) := by
  refine ⟨by decide, by decide, by decide, by decide, by decide, by decide, ?_⟩
  decide!

/-! ## The copy of a fixed-size array: claim C37 -/

theorem copy_inner {size n : Nat} (a : Common.Array size n) :
    a.copy.inner = a.inner.take n ++ List.replicate (n * size - n) none := by
  simp [Common.Array.copy, Common.memcpy]

/-- C37: what the copy constructor of `Array<T, n>` gives for a type `T` of `size`
bytes.  It copies `n` bytes, not `n` elements: an element that ends within the first `n`
bytes equals the element of the source, and every other element has a byte that was
never written, so for `size > 1` the copy is not element-wise equal to the source; for
`size = 1` every element is copied.  For `Array<uint32_t, 4>` holding 1, 2, 3, 4 the
copy has element 0 equal to 1 and the elements 1, 2 and 3 wholly indeterminate. -/
theorem Array_copy_elements (size n : Nat) (a : Common.Array size n)
    (hlen : a.inner.length = n * size) :
    (∀ i, (i + 1) * size ≤ n → a.copy.get i = a.get i) ∧
    (∀ i, i < n → n < (i + 1) * size → none ∈ a.copy.get i) ∧
    (size = 1 → ∀ i, i < n → a.copy.get i = a.get i) ∧
    (Common.Array.ofValues 4 [1, 2, 3, 4]).copy.get 0 =
      (Common.Array.ofValues 4 [1, 2, 3, 4]).get 0 ∧
    (Common.Array.ofValues 4 [1, 2, 3, 4]).get 1 = [some 2, some 0, some 0, some 0] ∧
    (Common.Array.ofValues 4 [1, 2, 3, 4]).copy.get 1 = [none, none, none, none] := by
  have first : ∀ i, (i + 1) * size ≤ n → a.copy.get i = a.get i := by
    intro i hi
    have hi' : i * size + size ≤ n := by rw [Nat.succ_mul] at hi; exact hi
    unfold Common.Array.get
    rw [copy_inner]
    apply List.ext_getElem?
    intro k
    rw [List.getElem?_take, List.getElem?_take]
    by_cases hk : k < size
    · have hnn : n ≤ a.inner.length := by
        rw [hlen]
        exact Nat.le_mul_of_pos_right n (by omega)
      rw [if_pos hk, if_pos hk, List.getElem?_drop, List.getElem?_drop,
        List.getElem?_append_left (by rw [List.length_take]; omega), List.getElem?_take,
        if_pos (by omega)]
    · rw [if_neg hk, if_neg hk]
  refine ⟨first, ?_, ?_, by decide, by decide, by decide⟩
  · intro i hi hn
    have hle : (i + 1) * size ≤ n * size := Nat.mul_le_mul_right _ hi
    rw [Nat.succ_mul] at hn hle
    have hpos : 0 < size := by
      rcases Nat.eq_zero_or_pos size with h | h
      · rw [h] at hn; omega
      · exact h
    have hnn : n ≤ a.inner.length := by
      rw [hlen]
      exact Nat.le_mul_of_pos_right n hpos
    have hlen2 : a.inner.length = n * size := hlen
    rw [List.mem_iff_getElem?]
    refine ⟨size - 1, ?_⟩
    unfold Common.Array.get
    rw [copy_inner, List.getElem?_take, if_pos (by omega), List.getElem?_drop,
      List.getElem?_append_right (by rw [List.length_take]; omega), List.length_take,
      List.getElem?_replicate, if_pos (by omega)]
  · intro h1 i hi
    exact first i (by rw [h1]; omega)

/-- Witness for C37: the array of the four 32-bit numbers 1, 2, 3, 4. -/
theorem Array_copy_elements_witness :
    (Common.Array.ofValues 4 [1, 2, 3, 4]).copy.get 0 =
      (Common.Array.ofValues 4 [1, 2, 3, 4]).get 0 ∧
    none ∈ (Common.Array.ofValues 4 [1, 2, 3, 4]).copy.get 3 ∧
    (Common.Array.ofValues 1 [7, 8, 9]).copy.get 2 = (Common.Array.ofValues 1 [7, 8, 9]).get 2 :=
  ⟨(Array_copy_elements 4 4 (Common.Array.ofValues 4 [1, 2, 3, 4]) (by decide)).1 0
      (by decide),
    (Array_copy_elements 4 4 (Common.Array.ofValues 4 [1, 2, 3, 4]) (by decide)).2.1 3
      (by decide) (by decide),
    (Array_copy_elements 1 3 (Common.Array.ofValues 1 [7, 8, 9]) (by decide)).2.2.1 rfl 2
      (by decide)⟩

/-! ## Drawing inside the frame: claim C36 -/

theorem drawsInFrame_quiet (new rest : List (DrawCall F))
    (h : ∀ c ∈ new, c.kind = .draw ∨ c.kind = .window) :
    drawsInFrame true (new ++ rest) = drawsInFrame true rest := by
  induction new with
  | nil => rfl
  | cons c new ih =>
    have hc := h c (List.mem_cons_self _ _)
    have ih' := ih (fun x hx => h x (List.mem_cons_of_mem _ hx))
    rw [List.cons_append]
    cases c <;> simp [drawsInFrame, DrawCall.kind] at hc ⊢ <;> exact ih'

theorem StartDraw_frame (r : Renderer F) (rest : List (DrawCall F)) :
    ∃ start, (StartDraw r).calls = r.calls ++ start ∧
      drawsInFrame r.draw_active (start ++ rest) = drawsInFrame true rest := by
  unfold StartDraw
  cases h : r.draw_active
  · refine ⟨[.WaitForSingleObjectEx, .SetTarget r.res.d2d_target_bitmap, .BeginDraw,
      .SetTransform], by simp [Renderer.emit], ?_⟩
    simp [drawsInFrame, DrawCall.kind]
  · exact ⟨[], by simp, rfl⟩

theorem FinishDraw_frame (env : Env) (r : Renderer F) :
    ∃ finish, (FinishDraw env r).calls = r.calls ++ finish ∧
      drawsInFrame true finish = true := by
  obtain ⟨_, _, _, _, _, _, _, _, _, h⟩ := FinishDraw_calls env r
  refine ⟨_, by rw [h, List.append_assoc], ?_⟩
  split_ifs <;> simp [drawsInFrame, DrawCall.kind]

/-- One event handled while the frame is open: the calls it adds are inside the frame,
whatever follows a `flush` apart. -/
theorem command_in_frame [LinearOrderedField F] [FloorRing F] (K : Constants)
    (KF : FloatConstants F) (env : Env) (r t : Renderer F) (cmd : RedrawCommand)
    (h : RendererRedraw.command K KF env r cmd = .ok t) :
    ∃ new, t.calls = r.calls ++ new ∧ drawsInFrame true new = true ∧
      (cmd.name ≠ "flush" → t.draw_active = r.draw_active ∧
        ∀ rest, drawsInFrame true (new ++ rest) = drawsInFrame true rest) := by
  by_cases hf : cmd.name = "flush"
  · obtain ⟨r0, r1, h0, h1, h2⟩ := command_flush_steps K KF env r t cmd hf h
    have s0 : r.added (fun c => c.kind = .draw) r0 := by
      cases hb : r.ui_busy with
      | false =>
        rw [hb] at h0
        simp only [Bool.false_eq_true, if_false] at h0
        exact (DrawCursor_frame K r r0 h0).2.1
      | true =>
        rw [hb] at h0
        simp only [if_true] at h0
        rw [h0]
        exact added_refl _ r
    obtain ⟨n0, e0, p0⟩ := s0
    obtain ⟨n1, e1, p1⟩ := (DrawBorderRectangles_frame K r0 r1 h1).2.1
    obtain ⟨fin, e2, p2⟩ := FinishDraw_frame env r1
    refine ⟨n0 ++ (n1 ++ fin), ?_, ?_, fun hn => absurd hf hn⟩
    · rw [h2, e2, e1, e0]
      simp only [List.append_assoc]
    · rw [drawsInFrame_quiet n0 _ (fun c hc => Or.inl (p0 c hc)),
        drawsInFrame_quiet n1 _ (fun c hc => Or.inl (p1 c hc))]
      exact p2
  · obtain ⟨a, ⟨new, e, p⟩, _⟩ := command_quiet K KF env r t cmd h hf
    refine ⟨new, e, ?_, fun _ => ⟨a, fun rest => drawsInFrame_quiet new rest p⟩⟩
    have := drawsInFrame_quiet new [] p
    rw [List.append_nil] at this
    rw [this]
    rfl

/-- Events among which only the last may be a `flush`, handled from a record whose frame
is open: every call added is inside the frame. -/
theorem loop_in_frame [LinearOrderedField F] [FloorRing F] (K : Constants)
    (KF : FloatConstants F) (env : Nat → Env) (events : List RedrawCommand) :
    ∀ (i : Nat) (r t : Renderer F), (∀ e ∈ events.dropLast, e.name ≠ "flush") →
      RendererRedraw.loop K KF env events i r = .ok t →
      ∃ new, t.calls = r.calls ++ new ∧ drawsInFrame true new = true := by
  induction events with
  | nil =>
    intro i r t _ h
    simp only [RendererRedraw.loop, pure, Except.pure, Except.ok.injEq] at h
    rw [← h]
    exact ⟨[], by simp, rfl⟩
  | cons x rest ih =>
    intro i r t hne h
    simp only [RendererRedraw.loop] at h
    obtain ⟨s, h1, h2⟩ := bind_eq_ok h
    obtain ⟨n1, e1, p1, q1⟩ := command_in_frame K KF (env i) r s x h1
    cases rest with
    | nil =>
      simp only [RendererRedraw.loop, pure, Except.pure, Except.ok.injEq] at h2
      rw [← h2]
      exact ⟨n1, e1, p1⟩
    | cons y rest =>
      have hx : x.name ≠ "flush" := hne x (by simp [List.dropLast])
      obtain ⟨n2, e2, p2⟩ := ih (i + 1) s t
        (fun e he => hne e (by
          rw [List.dropLast_cons_of_ne_nil (by simp)]
          exact List.mem_cons_of_mem _ he)) h2
      refine ⟨n1 ++ n2, by rw [e2, e1, List.append_assoc], ?_⟩
      rw [(q1 hx).2 n2]
      exact p2

/-- C36, as amended: for a redraw message in which no event follows a `flush`, handled
without a fault from a record whose `draw_active` tells whether a frame is open: every
event is reached with `draw_active` true, and every drawing call the message adds is
issued inside the frame, after the `BeginDraw` of `StartDraw` (or in the frame that was
open already) and before the `EndDraw` of the `flush`. -/
theorem RendererRedraw_draws_in_frame [LinearOrderedField F] [FloorRing F] (K : Constants)
    (KF : FloatConstants F) (env : Nat → Env) (r t : Renderer F)
    (params : List RedrawCommand)
    (hflush : ∀ e ∈ params.dropLast, e.name ≠ "flush")
    (h : RendererRedraw K KF env r params = .ok t) :
    (∃ new, t.calls = r.calls ++ new ∧ drawsInFrame r.draw_active new = true) ∧
    ∀ (before after : List RedrawCommand) (cmd : RedrawCommand),
      params = before ++ cmd :: after →
      ∃ s, RendererRedraw K KF env r before = .ok s ∧ s.draw_active = true := by
  unfold RendererRedraw at h ⊢
  constructor
  · obtain ⟨new, e, p⟩ := loop_in_frame K KF env params 0 (StartDraw r) t hflush h
    obtain ⟨start, e0, p0⟩ := StartDraw_frame r new
    refine ⟨start ++ new, by rw [e, e0, List.append_assoc], ?_⟩
    rw [p0]
    exact p
  · intro before after cmd hp
    rw [hp, loop_append] at h
    obtain ⟨s, h1, _⟩ := bind_eq_ok h
    have hq : ∀ e ∈ before, e.name ≠ "flush" := by
      intro e he
      apply hflush e
      rw [hp, List.dropLast_append_of_ne_nil _ (by simp)]
      exact List.mem_append_left _ he
    obtain ⟨a, _, _⟩ := loop_quiet K KF env before 0 (StartDraw r) s hq h1
    exact ⟨s, h1, by rw [a]; exact (StartDraw_calls r).1⟩

/-- Witness for C36 as amended: the first frame of the sample session. -/
theorem RendererRedraw_draws_in_frame_witness :
    (∀ e ∈ (sampleFirstEvents ++ [(⟨"flush", .none⟩ : RedrawCommand)]).dropLast,
      e.name ≠ "flush") ∧
    RendererRedraw sampleConstants sampleFloatConstants (fun _ => sampleEnv)
      sampleFreshRenderer (sampleFirstEvents ++ [⟨"flush", .none⟩]) = .ok sampleFirstFrame ∧
    ∃ new, sampleFirstFrame.calls = sampleFreshRenderer.calls ++ new ∧
      drawsInFrame sampleFreshRenderer.draw_active new = true :=
  ⟨by decide, by decide!,
    (RendererRedraw_draws_in_frame sampleConstants sampleFloatConstants (fun _ => sampleEnv)
      sampleFreshRenderer sampleFirstFrame (sampleFirstEvents ++ [⟨"flush", .none⟩])
      (by decide) (by decide!)).1⟩

/-- Counterexample to C36 as stated: in the message `flush`, `grid_clear` on the sample
renderer, which has no frame open and has issued no call before, the `grid_clear` is
handled after the frame was ended and presented: the record has `draw_active` false
when the event is reached, and the fill of the grid comes after `EndDraw`. -/
theorem RendererRedraw_draws_in_frame_counterexample :
    sampleCursorRendererQ.calls = [] ∧ sampleCursorRendererQ.draw_active = false ∧
    (RendererRedraw sampleConstants sampleFloatConstants (fun _ => sampleEnv)
      sampleCursorRendererQ [⟨"flush", .none⟩]).map (fun s => s.draw_active) = .ok false ∧
    (RendererRedraw sampleConstants sampleFloatConstants (fun _ => sampleEnv)
      sampleCursorRendererQ [⟨"flush", .none⟩, ⟨"grid_clear", .none⟩]).map
        (fun t => (drawsInFrame false t.calls, t.calls.drop (t.calls.length - 4))) =
      .ok (false, [.EndDraw, .Present, .CopyResource,
        .FillRectangle { left := 0, top := 0, right := 32, bottom := 48 } 0x000000]) := by
  refine ⟨rfl, rfl, ?_, ?_⟩
  · decide!
  · decide!

/-! ## Colours and brushes in the older renderer: claim C38 -/

namespace Legacy

theorem keepsBrushes_refl (r : Renderer) : r.keepsBrushes r := fun _ _ h => h

theorem keepsBrushes_trans {r s t : Renderer} (h1 : r.keepsBrushes s) (h2 : s.keepsBrushes t) :
    r.keepsBrushes t := fun c b h => h2 c b (h1 c b h)

theorem hasBrush_keeps {r t : Renderer} (h : r.keepsBrushes t) {c : Nat} (hc : r.hasBrush c) :
    t.hasBrush c := by
  obtain ⟨b, hb⟩ := hc
  exact ⟨b, h c b hb⟩

/-- `CreateBrush` leaves the table alone, keeps every brush there is, and leaves the
colour with a brush. -/
theorem CreateBrush_spec (r : Renderer) (color : Nat) :
    (CreateBrush r color).hl_attribs = r.hl_attribs ∧ r.keepsBrushes (CreateBrush r color) ∧
    (CreateBrush r color).hasBrush color := by
  refine ⟨?_, ?_, ?_⟩
  · unfold CreateBrush
    simp only
    split_ifs <;> rfl
  · intro c b hc
    unfold CreateBrush
    simp only
    split_ifs
    · exact hc
    · show (r.brushes ++ [(color, Handle.live r.objects)]).lookup c = some b
      rw [List.lookup_append, hc]
      rfl
  · unfold CreateBrush
    simp only
    split_ifs with h
    · exact Option.isSome_iff_exists.mp h
    · refine ⟨.live r.objects, ?_⟩
      show (r.brushes ++ [(color, Handle.live r.objects)]).lookup color = _
      have hn : r.brushes.lookup color = none := by
        cases hl : r.brushes.lookup color with
        | none => rfl
        | some b => rw [hl] at h; simp at h
      rw [List.lookup_append, hn]
      simp [List.lookup]

theorem SetColor_spec (r : Renderer) (color_node : Option Nat) :
    (SetColor r color_node).hl_attribs = r.hl_attribs ∧ r.keepsBrushes (SetColor r color_node) ∧
    ∀ u, color_node = some u → (SetColor r color_node).hasBrush (u % 2 ^ 32) := by
  cases color_node with
  | none => exact ⟨rfl, keepsBrushes_refl r, fun u h => by cases h⟩
  | some v =>
    obtain ⟨a, b, c⟩ := CreateBrush_spec r (v % 2 ^ 32)
    refine ⟨a, b, ?_⟩
    intro u hu
    cases hu
    exact c

/-- One tuple of `default_colors_set`. -/
theorem UpdateDefaultColors_step (r t : Renderer) (c : DefaultColors)
    (h : UpdateDefaultColors r [c] = .ok t) :
    r.keepsBrushes t ∧
    t.hl_attribs = r.hl_attribs.set 0
      ⟨c.foreground % 2 ^ 32, c.background % 2 ^ 32, c.special % 2 ^ 32, 0⟩ ∧
    0 < r.hl_attribs.length ∧
    t.hasBrush (c.foreground % 2 ^ 32) ∧ t.hasBrush (c.background % 2 ^ 32) ∧
    t.hasBrush (c.special % 2 ^ 32) := by
  unfold UpdateDefaultColors at h
  simp only [List.foldlM_cons, List.foldlM_nil, bind_pure] at h
  obtain ⟨hl, h1, h2⟩ := bind_eq_ok h
  clear h
  simp only [pure, Except.pure, Except.ok.injEq] at h2
  unfold modifyAt at h1
  cases h0 : r.hl_attribs[0]? with
  | none =>
    rw [h0] at h1
    cases h1
  | some d =>
    rw [h0] at h1
    simp only [Except.ok.injEq] at h1
    have hpos : 0 < r.hl_attribs.length := by
      by_contra hn
      rw [List.getElem?_eq_none (by omega)] at h0
      cases h0
    obtain ⟨a1, b1, c1⟩ := CreateBrush_spec { r with hl_attribs := hl } (c.foreground % 2 ^ 32)
    obtain ⟨a2, b2, c2⟩ := CreateBrush_spec
      (CreateBrush { r with hl_attribs := hl } (c.foreground % 2 ^ 32)) (c.background % 2 ^ 32)
    obtain ⟨a3, b3, c3⟩ := CreateBrush_spec
      (CreateBrush (CreateBrush { r with hl_attribs := hl } (c.foreground % 2 ^ 32))
        (c.background % 2 ^ 32)) (c.special % 2 ^ 32)
    rw [← h2]
    refine ⟨?_, ?_, hpos, hasBrush_keeps (keepsBrushes_trans b2 b3) c1, hasBrush_keeps b3 c2, c3⟩
    · intro col b hb
      exact b3 col b (b2 col b (b1 col b hb))
    · rw [a3, a2, a1, ← h1]

theorem UpdateDefaultColors_cons (r : Renderer) (c : DefaultColors) (rest : List DefaultColors) :
    UpdateDefaultColors r (c :: rest) =
      (UpdateDefaultColors r [c]).bind (fun s => UpdateDefaultColors s rest) := by
  unfold UpdateDefaultColors
  simp only [List.foldlM_cons, List.foldlM_nil, bind_pure]
  rfl

theorem tableCached_set {K : Constants} {r t : Renderer} (hk : r.keepsBrushes t)
    (i : Nat) (a : HighlightAttributes) (ht : t.hl_attribs = r.hl_attribs.set i a)
    (ha : (a.foreground ≠ K.DEFAULT_COLOR → t.hasBrush a.foreground) ∧
      (a.background ≠ K.DEFAULT_COLOR → t.hasBrush a.background) ∧
      (a.special ≠ K.DEFAULT_COLOR → t.hasBrush a.special))
    (h : r.tableCached K) : t.tableCached K := by
  intro x hx
  rw [ht] at hx
  rcases List.mem_or_eq_of_mem_set hx with hx | hx
  · obtain ⟨p, q, s⟩ := h x hx
    exact ⟨fun n => hasBrush_keeps hk (p n), fun n => hasBrush_keeps hk (q n),
      fun n => hasBrush_keeps hk (s n)⟩
  · rw [hx]
    exact ha

/-- The handler of `default_colors_set`: brushes are kept, the colours of every tuple
have a brush, the table stays cached, and entry 0 has its brushes when there was a
tuple or when it had them before. -/
theorem UpdateDefaultColors_brushes (K : Constants) : ∀ (cs : List DefaultColors)
    (r t : Renderer), UpdateDefaultColors r cs = .ok t →
    r.keepsBrushes t ∧
    (∀ c ∈ cs, t.hasBrush (c.foreground % 2 ^ 32) ∧ t.hasBrush (c.background % 2 ^ 32) ∧
      t.hasBrush (c.special % 2 ^ 32)) ∧
    (r.tableCached K → t.tableCached K) ∧
    (cs ≠ [] ∨ r.defaultsCached → t.defaultsCached) := by
  intro cs
  induction cs with
  | nil =>
    intro r t h
    simp only [UpdateDefaultColors, List.foldlM_nil, pure, Except.pure, Except.ok.injEq] at h
    rw [← h]
    refine ⟨keepsBrushes_refl r, fun c hc => (by cases hc), fun h => h, ?_⟩
    rintro (h | h)
    · exact absurd rfl h
    · exact h
  | cons c rest ih =>
    intro r t h
    rw [UpdateDefaultColors_cons] at h
    obtain ⟨s, h1, h2⟩ := bind_eq_ok h
    obtain ⟨k1, e1, hpos, f1, g1, s1⟩ := UpdateDefaultColors_step r s c h1
    obtain ⟨k2, c2, t2, d2⟩ := ih s t h2
    refine ⟨keepsBrushes_trans k1 k2, ?_, ?_, ?_⟩
    · intro x hx
      rcases List.mem_cons.mp hx with hx | hx
      · rw [hx]
        exact ⟨hasBrush_keeps k2 f1, hasBrush_keeps k2 g1, hasBrush_keeps k2 s1⟩
      · exact c2 x hx
    · intro hr
      exact t2 (tableCached_set k1 0 _ e1 ⟨fun _ => f1, fun _ => g1, fun _ => s1⟩ hr)
    · intro _
      apply d2
      right
      refine ⟨⟨c.foreground % 2 ^ 32, c.background % 2 ^ 32, c.special % 2 ^ 32, 0⟩, ?_,
        f1, g1, s1⟩
      rw [e1, List.getElem?_set_self hpos]

/-- One tuple of `hl_attr_define`. -/
theorem UpdateHighlightAttribute_brushes (K : Constants) (r t : Renderer) (d : HighlightDefine)
    (h : UpdateHighlightAttribute K r d = .ok t) :
    r.keepsBrushes t ∧
    (∃ a, r.hl_attribs[d.attrib_index]? = some a ∧
      t.hl_attribs = r.hl_attribs.set d.attrib_index (applyAttribMap K a d.attrib_map)) ∧
    (∀ u, d.attrib_map.foreground = some u → t.hasBrush (u % 2 ^ 32)) ∧
    (∀ u, d.attrib_map.background = some u → t.hasBrush (u % 2 ^ 32)) ∧
    (∀ u, d.attrib_map.special = some u → t.hasBrush (u % 2 ^ 32)) := by
  unfold UpdateHighlightAttribute at h
  split_ifs at h with hle
  obtain ⟨hl, h1, h2⟩ := bind_eq_ok h
  clear h
  simp only [pure, Except.pure, Except.ok.injEq] at h2
  unfold modifyAt at h1
  cases h0 : r.hl_attribs[d.attrib_index]? with
  | none =>
    rw [h0] at h1
    cases h1
  | some a =>
    rw [h0] at h1
    simp only [Except.ok.injEq] at h1
    obtain ⟨a1, b1, c1⟩ := SetColor_spec { r with hl_attribs := hl } d.attrib_map.foreground
    obtain ⟨a2, b2, c2⟩ := SetColor_spec
      (SetColor { r with hl_attribs := hl } d.attrib_map.foreground) d.attrib_map.background
    obtain ⟨a3, b3, c3⟩ := SetColor_spec
      (SetColor (SetColor { r with hl_attribs := hl } d.attrib_map.foreground)
        d.attrib_map.background) d.attrib_map.special
    rw [← h2]
    refine ⟨?_, ⟨a, rfl, ?_⟩, ?_, ?_, c3⟩
    · intro col b hb
      exact b3 col b (b2 col b (b1 col b hb))
    · rw [a3, a2, a1, ← h1]
    · intro u hu
      exact hasBrush_keeps (keepsBrushes_trans b2 b3) (c1 u hu)
    · intro u hu
      exact hasBrush_keeps b3 (c2 u hu)

theorem SetColor_value (K : Constants) (color_node : Option Nat) (t : Renderer)
    (h : ∀ u, color_node = some u → t.hasBrush (u % 2 ^ 32)) :
    Nvy.SetColor K color_node ≠ K.DEFAULT_COLOR → t.hasBrush (Nvy.SetColor K color_node) := by
  cases color_node with
  | none =>
    intro hn
    exact absurd rfl hn
  | some u =>
    intro _
    exact h u rfl

/-- The handler of `hl_attr_define`: brushes are kept, the colours that the maps give
have a brush, the table stays cached, and entry 0 keeps its brushes when no tuple
defines id 0. -/
theorem UpdateHighlightAttributes_brushes (K : Constants) : ∀ (hs : List HighlightDefine)
    (r t : Renderer), UpdateHighlightAttributes K r hs = .ok t →
    r.keepsBrushes t ∧
    (∀ d ∈ hs, (∀ u, d.attrib_map.foreground = some u → t.hasBrush (u % 2 ^ 32)) ∧
      (∀ u, d.attrib_map.background = some u → t.hasBrush (u % 2 ^ 32)) ∧
      (∀ u, d.attrib_map.special = some u → t.hasBrush (u % 2 ^ 32))) ∧
    (r.tableCached K → t.tableCached K) ∧
    ((∀ d ∈ hs, d.attrib_index ≠ 0) → r.defaultsCached → t.defaultsCached) := by
  intro hs
  induction hs with
  | nil =>
    intro r t h
    simp only [UpdateHighlightAttributes, List.foldlM_nil, pure, Except.pure,
      Except.ok.injEq] at h
    rw [← h]
    exact ⟨keepsBrushes_refl r, fun d hd => (by cases hd), fun h => h, fun _ h => h⟩
  | cons d rest ih =>
    intro r t h
    simp only [UpdateHighlightAttributes, List.foldlM_cons] at h
    obtain ⟨s, h1, h2⟩ := bind_eq_ok h
    obtain ⟨k1, ⟨a, ha, e1⟩, f1, g1, s1⟩ := UpdateHighlightAttribute_brushes K r s d h1
    obtain ⟨k2, c2, t2, d2⟩ := ih s t h2
    refine ⟨keepsBrushes_trans k1 k2, ?_, ?_, ?_⟩
    · intro x hx
      rcases List.mem_cons.mp hx with hx | hx
      · rw [hx]
        exact ⟨fun u hu => hasBrush_keeps k2 (f1 u hu), fun u hu => hasBrush_keeps k2 (g1 u hu),
          fun u hu => hasBrush_keeps k2 (s1 u hu)⟩
      · exact c2 x hx
    · intro hr
      exact t2 (tableCached_set k1 d.attrib_index _ e1
        ⟨SetColor_value K _ s f1, SetColor_value K _ s g1, SetColor_value K _ s s1⟩ hr)
    · intro hne hd
      apply d2 (fun x hx => hne x (List.mem_cons_of_mem _ hx))
      obtain ⟨e, he, p, q, w⟩ := hd
      refine ⟨e, ?_, hasBrush_keeps k1 p, hasBrush_keeps k1 q, hasBrush_keeps k1 w⟩
      rw [e1, List.getElem?_set_ne (hne d (List.mem_cons_self _ _)), he]

end Legacy

namespace Legacy

/-- One event that writes the highlight table. -/
theorem TableEvent_brushes (K : Constants) (e : TableEvent) (r t : Renderer)
    (h : e.handle K r = .ok t) :
    r.keepsBrushes t ∧ (∀ c ∈ e.colors, t.hasBrush c) ∧
    (r.tableCached K → t.tableCached K) ∧
    ((∀ hs, e = .hl_attr_define hs → ∀ d ∈ hs, d.attrib_index ≠ 0) →
      r.defaultsCached → t.defaultsCached) ∧
    (∀ cs, e = .default_colors_set cs → cs ≠ [] → t.defaultsCached) := by
  cases e with
  | default_colors_set cs =>
    obtain ⟨a, b, c, d⟩ := UpdateDefaultColors_brushes K cs r t h
    refine ⟨a, ?_, c, fun _ hd => d (Or.inr hd), ?_⟩
    · intro x hx
      simp only [TableEvent.colors, List.mem_flatMap, List.mem_cons, List.mem_singleton,
        List.not_mem_nil, or_false] at hx
      obtain ⟨y, hy, hxy⟩ := hx
      obtain ⟨p, q, s⟩ := b y hy
      rcases hxy with rfl | rfl | rfl
      · exact p
      · exact q
      · exact s
    · intro cs' he hne
      cases he
      exact d (Or.inl hne)
  | hl_attr_define hs =>
    obtain ⟨a, b, c, d⟩ := UpdateHighlightAttributes_brushes K hs r t h
    refine ⟨a, ?_, c, fun hne hd => d (hne hs rfl) hd, fun cs he => by cases he⟩
    intro x hx
    simp only [TableEvent.colors, List.mem_flatMap, List.mem_map, List.mem_append,
      Option.mem_toList, Option.mem_def] at hx
    obtain ⟨y, hy, u, hu, rfl⟩ := hx
    obtain ⟨p, q, s⟩ := b y hy
    rcases hu with (hu | hu) | hu
    · exact p u hu
    · exact q u hu
    · exact s u hu

theorem handleEvents_cons (K : Constants) (r : Renderer) (e : TableEvent)
    (rest : List TableEvent) :
    handleEvents K r (e :: rest) = (e.handle K r).bind (fun s => handleEvents K s rest) := by
  unfold handleEvents
  rw [List.foldlM_cons]
  rfl

theorem handleEvents_append (K : Constants) (pre post : List TableEvent) :
    ∀ r : Renderer, handleEvents K r (pre ++ post) =
      (handleEvents K r pre).bind (fun s => handleEvents K s post) := by
  induction pre with
  | nil =>
    intro r
    rfl
  | cons e pre ih =>
    intro r
    rw [List.cons_append, handleEvents_cons, handleEvents_cons]
    cases e.handle K r with
    | error x => rfl
    | ok s => exact ih s

/-- A sequence of events that write the highlight table. -/
theorem handleEvents_seq (K : Constants) : ∀ (events : List TableEvent) (r t : Renderer),
    handleEvents K r events = .ok t →
    r.keepsBrushes t ∧ (∀ e ∈ events, ∀ c ∈ e.colors, t.hasBrush c) ∧
    (r.tableCached K → t.tableCached K) ∧
    ((∀ hs, .hl_attr_define hs ∈ events → ∀ d ∈ hs, d.attrib_index ≠ 0) →
      r.defaultsCached → t.defaultsCached) := by
  intro events
  induction events with
  | nil =>
    intro r t h
    simp only [handleEvents, List.foldlM_nil, pure, Except.pure, Except.ok.injEq] at h
    rw [← h]
    exact ⟨keepsBrushes_refl r, fun e he => (by cases he), fun h => h, fun _ h => h⟩
  | cons e rest ih =>
    intro r t h
    rw [handleEvents_cons] at h
    obtain ⟨s, h1, h2⟩ := bind_eq_ok h
    obtain ⟨k1, c1, t1, d1, _⟩ := TableEvent_brushes K e r s h1
    obtain ⟨k2, c2, t2, d2⟩ := ih s t h2
    refine ⟨keepsBrushes_trans k1 k2, ?_, fun hr => t2 (t1 hr), ?_⟩
    · intro x hx c hc
      rcases List.mem_cons.mp hx with hx | hx
      · rw [hx] at hc
        exact hasBrush_keeps k2 (c1 c hc)
      · exact c2 x hx c hc
    · intro hne hd
      exact d2 (fun hs hh => hne hs (List.mem_cons_of_mem _ hh))
        (d1 (fun hs he => hne hs (by rw [he]; exact List.mem_cons_self _ _)) hd)

/-- The brushes that text and background are drawn with, on a record whose table and
defaults are cached. -/
theorem brush_resolved (K : Constants) (t : Renderer) (ht : t.tableCached K)
    (hd : t.defaultsCached) (a : HighlightAttributes) (ha : a ∈ t.hl_attribs) :
    (∃ b, DrawBackgroundRect K t a = some b) ∧ ∃ b, ApplyHighlightAttributes K t a = some b := by
  obtain ⟨d, h0, pf, pb, _⟩ := hd
  obtain ⟨qf, qb, _⟩ := ht a ha
  unfold DrawBackgroundRect ApplyHighlightAttributes
  rw [h0]
  simp only [Option.some_bind]
  constructor
  · split_ifs with h1 h2 h3
    · exact pf
    · exact qf h2
    · exact pb
    · exact qb h3
  · split_ifs with h1 h2 h3
    · exact pb
    · exact qb h2
    · exact pf
    · exact qf h3

/-- C38, as amended: for a sequence of `default_colors_set` and `hl_attr_define` events
that the older renderer handles without a fault: every colour that one of the events
stores in the highlight table has a brush afterwards; a colour that had a brush before
has the same brush afterwards; when every colour of the table other than the sentinel
had a brush before, it is so afterwards; when a `default_colors_set` with a tuple is
among the events and no `hl_attr_define` after it defines id 0, the colours of entry
0 have their brushes afterwards; and then, for every entry of the table, the colour that
the resolution of the text and of the background selects has a brush. -/
theorem handleEvents_brushes (K : Constants) (r t : Renderer) (events : List TableEvent)
    (h : handleEvents K r events = .ok t) :
    (∀ e ∈ events, ∀ c ∈ e.colors, t.hasBrush c) ∧
    r.keepsBrushes t ∧
    (r.tableCached K → t.tableCached K) ∧
    (∀ pre cs post, events = pre ++ .default_colors_set cs :: post → cs ≠ [] →
      (∀ hs, .hl_attr_define hs ∈ post → ∀ d ∈ hs, d.attrib_index ≠ 0) →
      t.defaultsCached ∧
      (r.tableCached K → ∀ a ∈ t.hl_attribs,
        (∃ b, DrawBackgroundRect K t a = some b) ∧
        ∃ b, ApplyHighlightAttributes K t a = some b)) := by
  obtain ⟨k, c, tc, _⟩ := handleEvents_seq K events r t h
  refine ⟨c, k, tc, ?_⟩
  intro pre cs post he hcs hpost
  rw [he, handleEvents_append] at h
  obtain ⟨s1, _, h2⟩ := bind_eq_ok h
  rw [handleEvents_cons] at h2
  obtain ⟨s2, h3, h4⟩ := bind_eq_ok h2
  have d2 := (TableEvent_brushes K _ s1 s2 h3).2.2.2.2 cs rfl hcs
  have d3 := (handleEvents_seq K post s2 t h4).2.2.2 hpost d2
  exact ⟨d3, fun hr a ha => brush_resolved K t (tc hr) d3 a ha⟩

/-- Witness for C38 as amended: white on black as default colours and then green text
for id 1, on the sample record. -/
theorem handleEvents_brushes_witness :
    ∃ t, handleEvents sampleConstants sampleTableRenderer
        [.default_colors_set [⟨0xffffff, 0x000000, 0xff0000⟩],
          .hl_attr_define [⟨1, { AttribMap.empty with foreground := some 0x00ff00 }⟩]] = .ok t ∧
      t.hasBrush 0x00ff00 ∧ t.hasBrush 0xffffff ∧ t.defaultsCached ∧
      t.brushes = [(0xffffff, .live 0), (0x000000, .live 1), (0xff0000, .live 2),
        (0x00ff00, .live 3)] := by
  have e : handleEvents sampleConstants sampleTableRenderer
      [.default_colors_set [⟨0xffffff, 0x000000, 0xff0000⟩],
        .hl_attr_define [⟨1, { AttribMap.empty with foreground := some 0x00ff00 }⟩]] =
      .ok { sampleTableRenderer with
        hl_attribs := [⟨0xffffff, 0x000000, 0xff0000, 0⟩,
          ⟨0x00ff00, 0x46464646, 0x46464646, 0⟩, ⟨0x46464646, 0x46464646, 0x46464646, 0⟩,
          ⟨0x46464646, 0x46464646, 0x46464646, 0⟩]
        brushes := [(0xffffff, .live 0), (0x000000, .live 1), (0xff0000, .live 2),
          (0x00ff00, .live 3)]
        objects := 4 } := by decide
  obtain ⟨a, _, _, d⟩ := handleEvents_brushes sampleConstants sampleTableRenderer _ _ e
  refine ⟨_, e, a _ (List.mem_cons_of_mem _ (List.mem_cons_self _ _)) _ (by decide),
    a _ (List.mem_cons_self _ _) _ (by decide), ?_, rfl⟩
  exact (d [] [⟨0xffffff, 0x000000, 0xff0000⟩]
    [.hl_attr_define [⟨1, { AttribMap.empty with foreground := some 0x00ff00 }⟩]] rfl
    (by decide) (by
      intro hs hh d hd
      rw [List.mem_singleton] at hh
      cases hh
      rw [List.mem_singleton] at hd
      rw [hd]
      decide)).1

/-- Counterexample to C38 as stated: after `default_colors_set(1, 2, 3)` an
`hl_attr_define` for id 0 with an empty map stores the sentinel in entry 0 and creates no
brush; the brushes are those of 1, 2 and 3, and the colour that the resolution of the
background selects for entry 0 (and for every entry that holds the sentinel), the
sentinel itself, has none. -/
theorem handleEvents_brushes_counterexample :
    (handleEvents sampleConstants sampleTableRenderer
        [.default_colors_set [⟨1, 2, 3⟩], .hl_attr_define [⟨0, AttribMap.empty⟩]]).map
      (fun t => (t.hl_attribs[0]?, t.brushes,
        DrawBackgroundRect sampleConstants t ⟨0x46464646, 0x46464646, 0x46464646, 0⟩,
        ApplyHighlightAttributes sampleConstants t ⟨0x46464646, 0x46464646, 0x46464646, 0⟩)) =
      .ok (some ⟨0x46464646, 0x46464646, 0x46464646, 0⟩,
        [(1, .live 0), (2, .live 1), (3, .live 2)], none, none) := by
  decide

end Legacy

/-! ## What the entries of a `grid_line` tuple store -/

theorem followedByEmpty_true {rest : List GridLineCell} (h : followedByEmpty rest = true) :
    ∃ n tl, rest = n :: tl ∧ n.text = [] := by
  cases rest with
  | nil => simp [followedByEmpty] at h
  | cons n tl => exact ⟨n, tl, rfl, by simpa [followedByEmpty] using h⟩

theorem followedByEmpty_false {rest : List GridLineCell} (h : followedByEmpty rest = false) :
    ∀ n ∈ rest.head?, n.text ≠ [] := by
  cases rest with
  | nil =>
    intro n hn
    cases hn
  | cons m tl =>
    intro n hn
    cases hn
    simpa [followedByEmpty] using h

theorem cellsEnd_advance (c : GridLineCell) (rest : List GridLineCell) (col : Nat) :
    cellsEnd (c :: rest) col = cellsEnd rest (col + cellAdvance c rest) := by
  unfold cellAdvance
  cases hf : followedByEmpty rest with
  | true =>
    obtain ⟨n, tl, rfl, hn⟩ := followedByEmpty_true hf
    rw [cellsEnd_wide c n tl col hn]
    rfl
  | false =>
    have hnext := followedByEmpty_false hf
    by_cases hc : c.text = []
    · rw [cellsEnd_skip c rest col hnext hc]
      simp [hc]
    · rw [cellsEnd_run c rest col hnext hc]
      simp [hc]

theorem cellStart_ge : ∀ (cells : List GridLineCell) (col k : Nat), col ≤ cellStart cells col k := by
  intro cells
  induction cells with
  | nil =>
    intro col k
    simp [cellStart]
  | cons c rest ih =>
    intro col k
    cases k with
    | zero => simp [cellStart]
    | succ k =>
      rw [cellStart]
      exact le_trans (Nat.le_add_right _ _) (ih _ k)

/-- The columns of an entry end at or before the end of all entries. -/
theorem cellStart_advance_le : ∀ (cells : List GridLineCell) (col k : Nat) (c : GridLineCell),
    cells[k]? = some c →
    cellStart cells col k + cellAdvance c (cells.drop (k + 1)) ≤ cellsEnd cells col := by
  intro cells
  induction cells with
  | nil =>
    intro col k c h
    simp at h
  | cons x rest ih =>
    intro col k c h
    rw [cellsEnd_advance]
    cases k with
    | zero =>
      simp only [List.getElem?_cons_zero, Option.some.injEq] at h
      rw [← h]
      simp only [cellStart, Nat.zero_add, List.drop_succ_cons, List.drop_zero]
      exact cellsEnd_le rest _
    | succ k =>
      rw [List.getElem?_cons_succ] at h
      rw [cellStart, List.drop_succ_cons]
      exact ih _ k c h

/-- The conversion in the double-width branch, two columns before the end of the grid:
when it returns 1 or 2, that is the length of the text, and the text is stored. -/
theorem MultiByteToWideChar_wide (text chars : List Nat) (idx grid_size w : Nat)
    (chars1 : List Nat) (hfit : idx + 2 ≤ grid_size) (hlen : chars.length = grid_size)
    (h : MultiByteToWideChar text chars idx ((grid_size : Int) - (idx : Int)) = .ok (w, chars1))
    (hw : w = 1 ∨ w = 2) :
    text.length = w ∧ chars1 = chars.take idx ++ text ++ chars.drop (idx + text.length) := by
  unfold MultiByteToWideChar at h
  split_ifs at h with h1 h2 h3
  · simp only [pure, Except.pure, Except.ok.injEq, Prod.mk.injEq] at h
    omega
  · omega
  · simp only [pure, Except.pure, Except.ok.injEq, Prod.mk.injEq] at h
    omega
  · obtain ⟨cs, hws, hp⟩ := bind_eq_ok h
    simp only [pure, Except.pure, Except.ok.injEq, Prod.mk.injEq] at hp
    unfold writeSlice at hws
    split_ifs at hws with hb
    simp only [Except.ok.injEq] at hws
    exact ⟨hp.1, by rw [← hp.2, ← hws]⟩

/-- One round of the cell loop, for entries that end inside row `row` of the grid: the
loop goes on with the rest of the entries from the column behind the entry, under the
id the entry carries, on buffers that hold what the entry stores in its columns and are
as before everywhere else. -/
theorem cellLoop_step (grid_cols grid_size row : Nat)
    (hrow : row * grid_cols + grid_cols ≤ grid_size) (c : GridLineCell)
    (rest : List GridLineCell) (col_offset hl : Nat) (chars : List Nat)
    (props : List CellProperty) (res : List Nat × List CellProperty)
    (hcl : chars.length = grid_size) (hpl : props.length = grid_size)
    (hend : cellsEnd (c :: rest) col_offset ≤ grid_cols)
    (h : DrawGridLines.cellLoop grid_cols grid_size row (c :: rest) col_offset hl chars props =
      .ok res) :
    ∃ chars1 props1,
      DrawGridLines.cellLoop grid_cols grid_size row rest (col_offset + cellAdvance c rest)
        (c.ints.head?.getD hl) chars1 props1 = .ok res ∧
      chars1.length = grid_size ∧ props1.length = grid_size ∧
      (∀ idx, chars1[idx]? =
        if row * grid_cols + col_offset ≤ idx ∧
            idx < row * grid_cols + col_offset + cellAdvance c rest then
          some (storedChar c rest (idx - (row * grid_cols + col_offset)))
        else chars[idx]?) ∧
      (∀ idx, props1[idx]? =
        if row * grid_cols + col_offset ≤ idx ∧
            idx < row * grid_cols + col_offset + cellAdvance c rest then
          some { hl_attrib_id := c.ints.head?.getD hl % 2 ^ 16
                 is_wide_char := storedWide rest (idx - (row * grid_cols + col_offset))
                   (((props[idx]?).map (fun p => p.is_wide_char)).getD false) }
        else props[idx]?) := by
  rw [cellsEnd_advance] at hend
  have hle := cellsEnd_le rest (col_offset + cellAdvance c rest)
  cases hf : followedByEmpty rest with
  | true =>
    obtain ⟨n, tl, rfl, hn⟩ := followedByEmpty_true hf
    have hadv : cellAdvance c (n :: tl) = 2 := by simp [cellAdvance, hf]
    rw [hadv] at hend hle ⊢
    rw [cellLoop_cons_wide grid_cols grid_size row c n tl col_offset hl chars props hn] at h
    obtain ⟨p1, p2, p3, hm1, hm2, hm3, hp3l, hp3⟩ := wide_props props
      (row * grid_cols + col_offset) (c.ints.head?.getD hl % 2 ^ 16) (by omega)
    rw [hm1] at h
    simp only [Except.bind] at h
    rw [hm2] at h
    simp only [Except.bind] at h
    rw [hm3] at h
    simp only [Except.bind] at h
    have hprops : ∀ idx, p3[idx]? =
        if row * grid_cols + col_offset ≤ idx ∧ idx < row * grid_cols + col_offset + 2 then
          some { hl_attrib_id := c.ints.head?.getD hl % 2 ^ 16
                 is_wide_char := storedWide (n :: tl) (idx - (row * grid_cols + col_offset))
                   (((props[idx]?).map (fun p => p.is_wide_char)).getD false) }
        else props[idx]? := by
      intro idx
      rw [hp3 idx]
      by_cases e0 : idx = row * grid_cols + col_offset
      · rw [if_pos e0, if_pos (by omega), e0]
        simp [storedWide, hf]
      · rw [if_neg e0]
        by_cases e1 : idx = row * grid_cols + col_offset + 1
        · rw [if_pos e1, if_pos (by omega), e1]
          have hb : row * grid_cols + col_offset + 1 < props.length := by omega
          simp [storedWide, hf, hb]
        · rw [if_neg e1, if_neg (by omega)]
    cases hmb : MultiByteToWideChar c.text chars (row * grid_cols + col_offset)
        ((grid_size : Int) - ((row * grid_cols + col_offset : Nat) : Int)) with
    | error e =>
      rw [hmb] at h
      cases h
    | ok v =>
      obtain ⟨w, chars1⟩ := v
      rw [hmb] at h
      simp only at h
      by_cases hw : w = 1 ∨ w = 2
      · rw [if_pos hw] at h
        obtain ⟨hlen, hch⟩ := MultiByteToWideChar_wide c.text chars _ grid_size w chars1
          (by omega) hcl hmb hw
        have hfit : row * grid_cols + col_offset + c.text.length ≤ chars.length := by omega
        have hcl1 : chars1.length = grid_size := by
          rw [hch, writeSlice_length chars c.text _ hfit]
          exact hcl
        have hget1 := writeSlice_getElem? chars c.text (row * grid_cols + col_offset) hfit
        rw [← hch] at hget1
        by_cases h1 : w = 1
        · rw [if_pos h1] at h
          have hnext1 : chars1[row * grid_cols + col_offset + 1]? =
              some chars1[row * grid_cols + col_offset + 1] := by
            have : row * grid_cols + col_offset + 1 < chars1.length := by omega
            simp [this]
          rw [writeAt, modifyAt_eq _ hnext1] at h
          simp only [Except.bind] at h
          refine ⟨_, p3, h, by rw [List.length_set]; exact hcl1, hp3l.trans hpl, ?_, hprops⟩
          intro idx
          rw [List.getElem?_set, hget1 idx]
          have hl1 : c.text.length = 1 := by omega
          by_cases e1 : idx = row * grid_cols + col_offset + 1
          · rw [if_pos e1.symm, if_pos (by omega), if_pos (by omega), e1]
            simp [storedChar, hf, hl1]
          · rw [if_neg (fun hh => e1 hh.symm)]
            by_cases e0 : idx = row * grid_cols + col_offset
            · rw [if_pos (by omega), if_pos (by omega), e0]
              simp only [Nat.sub_self, storedChar, hf, if_true]
              rw [List.getD_eq_getElem?_getD]
              have : 0 < c.text.length := by omega
              simp [this]
            · rw [if_neg (by omega), if_neg (by omega)]
        · rw [if_neg h1] at h
          refine ⟨chars1, p3, h, hcl1, hp3l.trans hpl, ?_, hprops⟩
          intro idx
          rw [hget1 idx]
          have hl2 : c.text.length = 2 := by omega
          by_cases e0 : idx = row * grid_cols + col_offset
          · rw [if_pos (by omega), if_pos (by omega), e0]
            simp only [Nat.sub_self, storedChar, hf, if_true]
            rw [List.getD_eq_getElem?_getD]
            have : 0 < c.text.length := by omega
            simp [this]
          · by_cases e1 : idx = row * grid_cols + col_offset + 1
            · rw [if_pos (by omega), if_pos (by omega), e1]
              have e2 : row * grid_cols + col_offset + 1 - (row * grid_cols + col_offset) = 1 := by
                omega
              rw [e2]
              simp only [storedChar, hf, if_true, hl2]
              rw [List.getD_eq_getElem?_getD]
              have : 1 < c.text.length := by omega
              simp [this]
            · rw [if_neg (by omega), if_neg (by omega)]
      · rw [if_neg hw] at h
        cases h
  | false =>
    have hnext := followedByEmpty_false hf
    by_cases hc : c.text = []
    · have hadv : cellAdvance c rest = 0 := by simp [cellAdvance, hf, hc]
      rw [cellLoop_cons_skip grid_cols grid_size row c rest col_offset hl chars props hnext hc] at h
      rw [hadv]
      refine ⟨chars, props, h, hcl, hpl, ?_, ?_⟩
      · intro idx
        rw [if_neg (by omega)]
      · intro idx
        rw [if_neg (by omega)]
    · have hadv : cellAdvance c rest = c.text.length * c.repeatCount := by
        simp [cellAdvance, hf, hc]
      rw [hadv] at hend hle ⊢
      rw [cellLoop_cons_text grid_cols grid_size row c rest col_offset hl chars props hnext hc] at h
      have hcomm : c.repeatCount * c.text.length = c.text.length * c.repeatCount :=
        Nat.mul_comm _ _
      obtain ⟨chars1, hrun1, hcl1, hget1⟩ := repeatLoop_spec c.text grid_size
        (row * grid_cols + col_offset) hc c.repeatCount 0 0 chars (Or.inl rfl)
        (by rw [Nat.zero_add, hcomm]; omega) hcl
      have hwidth : (if c.repeatCount = 0 then 0 else c.text.length) * c.repeatCount =
          c.text.length * c.repeatCount := by
        split_ifs with h0
        · rw [h0]; simp
        · rfl
      obtain ⟨props1, hrun2, hpl1, hget2⟩ := propLoop_spec (c.ints.head?.getD hl)
        (row * grid_cols + col_offset) (c.text.length * c.repeatCount) 0 props (by omega)
      rw [hrun1] at h
      simp only [Except.bind, hwidth] at h
      rw [hrun2] at h
      simp only at h
      refine ⟨chars1, props1, h, hcl1, hpl1.trans hpl, ?_, ?_⟩
      · intro idx
        rw [hget1 idx]
        simp only [Nat.zero_mul, Nat.add_zero, Nat.zero_add, hcomm]
        split_ifs
        · simp [storedChar, hf]
        · rfl
      · intro idx
        rw [hget2 idx]
        simp only [Nat.add_zero]
        split_ifs
        · simp [storedWide, hf]
        · rfl

/-- The cell loop on entries that end inside row `row` of the grid: afterwards the
columns of every entry hold what the entry stores, under the id it carries or takes
over, and everything in front of the first entry and behind the last one is as
before. -/
theorem cellLoop_entries (grid_cols grid_size row : Nat)
    (hrow : row * grid_cols + grid_cols ≤ grid_size) :
    ∀ (cells : List GridLineCell) (col_offset hl : Nat) (chars : List Nat)
      (props : List CellProperty) (res : List Nat × List CellProperty),
      chars.length = grid_size → props.length = grid_size →
      cellsEnd cells col_offset ≤ grid_cols →
      DrawGridLines.cellLoop grid_cols grid_size row cells col_offset hl chars props = .ok res →
      res.1.length = grid_size ∧ res.2.length = grid_size ∧
      (∀ idx, idx < row * grid_cols + col_offset ∨
          row * grid_cols + cellsEnd cells col_offset ≤ idx →
        res.1[idx]? = chars[idx]? ∧ res.2[idx]? = props[idx]?) ∧
      ∀ (k : Nat) (c : GridLineCell), cells[k]? = some c →
        ∀ j, j < cellAdvance c (cells.drop (k + 1)) →
          res.1[row * grid_cols + cellStart cells col_offset k + j]? =
            some (storedChar c (cells.drop (k + 1)) j) ∧
          res.2[row * grid_cols + cellStart cells col_offset k + j]? =
            some { hl_attrib_id := carriedId cells hl k % 2 ^ 16
                   is_wide_char := storedWide (cells.drop (k + 1)) j
                     (((props[row * grid_cols + cellStart cells col_offset k + j]?).map
                       (fun p => p.is_wide_char)).getD false) } := by
  intro cells
  induction cells with
  | nil =>
    intro col_offset hl chars props res hcl hpl _ h
    simp only [DrawGridLines.cellLoop, pure, Except.pure, Except.ok.injEq] at h
    rw [← h]
    refine ⟨hcl, hpl, fun _ _ => ⟨rfl, rfl⟩, ?_⟩
    intro k c hk
    simp at hk
  | cons x rest ih =>
    intro col_offset hl chars props res hcl hpl hend h
    obtain ⟨chars1, props1, h1, hcl1, hpl1, hget1, hget2⟩ := cellLoop_step grid_cols grid_size
      row hrow x rest col_offset hl chars props res hcl hpl hend h
    rw [cellsEnd_advance] at hend
    have hle := cellsEnd_le rest (col_offset + cellAdvance x rest)
    obtain ⟨r1, r2, rframe, rent⟩ := ih (col_offset + cellAdvance x rest) (x.ints.head?.getD hl)
      chars1 props1 res hcl1 hpl1 hend h1
    refine ⟨r1, r2, ?_, ?_⟩
    · intro idx hidx
      rw [cellsEnd_advance] at hidx
      obtain ⟨f1, f2⟩ := rframe idx (by omega)
      rw [f1, f2, hget1 idx, hget2 idx, if_neg (by omega), if_neg (by omega)]
      exact ⟨rfl, rfl⟩
    · intro k c hk j hj
      cases k with
      | zero =>
        simp only [List.getElem?_cons_zero, Option.some.injEq] at hk
        subst hk
        simp only [Nat.zero_add, List.drop_succ_cons, List.drop_zero] at hj ⊢
        simp only [cellStart, carriedId]
        obtain ⟨f1, f2⟩ := rframe (row * grid_cols + col_offset + j) (Or.inl (by omega))
        rw [f1, f2, hget1, hget2, if_pos (by omega), if_pos (by omega)]
        have e : row * grid_cols + col_offset + j - (row * grid_cols + col_offset) = j := by
          omega
        rw [e]
        exact ⟨rfl, rfl⟩
      | succ k =>
        rw [List.getElem?_cons_succ] at hk
        rw [List.drop_succ_cons] at hj ⊢
        simp only [cellStart, carriedId]
        obtain ⟨g1, g2⟩ := rent k c hk j hj
        have hs := cellStart_ge rest (col_offset + cellAdvance x rest) k
        rw [g1, g2, hget2, if_neg (by omega)]
        exact ⟨rfl, rfl⟩

/-- One tuple of `grid_line` that lies inside the grid of a well-formed state and is
handled without a fault: the columns of every entry hold what the entry stores, under
the id it carries or takes over, the first entry starting from id 0; every other cell of
the grid is as before. -/
theorem DrawGridLines_line_entries [NatCast F] [Add F] [Sub F] [Mul F] (K : Constants)
    (r t : Renderer F) (g : GridLine) (hwf : r.WF) (hin : g.inside r.grid_rows r.grid_cols)
    (h : DrawGridLines.line K r g = .ok t) :
    r.sameFrame t ∧
    (∀ row col, row < r.grid_rows → col < r.grid_cols →
      (row ≠ g.row ∨ col < g.col_start ∨ cellsEnd g.cells g.col_start ≤ col) →
      t.cell row col = r.cell row col) ∧
    ∀ (k : Nat) (c : GridLineCell), g.cells[k]? = some c →
      ∀ j, j < cellAdvance c (g.cells.drop (k + 1)) →
        cellStart g.cells g.col_start k + j < r.grid_cols ∧
        ∃ old, r.cell g.row (cellStart g.cells g.col_start k + j) = some old ∧
          t.cell g.row (cellStart g.cells g.col_start k + j) =
            some ⟨storedChar c (g.cells.drop (k + 1)) j, carriedId g.cells 0 k % 2 ^ 16,
              storedWide (g.cells.drop (k + 1)) j old.is_wide⟩ := by
  obtain ⟨hcols, hsz, ⟨chars, hc, hcl⟩, ⟨props, hp, hpl, _⟩⟩ := hwf
  obtain ⟨hrow, hend⟩ := hin
  have hcomm : r.grid_rows * r.grid_cols = r.grid_cols * r.grid_rows := Nat.mul_comm _ _
  have hbase : g.row * r.grid_cols + r.grid_cols ≤ r.grid_cols * r.grid_rows := by
    have hh : (g.row + 1) * r.grid_cols ≤ r.grid_rows * r.grid_cols :=
      Nat.mul_le_mul_right _ hrow
    rw [Nat.succ_mul, hcomm] at hh
    exact hh
  unfold DrawGridLines.line at h
  simp only [hc, hp, deref, bind, Except.bind] at h
  cases hloop : DrawGridLines.cellLoop r.grid_cols (r.grid_cols * r.grid_rows) g.row g.cells
      g.col_start 0 chars props with
  | error e =>
    rw [hloop] at h
    cases h
  | ok res =>
    rw [hloop] at h
    simp only at h
    obtain ⟨l1, l2, hframe, hent⟩ := cellLoop_entries r.grid_cols (r.grid_cols * r.grid_rows)
      g.row hbase g.cells g.col_start 0 chars props res (by omega) (by omega) hend hloop
    have hst := (DrawGridLine_calls K _ t _ h).1
    have hstart := cellsEnd_le g.cells g.col_start
    refine ⟨?_, ?_, ?_⟩
    · refine sameFrame_trans ?_ (sameFrame_of_sameStore hst)
      simp [Renderer.sameFrame]
    · intro row col hr hcol hout
      rw [cell_sameStore hst]
      have hk := flat_range_iff r.grid_cols g.row g.col_start (cellsEnd g.cells g.col_start)
        row col hcol hstart hend
      have hnot : ¬ (g.row * r.grid_cols + g.col_start ≤ row * r.grid_cols + col ∧
          row * r.grid_cols + col < g.row * r.grid_cols + g.col_start +
            (cellsEnd g.cells g.col_start - g.col_start)) := by
        intro hh
        have := hk.mp hh
        omega
      obtain ⟨f1, f2⟩ := hframe (row * r.grid_cols + col) (by omega)
      exact cell_congr (r := r)
        (t := { r with grid_chars := some res.1, grid_cell_properties := some res.2 })
        hc hp rfl rfl rfl row col row col f1 f2
    · intro k c hk j hj
      have hle := cellStart_advance_le g.cells g.col_start k c hk
      have hcol : cellStart g.cells g.col_start k + j < r.grid_cols := by omega
      have hidx : g.row * r.grid_cols + (cellStart g.cells g.col_start k + j) <
          r.grid_rows * r.grid_cols := flat_lt hrow hcol
      have e1 : chars[g.row * r.grid_cols + (cellStart g.cells g.col_start k + j)]? =
          some chars[g.row * r.grid_cols + (cellStart g.cells g.col_start k + j)] := by
        simp [hcl, hidx]
      have e2 : props[g.row * r.grid_cols + (cellStart g.cells g.col_start k + j)]? =
          some props[g.row * r.grid_cols + (cellStart g.cells g.col_start k + j)] := by
        simp [hpl, hidx]
      refine ⟨hcol, _, cell_eq hc hp g.row _ _ _ e1 e2, ?_⟩
      rw [cell_sameStore hst]
      obtain ⟨g1, g2⟩ := hent k c hk j hj
      rw [Nat.add_assoc] at g1 g2
      rw [e2] at g2
      exact cell_eq (r := { r with grid_chars := some res.1, grid_cell_properties := some res.2 })
        rfl rfl g.row _ _ _ g1 g2

/-! ## The entries of a `grid_line` tuple: claims C32, C33, C34 -/

/-- The last tuple of a `grid_line` event whose tuples lie inside the grid is handled
from a well-formed state of the same size. -/
theorem DrawGridLines_last_line [NatCast F] [Add F] [Sub F] [Mul F] (K : Constants)
    (r t : Renderer F) (before : List GridLine) (g : GridLine) (hwf : r.WF)
    (hall : ∀ x ∈ before, x.inside r.grid_rows r.grid_cols ∧
      ∀ c ∈ x.cells, ∀ id ∈ c.ints.head?, id % 2 ^ 16 < r.hl_attribs.length)
    (h : DrawGridLines K r (before ++ [g]) = .ok t) :
    ∃ s, DrawGridLines K r before = .ok s ∧ s.WF ∧ r.sameFrame s ∧
      DrawGridLines.line K s g = .ok t := by
  have hsome : ¬ (r.grid_chars = none ∨ r.grid_cell_properties = none) := by
    obtain ⟨_, _, ⟨chars, hc, _⟩, ⟨props, hp, _, _⟩⟩ := hwf
    rw [hc, hp]
    simp
  unfold DrawGridLines at h ⊢
  rw [if_neg hsome] at h ⊢
  rw [List.foldlM_append] at h
  obtain ⟨s, h1, h2⟩ := bind_eq_ok h
  rw [List.foldlM_cons] at h2
  obtain ⟨t1, h3, h4⟩ := bind_eq_ok h2
  simp only [List.foldlM_nil, pure, Except.pure, Except.ok.injEq] at h4
  rw [h4] at h3
  rcases DrawGridLines_fold_inside K r before r hwf (sameFrame_refl r) hall with
    ⟨s1, e, hwf1, hsf1⟩ | e
  · rw [h1] at e
    cases e
    exact ⟨s, h1, hwf1, hsf1, h3⟩
  · rw [h1] at e
    cases e

theorem DrawGridLines_one [NatCast F] [Add F] [Sub F] [Mul F] (K : Constants)
    (r t : Renderer F) (g : GridLine) (hwf : r.WF) (h : DrawGridLines K r [g] = .ok t) :
    DrawGridLines.line K r g = .ok t := by
  obtain ⟨s, h1, _, _, h2⟩ := DrawGridLines_last_line K r t [] g hwf
    (fun x hx => by cases hx) h
  unfold DrawGridLines at h1
  split_ifs at h1
  simp only [List.foldlM_nil, pure, Except.pure, Except.ok.injEq] at h1
  rw [h1]
  exact h2

theorem carriedId_step : ∀ (cells : List GridLineCell) (hl k : Nat) (c : GridLineCell),
    cells[k]? = some c →
    carriedId cells hl k =
      c.ints.head?.getD (match k with
        | 0 => hl
        | k + 1 => carriedId cells hl k) := by
  intro cells
  induction cells with
  | nil =>
    intro hl k c h
    simp at h
  | cons x rest ih =>
    intro hl k c h
    cases k with
    | zero =>
      simp only [List.getElem?_cons_zero, Option.some.injEq] at h
      rw [← h]
      rfl
    | succ k =>
      rw [List.getElem?_cons_succ] at h
      rw [carriedId, ih _ k c h]
      cases k with
      | zero => rfl
      | succ k => rfl

theorem carriedId_lt (B : Nat) : ∀ (cells : List GridLineCell) (hl k : Nat), hl < B →
    (∀ c ∈ cells, ∀ id ∈ c.ints.head?, id < B) → carriedId cells hl k < B := by
  intro cells
  induction cells with
  | nil =>
    intro hl k h _
    simpa [carriedId] using h
  | cons x rest ih =>
    intro hl k h hall
    have hx : x.ints.head?.getD hl < B := by
      cases hh : x.ints.head? with
      | none => simpa using h
      | some id => simpa using hall x (List.mem_cons_self _ _) id hh
    cases k with
    | zero => simpa [carriedId] using hx
    | succ k =>
      rw [carriedId]
      exact ih _ k hx (fun c hc => hall c (List.mem_cons_of_mem _ hc))

/-- C34: on a well-formed state, for a `grid_line` event whose tuples lie inside the grid
and carry highlight ids below `2 ^ 16` that are indices of the table, handled without a
fault: every column that entry `k` of the last tuple writes holds the id `carriedId`,
which is the id of the entry when it carries one, the id of the entry before when it
carries none, and 0 when the first entry carries none, whatever the tuples before the
last one carried. -/
theorem DrawGridLines_carried_id [NatCast F] [Add F] [Sub F] [Mul F] (K : Constants)
    (r t : Renderer F) (before : List GridLine) (g : GridLine) (hwf : r.WF)
    (hall : ∀ x ∈ before ++ [g], x.inside r.grid_rows r.grid_cols ∧
      ∀ c ∈ x.cells, ∀ id ∈ c.ints.head?, id < 2 ^ 16 ∧ id < r.hl_attribs.length)
    (h : DrawGridLines K r (before ++ [g]) = .ok t) :
    ∀ (k : Nat) (c : GridLineCell), g.cells[k]? = some c →
      (∀ j, j < cellAdvance c (g.cells.drop (k + 1)) →
        ∃ cell, t.cell g.row (cellStart g.cells g.col_start k + j) = some cell ∧
          cell.hl_attrib_id = carriedId g.cells 0 k) ∧
      (∀ id, c.ints.head? = some id → carriedId g.cells 0 k = id) ∧
      (c.ints.head? = none → k = 0 → carriedId g.cells 0 k = 0) ∧
      (c.ints.head? = none → ∀ k', k = k' + 1 →
        carriedId g.cells 0 k = carriedId g.cells 0 k') := by
  have hmod : ∀ x ∈ before, x.inside r.grid_rows r.grid_cols ∧
      ∀ c ∈ x.cells, ∀ id ∈ c.ints.head?, id % 2 ^ 16 < r.hl_attribs.length := by
    intro x hx
    obtain ⟨a, b⟩ := hall x (List.mem_append_left _ hx)
    refine ⟨a, fun c hc id hid => ?_⟩
    obtain ⟨p, q⟩ := b c hc id hid
    rw [Nat.mod_eq_of_lt p]
    exact q
  obtain ⟨hgin, hgid⟩ := hall g (List.mem_append_right _ (List.mem_singleton_self _))
  obtain ⟨s, _, hwfs, hsf, hline⟩ := DrawGridLines_last_line K r t before g hwf hmod h
  obtain ⟨_, _, hent⟩ := DrawGridLines_line_entries K s t g hwfs
    (by rw [sameFrame_rows hsf, sameFrame_cols hsf]; exact hgin) hline
  intro k c hk
  have hstep := carriedId_step g.cells 0 k c hk
  refine ⟨?_, ?_, ?_, ?_⟩
  · intro j hj
    obtain ⟨_, old, _, e⟩ := hent k c hk j hj
    refine ⟨_, e, ?_⟩
    exact Nat.mod_eq_of_lt (carriedId_lt (2 ^ 16) g.cells 0 k (by decide)
      (fun c hc id hid => (hgid c hc id hid).1))
  · intro id hid
    rw [hstep, hid]
    rfl
  · intro hnone h0
    subst h0
    rw [hstep, hnone]
    rfl
  · intro hnone k' hk'
    subst hk'
    rw [hstep, hnone]
    rfl

/-- Witness for C34: after a tuple for row 0 that ends under id 3, the tuple
`(1, 0, [["x"], ["y", 2], ["z"]])` for row 1 of the sample grid writes `x` under id 0
and `y` and `z` under id 2. -/
theorem DrawGridLines_carried_id_witness :
    ∃ t, DrawGridLines sampleConstants sampleRenderer
        ([⟨0, 0, [⟨[119], [3]⟩]⟩] ++ [⟨1, 0, [⟨[120], []⟩, ⟨[121], [2]⟩, ⟨[122], []⟩]⟩]) = .ok t ∧
      (∃ cell, t.cell 1 0 = some cell ∧ cell.hl_attrib_id = 0) ∧
      (∃ cell, t.cell 1 1 = some cell ∧ cell.hl_attrib_id = 2) ∧
      (∃ cell, t.cell 1 2 = some cell ∧ cell.hl_attrib_id = 2) := by
  have hm : (DrawGridLines sampleConstants sampleRenderer
      ([⟨0, 0, [⟨[119], [3]⟩]⟩] ++ [⟨1, 0, [⟨[120], []⟩, ⟨[121], [2]⟩, ⟨[122], []⟩]⟩])).map
        (fun t => t.grid_rows) = .ok 3 := by decide
  cases hr : DrawGridLines sampleConstants sampleRenderer
      ([⟨0, 0, [⟨[119], [3]⟩]⟩] ++ [⟨1, 0, [⟨[120], []⟩, ⟨[121], [2]⟩, ⟨[122], []⟩]⟩]) with
  | error e =>
    rw [hr] at hm
    cases hm
  | ok t =>
    have h := DrawGridLines_carried_id sampleConstants sampleRenderer t
      [⟨0, 0, [⟨[119], [3]⟩]⟩] ⟨1, 0, [⟨[120], []⟩, ⟨[121], [2]⟩, ⟨[122], []⟩]⟩
      sampleRenderer_WF (by
        intro x hx
        simp only [List.cons_append, List.nil_append, List.mem_cons, List.mem_singleton,
          List.not_mem_nil, or_false] at hx
        rcases hx with rfl | rfl
        · refine ⟨⟨by decide, by decide⟩, ?_⟩
          intro c hc id hid
          simp only [List.mem_singleton] at hc
          subst hc
          cases hid
          decide
        · refine ⟨⟨by decide, by decide⟩, ?_⟩
          intro c hc id hid
          simp only [List.mem_cons, List.mem_singleton, List.not_mem_nil, or_false] at hc
          rcases hc with rfl | rfl | rfl
          · cases hid
          · cases hid
            decide
          · cases hid) hr
    exact ⟨t, rfl, (h 0 ⟨[120], []⟩ rfl).1 0 (by decide),
      (h 1 ⟨[121], [2]⟩ rfl).1 0 (by decide), (h 2 ⟨[122], []⟩ rfl).1 0 (by decide)⟩

/-- C32: the wide marks after one `grid_line` tuple that lies inside the grid of a
well-formed state and is handled without a fault.  Every cell that the tuple does not
write keeps its mark; every column written by a run has no mark; the first column of a
double-width pair is marked; and the second column of the pair keeps the mark it had
before, so it stays marked when it was.  On the sample grid, after a double-width
character was written at column 2 of row 1, a double-width character written at column
1 leaves its right half, column 2, marked wide. -/
theorem DrawGridLines_wide_marks [NatCast F] [Add F] [Sub F] [Mul F] (K : Constants)
    (r t : Renderer F) (g : GridLine) (hwf : r.WF) (hin : g.inside r.grid_rows r.grid_cols)
    (h : DrawGridLines K r [g] = .ok t) :
    (∀ row col, row < r.grid_rows → col < r.grid_cols →
      (row ≠ g.row ∨ col < g.col_start ∨ cellsEnd g.cells g.col_start ≤ col) →
      t.cell row col = r.cell row col) ∧
    (∀ (k : Nat) (c : GridLineCell), g.cells[k]? = some c →
      ∀ j, j < cellAdvance c (g.cells.drop (k + 1)) →
        ∃ old cell, r.cell g.row (cellStart g.cells g.col_start k + j) = some old ∧
          t.cell g.row (cellStart g.cells g.col_start k + j) = some cell ∧
          (followedByEmpty (g.cells.drop (k + 1)) = false → cell.is_wide = false) ∧
          (followedByEmpty (g.cells.drop (k + 1)) = true → j = 0 → cell.is_wide = true) ∧
          (followedByEmpty (g.cells.drop (k + 1)) = true → j = 1 →
            cell.is_wide = old.is_wide)) ∧
    ((DrawGridLines sampleConstants sampleRenderer [⟨1, 2, [⟨[0x3042], [2]⟩, ⟨[], []⟩]⟩]).bind
      (fun s => DrawGridLines sampleConstants s [⟨1, 1, [⟨[0x3044], [2]⟩, ⟨[], []⟩]⟩])).map
        (fun t => (t.cell 1 1, t.cell 1 2, t.cell 1 3)) =
      .ok (some ⟨0x3044, 2, true⟩, some ⟨0, 2, true⟩, some ⟨0, 2, false⟩) := by
  have hline := DrawGridLines_one K r t g hwf h
  obtain ⟨_, hframe, hent⟩ := DrawGridLines_line_entries K r t g hwf hin hline
  refine ⟨hframe, ?_, by decide⟩
  intro k c hk j hj
  obtain ⟨_, old, ho, e⟩ := hent k c hk j hj
  refine ⟨old, _, ho, e, ?_, ?_, ?_⟩
  · intro hf
    simp [storedWide, hf]
  · intro hf h0
    simp [storedWide, hf, h0]
  · intro hf h1
    simp [storedWide, hf, h1]

/-- Witness for C32: on the sample renderer whose cell (0, 1) is marked wide, a
double-width character written at column 0 of row 0 leaves column 1 marked, and `x`
written at column 1 clears the mark. -/
theorem DrawGridLines_wide_marks_witness :
    (∃ t old cell, DrawGridLines sampleConstants sampleRunsRenderer
        [⟨0, 0, [⟨[0x3042], [1]⟩, ⟨[], []⟩]⟩] = .ok t ∧
      sampleRunsRenderer.cell 0 1 = some old ∧ old.is_wide = true ∧
      t.cell 0 1 = some cell ∧ cell.is_wide = true) ∧
    (DrawGridLines sampleConstants sampleRunsRenderer [⟨0, 1, [⟨[120], [1]⟩]⟩]).map
      (fun t => t.cell 0 1) = .ok (some ⟨120, 1, false⟩) := by
  have hm : (DrawGridLines sampleConstants sampleRunsRenderer
      [⟨0, 0, [⟨[0x3042], [1]⟩, ⟨[], []⟩]⟩]).map (fun t => t.grid_rows) = .ok 3 := by decide
  refine ⟨?_, by decide⟩
  cases hr : DrawGridLines sampleConstants sampleRunsRenderer
      [⟨0, 0, [⟨[0x3042], [1]⟩, ⟨[], []⟩]⟩] with
  | error e =>
    rw [hr] at hm
    cases hm
  | ok t =>
    have hwf : sampleRunsRenderer.WF :=
      ⟨by decide, by decide, ⟨_, rfl, by decide⟩, ⟨_, rfl, by decide, by decide⟩⟩
    obtain ⟨old, cell, a, b, _, _, c⟩ := (DrawGridLines_wide_marks sampleConstants
      sampleRunsRenderer t ⟨0, 0, [⟨[0x3042], [1]⟩, ⟨[], []⟩]⟩ hwf ⟨by decide, by decide⟩
      hr).2.1 0 ⟨[0x3042], [1]⟩ rfl 1 (by decide)
    have hold : old.is_wide = true := by
      have e : sampleRunsRenderer.cell 0 1 = some ⟨98, 1, true⟩ := by decide
      rw [show sampleRunsRenderer.cell 0 (cellStart [⟨[0x3042], [1]⟩, ⟨[], []⟩] 0 0 + 1) =
        sampleRunsRenderer.cell 0 1 from rfl, e] at a
      cases a
      rfl
    exact ⟨t, old, cell, rfl, a, hold, b, by rw [c rfl rfl]; exact hold⟩

end Nvy
